import Mathlib

/-! CPSolver: a shallow embedding of the search core.

The C++ sources embedded here are `parser.cpp` (instance model and file
parser), `ac3.cpp` (AC-3 engine), `strategies.cpp` (heuristics), `solver.cpp`
(forward checker, validator, backtracking search) and the solver section of
`main.cpp`.

Conventions of the embedding:

* variable identifiers are `Nat` (the parser rejects identifiers outside
  `[0, N)`), values are `Int`;
* `std::vector` is `List`, indexing `v[i]` is `List.getD v i default`;
* `std::map<int,int>` is a list of key/value pairs kept in strictly
  ascending key order, which is the iteration order of the C++ container;
* a `while` loop or a recursion whose termination is not structural takes a
  `fuel : Nat` and answers `none` when the fuel is used up;
* an `int` is an `Int` and a `size_t` a `Nat`; where the program computes past
  the 32-bit range (the increments of the counters `nodes_explored` and
  `backtracks`, the increment of the loop variable that fills a domain) the
  result is wrapped by `int32`, which is what the compiled program does on
  signed overflow; the other integers (sizes, conflict counts, revisions) are
  bounded by the number of stored values and are not wrapped; the only use of
  `numeric_limits<size_t>::max()` is modelled by `none`;
* an `assert` is a check without effect on the state and is left out of the
  definitions (the soundness theorem of the search shows that the one on
  `validateSolution` holds at every push);
* the clock and the standard-library calls whose result C++ leaves open
  (`std::shuffle`, `std::uniform_int_distribution`, `std::sort` with a
  comparator on one field) are answers of a `World`; the `std::sort` of
  libstdc++ is embedded as `stdSortBySecond`, for the runs of a program built
  with that library;
* a `std::string` is a list of characters, the input file is given by its
  text, and an exception that leaves the parser is the answer `none`;
* console output is not modelled.
-/

namespace CPSolver

/-! ## Instance model (parser.h, parser.cpp) -/

/-- Binary extensional constraint: `struct Constraint` of parser.h. -/
structure Constraint where
  var1 : Nat
  var2 : Nat
  allowed_pairs : List (Int × Int)
deriving DecidableEq, Repr

/-- Instance: `struct CSPInstance` of parser.h. -/
structure CSPInstance where
  num_variables : Nat
  domains : List (Int × Int)
  constraints : List Constraint
deriving DecidableEq, Repr

/-- Method `CSPInstance::hasVariable`. -/
def CSPInstance.hasVariable (csp : CSPInstance) (var : Nat) : Bool :=
  decide (var < csp.num_variables)

/-- Method `CSPInstance::isConsistent`: the loop over the constraints returns
false at the first stored constraint that joins the two variables and does not
list the pair in the matching orientation. -/
def CSPInstance.isConsistent (csp : CSPInstance) (var1 : Nat) (val1 : Int)
    (var2 : Nat) (val2 : Int) : Bool :=
  csp.constraints.all (fun c =>
    if c.var1 = var1 ∧ c.var2 = var2 then
      c.allowed_pairs.any (fun pair => decide (pair.1 = val1 ∧ pair.2 = val2))
    else if c.var1 = var2 ∧ c.var2 = var1 then
      c.allowed_pairs.any (fun pair => decide (pair.1 = val2 ∧ pair.2 = val1))
    else true)

/-- The `int` that holds the result of an `int` computation whose mathematical
value is `x`: 32-bit two's-complement arithmetic wraps around. -/
def int32 (x : Int) : Int := (x + 2147483648) % 4294967296 - 2147483648

/-- The sequence `min_val, ..., max_val`: the values that the loop
`for (int val = min_val; val <= max_val; val++)` has pushed when it exits. The
loop itself is `domainLoop`; it exits when `max_val` is below 2147483647. -/
def intervalValues (min_val max_val : Int) : List Int :=
  (List.range (max_val + 1 - min_val).toNat).map (fun (k : Nat) => min_val + (k : Int))

/-- Loop `for (int val = min_val; val <= max_val; val++) domains[i].push_back(val)`
of the constructors of `CSPSolver` and `AC3Algorithm`: `values` is the vector
so far, one unit of fuel per test of the loop condition, and the increment is
an `int` increment. -/
def domainLoop (max_val : Int) : Nat → Int → List Int → Option (List Int)
  | 0, _, _ => none
  | fuel + 1, val, values =>
    if val ≤ max_val then domainLoop max_val fuel (int32 (val + 1)) (values ++ [val])
    else some values

/-- Method `CSPInstance::getDomain`, which has the same loop as the
constructors: its result when the loop exits. -/
def CSPInstance.getDomain (csp : CSPInstance) (var : Nat) : List Int :=
  if var < csp.num_variables then
    intervalValues (csp.domains.getD var (0, 0)).1 (csp.domains.getD var (0, 0)).2
  else []

/-- The domain table that the constructors of `AC3Algorithm` and `CSPSolver`
have built when their loops exit: entry `i` holds `min_i .. max_i`. -/
def CSPInstance.initialDomains (csp : CSPInstance) : List (List Int) :=
  (List.range csp.num_variables).map (fun i =>
    intervalValues (csp.domains.getD i (0, 0)).1 (csp.domains.getD i (0, 0)).2)

/-- Domain initialisation of the constructors of `AC3Algorithm` and
`CSPSolver`, over the variables still to do: `domainLoop` for each of them in
turn, each with the given fuel. -/
def constructDomains (csp : CSPInstance) (fuel : Nat) : List Nat → Option (List (List Int))
  | [] => some []
  | i :: rest =>
    match domainLoop (csp.domains.getD i (0, 0)).2 fuel (csp.domains.getD i (0, 0)).1 [] with
    | none => none
    | some values =>
      match constructDomains csp fuel rest with
      | none => none
      | some domains => some (values :: domains)

/-- Call `insert` on a `std::set<int>`, kept as a strictly ascending list. -/
def setInsert : List Nat → Nat → List Nat
  | [], x => [x]
  | y :: rest, x =>
    if x < y then x :: y :: rest
    else if x = y then y :: rest
    else y :: setInsert rest x

/-- Method `CSPInstance::getNeighbors`: the `std::set` filled over the
constraints, copied to a vector in its iteration order. -/
def CSPInstance.getNeighbors (csp : CSPInstance) (var : Nat) : List Nat :=
  csp.constraints.foldl (fun neighbors c =>
    if c.var1 = var then setInsert neighbors c.var2
    else if c.var2 = var then setInsert neighbors c.var1
    else neighbors) []

/-! ## Parser (parser.cpp)

A `std::string` is a list of characters. The file is given by its text; a
failure to open it is not modelled. An exception that leaves `parseCSPFile` is
the answer `none`. -/

/-- Function `trim`: the text from the first to the last character other than
a space. -/
def trim (str : List Char) : List Char :=
  ((str.dropWhile (fun c => c == ' ')).reverse.dropWhile (fun c => c == ' ')).reverse

/-- The strings that successive calls of `std::getline(stream, line,
delimiter)` deliver on a stream that holds `text`, up to the call that fails:
the text is cut at every delimiter, and a last piece without delimiter is
delivered when it is not empty. -/
def getlines (delimiter : Char) : List Char → List (List Char)
  | [] => []
  | c :: cs =>
    if c = delimiter then [] :: getlines delimiter cs
    else
      match getlines delimiter cs with
      | [] => [[c]]
      | l :: ls => (c :: l) :: ls

/-- Function `split`: the trimmed non-empty tokens between delimiters. -/
def split (str : List Char) (delimiter : Char) : List (List Char) :=
  ((getlines delimiter str).map trim).filter (fun token => !token.isEmpty)

/-- Function `isComment`. -/
def isComment (line : List Char) : Bool :=
  (trim line).isEmpty || (trim line).head? == some '#'

/-- Function `isEmpty`. -/
def isEmpty (line : List Char) : Bool :=
  (trim line).isEmpty

/-- Library call `std::stoi(str)` in base 10: leading white space is skipped,
an optional sign and the longest run of digits are read and the rest of the
string is ignored. The answer `none` is an exception: `invalid_argument` when
there is no digit, `out_of_range` when the value does not fit a 32-bit `int`. -/
def stoi (str : List Char) : Option Int :=
  let s := str.dropWhile (fun c => c == ' ' || (decide (9 ≤ c.toNat) && decide (c.toNat ≤ 13)))
  let negative := s.head? == some '-'
  let s1 := if s.head? == some '-' || s.head? == some '+' then s.tail else s
  let digits := s1.takeWhile (fun c => decide (48 ≤ c.toNat) && decide (c.toNat ≤ 57))
  if digits.isEmpty then none
  else
    let magnitude : Int := digits.foldl (fun acc d => acc * 10 + ((d.toNat - 48 : Nat) : Int)) 0
    let value := if negative then -magnitude else magnitude
    if value < -2147483648 ∨ 2147483647 < value then none else some value

/-- Function `parseDomainLine`. -/
def parseDomainLine (line : List Char) : Option (Int × Int) :=
  match split line ' ' with
  | [t0, t1, t2] =>
    match stoi t0, stoi t1, stoi t2 with
    | some _, some min_val, some max_val => some (min_val, max_val)
    | _, _, _ => none
  | _ => none

/-- One pass of the loop over the tokens of a constraint line from the third
one on: parentheses removed, the text cut at the first comma, both parts
converted by `stoi`. -/
def parsePair (token : List Char) : Option (Int × Int) :=
  let pair_str :=
    if token.head? == some '(' && token.getLast? == some ')' then
      (token.drop 1).take (token.length - 2)
    else token
  if (pair_str.dropWhile (fun c => c != ',')).isEmpty then none
  else
    match stoi (trim (pair_str.takeWhile (fun c => c != ','))),
      stoi (trim ((pair_str.dropWhile (fun c => c != ',')).drop 1)) with
    | some val1, some val2 => some (val1, val2)
    | _, _ => none

/-- The loop over the tokens of a constraint line from the third one on. -/
def parsePairs : List (List Char) → Option (List (Int × Int))
  | [] => some []
  | token :: rest =>
    match parsePair token with
    | none => none
    | some pair =>
      match parsePairs rest with
      | none => none
      | some pairs => some (pair :: pairs)

/-- Function `parseConstraintLine`. -/
def parseConstraintLine (line : List Char) : Option (List (Int × Int)) :=
  if (split line ' ').length < 2 then none else parsePairs ((split line ' ').drop 2)

/-- The `try` block of the constraint loop of `parseCSPFile` on a significant
line: two variable identifiers, checked against `[0, num_variables)`, and the
allowed pairs. -/
def parseConstraintBody (num_variables : Int) (line : List Char) : Option Constraint :=
  match split line ' ' with
  | t0 :: t1 :: rest =>
    match stoi t0, stoi t1 with
    | some var1, some var2 =>
      if var1 < 0 ∨ var1 ≥ num_variables ∨ var2 < 0 ∨ var2 ≥ num_variables then none
      else
        match parsePairs rest with
        | none => none
        | some pairs => some ⟨var1.toNat, var2.toNat, pairs⟩
    | _, _ => none
  | _ => none

/-- The input stream and the variable `line` between two loops of
`parseCSPFile`: the lines that `getline` has not delivered yet, whether the
stream is still good once they are used up (the text is empty or ends with a
newline), and the content of `line`. -/
structure Reader where
  pending : List (List Char)
  good : Bool
  line : List Char
deriving DecidableEq, Repr

/-- A call `getline(file, line)` when no line is left: a good stream erases
`line` and fails, a stream that is not good leaves `line` as it is. -/
def getlineFails (good : Bool) (line : List Char) : Reader :=
  { pending := [], good := false, line := if good then [] else line }

/-- First loop of `parseCSPFile`: the first significant line is converted to
`num_variables`, which keeps its former content when there is none. -/
def readNumVariables (good : Bool) (num_variables : Int) :
    List (List Char) → List Char → Option (Int × Reader)
  | [], line => some (num_variables, getlineFails good line)
  | l :: rest, _ =>
    if isComment (trim l) || isEmpty (trim l) then
      readNumVariables good num_variables rest (trim l)
    else
      match stoi (trim l) with
      | none => none
      | some n => some (n, { pending := rest, good := good, line := trim l })

/-- Second loop of `parseCSPFile`, `while (getline(file, line) && domains_read
< csp.num_variables)`: the line is read before the counter is tested. -/
def readDomains (good : Bool) (num_variables : Int) :
    List (List Char) → List Char → List (Int × Int) → Nat →
      Option (List (Int × Int) × Nat × Reader)
  | [], line, domains, domains_read => some (domains, domains_read, getlineFails good line)
  | l :: rest, _, domains, domains_read =>
    if (domains_read : Int) < num_variables then
      if isComment (trim l) || isEmpty (trim l) then
        readDomains good num_variables rest (trim l) domains domains_read
      else
        match parseDomainLine (trim l) with
        | none => none
        | some domain =>
          readDomains good num_variables rest (trim l) (domains.set domains_read domain)
            (domains_read + 1)
    else some (domains, domains_read, { pending := rest, good := good, line := l })

/-- Third loop of `parseCSPFile`: lines are read up to the next significant
one, which is left in `line`. -/
def readCountLine (good : Bool) : List (List Char) → List Char → Reader
  | [], line => getlineFails good line
  | l :: rest, _ =>
    if isComment (trim l) || isEmpty (trim l) then readCountLine good rest (trim l)
    else { pending := rest, good := good, line := trim l }

/-- Fourth loop of `parseCSPFile`, `while (getline(file, line) &&
constraints_read < num_constraints)`. -/
def readConstraints (num_variables num_constraints : Int) :
    List (List Char) → List Constraint → Nat → Option (List Constraint)
  | [], constraints, _ => some constraints
  | l :: rest, constraints, constraints_read =>
    if (constraints_read : Int) < num_constraints then
      if isComment (trim l) || isEmpty (trim l) then
        readConstraints num_variables num_constraints rest constraints constraints_read
      else
        match parseConstraintBody num_variables (trim l) with
        | none => none
        | some constraint =>
          readConstraints num_variables num_constraints rest (constraints ++ [constraint])
            (constraints_read + 1)
    else some constraints

/-- The part of `parseCSPFile` up to the conversion of the constraint count:
the number of variables, the domain table, the number of constraints and the
lines that are left. `uninitialized` is the content of `csp.num_variables`
before the first loop, which C++ leaves indeterminate. -/
def readHeader (uninitialized : Int) (text : List Char) :
    Option (Int × List (Int × Int) × Int × List (List Char)) :=
  match readNumVariables (text.isEmpty || text.getLast? == some '\n') uninitialized
      (getlines '\n' text) [] with
  | none => none
  | some (num_variables, r1) =>
    if num_variables ≤ 0 then none
    else
      match readDomains r1.good num_variables r1.pending r1.line
          (List.replicate num_variables.toNat (0, 0)) 0 with
      | none => none
      | some (domains, domains_read, r2) =>
        if (domains_read : Int) ≠ num_variables then none
        else
          match stoi (readCountLine r2.good r2.pending r2.line).line with
          | none => none
          | some num_constraints =>
            some (num_variables, domains, num_constraints,
              (readCountLine r2.good r2.pending r2.line).pending)

/-- Function `parseCSPFile` on the text of the file. -/
def parseCSPFile (uninitialized : Int) (text : List Char) : Option CSPInstance :=
  match readHeader uninitialized text with
  | none => none
  | some (num_variables, domains, num_constraints, pending) =>
    match readConstraints num_variables num_constraints pending [] 0 with
    | none => none
    | some constraints =>
      some { num_variables := num_variables.toNat, domains := domains, constraints := constraints }

/-! ## AC-3 engine (ac3.h, ac3.cpp) -/

/-- Directed arc: `struct Arc` of ac3.h. -/
structure Arc where
  var1 : Nat
  var2 : Nat
deriving DecidableEq, Repr

/-- Mutable members of `class AC3Algorithm` (the instance is passed along). -/
structure AC3Algorithm where
  domains : List (List Int)
  worklist : List Arc
  revisions_count : Nat
deriving DecidableEq, Repr

/-- The worklist filled by the constructor: both arcs of every constraint. -/
def initialWorklist : List Constraint → List Arc
  | [] => []
  | c :: rest => Arc.mk c.var1 c.var2 :: Arc.mk c.var2 c.var1 :: initialWorklist rest

/-- The engine that the constructor `AC3Algorithm::AC3Algorithm` returns: the
result of `AC3Algorithm.construct` whenever the loops that fill the domains
exit (`construct_returns_new`). -/
def AC3Algorithm.new (csp : CSPInstance) : AC3Algorithm :=
  { domains := csp.initialDomains
    worklist := initialWorklist csp.constraints
    revisions_count := 0 }

/-- Constructor `AC3Algorithm::AC3Algorithm` with the loops that fill the
domains; `none` when one of them does not exit within the fuel. -/
def AC3Algorithm.construct (csp : CSPInstance) (fuel : Nat) : Option AC3Algorithm :=
  match constructDomains csp fuel (List.range csp.num_variables) with
  | none => none
  | some domains =>
    some { domains := domains
           worklist := initialWorklist csp.constraints
           revisions_count := 0 }

/-- Method `AC3Algorithm::setDomains`. -/
def AC3Algorithm.setDomains (a : AC3Algorithm) (new_domains : List (List Int)) : AC3Algorithm :=
  { a with domains := new_domains }

/-- Method `AC3Algorithm::getDomains`. -/
def AC3Algorithm.getDomains (a : AC3Algorithm) : List (List Int) := a.domains

/-- Method `AC3Algorithm::getRevisionsCount`. -/
def AC3Algorithm.getRevisionsCount (a : AC3Algorithm) : Nat := a.revisions_count

/-- Method `AC3Algorithm::hasEmptyDomain`. -/
def AC3Algorithm.hasEmptyDomain (a : AC3Algorithm) : Bool :=
  a.domains.any (fun domain => domain.isEmpty)

/-- Private method `AC3Algorithm::isConsistent`: every stored constraint that
joins the two variables, in either direction, must list `(val1, val2)` or
`(val2, val1)`. -/
def AC3Algorithm.isConsistent (csp : CSPInstance) (var1 : Nat) (val1 : Int)
    (var2 : Nat) (val2 : Int) : Bool :=
  csp.constraints.all (fun c =>
    if (c.var1 = var1 ∧ c.var2 = var2) ∨ (c.var1 = var2 ∧ c.var2 = var1) then
      c.allowed_pairs.any (fun pair =>
        decide ((pair.1 = val1 ∧ pair.2 = val2) ∨ (pair.1 = val2 ∧ pair.2 = val1)))
    else true)

/-- The inner loop of `revise`: does `val1` have a support in `dom2`? -/
def AC3Algorithm.hasSupport (csp : CSPInstance) (var1 : Nat) (val1 : Int)
    (var2 : Nat) (dom2 : List Int) : Bool :=
  dom2.any (fun val2 => AC3Algorithm.isConsistent csp var1 val1 var2 val2)

/-- Method `AC3Algorithm::revise`: `new_domain` collects the supported values
in order, `revised` is set as soon as one value is dropped. -/
def AC3Algorithm.revise (csp : CSPInstance) (a : AC3Algorithm) (var1 var2 : Nat) :
    Bool × AC3Algorithm :=
  let dom1 := a.domains.getD var1 []
  let dom2 := a.domains.getD var2 []
  let new_domain := dom1.filter (fun val1 => AC3Algorithm.hasSupport csp var1 val1 var2 dom2)
  let revised := dom1.any (fun val1 => !AC3Algorithm.hasSupport csp var1 val1 var2 dom2)
  if revised then
    (true, { a with domains := a.domains.set var1 new_domain
                    revisions_count := a.revisions_count + 1 })
  else (false, a)

/-- Method `AC3Algorithm::getArcs`: one arc `(var, other)` per constraint
that mentions `var`. -/
def AC3Algorithm.getArcs (csp : CSPInstance) (var : Nat) : List Arc :=
  csp.constraints.filterMap (fun c =>
    if c.var1 = var then some (Arc.mk c.var1 c.var2)
    else if c.var2 = var then some (Arc.mk c.var2 c.var1)
    else none)

/-- Method `AC3Algorithm::apply`: the worklist loop, one iteration per unit of
fuel. The Boolean is the return value (`true` = consistent). -/
def AC3Algorithm.apply (csp : CSPInstance) : Nat → AC3Algorithm → Option (Bool × AC3Algorithm)
  | 0, _ => none
  | fuel + 1, a =>
    match a.worklist with
    | [] => some (true, a)
    | arc :: rest =>
      let r := AC3Algorithm.revise csp { a with worklist := rest } arc.var1 arc.var2
      if r.1 then
        if (r.2.domains.getD arc.var1 []).isEmpty then some (false, r.2)
        else
          AC3Algorithm.apply csp fuel
            { r.2 with worklist := r.2.worklist ++
                (AC3Algorithm.getArcs csp arc.var1).filter (fun neighbor =>
                  decide (neighbor.var2 ≠ arc.var2)) }
      else AC3Algorithm.apply csp fuel r.2

/-- Fuel that always suffices for `AC3Algorithm.apply`: every iteration pops
one arc, and a revision removes a value and pushes at most one arc per
constraint. -/
def AC3Algorithm.fuelBound (csp : CSPInstance) (a : AC3Algorithm) : Nat :=
  (a.domains.map List.length).sum * (csp.constraints.length + 1) + a.worklist.length + 1

/-! ## Containers and library calls -/

/-- Lookup in a `std::map<int,int>` (`find`, `count`, `at`). -/
def mapFind : List (Nat × Int) → Nat → Option Int
  | [], _ => none
  | kv :: rest, key => if kv.1 = key then some kv.2 else mapFind rest key

/-- Assignment `m[key] = value` on a `std::map<int,int>`: the entry is put at
its place in key order, or overwritten when the key is present. -/
def mapInsert : List (Nat × Int) → Nat → Int → List (Nat × Int)
  | [], key, value => [(key, value)]
  | kv :: rest, key, value =>
    if key < kv.1 then (key, value) :: kv :: rest
    else if key = kv.1 then (key, value) :: rest
    else kv :: mapInsert rest key value

/-- Call `m.erase(key)` on a `std::map<int,int>`. -/
def mapErase (m : List (Nat × Int)) (key : Nat) : List (Nat × Int) :=
  m.filter (fun kv => decide (kv.1 ≠ key))

/-- Call `std::unique` followed by `erase`: consecutive repetitions are
collapsed. -/
def uniqueAdjacent : List Nat → List Nat
  | [] => []
  | [x] => [x]
  | x :: y :: rest => if x = y then uniqueAdjacent (y :: rest) else x :: uniqueAdjacent (y :: rest)

/-- What the program takes from outside: the clock, and the answers of the
standard-library calls whose result the C++ standard leaves open. The index
`k` of `uniform` and `shuffle` is the number of earlier uses of the generator
of the `SelectionStrategies` object. -/
structure World where
  /-- elapsed whole seconds since `start_time` at the `k`-th reading of the clock -/
  elapsed : Nat → Int
  /-- result of `std::uniform_int_distribution<size_t>(0, b)` -/
  uniform : Nat → Nat → Nat
  uniform_le : ∀ k b, uniform k b ≤ b
  /-- result of `std::shuffle` -/
  shuffle : Nat → List Int → List Int
  shuffle_perm : ∀ k l, List.Perm (shuffle k l) l
  /-- result of `std::sort` with the comparator `a.second < b.second` -/
  sort_by_second : List (Int × Int) → List (Int × Int)
  sort_by_second_perm : ∀ l, List.Perm (sort_by_second l) l
  sort_by_second_sorted : ∀ l, List.Pairwise (fun a b => ¬ b.2 < a.2) (sort_by_second l)

/-! ## Solver state (solver.h) and parameters (params.h) -/

/-- Members of `class CSPSolver` (the instance is passed along), with two
counters of the embedding: the number of clock readings and the number of uses
of the random generator since `solve` started. -/
structure CSPSolver where
  domains : List (List Int)
  assignment : List (Nat × Int)
  solutions : List (List (Nat × Int))
  var_interaction_graph : List (List Nat)
  nodes_explored : Int
  backtracks : Int
  timeout_occurred : Bool
  clock_reads : Nat
  rng_calls : Nat
deriving DecidableEq, Repr

/-- The arguments that `solve` hands to `backtrack` (tracing arguments left out). -/
structure SolveArgs where
  max_time : Int
  first_solution_only : Bool
  var_strategy : String
  val_strategy : String
  use_forward_checking : Bool
  ac3_at_each_node : Bool
deriving DecidableEq, Repr

/-- Fields of `struct SolverParams` that reach the solver. -/
structure SolverParams where
  max_time : Int := 300
  first_solution_only : Bool := false
  var_strategy : String := "mrv"
  val_strategy : String := "lcv"
  use_ac3 : Bool := true
  use_forward_checking : Bool := true
  ac3_at_each_node : Bool := true
deriving DecidableEq, Repr

/-- One pass of the first constructor loop: `graph[c.var1].push_back(c.var2)`
and `graph[c.var2].push_back(c.var1)`. -/
def addConstraintEdges (graph : List (List Nat)) (c : Constraint) : List (List Nat) :=
  let g1 := graph.set c.var1 (graph.getD c.var1 [] ++ [c.var2])
  g1.set c.var2 (g1.getD c.var2 [] ++ [c.var1])

/-- The constraint graph of the constructor: edges pushed per constraint, then
every neighbour list sorted and made unique. -/
def buildInteractionGraph (csp : CSPInstance) : List (List Nat) :=
  (csp.constraints.foldl addConstraintEdges (List.replicate csp.num_variables [])).map
    (fun neighbors => uniqueAdjacent (neighbors.insertionSort (fun a b => a ≤ b)))

/-- The solver that the constructor `CSPSolver::CSPSolver` returns: the result
of `CSPSolver.construct` whenever the loops that fill the domains exit
(`construct_returns_new`), which they do when every interval ends below
2147483647 (`construct_eq_new`) and only then (`construct_never_returns`). -/
def CSPSolver.new (csp : CSPInstance) : CSPSolver :=
  { domains := csp.initialDomains
    assignment := []
    solutions := []
    var_interaction_graph := buildInteractionGraph csp
    nodes_explored := 0
    backtracks := 0
    timeout_occurred := false
    clock_reads := 0
    rng_calls := 0 }

/-- Constructor `CSPSolver::CSPSolver` with the loops that fill the domains;
`none` when one of them does not exit within the fuel. -/
def CSPSolver.construct (csp : CSPInstance) (fuel : Nat) : Option CSPSolver :=
  match constructDomains csp fuel (List.range csp.num_variables) with
  | none => none
  | some domains =>
    some { domains := domains
           assignment := []
           solutions := []
           var_interaction_graph := buildInteractionGraph csp
           nodes_explored := 0
           backtracks := 0
           timeout_occurred := false
           clock_reads := 0
           rng_calls := 0 }

/-! ## Heuristics (strategies.cpp) -/

/-- Loop body of `mrvHeuristic`; the accumulator is `(selected_var,
min_domain_size)`, and `none` stands for `numeric_limits<size_t>::max()`, the
initial bound that every vector size is below. -/
def mrvStep (domains : List (List Int)) (assignment : List (Nat × Int))
    (acc : Int × Option Nat) (i : Nat) : Int × Option Nat :=
  if (mapFind assignment i).isNone then
    match acc.2 with
    | none => ((i : Int), some (domains.getD i []).length)
    | some min_domain_size =>
      if (domains.getD i []).length < min_domain_size then
        ((i : Int), some (domains.getD i []).length)
      else acc
  else acc

/-- Method `SelectionStrategies::mrvHeuristic`. -/
def mrvHeuristic (csp : CSPInstance) (s : CSPSolver) : Int :=
  ((List.range csp.num_variables).foldl (mrvStep s.domains s.assignment) (-1, none)).1

/-- Loop body of `degreeHeuristic`; the accumulator is `(selected_var, max_degree)`. -/
def degreeStep (graph : List (List Nat)) (assignment : List (Nat × Int))
    (acc : Int × Int) (i : Nat) : Int × Int :=
  if (mapFind assignment i).isNone then
    if ((graph.getD i []).length : Int) > acc.2 then ((i : Int), ((graph.getD i []).length : Int))
    else acc
  else acc

/-- Method `SelectionStrategies::degreeHeuristic`. -/
def degreeHeuristic (csp : CSPInstance) (s : CSPSolver) : Int :=
  ((List.range csp.num_variables).foldl (degreeStep s.var_interaction_graph s.assignment) (-1, -1)).1

/-- Method `SelectionStrategies::randomVariable`. -/
def randomVariable (csp : CSPInstance) (w : World) (s : CSPSolver) : Int × CSPSolver :=
  let unassigned_vars := (List.range csp.num_variables).filter (fun i => (mapFind s.assignment i).isNone)
  if unassigned_vars.isEmpty then (-1, s)
  else
    (((unassigned_vars.getD (w.uniform s.rng_calls (unassigned_vars.length - 1)) 0 : Nat) : Int),
      { s with rng_calls := s.rng_calls + 1 })

/-- Method `SelectionStrategies::selectVariable`. -/
def selectVariable (csp : CSPInstance) (w : World) (s : CSPSolver) (strategy : String) :
    Int × CSPSolver :=
  if strategy = "mrv" then (mrvHeuristic csp s, s)
  else if strategy = "degree" then (degreeHeuristic csp s, s)
  else if strategy = "random" then randomVariable csp w s
  else (mrvHeuristic csp s, s)

/-- Method `SelectionStrategies::countConflicts`. -/
def countConflicts (csp : CSPInstance) (s : CSPSolver) (var : Nat) (value : Int) : Int :=
  (s.var_interaction_graph.getD var []).foldl (fun conflicts neighbor =>
    if (mapFind s.assignment neighbor).isNone then
      (s.domains.getD neighbor []).foldl (fun conflicts neighbor_value =>
        if !csp.isConsistent var value neighbor neighbor_value then conflicts + 1 else conflicts)
        conflicts
    else conflicts) 0

/-- Method `SelectionStrategies::lcvHeuristic`. -/
def lcvHeuristic (csp : CSPInstance) (w : World) (s : CSPSolver) (var : Nat) : List Int :=
  (w.sort_by_second ((s.domains.getD var []).map (fun value =>
    (value, countConflicts csp s var value)))).map (fun pair => pair.1)

/-- Method `SelectionStrategies::randomValues`. -/
def randomValues (w : World) (s : CSPSolver) (var : Nat) : List Int × CSPSolver :=
  (w.shuffle s.rng_calls (s.domains.getD var []), { s with rng_calls := s.rng_calls + 1 })

/-- Method `SelectionStrategies::lexicographicValues`: `std::sort` on integers. -/
def lexicographicValues (s : CSPSolver) (var : Nat) : List Int :=
  (s.domains.getD var []).insertionSort (fun a b => a ≤ b)

/-- Method `SelectionStrategies::orderValues`. -/
def orderValues (csp : CSPInstance) (w : World) (s : CSPSolver) (var : Nat) (strategy : String) :
    List Int × CSPSolver :=
  if strategy = "lcv" then (lcvHeuristic csp w s var, s)
  else if strategy = "random" then randomValues w s var
  else if strategy = "lexicographic" then (lexicographicValues s var, s)
  else (lexicographicValues s var, s)

/-! ## `std::sort` of libstdc++ (`bits/stl_algo.h`)

The library routine behind the `std::sort` call of `lcvHeuristic`, for the
element type `pair<int, int>` and the comparator `a.second < b.second`. An
array is a list, an iterator is a position. -/

/-- The comparator of `lcvHeuristic` at two positions of the array. -/
def compSecond (a : List (Int × Int)) (i j : Nat) : Bool :=
  decide ((a.getD i (0, 0)).2 < (a.getD j (0, 0)).2)

/-- Function `std::iter_swap` at two positions of the array. -/
def iterSwap (a : List (Int × Int)) (i j : Nat) : List (Int × Int) :=
  (a.set i (a.getD j (0, 0))).set j (a.getD i (0, 0))

/-- Function `std::__move_median_to_first`. -/
def moveMedianToFirst (a : List (Int × Int)) (result x y z : Nat) : List (Int × Int) :=
  if compSecond a x y then
    if compSecond a y z then iterSwap a result y
    else if compSecond a x z then iterSwap a result z
    else iterSwap a result x
  else if compSecond a x z then iterSwap a result x
  else if compSecond a y z then iterSwap a result z
  else iterSwap a result y

/-- Loop `while (comp(first, pivot)) ++first` of `std::__unguarded_partition`;
the fuel is the number of positions from `first` to the end of the array. -/
def scanUp (a : List (Int × Int)) (pivot : Nat) : Nat → Nat → Nat
  | 0, first => first
  | fuel + 1, first =>
    if compSecond a first pivot then scanUp a pivot fuel (first + 1) else first

/-- Loop `while (comp(pivot, last)) --last` of `std::__unguarded_partition`;
the fuel is the position `last`. -/
def scanDown (a : List (Int × Int)) (pivot : Nat) : Nat → Nat → Nat
  | 0, last => last
  | fuel + 1, last =>
    if compSecond a pivot last then scanDown a pivot fuel (last - 1) else last

/-- Function `std::__unguarded_partition`: the array after the swaps and the
returned position. Every pass of the outer loop moves `first` up, so the
length of the array is fuel enough. -/
def unguardedPartition (pivot : Nat) :
    Nat → List (Int × Int) → Nat → Nat → Option (List (Int × Int) × Nat)
  | 0, _, _, _ => none
  | fuel + 1, a, first, last =>
    let first1 := scanUp a pivot (a.length - first) first
    let last1 := scanDown a pivot (last - 1) (last - 1)
    if ¬ (first1 < last1) then some (a, first1)
    else unguardedPartition pivot fuel (iterSwap a first1 last1) (first1 + 1) last1

/-- Function `std::__unguarded_partition_pivot`. -/
def unguardedPartitionPivot (a : List (Int × Int)) (first last : Nat) :
    Option (List (Int × Int) × Nat) :=
  let mid := first + (last - first) / 2
  unguardedPartition first a.length (moveMedianToFirst a first (first + 1) mid (last - 1))
    (first + 1) last

/-- Function `std::__introsort_loop` on the positions `[first, last)`, by
recursion on `depth_limit`, which every pass of the loop decrements. The heap
sort that the library falls back on when `depth_limit` reaches 0 on a range of
more than 16 elements is not embedded: the answer is `none` there. -/
def introsortLoop : Nat → List (Int × Int) → Nat → Nat → Option (List (Int × Int))
  | 0, a, first, last => if last - first > 16 then none else some a
  | depth_limit + 1, a, first, last =>
    if last - first > 16 then
      match unguardedPartitionPivot a first last with
      | none => none
      | some (a1, cut) =>
        match introsortLoop depth_limit a1 cut last with
        | none => none
        | some a2 => introsortLoop depth_limit a2 first cut
    else some a

/-- Function `std::__lg`: the floor of the base-2 logarithm, by halving. -/
def lgFloor : Nat → Nat → Nat
  | 0, _ => 0
  | fuel + 1, n => if n ≤ 1 then 0 else lgFloor fuel (n / 2) + 1

/-- Function `std::__sort` with the comparator of `lcvHeuristic`:
`__introsort_loop` with the depth limit `2 * __lg(n)`, then
`__final_insertion_sort`, an insertion sort that moves an element left only
past strictly greater ones, that is the stable insertion sort of the array
that the partitioning left. -/
def stdSortBySecond (a : List (Int × Int)) : Option (List (Int × Int)) :=
  if a = [] then some a
  else
    (introsortLoop (2 * lgFloor a.length a.length) a 0 a.length).map
      (fun b => b.insertionSort (fun x y => x.2 ≤ y.2))

/-! ## Solver (solver.cpp) -/

/-- Method `CSPSolver::isComplete`. -/
def CSPSolver.isComplete (csp : CSPInstance) (s : CSPSolver) : Bool :=
  decide (s.assignment.length = csp.num_variables)

/-- Method `CSPSolver::isConsistent`. -/
def CSPSolver.isConsistent (csp : CSPInstance) (s : CSPSolver) (var : Nat) (value : Int) : Bool :=
  csp.constraints.all (fun c =>
    if c.var1 = var then
      match mapFind s.assignment c.var2 with
      | some val2 => csp.isConsistent var value c.var2 val2
      | none => true
    else if c.var2 = var then
      match mapFind s.assignment c.var1 with
      | some val1 => csp.isConsistent c.var1 val1 var value
      | none => true
    else true)

/-- The loop of `forwardCheckWithDomainReduction` over the neighbours of `var`. -/
def forwardCheckLoop (csp : CSPInstance) (var : Nat) (value : Int) :
    List Nat → CSPSolver → Bool × CSPSolver
  | [], s => (true, s)
  | neighbor :: rest, s =>
    if (mapFind s.assignment neighbor).isNone then
      let new_domain := (s.domains.getD neighbor []).filter (fun neighbor_value =>
        csp.isConsistent var value neighbor neighbor_value)
      if new_domain.isEmpty then (false, s)
      else forwardCheckLoop csp var value rest { s with domains := s.domains.set neighbor new_domain }
    else forwardCheckLoop csp var value rest s

/-- Method `CSPSolver::forwardCheckWithDomainReduction`. -/
def CSPSolver.forwardCheckWithDomainReduction (csp : CSPInstance) (s : CSPSolver)
    (var : Nat) (value : Int) : Bool × CSPSolver :=
  forwardCheckLoop csp var value (s.var_interaction_graph.getD var []) s

/-- Method `CSPSolver::validateSolution`. -/
def CSPSolver.validateSolution (csp : CSPInstance) (solution : List (Nat × Int)) : Bool :=
  if solution.length ≠ csp.num_variables then false
  else if !solution.all (fun kv =>
      decide (kv.1 < csp.num_variables) &&
      decide ((csp.domains.getD kv.1 (0, 0)).1 ≤ kv.2 ∧ kv.2 ≤ (csp.domains.getD kv.1 (0, 0)).2))
    then false
  else
    csp.constraints.all (fun c =>
      match mapFind solution c.var1, mapFind solution c.var2 with
      | some val1, some val2 => csp.isConsistent c.var1 val1 c.var2 val2
      | _, _ => true)

/-- Method `CSPSolver::backupDomains`. -/
def CSPSolver.backupDomains (s : CSPSolver) : List (List Int) := s.domains

/-- Method `CSPSolver::restoreDomains`. -/
def CSPSolver.restoreDomains (s : CSPSolver) (backup : List (List Int)) : CSPSolver :=
  { s with domains := backup }

/-- Method `CSPSolver::applyAC3`: a new engine on the solver's domains; the
domains are taken back only when the engine answers consistent. -/
def CSPSolver.applyAC3 (csp : CSPInstance) (fuel : Nat) (s : CSPSolver) : Option (Bool × CSPSolver) :=
  match AC3Algorithm.apply csp fuel ((AC3Algorithm.new csp).setDomains s.domains) with
  | none => none
  | some (consistent, ac3) =>
    if consistent then some (true, { s with domains := ac3.getDomains })
    else some (false, s)

/-- The `for (int value : values)` loop of `backtrack`; `recurse` is the
recursive call. The Boolean is true when the loop was left by `return true`. -/
def valueLoop (csp : CSPInstance) (args : SolveArgs)
    (recurse : CSPSolver → Option (Bool × CSPSolver)) (var : Nat) :
    List Int → CSPSolver → Option (Bool × CSPSolver)
  | [], s => some (false, s)
  | value :: rest, s =>
    let s1 := { s with nodes_explored := int32 (s.nodes_explored + 1) }
    if !CSPSolver.isConsistent csp s1 var value then valueLoop csp args recurse var rest s1
    else
      let domain_backup_fc := if args.use_forward_checking then s1.backupDomains else []
      let fc := if args.use_forward_checking then
          CSPSolver.forwardCheckWithDomainReduction csp s1 var value
        else (true, s1)
      if !fc.1 then valueLoop csp args recurse var rest (fc.2.restoreDomains domain_backup_fc)
      else
        match recurse { fc.2 with assignment := mapInsert fc.2.assignment var value } with
        | none => none
        | some (result, s3) =>
          if result && args.first_solution_only then some (true, s3)
          else
            let s4 := if args.use_forward_checking then s3.restoreDomains domain_backup_fc else s3
            valueLoop csp args recurse var rest
              { s4 with assignment := mapErase s4.assignment var
                        backtracks := int32 (s4.backtracks + 1) }

/-- Method `CSPSolver::backtrack`; one unit of fuel per level of recursion, and
the same fuel bounds the AC-3 run of the node. -/
def CSPSolver.backtrack (csp : CSPInstance) (w : World) (args : SolveArgs) :
    Nat → CSPSolver → Option (Bool × CSPSolver)
  | 0, _ => none
  | fuel + 1, s =>
    let s0 := { s with clock_reads := s.clock_reads + 1 }
    if w.elapsed s.clock_reads ≥ args.max_time then
      some (false, { s0 with timeout_occurred := true })
    else if CSPSolver.isComplete csp s0 then
      some (args.first_solution_only, { s0 with solutions := s0.solutions ++ [s0.assignment] })
    else
      let domain_backup := s0.backupDomains
      match (if args.ac3_at_each_node then CSPSolver.applyAC3 csp fuel s0 else some (true, s0)) with
      | none => none
      | some (false, s1) => some (false, s1.restoreDomains domain_backup)
      | some (true, s1) =>
        let sel := selectVariable csp w s1 args.var_strategy
        if sel.1 = -1 then some (false, sel.2)
        else
          let ord := orderValues csp w sel.2 sel.1.toNat args.val_strategy
          match valueLoop csp args (CSPSolver.backtrack csp w args fuel) sel.1.toNat ord.1 ord.2 with
          | none => none
          | some (true, s2) => some (true, s2)
          | some (false, s2) => some (false, s2.restoreDomains domain_backup)

/-- Method `CSPSolver::solve`. The Boolean is the return value, the solutions
copied to the caller are `solutions` of the returned state. Taking `start_time`
and building the `SelectionStrategies` object restart the two counters of the
embedding. -/
def CSPSolver.solve (csp : CSPInstance) (w : World) (args : SolveArgs) (fuel : Nat)
    (s : CSPSolver) : Option (Bool × CSPSolver) :=
  match CSPSolver.backtrack csp w args fuel
      { s with solutions := [], nodes_explored := 0, backtracks := 0,
               timeout_occurred := false, clock_reads := 0, rng_calls := 0 } with
  | none => none
  | some (_, s1) => some (!s1.solutions.isEmpty, s1)

/-- Inline method `CSPSolver::getNodesExplored` of solver.h. -/
def CSPSolver.getNodesExplored (s : CSPSolver) : Int := s.nodes_explored

/-- Inline method `CSPSolver::getBacktracks` of solver.h. -/
def CSPSolver.getBacktracks (s : CSPSolver) : Int := s.backtracks

/-- Inline method `CSPSolver::wasTimeout` of solver.h. -/
def CSPSolver.wasTimeout (s : CSPSolver) : Bool := s.timeout_occurred

/-! ## Solver section of main (main.cpp) -/

/-- What `main` prints and writes after the run. -/
structure RunResult where
  solutions : List (List (Nat × Int))
  resolution_status : String
  nodes_explored : Int
  backtracks : Int
deriving DecidableEq, Repr

/-- The argument list of the `solver.solve(...)` call in `main`, after the
configuration step that switches node-level AC-3 off when AC-3 is disabled. -/
def SolverParams.toSolveArgs (params : SolverParams) : SolveArgs :=
  { max_time := params.max_time
    first_solution_only := params.first_solution_only
    var_strategy := params.var_strategy
    val_strategy := params.val_strategy
    use_forward_checking := params.use_forward_checking
    ac3_at_each_node := if !params.use_ac3 then false else params.ac3_at_each_node }

/-- The block `if (parsing_ok) { ... }` of `main` on a parsed instance, from
the point where the constructor of the solver has returned. -/
def runSolver (csp : CSPInstance) (w : World) (params : SolverParams) (fuel : Nat) :
    Option RunResult :=
  let solver := CSPSolver.new csp
  match (if params.use_ac3 then CSPSolver.applyAC3 csp fuel solver else some (true, solver)) with
  | none => none
  | some (false, _) =>
    some { solutions := [], resolution_status := "Inconsistent (AC-3)",
           nodes_explored := 0, backtracks := 0 }
  | some (true, solver1) =>
    match CSPSolver.solve csp w params.toSolveArgs fuel solver1 with
    | none => none
    | some (success, solver2) =>
      some { solutions := solver2.solutions
             resolution_status :=
               if success then
                 if solver2.solutions.isEmpty then "No solution found"
                 else if params.first_solution_only then "First solution found"
                 else "All solutions found"
               else if solver2.timeout_occurred then "Timeout"
               else "No solution (full exploration)"
             nodes_explored := solver2.nodes_explored
             backtracks := solver2.backtracks }

/-! ## Auxiliary definitions of the proofs -/

/-- The domain that `revise` writes. -/
def revisedDomain (csp : CSPInstance) (doms : List (List Int)) (u v : Nat) : List Int :=
  (doms.getD u []).filter (fun val1 => AC3Algorithm.hasSupport csp u val1 v (doms.getD v []))

/-- Key order of a `std::map<int,int>`: strictly ascending keys. -/
def MapOrdered (m : List (Nat × Int)) : Prop :=
  List.Pairwise (fun a b => a.1 < b.1) m

/-- Well-formed instance, as the instance format prescribes: at least one
variable, one interval `min ≤ max` per variable, and every constraint joins two
different variables of the instance. -/
def CSPInstance.WellFormed (csp : CSPInstance) : Prop :=
  1 ≤ csp.num_variables ∧ csp.domains.length = csp.num_variables ∧
  (∀ d ∈ csp.domains, d.1 ≤ d.2) ∧
  ∀ c ∈ csp.constraints,
    c.var1 ≠ c.var2 ∧ c.var1 < csp.num_variables ∧ c.var2 < csp.num_variables

instance (csp : CSPInstance) : Decidable csp.WellFormed := by
  unfold CSPInstance.WellFormed
  infer_instance

/-- The complete solution set in the words of the specification: a total
assignment (one entry per variable, in key order) whose values lie in the
initial intervals and that satisfies every constraint under
`CSPInstance.isConsistent`. -/
def IsSolution (csp : CSPInstance) (sol : List (Nat × Int)) : Prop :=
  sol.map Prod.fst = List.range csp.num_variables ∧
  (∀ kv ∈ sol, (csp.domains.getD kv.1 (0, 0)).1 ≤ kv.2 ∧ kv.2 ≤ (csp.domains.getD kv.1 (0, 0)).2) ∧
  ∀ c ∈ csp.constraints, ∃ x y, mapFind sol c.var1 = some x ∧ mapFind sol c.var2 = some y ∧
    csp.isConsistent c.var1 x c.var2 y = true

/-- A total assignment given as a function: values in the initial intervals,
and the pair of every stored constraint is listed. -/
def Satisfies (csp : CSPInstance) (f : Nat → Int) : Prop :=
  (∀ i, i < csp.num_variables →
    (csp.domains.getD i (0, 0)).1 ≤ f i ∧ f i ≤ (csp.domains.getD i (0, 0)).2) ∧
  ∀ c ∈ csp.constraints, (f c.var1, f c.var2) ∈ c.allowed_pairs

/-- The map that holds `f` on the variables `0 .. n-1`. -/
def totalMap (n : Nat) (f : Nat → Int) : List (Nat × Int) :=
  (List.range n).map (fun i => (i, f i))

/-- The map `big` holds every entry of the map `small`. -/
def Extends (small big : List (Nat × Int)) : Prop :=
  ∀ k v, mapFind small k = some v → mapFind big k = some v

/-- The function `f` agrees with every entry of the map. -/
def Agrees (m : List (Nat × Int)) (f : Nat → Int) : Prop :=
  ∀ k v, mapFind m k = some v → v = f k

/-- Every value of `f` on the variables `0 .. n-1` is in the current domain. -/
def InDomains (n : Nat) (domains : List (List Int)) (f : Nat → Int) : Prop :=
  ∀ i, i < n → f i ∈ domains.getD i []

/-- Two solutions differ in the value of at least one variable. -/
def Differ (a b : List (Nat × Int)) : Prop :=
  ∃ v, mapFind a v ≠ mapFind b v

/-- Invariant of the search on the domains, the assignment and the graph. -/
structure StateOk (csp : CSPInstance) (domains : List (List Int))
    (assignment : List (Nat × Int)) (graph : List (List Nat)) : Prop where
  dom_len : domains.length = csp.num_variables
  dom_sub : ∀ i, (domains.getD i []).Sublist (csp.initialDomains.getD i [])
  graph_lt : ∀ u, ∀ w ∈ graph.getD u [], w < csp.num_variables
  asg_ord : MapOrdered assignment
  asg_in : ∀ kv ∈ assignment, kv.1 < csp.num_variables ∧
    (csp.domains.getD kv.1 (0, 0)).1 ≤ kv.2 ∧ kv.2 ≤ (csp.domains.getD kv.1 (0, 0)).2
  asg_cons : ∀ c ∈ csp.constraints, ∀ x y, mapFind assignment c.var1 = some x →
    mapFind assignment c.var2 = some y → (x, y) ∈ c.allowed_pairs

/-- Fuel that suffices for every AC-3 run of a search: `fuelBound` of a new
engine on the initial domains. -/
def ac3Fuel (csp : CSPInstance) : Nat :=
  AC3Algorithm.fuelBound csp (AC3Algorithm.new csp)

/-- Fuel that suffices for `solve` and for `runSolver`: the AC-3 bound and one
unit per level of the search tree. -/
def solveFuel (csp : CSPInstance) : Nat :=
  ac3Fuel csp + csp.num_variables + 1

/-- The deadline is never hit: every reading of the clock is below `max_time`. -/
def NoTimeout (w : World) (max_time : Int) : Prop :=
  ∀ k, w.elapsed k < max_time

/-- What one call of `backtrack` (or one run of its value loop) adds to the
solution list `new`, with the return value `b`. -/
structure SearchPost (csp : CSPInstance) (w : World) (args : SolveArgs)
    (s : CSPSolver) (b : Bool) (s2 : CSPSolver) (new : List (List (Nat × Int))) : Prop where
  sols : s2.solutions = s.solutions ++ new
  valid : ∀ sol ∈ new, CSPSolver.validateSolution csp sol = true ∧ IsSolution csp sol ∧
    Extends s.assignment sol
  distinct : List.Pairwise Differ new
  found : b = true → args.first_solution_only = true ∧ new.length = 1
  not_found : b = false → args.first_solution_only = true → new = []
  frame : b = false → s2.domains = s.domains ∧ s2.assignment = s.assignment
  graph : s2.var_interaction_graph = s.var_interaction_graph

/-- Completeness of one call of `backtrack` (or one run of its value loop) for
the satisfying assignments selected by `sel`: when the deadline is never hit,
such an assignment that agrees with the partial assignment and lies in the
current domains is recorded (all-solutions mode) or makes the call answer true
(first-solution mode). -/
def SearchComplete (csp : CSPInstance) (w : World) (args : SolveArgs)
    (s : CSPSolver) (b : Bool) (new : List (List (Nat × Int))) (sel : (Nat → Int) → Prop) : Prop :=
  NoTimeout w args.max_time → ∀ f, Satisfies csp f → Agrees s.assignment f →
    InDomains csp.num_variables s.domains f → sel f →
    (args.first_solution_only = false → totalMap csp.num_variables f ∈ new) ∧
    (args.first_solution_only = true → b = true)

/-- The state after `nodes_explored++`. -/
def bumpNodes (s : CSPSolver) : CSPSolver :=
  { s with nodes_explored := int32 (s.nodes_explored + 1) }

/-- The forward-checking step of the value loop: the checker when it is
enabled, success without any change otherwise. -/
def fcResult (csp : CSPInstance) (args : SolveArgs) (s : CSPSolver) (var : Nat) (value : Int) :
    Bool × CSPSolver :=
  if args.use_forward_checking then CSPSolver.forwardCheckWithDomainReduction csp s var value
  else (true, s)

/-- The state handed to the recursive call: `assignment[var] = value`. -/
def assignVar (s : CSPSolver) (var : Nat) (value : Int) : CSPSolver :=
  { s with assignment := mapInsert s.assignment var value }

/-- The state after the undo of a value: domains put back when forward
checking is enabled, `assignment.erase(var)`, `backtracks++`. -/
def undoValue (args : SolveArgs) (s : CSPSolver) (backup : List (List Int)) (var : Nat) :
    CSPSolver :=
  { (if args.use_forward_checking then s.restoreDomains backup else s) with
    assignment := mapErase (if args.use_forward_checking then s.restoreDomains backup else s).assignment var
    backtracks :=
      int32 ((if args.use_forward_checking then s.restoreDomains backup else s).backtracks + 1) }

/-- The state after one reading of the clock. -/
def tick (s : CSPSolver) : CSPSolver :=
  { s with clock_reads := s.clock_reads + 1 }

/-- The AC-3 step of a search node: the engine when node-level AC-3 is
enabled, success without any change otherwise. -/
def nodeAC3 (csp : CSPInstance) (args : SolveArgs) (fuel : Nat) (s : CSPSolver) :
    Option (Bool × CSPSolver) :=
  if args.ac3_at_each_node then CSPSolver.applyAC3 csp fuel s else some (true, s)

/-! ## Worked inputs -/

/-- A world for worked examples: the clock stays at 0, the generator answers 0
and leaves sequences in place, `std::sort` is an insertion sort. -/
def exampleWorld : World where
  elapsed := fun _ => 0
  uniform := fun _ _ => 0
  uniform_le := fun _ _ => Nat.zero_le _
  shuffle := fun _ l => l
  shuffle_perm := fun _ l => List.Perm.refl l
  sort_by_second := fun l => l.insertionSort (fun a b => a.2 ≤ b.2)
  sort_by_second_perm := fun l => List.perm_insertionSort _ l
  sort_by_second_sorted := fun l => by
    haveI : IsTotal (Int × Int) (fun a b => a.2 ≤ b.2) := ⟨fun a b => le_total a.2 b.2⟩
    haveI : IsTrans (Int × Int) (fun a b => a.2 ≤ b.2) := ⟨fun a b c h1 h2 => le_trans h1 h2⟩
    have h := List.sorted_insertionSort (fun (a b : Int × Int) => a.2 ≤ b.2) l
    exact List.Pairwise.imp (fun h => not_lt.mpr h) h

/-- Three variables over `0..2`, `v0 + 1 = v1` and `v1 + 1 = v2` (a small
forced chain with asymmetric relations); its only solution is `(0, 1, 2)`. -/
def chainInstance : CSPInstance :=
  { num_variables := 3
    domains := [(0, 2), (0, 2), (0, 2)]
    constraints := [⟨0, 1, [(0, 1), (1, 2)]⟩, ⟨1, 2, [(0, 1), (1, 2)]⟩] }

/-- Three variables over `0..1`, `v0 = v1` and `v1 = v2 = 1`, both relations
symmetric. -/
def gapInstance : CSPInstance :=
  { num_variables := 3
    domains := [(0, 1), (0, 1), (0, 1)]
    constraints := [⟨0, 1, [(0, 0), (1, 1)]⟩, ⟨1, 2, [(1, 1)]⟩] }

/-- Two variables over `0..1` and the single allowed pair `v0 = 0, v1 = 1`. -/
def orientedInstance : CSPInstance :=
  { num_variables := 2
    domains := [(0, 1), (0, 1)]
    constraints := [⟨0, 1, [(0, 1)]⟩] }

/-- The default configuration of params.h as an argument list of `solve`. -/
def defaultArgs : SolveArgs :=
  { max_time := 300
    first_solution_only := false
    var_strategy := "mrv"
    val_strategy := "lcv"
    use_forward_checking := true
    ac3_at_each_node := true }

/-- Two variables over `0..1` that must differ; two solutions. -/
def differInstance : CSPInstance :=
  { num_variables := 2
    domains := [(0, 1), (0, 1)]
    constraints := [⟨0, 1, [(0, 1), (1, 0)]⟩] }

/-- Two variables over `0..1` joined by a constraint without any allowed pair
(an explicit empty relation). -/
def emptyRelationInstance : CSPInstance :=
  { num_variables := 2
    domains := [(0, 1), (0, 1)]
    constraints := [⟨0, 1, []⟩] }

/-- The content of an `int` counter that held `x` after `k` increments `++`. -/
def incTimes : Nat → Int → Int
  | 0, x => x
  | k + 1, x => incTimes k (int32 (x + 1))

/-- One variable over `0..2` and no constraint; three solutions. -/
def singleInstance : CSPInstance :=
  { num_variables := 1
    domains := [(0, 2)]
    constraints := [] }

/-- A world whose clock shows 0 seconds at the first two readings and 1 second
from the third reading on; everything else as in `exampleWorld`. -/
def deadlineWorld : World :=
  { exampleWorld with elapsed := fun k => if k < 2 then 0 else 1 }

/-- The domain that the forward checker computes for the neighbour `w`. -/
def fcFilter (csp : CSPInstance) (domains : List (List Int)) (var : Nat) (value : Int)
    (w : Nat) : List Int :=
  (domains.getD w []).filter (fun neighbor_value => csp.isConsistent var value w neighbor_value)

/-- The pairs counted by `countConflicts(var, value)`, listed in the order of
the two loops: a neighbour `w` of `var` outside the assignment and a value `y`
of the current domain of `w` that `CSPInstance.isConsistent` rejects against
`var = value`. -/
def conflictPairs (csp : CSPInstance) (s : CSPSolver) (var : Nat) (value : Int) :
    List (Nat × Int) :=
  ((s.var_interaction_graph.getD var []).filter
      (fun w => (mapFind s.assignment w).isNone)).flatMap
    (fun w => ((s.domains.getD w []).filter
      (fun y => !csp.isConsistent var value w y)).map (fun y => (w, y)))

/-- One variable over `2147483646..2147483647`, an interval that ends at the
largest `int`. -/
def maxIntInstance : CSPInstance :=
  { num_variables := 1, domains := [(2147483646, 2147483647)], constraints := [] }

/-- One variable over `0..16` and no constraint: every value has conflict
count 0, and the domain has 17 values, one more than the 16 up to which
`std::sort` of libstdc++ only runs its insertion sort. -/
def tieInstance : CSPInstance :=
  { num_variables := 1, domains := [(0, 16)], constraints := [] }

/-- The `std::sort` call of `lcvHeuristic` in a program built with libstdc++:
the answer of `stdSortBySecond`; where that routine has no answer here (the
heap-sort branch), or its answer fails the test of being a sorted permutation
of the input, the answer is that of the insertion sort. -/
def gnuSortBySecond (l : List (Int × Int)) : List (Int × Int) :=
  match stdSortBySecond l with
  | some b =>
    if List.Perm b l ∧ List.Pairwise (fun x y => ¬ y.2 < x.2) b then b
    else l.insertionSort (fun x y => x.2 ≤ y.2)
  | none => l.insertionSort (fun x y => x.2 ≤ y.2)

/-- A world like `exampleWorld` whose `std::sort` is the routine of libstdc++. -/
def gnuWorld : World where
  elapsed := fun _ => 0
  uniform := fun _ _ => 0
  uniform_le := fun _ _ => Nat.zero_le _
  shuffle := fun _ l => l
  shuffle_perm := fun _ l => List.Perm.refl l
  sort_by_second := gnuSortBySecond
  sort_by_second_perm := fun l => by
    unfold gnuSortBySecond
    split
    · split
      · rename_i h
        exact h.1
      · exact List.perm_insertionSort _ l
    · exact List.perm_insertionSort _ l
  sort_by_second_sorted := fun l => by
    haveI : IsTotal (Int × Int) (fun a b => a.2 ≤ b.2) := ⟨fun a b => le_total a.2 b.2⟩
    haveI : IsTrans (Int × Int) (fun a b => a.2 ≤ b.2) := ⟨fun a b c h1 h2 => le_trans h1 h2⟩
    have hins : List.Pairwise (fun (a b : Int × Int) => ¬ b.2 < a.2)
        (l.insertionSort (fun x y => x.2 ≤ y.2)) :=
      List.Pairwise.imp (fun h => not_lt.mpr h)
        (List.sorted_insertionSort (fun (a b : Int × Int) => a.2 ≤ b.2) l)
    unfold gnuSortBySecond
    split
    · split
      · rename_i h
        exact h.2
      · exact hins
    · exact hins

/-- The pairs allowed to two queens `d` columns apart on a board with 4 rows:
different rows, and not on a common diagonal. -/
def queensPairs (d : Int) : List (Int × Int) :=
  (List.range 4).flatMap (fun (a : Nat) => (List.range 4).filterMap (fun (b : Nat) =>
    if (a : Int) ≠ (b : Int) ∧ (a : Int) - (b : Int) ≠ d ∧ (b : Int) - (a : Int) ≠ d then
      some ((a : Int), (b : Int))
    else none))

/-- The 4-queens instance: one variable per column with the rows `0..3`, and
one constraint per pair of columns `i < j`. -/
def queensInstance : CSPInstance :=
  { num_variables := 4
    domains := [(0, 3), (0, 3), (0, 3), (0, 3)]
    constraints := [⟨0, 1, queensPairs 1⟩, ⟨0, 2, queensPairs 2⟩, ⟨0, 3, queensPairs 3⟩,
      ⟨1, 2, queensPairs 1⟩, ⟨1, 3, queensPairs 2⟩, ⟨2, 3, queensPairs 1⟩] }

/-- The forced chain over `0..5`: `v0 + 1 = v1` and `v1 + 1 = v2`, each
relation listed as the pairs `(a, a + 1)` for `a` in `0..4`. -/
def forcedChainInstance : CSPInstance :=
  { num_variables := 3
    domains := [(0, 5), (0, 5), (0, 5)]
    constraints :=
      [⟨0, 1, (List.range 5).map (fun (a : Nat) => ((a : Int), (a : Int) + 1))⟩,
       ⟨1, 2, (List.range 5).map (fun (a : Nat) => ((a : Int), (a : Int) + 1))⟩] }

/-- The configuration with every propagation flag turned off. -/
def plainParams : SolverParams :=
  { use_ac3 := false, use_forward_checking := false, ac3_at_each_node := false }

/-- The state after a deadline check that fails: the reading is counted and
`timeout_occurred` is set. -/
def raiseTimeout (s : CSPSolver) : CSPSolver :=
  { tick s with timeout_occurred := true }

/-- A state of the search on `differInstance` after three readings of the
clock, with two nodes counted and the timeout flag raised. -/
def flaggedState : CSPSolver :=
  { CSPSolver.new differInstance with
    clock_reads := 3
    nodes_explored := 2
    timeout_occurred := true }

/-- A line that the loops of `parseCSPFile` do not skip: after `trim` it is
neither a comment nor empty. -/
def significant (l : List Char) : Bool :=
  !(isComment (trim l) || isEmpty (trim l))

/-- The assignment as a `std::map` over variables of the instance: strictly
ascending keys, all below `num_variables`. -/
def AsgOk (csp : CSPInstance) (assignment : List (Nat × Int)) : Prop :=
  MapOrdered assignment ∧ ∀ kv ∈ assignment, kv.1 < csp.num_variables

/-- What a call of `backtrack` (or a run of its value loop) from the state `s`
leaves behind: after the return value false the domains and the assignment are
those of `s`; the return value true occurs in first-solution mode only. -/
def FramePost (args : SolveArgs) (s : CSPSolver) (b : Bool) (s2 : CSPSolver) : Prop :=
  (b = false → s2.domains = s.domains ∧ s2.assignment = s.assignment) ∧
  (b = true → args.first_solution_only = true)

/-- The result `rall` of a call of `backtrack` (or of a run of its value loop)
in all-solutions mode from the state `s`, against the result `rfirst` of the
same call in first-solution mode: the first one returns false and appends its
solutions; when it appends none, the second one is the same result; when it
appends at least one, the second one returns true with the first of them
appended. -/
def FirstAgrees (s : CSPSolver) (rall : Bool × CSPSolver)
    (rfirst : Option (Bool × CSPSolver)) : Prop :=
  rall.1 = false ∧
  ∃ new, rall.2.solutions = s.solutions ++ new ∧
    (new = [] → rfirst = some (false, rall.2)) ∧
    (∀ sol more, new = sol :: more →
      ∃ t, rfirst = some (true, t) ∧ t.solutions = s.solutions ++ [sol])

/-- The calls of `recurse` made by the value loop of `backtrack`, in call
order: for each state handed to `recurse`, what `calls` lists for it. The
definition follows `valueLoop` branch by branch. -/
def valueLoopCalls (csp : CSPInstance) (args : SolveArgs)
    (recurse : CSPSolver → Option (Bool × CSPSolver))
    (calls : CSPSolver → List (Nat × CSPSolver)) (var : Nat) :
    List Int → CSPSolver → List (Nat × CSPSolver)
  | [], _ => []
  | value :: rest, s =>
    if !CSPSolver.isConsistent csp (bumpNodes s) var value then
      valueLoopCalls csp args recurse calls var rest (bumpNodes s)
    else if !(fcResult csp args (bumpNodes s) var value).1 then
      valueLoopCalls csp args recurse calls var rest
        ((fcResult csp args (bumpNodes s) var value).2.restoreDomains
          (if args.use_forward_checking then (bumpNodes s).backupDomains else []))
    else
      calls (assignVar (fcResult csp args (bumpNodes s) var value).2 var value) ++
        match recurse (assignVar (fcResult csp args (bumpNodes s) var value).2 var value) with
        | none => []
        | some (result, s3) =>
          if result && args.first_solution_only then []
          else
            valueLoopCalls csp args recurse calls var rest
              (undoValue args s3
                (if args.use_forward_checking then (bumpNodes s).backupDomains else []) var)

/-- The calls of `backtrack` made during the call `backtrack(depth, ...)` on
the state `s`, this call included: the argument `depth` and the state at the
entry of each call, in call order (the recursive call is `backtrack(depth + 1,
...)`). The definition follows `CSPSolver.backtrack` branch by branch. -/
def backtrackCalls (csp : CSPInstance) (w : World) (args : SolveArgs) :
    Nat → Nat → CSPSolver → List (Nat × CSPSolver)
  | 0, depth, s => [(depth, s)]
  | fuel + 1, depth, s =>
    (depth, s) ::
      (if w.elapsed s.clock_reads ≥ args.max_time then []
      else if CSPSolver.isComplete csp (tick s) then []
      else
        match nodeAC3 csp args fuel (tick s) with
        | some (true, s1) =>
          if (selectVariable csp w s1 args.var_strategy).1 = -1 then []
          else
            valueLoopCalls csp args (CSPSolver.backtrack csp w args fuel)
              (backtrackCalls csp w args fuel (depth + 1))
              (selectVariable csp w s1 args.var_strategy).1.toNat
              (orderValues csp w (selectVariable csp w s1 args.var_strategy).2
                (selectVariable csp w s1 args.var_strategy).1.toNat args.val_strategy).1
              (orderValues csp w (selectVariable csp w s1 args.var_strategy).2
                (selectVariable csp w s1 args.var_strategy).1.toNat args.val_strategy).2
        | _ => [])

/-- The calls of `backtrack` made during `solve`, which calls `backtrack(0,
...)` after it has cleared the solutions and the counters. -/
def solveCalls (csp : CSPInstance) (w : World) (args : SolveArgs) (fuel : Nat) (s : CSPSolver) :
    List (Nat × CSPSolver) :=
  backtrackCalls csp w args fuel 0
    { s with solutions := [], nodes_explored := 0, backtracks := 0,
             timeout_occurred := false, clock_reads := 0, rng_calls := 0 }

/-- Two variables over `0..46340` joined by a constraint without allowed pair:
46341 values each, and 46341 + 46341 * 46341 = 2147534622 values to try. -/
def wideInstance : CSPInstance :=
  { num_variables := 2
    domains := [(0, 46340), (0, 46340)]
    constraints := [⟨0, 1, []⟩] }

/-- The options `-a -c -w lexicographic`: no AC-3, no forward checking, values
in ascending order. -/
def wideParams : SolverParams :=
  { use_ac3 := false, use_forward_checking := false, val_strategy := "lexicographic" }

/-! # Proofs -/

/-! ## Lists -/

theorem getD_set_self {α : Type} (l : List α) (i : Nat) (x d : α) (h : i < l.length) :
    (l.set i x).getD i d = x := by
  simp [List.getElem?_set, h]

theorem getD_set_ne {α : Type} (l : List α) (i j : Nat) (x d : α) (h : i ≠ j) :
    (l.set i x).getD j d = l.getD j d := by
  simp [List.getElem?_set, h]

theorem set_of_length_le {α : Type} (l : List α) (i : Nat) (x : α) (h : l.length ≤ i) :
    l.set i x = l := by
  induction l generalizing i with
  | nil => rfl
  | cons a t ih =>
    cases i with
    | zero => simp at h
    | succ n => simp only [List.set_cons_succ, ih n (by simpa using h)]

theorem getD_nil_of_length_le (l : List (List Int)) (i : Nat) (h : l.length ≤ i) :
    l.getD i [] = [] := by
  simp [List.getElem?_eq_none h]

theorem sum_length_set (l : List (List Int)) (i : Nat) (x : List Int) (h : i < l.length) :
    ((l.set i x).map List.length).sum + (l.getD i []).length
      = (l.map List.length).sum + x.length := by
  induction l generalizing i with
  | nil => simp at h
  | cons a t ih =>
    cases i with
    | zero => simp; omega
    | succ n =>
      have h2 : n < t.length := by simpa using h
      have := ih n h2
      simp at this ⊢
      omega

/-! ## Orientation rule -/

theorem any_pair_iff (pairs : List (Int × Int)) (x y : Int) :
    pairs.any (fun pair => decide (pair.1 = x ∧ pair.2 = y)) = true ↔ (x, y) ∈ pairs := by
  simp only [List.any_eq_true, decide_eq_true_eq]
  constructor
  · rintro ⟨p, hp, h1, h2⟩
    have : p = (x, y) := Prod.ext h1 h2
    exact this ▸ hp
  · intro h
    exact ⟨(x, y), h, rfl, rfl⟩

theorem isConsistent_iff (csp : CSPInstance) (a : Nat) (x : Int) (b : Nat) (y : Int) :
    csp.isConsistent a x b y = true ↔
      ∀ c ∈ csp.constraints,
        (c.var1 = a ∧ c.var2 = b → (x, y) ∈ c.allowed_pairs) ∧
        (¬ (c.var1 = a ∧ c.var2 = b) → c.var1 = b ∧ c.var2 = a → (y, x) ∈ c.allowed_pairs) := by
  unfold CSPInstance.isConsistent
  rw [List.all_eq_true]
  refine forall_congr' (fun c => forall_congr' (fun _ => ?_))
  by_cases h1 : c.var1 = a ∧ c.var2 = b
  · rw [if_pos h1, any_pair_iff]
    exact ⟨fun h => ⟨fun _ => h, fun h3 => absurd h1 h3⟩, fun h => h.1 h1⟩
  · rw [if_neg h1]
    by_cases h2 : c.var1 = b ∧ c.var2 = a
    · rw [if_pos h2, any_pair_iff]
      exact ⟨fun h => ⟨fun h3 => absurd h3 h1, fun _ _ => h⟩, fun h => h.2 h1 h2⟩
    · rw [if_neg h2]
      exact ⟨fun _ => ⟨fun h3 => absurd h3 h1, fun _ h3 => absurd h3 h2⟩, fun _ => rfl⟩

theorem ac3_isConsistent_iff (csp : CSPInstance) (a : Nat) (x : Int) (b : Nat) (y : Int) :
    AC3Algorithm.isConsistent csp a x b y = true ↔
      ∀ c ∈ csp.constraints,
        ((c.var1 = a ∧ c.var2 = b) ∨ (c.var1 = b ∧ c.var2 = a)) →
          ((x, y) ∈ c.allowed_pairs ∨ (y, x) ∈ c.allowed_pairs) := by
  unfold AC3Algorithm.isConsistent
  rw [List.all_eq_true]
  refine forall_congr' (fun c => forall_congr' (fun _ => ?_))
  have hany : c.allowed_pairs.any (fun pair =>
        decide ((pair.1 = x ∧ pair.2 = y) ∨ (pair.1 = y ∧ pair.2 = x))) = true ↔
      ((x, y) ∈ c.allowed_pairs ∨ (y, x) ∈ c.allowed_pairs) := by
    simp only [List.any_eq_true, decide_eq_true_eq]
    constructor
    · rintro ⟨p, hp, h | h⟩
      · exact Or.inl ((Prod.ext h.1 h.2 : p = (x, y)) ▸ hp)
      · exact Or.inr ((Prod.ext h.1 h.2 : p = (y, x)) ▸ hp)
    · rintro (h | h)
      · exact ⟨(x, y), h, Or.inl ⟨rfl, rfl⟩⟩
      · exact ⟨(y, x), h, Or.inr ⟨rfl, rfl⟩⟩
  by_cases h : (c.var1 = a ∧ c.var2 = b) ∨ (c.var1 = b ∧ c.var2 = a)
  · rw [if_pos h, hany]
    exact ⟨fun h3 _ => h3, fun h3 => h3 h⟩
  · rw [if_neg h]
    exact ⟨fun _ h3 => absurd h3 h, fun _ => rfl⟩

/-- The test of the AC-3 engine accepts every pair that the instance accepts. -/
theorem ac3_isConsistent_of_isConsistent (csp : CSPInstance) (a : Nat) (x : Int) (b : Nat)
    (y : Int) (h : csp.isConsistent a x b y = true) :
    AC3Algorithm.isConsistent csp a x b y = true := by
  rw [ac3_isConsistent_iff]
  rw [isConsistent_iff] at h
  intro c hc hj
  by_cases h1 : c.var1 = a ∧ c.var2 = b
  · exact Or.inl ((h c hc).1 h1)
  · rcases hj with hj | hj
    · exact absurd hj h1
    · exact Or.inr ((h c hc).2 h1 hj)

/-! ## AC-3: revise -/

theorem revise_eq (csp : CSPInstance) (a : AC3Algorithm) (u v : Nat) :
    AC3Algorithm.revise csp a u v =
      if (AC3Algorithm.revise csp a u v).1 then
        (true, { a with domains := a.domains.set u (revisedDomain csp a.domains u v)
                        revisions_count := a.revisions_count + 1 })
      else (false, a) := by
  unfold AC3Algorithm.revise revisedDomain
  simp only
  split <;> simp

theorem revise_fst_iff (csp : CSPInstance) (a : AC3Algorithm) (u v : Nat) :
    (AC3Algorithm.revise csp a u v).1 = true ↔
      ∃ x ∈ a.domains.getD u [], AC3Algorithm.hasSupport csp u x v (a.domains.getD v []) = false := by
  unfold AC3Algorithm.revise
  simp only
  split
  · rename_i h
    simp only [List.any_eq_true, Bool.not_eq_true'] at h
    simpa using h
  · rename_i h
    simp only [List.any_eq_true, Bool.not_eq_true'] at h
    simpa using h

theorem revise_worklist (csp : CSPInstance) (a : AC3Algorithm) (u v : Nat) :
    (AC3Algorithm.revise csp a u v).2.worklist = a.worklist := by
  rw [revise_eq]; split <;> rfl

theorem revise_length (csp : CSPInstance) (a : AC3Algorithm) (u v : Nat) :
    (AC3Algorithm.revise csp a u v).2.domains.length = a.domains.length := by
  rw [revise_eq]; split <;> simp

theorem revise_count_le (csp : CSPInstance) (a : AC3Algorithm) (u v : Nat) :
    a.revisions_count ≤ (AC3Algorithm.revise csp a u v).2.revisions_count := by
  rw [revise_eq]; split <;> simp

theorem set_getD_sublist (doms : List (List Int)) (u : Nat) (d : List Int)
    (h : d.Sublist (doms.getD u [])) (i : Nat) :
    ((doms.set u d).getD i []).Sublist (doms.getD i []) := by
  by_cases hu : u < doms.length
  · by_cases hi : u = i
    · subst hi; rw [getD_set_self _ _ _ _ hu]; exact h
    · rw [getD_set_ne _ _ _ _ _ hi]
  · rw [set_of_length_le _ _ _ (Nat.le_of_not_lt hu)]

theorem revise_getD_sublist (csp : CSPInstance) (a : AC3Algorithm) (u v i : Nat) :
    ((AC3Algorithm.revise csp a u v).2.domains.getD i []).Sublist (a.domains.getD i []) := by
  rw [revise_eq]; split
  · exact set_getD_sublist _ _ _ (List.filter_sublist _) i
  · exact List.Sublist.refl _

theorem revise_sum_lt (csp : CSPInstance) (a : AC3Algorithm) (u v : Nat)
    (h : (AC3Algorithm.revise csp a u v).1 = true) :
    ((AC3Algorithm.revise csp a u v).2.domains.map List.length).sum + 1
      ≤ (a.domains.map List.length).sum := by
  have hex := (revise_fst_iff csp a u v).1 h
  have hu : u < a.domains.length := by
    by_contra hu
    rw [getD_nil_of_length_le _ _ (Nat.le_of_not_lt hu)] at hex
    simp at hex
  have hlt : (revisedDomain csp a.domains u v).length < (a.domains.getD u []).length := by
    unfold revisedDomain
    rw [List.length_filter_lt_length_iff_exists]
    obtain ⟨x, hx, hs⟩ := hex
    exact ⟨x, hx, by rw [hs]; exact Bool.false_ne_true⟩
  rw [revise_eq, if_pos h]
  have := sum_length_set a.domains u (revisedDomain csp a.domains u v) hu
  simp only at this ⊢
  omega

theorem getArcs_length_le (csp : CSPInstance) (u : Nat) :
    (AC3Algorithm.getArcs csp u).length ≤ csp.constraints.length :=
  List.length_filterMap_le _ _

/-! ## AC-3: the worklist loop -/

/-- With fuel above `fuelBound` the loop of `apply` ends, and it only shortens domains. -/
theorem apply_spec (csp : CSPInstance) (fuel : Nat) (a : AC3Algorithm)
    (h : AC3Algorithm.fuelBound csp a ≤ fuel) :
    ∃ b a2, AC3Algorithm.apply csp fuel a = some (b, a2) ∧
      a2.domains.length = a.domains.length ∧
      (∀ i, (a2.domains.getD i []).Sublist (a.domains.getD i [])) ∧
      a.revisions_count ≤ a2.revisions_count := by
  induction fuel generalizing a with
  | zero => unfold AC3Algorithm.fuelBound at h; omega
  | succ n ih =>
    obtain ⟨doms, wl, cnt⟩ := a
    cases wl with
    | nil => exact ⟨true, _, rfl, rfl, fun i => List.Sublist.refl _, le_refl _⟩
    | cons arc rest =>
      unfold AC3Algorithm.apply
      simp only
      have hlen := revise_length csp ⟨doms, rest, cnt⟩ arc.var1 arc.var2
      have hsub := revise_getD_sublist csp ⟨doms, rest, cnt⟩ arc.var1 arc.var2
      have hwl := revise_worklist csp ⟨doms, rest, cnt⟩ arc.var1 arc.var2
      have hcnt := revise_count_le csp ⟨doms, rest, cnt⟩ arc.var1 arc.var2
      simp only at hlen hsub hwl hcnt
      by_cases hr : (AC3Algorithm.revise csp ⟨doms, rest, cnt⟩ arc.var1 arc.var2).1 = true
      · rw [if_pos hr]
        split
        · exact ⟨false, _, rfl, hlen, hsub, hcnt⟩
        · have hsum := revise_sum_lt csp ⟨doms, rest, cnt⟩ arc.var1 arc.var2 hr
          simp only at hsum
          have hk : ((AC3Algorithm.getArcs csp arc.var1).filter (fun neighbor =>
              decide (neighbor.var2 ≠ arc.var2))).length ≤ csp.constraints.length :=
            le_trans (List.length_filter_le _ _) (getArcs_length_le csp arc.var1)
          obtain ⟨b, a2, h1, h2, h3, h4⟩ := ih
            { (AC3Algorithm.revise csp ⟨doms, rest, cnt⟩ arc.var1 arc.var2).2 with
              worklist := (AC3Algorithm.revise csp ⟨doms, rest, cnt⟩ arc.var1 arc.var2).2.worklist ++
                (AC3Algorithm.getArcs csp arc.var1).filter (fun neighbor =>
                  decide (neighbor.var2 ≠ arc.var2)) } (by
              unfold AC3Algorithm.fuelBound at h ⊢
              simp only [List.length_append, hwl, List.length_cons] at h ⊢
              have hm : ((AC3Algorithm.revise csp ⟨doms, rest, cnt⟩ arc.var1 arc.var2).2.domains.map
                  List.length).sum * (csp.constraints.length + 1) + (csp.constraints.length + 1)
                  ≤ (doms.map List.length).sum * (csp.constraints.length + 1) := by
                calc _ = (((AC3Algorithm.revise csp ⟨doms, rest, cnt⟩ arc.var1 arc.var2).2.domains.map
                          List.length).sum + 1) * (csp.constraints.length + 1) := by ring
                  _ ≤ _ := Nat.mul_le_mul_right _ hsum
              omega)
          exact ⟨b, a2, h1, h2.trans hlen, fun i => (h3 i).trans (hsub i), le_trans hcnt h4⟩
      · rw [if_neg hr]
        have hfalse : (AC3Algorithm.revise csp ⟨doms, rest, cnt⟩ arc.var1 arc.var2).1 = false := by
          simpa using hr
        have heq : (AC3Algorithm.revise csp ⟨doms, rest, cnt⟩ arc.var1 arc.var2).2 = ⟨doms, rest, cnt⟩ := by
          rw [revise_eq, hfalse]; rfl
        rw [heq]
        obtain ⟨b, a2, h1, h2, h3, h4⟩ := ih ⟨doms, rest, cnt⟩ (by
          unfold AC3Algorithm.fuelBound at h ⊢
          simp only [List.length_cons] at h ⊢
          omega)
        exact ⟨b, a2, h1, h2, h3, h4⟩

/-! ## AC-3 keeps every value of a satisfying assignment -/

/-- A total assignment `f` that satisfies every stored constraint passes the
test of the AC-3 engine on every pair of variables. -/
theorem ac3_isConsistent_of_sat (csp : CSPInstance) (f : Nat → Int)
    (hsat : ∀ c ∈ csp.constraints, (f c.var1, f c.var2) ∈ c.allowed_pairs) (u v : Nat) :
    AC3Algorithm.isConsistent csp u (f u) v (f v) = true := by
  rw [ac3_isConsistent_iff]
  intro c hc hj
  rcases hj with ⟨h1, h2⟩ | ⟨h1, h2⟩
  · left; rw [← h1, ← h2]; exact hsat c hc
  · right; rw [← h1, ← h2]; exact hsat c hc

theorem revise_keeps (csp : CSPInstance) (f : Nat → Int) (n : Nat)
    (hsat : ∀ c ∈ csp.constraints, (f c.var1, f c.var2) ∈ c.allowed_pairs)
    (a : AC3Algorithm) (u v : Nat) (hv : v < n)
    (hf : ∀ i, i < n → f i ∈ a.domains.getD i []) :
    ∀ i, i < n → f i ∈ (AC3Algorithm.revise csp a u v).2.domains.getD i [] := by
  intro i hi
  rw [revise_eq]
  split
  · simp only
    by_cases hu : u < a.domains.length
    · by_cases hui : u = i
      · subst hui
        rw [getD_set_self _ _ _ _ hu]
        unfold revisedDomain
        rw [List.mem_filter]
        refine ⟨hf u hi, ?_⟩
        unfold AC3Algorithm.hasSupport
        rw [List.any_eq_true]
        exact ⟨f v, hf v hv, ac3_isConsistent_of_sat csp f hsat u v⟩
      · rw [getD_set_ne _ _ _ _ _ hui]; exact hf i hi
    · rw [set_of_length_le _ _ _ (Nat.le_of_not_lt hu)]; exact hf i hi
  · exact hf i hi

theorem getArcs_mem (csp : CSPInstance) (u : Nat) (arc : Arc)
    (h : arc ∈ AC3Algorithm.getArcs csp u) :
    arc.var1 = u ∧ ∃ c ∈ csp.constraints,
      (c.var1 = u ∧ c.var2 = arc.var2) ∨ (c.var2 = u ∧ c.var1 = arc.var2) := by
  unfold AC3Algorithm.getArcs at h
  rw [List.mem_filterMap] at h
  obtain ⟨c, hc, h2⟩ := h
  by_cases h1 : c.var1 = u
  · rw [if_pos h1] at h2
    cases h2
    exact ⟨h1, c, hc, Or.inl ⟨h1, rfl⟩⟩
  · rw [if_neg h1] at h2
    by_cases h3 : c.var2 = u
    · rw [if_pos h3] at h2
      cases h2
      exact ⟨h3, c, hc, Or.inr ⟨h3, rfl⟩⟩
    · rw [if_neg h3] at h2
      cases h2

theorem initialWorklist_mem (cs : List Constraint) (arc : Arc) (h : arc ∈ initialWorklist cs) :
    ∃ c ∈ cs, (arc.var1 = c.var1 ∧ arc.var2 = c.var2) ∨ (arc.var1 = c.var2 ∧ arc.var2 = c.var1) := by
  induction cs with
  | nil => simp [initialWorklist] at h
  | cons c rest ih =>
    simp only [initialWorklist, List.mem_cons] at h
    rcases h with h | h | h
    · exact ⟨c, List.mem_cons_self _ _, Or.inl (by rw [h]; exact ⟨rfl, rfl⟩)⟩
    · exact ⟨c, List.mem_cons_self _ _, Or.inr (by rw [h]; exact ⟨rfl, rfl⟩)⟩
    · obtain ⟨c2, hc2, h2⟩ := ih h
      exact ⟨c2, List.mem_cons_of_mem _ hc2, h2⟩

theorem initialWorklist_length (cs : List Constraint) :
    (initialWorklist cs).length = 2 * cs.length := by
  induction cs with
  | nil => rfl
  | cons c rest ih => simp only [initialWorklist, List.length_cons, ih]; omega

/-- When the loop of `apply` ends on a state whose domains hold the values of a
satisfying assignment, it answers consistent and the values are still there. -/
theorem apply_keeps (csp : CSPInstance) (f : Nat → Int) (n : Nat)
    (hvars : ∀ c ∈ csp.constraints, c.var1 < n ∧ c.var2 < n)
    (hsat : ∀ c ∈ csp.constraints, (f c.var1, f c.var2) ∈ c.allowed_pairs)
    (fuel : Nat) (a : AC3Algorithm) (b : Bool) (a2 : AC3Algorithm)
    (hwl : ∀ arc ∈ a.worklist, arc.var1 < n ∧ arc.var2 < n)
    (hf : ∀ i, i < n → f i ∈ a.domains.getD i [])
    (h : AC3Algorithm.apply csp fuel a = some (b, a2)) :
    b = true ∧ ∀ i, i < n → f i ∈ a2.domains.getD i [] := by
  induction fuel generalizing a with
  | zero => simp [AC3Algorithm.apply] at h
  | succ k ih =>
    obtain ⟨doms, wl, cnt⟩ := a
    cases wl with
    | nil =>
      simp only [AC3Algorithm.apply, Option.some.injEq, Prod.mk.injEq] at h
      obtain ⟨h1, h2⟩ := h
      subst h2
      exact ⟨h1.symm, hf⟩
    | cons arc rest =>
      unfold AC3Algorithm.apply at h
      simp only at h
      have harc := hwl arc (List.mem_cons_self _ _)
      have hrest : ∀ arc2 ∈ rest, arc2.var1 < n ∧ arc2.var2 < n :=
        fun arc2 h2 => hwl arc2 (List.mem_cons_of_mem _ h2)
      have hkeep := revise_keeps csp f n hsat ⟨doms, rest, cnt⟩ arc.var1 arc.var2 harc.2 hf
      have hwl2 := revise_worklist csp ⟨doms, rest, cnt⟩ arc.var1 arc.var2
      simp only at hwl2
      by_cases hr : (AC3Algorithm.revise csp ⟨doms, rest, cnt⟩ arc.var1 arc.var2).1 = true
      · rw [if_pos hr] at h
        have hne : ((AC3Algorithm.revise csp ⟨doms, rest, cnt⟩ arc.var1 arc.var2).2.domains.getD
            arc.var1 []).isEmpty = false := by
          have := hkeep arc.var1 harc.1
          cases hd : (AC3Algorithm.revise csp ⟨doms, rest, cnt⟩ arc.var1 arc.var2).2.domains.getD
            arc.var1 [] with
          | nil => rw [hd] at this; cases this
          | cons x t => rfl
        rw [hne] at h
        simp only [Bool.false_eq_true, if_false] at h
        refine ih _ ?_ ?_ h
        swap
        · exact hkeep
        intro arc2 h2
        simp only [hwl2, List.mem_append, List.mem_filter] at h2
        rcases h2 with h2 | ⟨h2, _⟩
        · exact hrest arc2 h2
        · obtain ⟨h3, c, hc, h4⟩ := getArcs_mem csp arc.var1 arc2 h2
          refine ⟨h3 ▸ harc.1, ?_⟩
          rcases h4 with ⟨_, h5⟩ | ⟨_, h5⟩
          · rw [← h5]; exact (hvars c hc).2
          · rw [← h5]; exact (hvars c hc).1
      · rw [if_neg hr] at h
        refine ih _ ?_ ?_ h
        swap
        · exact hkeep
        intro arc2 h2
        rw [hwl2] at h2
        exact hrest arc2 h2

/-! ## AC-3 on a state where no arc of the worklist needs a revision -/

theorem apply_noop (csp : CSPInstance) (fuel : Nat) (a : AC3Algorithm)
    (hfuel : a.worklist.length < fuel)
    (hac : ∀ arc ∈ a.worklist, ∀ x ∈ a.domains.getD arc.var1 [],
      AC3Algorithm.hasSupport csp arc.var1 x arc.var2 (a.domains.getD arc.var2 []) = true) :
    AC3Algorithm.apply csp fuel a = some (true, { a with worklist := [] }) := by
  induction fuel generalizing a with
  | zero => omega
  | succ k ih =>
    obtain ⟨doms, wl, cnt⟩ := a
    cases wl with
    | nil => rfl
    | cons arc rest =>
      unfold AC3Algorithm.apply
      simp only
      have hr : (AC3Algorithm.revise csp ⟨doms, rest, cnt⟩ arc.var1 arc.var2).1 = false := by
        cases hb : (AC3Algorithm.revise csp ⟨doms, rest, cnt⟩ arc.var1 arc.var2).1 with
        | false => rfl
        | true =>
          obtain ⟨x, hx, hs⟩ := (revise_fst_iff csp _ arc.var1 arc.var2).1 hb
          rw [hac arc (List.mem_cons_self _ _) x hx] at hs
          cases hs
      have heq : (AC3Algorithm.revise csp ⟨doms, rest, cnt⟩ arc.var1 arc.var2).2 = ⟨doms, rest, cnt⟩ := by
        rw [revise_eq, hr]; rfl
      rw [hr, heq]
      simp only [Bool.false_eq_true, if_false]
      exact ih ⟨doms, rest, cnt⟩ (by simpa using hfuel)
        (fun arc2 h2 => hac arc2 (List.mem_cons_of_mem _ h2))

/-! ## The map container -/

theorem mapFind_eq_none_iff (m : List (Nat × Int)) (k : Nat) :
    mapFind m k = none ↔ k ∉ m.map Prod.fst := by
  induction m with
  | nil => simp [mapFind]
  | cons kv rest ih =>
    unfold mapFind
    by_cases h : kv.1 = k
    · simp [h]
    · rw [if_neg h, ih]
      simp only [List.map_cons, List.mem_cons, not_or]
      exact ⟨fun h2 => ⟨fun h3 => h h3.symm, h2⟩, fun h2 => h2.2⟩

theorem mapFind_mem (m : List (Nat × Int)) (k : Nat) (v : Int) (h : mapFind m k = some v) :
    (k, v) ∈ m := by
  induction m with
  | nil => simp [mapFind] at h
  | cons kv rest ih =>
    unfold mapFind at h
    by_cases h1 : kv.1 = k
    · rw [if_pos h1] at h
      have h2 : kv.2 = v := by simpa using h
      have : kv = (k, v) := Prod.ext h1 h2
      rw [this]; exact List.mem_cons_self _ _
    · rw [if_neg h1] at h
      exact List.mem_cons_of_mem _ (ih h)

theorem mapFind_of_mem (m : List (Nat × Int)) (hm : MapOrdered m) (k : Nat) (v : Int)
    (h : (k, v) ∈ m) : mapFind m k = some v := by
  induction m with
  | nil => cases h
  | cons kv rest ih =>
    unfold MapOrdered at hm
    rw [List.pairwise_cons] at hm
    unfold mapFind
    rcases List.mem_cons.1 h with h1 | h1
    · rw [← h1]; simp
    · have hlt := hm.1 (k, v) h1
      have hne : kv.1 ≠ k := by simp only at hlt; omega
      rw [if_neg hne]
      exact ih hm.2 h1

theorem mapFind_insert (m : List (Nat × Int)) (k : Nat) (v : Int) (k2 : Nat) :
    mapFind (mapInsert m k v) k2 = if k2 = k then some v else mapFind m k2 := by
  induction m with
  | nil =>
    simp only [mapInsert, mapFind]
    by_cases h : k = k2
    · simp [h]
    · simp [h, Ne.symm h]
  | cons kv rest ih =>
    unfold mapInsert
    by_cases h1 : k < kv.1
    · rw [if_pos h1]
      by_cases h : k = k2
      · subst h; simp [mapFind]
      · rw [if_neg (Ne.symm h)]
        conv_lhs => unfold mapFind
        simp only [h, if_false]
    · rw [if_neg h1]
      by_cases h2 : k = kv.1
      · rw [if_pos h2]
        by_cases h : k = k2
        · subst h; simp [mapFind]
        · rw [if_neg (Ne.symm h)]
          conv_lhs => unfold mapFind
          conv_rhs => unfold mapFind
          simp only [h, if_false]
          rw [if_neg (by rw [← h2]; exact h)]
      · rw [if_neg h2]
        conv_lhs => unfold mapFind
        conv_rhs => unfold mapFind
        by_cases h3 : kv.1 = k2
        · rw [if_pos h3, if_pos h3, if_neg (by rw [← h3]; exact Ne.symm h2)]
        · rw [if_neg h3, if_neg h3, ih]

theorem mapFind_erase (m : List (Nat × Int)) (k : Nat) (k2 : Nat) :
    mapFind (mapErase m k) k2 = if k2 = k then none else mapFind m k2 := by
  induction m with
  | nil => simp [mapErase, mapFind]
  | cons kv rest ih =>
    unfold mapErase at ih ⊢
    by_cases h1 : kv.1 = k
    · rw [List.filter_cons_of_neg (by simpa using h1), ih]
      by_cases h : k2 = k
      · simp [h]
      · rw [if_neg h, if_neg h]
        conv_rhs => unfold mapFind
        rw [if_neg (by rw [h1]; exact Ne.symm h)]
    · rw [List.filter_cons_of_pos (by simpa using h1)]
      conv_lhs => unfold mapFind
      conv_rhs => unfold mapFind
      by_cases h3 : kv.1 = k2
      · rw [if_pos h3, if_pos h3, if_neg (by rw [← h3]; exact h1)]
      · rw [if_neg h3, if_neg h3, ih]

theorem mapInsert_mem (m : List (Nat × Int)) (k : Nat) (v : Int) (e : Nat × Int)
    (h : e ∈ mapInsert m k v) : e = (k, v) ∨ e ∈ m := by
  induction m with
  | nil => simpa [mapInsert] using h
  | cons kv rest ih =>
    unfold mapInsert at h
    by_cases h1 : k < kv.1
    · rw [if_pos h1] at h
      rcases List.mem_cons.1 h with h | h
      · exact Or.inl h
      · exact Or.inr h
    · rw [if_neg h1] at h
      by_cases h2 : k = kv.1
      · rw [if_pos h2] at h
        rcases List.mem_cons.1 h with h | h
        · exact Or.inl h
        · exact Or.inr (List.mem_cons_of_mem _ h)
      · rw [if_neg h2] at h
        rcases List.mem_cons.1 h with h | h
        · exact Or.inr (h ▸ List.mem_cons_self _ _)
        · rcases ih h with h3 | h3
          · exact Or.inl h3
          · exact Or.inr (List.mem_cons_of_mem _ h3)

theorem mapInsert_ordered (m : List (Nat × Int)) (hm : MapOrdered m) (k : Nat) (v : Int) :
    MapOrdered (mapInsert m k v) := by
  induction m with
  | nil => simp [mapInsert, MapOrdered]
  | cons kv rest ih =>
    unfold MapOrdered at hm ih ⊢
    rw [List.pairwise_cons] at hm
    unfold mapInsert
    by_cases h1 : k < kv.1
    · rw [if_pos h1, List.pairwise_cons]
      refine ⟨?_, List.pairwise_cons.2 hm⟩
      intro e he
      rcases List.mem_cons.1 he with he | he
      · rw [he]; exact h1
      · exact lt_trans h1 (hm.1 e he)
    · rw [if_neg h1]
      by_cases h2 : k = kv.1
      · rw [if_pos h2, List.pairwise_cons]
        exact ⟨fun e he => by rw [h2]; exact hm.1 e he, hm.2⟩
      · rw [if_neg h2, List.pairwise_cons]
        refine ⟨?_, ih hm.2⟩
        intro e he
        rcases mapInsert_mem rest k v e he with he | he
        · rw [he]; simp only; omega
        · exact hm.1 e he

theorem mapErase_ordered (m : List (Nat × Int)) (hm : MapOrdered m) (k : Nat) :
    MapOrdered (mapErase m k) :=
  List.Pairwise.sublist (List.filter_sublist _) hm

theorem mapErase_of_not_mem (m : List (Nat × Int)) (k : Nat) (h : mapFind m k = none) :
    mapErase m k = m := by
  rw [mapFind_eq_none_iff] at h
  unfold mapErase
  rw [List.filter_eq_self]
  intro e he
  have : e.1 ≠ k := fun h2 => h (h2 ▸ List.mem_map_of_mem Prod.fst he)
  simpa using this

theorem mapErase_insert (m : List (Nat × Int)) (hm : MapOrdered m) (k : Nat) (v : Int)
    (h : mapFind m k = none) : mapErase (mapInsert m k v) k = m := by
  induction m with
  | nil => simp [mapInsert, mapErase]
  | cons kv rest ih =>
    have hne : kv.1 ≠ k := by
      intro h2
      unfold mapFind at h
      rw [if_pos h2] at h
      cases h
    have hrest : mapFind rest k = none := by
      unfold mapFind at h
      rw [if_neg hne] at h
      exact h
    unfold MapOrdered at hm ih
    rw [List.pairwise_cons] at hm
    unfold mapInsert
    by_cases h1 : k < kv.1
    · rw [if_pos h1]
      have := mapErase_of_not_mem (kv :: rest) k h
      unfold mapErase at this ⊢
      rw [List.filter_cons_of_neg (by simp), this]
    · rw [if_neg h1, if_neg (Ne.symm hne)]
      have := ih hm.2 hrest
      unfold mapErase at this ⊢
      rw [List.filter_cons_of_pos (by simpa using hne), this]

theorem mapInsert_length (m : List (Nat × Int)) (k : Nat) (v : Int) (h : mapFind m k = none) :
    (mapInsert m k v).length = m.length + 1 := by
  induction m with
  | nil => simp [mapInsert]
  | cons kv rest ih =>
    have hne : kv.1 ≠ k := by
      intro h2
      unfold mapFind at h
      rw [if_pos h2] at h
      cases h
    have hrest : mapFind rest k = none := by
      unfold mapFind at h
      rw [if_neg hne] at h
      exact h
    unfold mapInsert
    by_cases h1 : k < kv.1
    · rw [if_pos h1]; simp
    · rw [if_neg h1, if_neg (Ne.symm hne)]
      simp [ih hrest]

theorem mapOrdered_keys_nodup (m : List (Nat × Int)) (hm : MapOrdered m) :
    (m.map Prod.fst).Nodup := by
  unfold MapOrdered at hm
  have : List.Pairwise (fun a b : Nat => a < b) (m.map Prod.fst) := by
    rw [List.pairwise_map]; exact hm
  exact List.Pairwise.imp (fun h => Nat.ne_of_lt h) this

/-- An ordered map with `n` entries and keys below `n` has the keys `0 .. n-1`. -/
theorem mapOrdered_keys_eq_range (m : List (Nat × Int)) (hm : MapOrdered m) (n : Nat)
    (hk : ∀ k ∈ m.map Prod.fst, k < n) (hlen : m.length = n) :
    m.map Prod.fst = List.range n := by
  have hsorted : List.Sorted (fun a b : Nat => a < b) (m.map Prod.fst) := by
    unfold MapOrdered at hm
    unfold List.Sorted
    rw [List.pairwise_map]; exact hm
  have hnd := mapOrdered_keys_nodup m hm
  have hsub : (m.map Prod.fst).toFinset ⊆ Finset.range n := by
    intro x hx
    rw [List.mem_toFinset] at hx
    exact Finset.mem_range.2 (hk x hx)
  have hcard : (Finset.range n).card ≤ (m.map Prod.fst).toFinset.card := by
    rw [List.toFinset_card_of_nodup hnd, Finset.card_range, List.length_map, hlen]
  have heq := Finset.eq_of_subset_of_card_le hsub hcard
  have hperm : List.Perm (m.map Prod.fst) (List.range n) := by
    rw [List.perm_ext_iff_of_nodup hnd (List.nodup_range n)]
    intro a
    rw [← List.mem_toFinset, heq, Finset.mem_range, List.mem_range]
  exact List.eq_of_perm_of_sorted hperm hsorted (List.sorted_lt_range n)

/-- An ordered map with keys below `n` and fewer than `n` entries misses a key. -/
theorem mapOrdered_exists_unassigned (m : List (Nat × Int)) (hm : MapOrdered m) (n : Nat)
    (hk : ∀ k ∈ m.map Prod.fst, k < n) :
    m.length ≤ n ∧ (m.length ≠ n → ∃ i, i < n ∧ mapFind m i = none) := by
  have hnd := mapOrdered_keys_nodup m hm
  have hsub : (m.map Prod.fst).toFinset ⊆ Finset.range n := by
    intro x hx
    rw [List.mem_toFinset] at hx
    exact Finset.mem_range.2 (hk x hx)
  have hcard := Finset.card_le_card hsub
  rw [List.toFinset_card_of_nodup hnd, Finset.card_range, List.length_map] at hcard
  refine ⟨hcard, fun hne => ?_⟩
  by_contra hcon
  push_neg at hcon
  have hsub2 : Finset.range n ⊆ (m.map Prod.fst).toFinset := by
    intro x hx
    rw [List.mem_toFinset]
    have := hcon x (Finset.mem_range.1 hx)
    rw [Ne, mapFind_eq_none_iff] at this
    exact not_not.1 this
  have := Finset.card_le_card hsub2
  rw [List.toFinset_card_of_nodup hnd, Finset.card_range, List.length_map] at this
  omega

/-- Two maps with the same key sequence, without repeated keys, that agree on
every lookup are equal. -/
theorem map_ext_of_keys (m1 m2 : List (Nat × Int)) (hkeys : m1.map Prod.fst = m2.map Prod.fst)
    (hnd : (m1.map Prod.fst).Nodup)
    (h : ∀ k v, mapFind m1 k = some v → mapFind m2 k = some v) : m1 = m2 := by
  induction m1 generalizing m2 with
  | nil =>
    cases m2 with
    | nil => rfl
    | cons e t => simp at hkeys
  | cons e1 t1 ih =>
    cases m2 with
    | nil => simp at hkeys
    | cons e2 t2 =>
      simp only [List.map_cons, List.cons.injEq] at hkeys
      rw [List.map_cons, List.nodup_cons] at hnd
      have h1 := h e1.1 e1.2 (by simp [mapFind])
      have h2 : e1.2 = e2.2 := by
        unfold mapFind at h1
        rw [if_pos hkeys.1.symm] at h1
        simpa using h1.symm
      have he : e1 = e2 := Prod.ext hkeys.1 h2
      rw [he]
      congr 1
      refine ih t2 hkeys.2 hnd.2 ?_
      intro k v hkv
      have hk : k ∈ t1.map Prod.fst := by
        by_contra hc
        rw [← mapFind_eq_none_iff] at hc
        rw [hc] at hkv; cases hkv
      have hne : e1.1 ≠ k := fun h3 => hnd.1 (h3 ▸ hk)
      have := h k v (by unfold mapFind; rw [if_neg hne]; exact hkv)
      unfold mapFind at this
      rw [if_neg (by rw [← hkeys.1]; exact hne)] at this
      exact this

/-! ## Heuristics -/

/-- What the search needs from a variable pick: the sentinel, or an unassigned
variable of the instance. -/
theorem mrv_foldl (domains : List (List Int)) (assignment : List (Nat × Int)) (n : Nat)
    (l : List Nat) (hl : ∀ i ∈ l, i < n) (acc : Int × Option Nat) :
    (acc.2 ≠ none → ∃ v : Nat, acc.1 = (v : Int) ∧ v < n ∧ mapFind assignment v = none) →
    (acc.2 = none → acc.1 = -1) →
    let r := l.foldl (mrvStep domains assignment) acc
    (r.2 ≠ none → ∃ v : Nat, r.1 = (v : Int) ∧ v < n ∧ mapFind assignment v = none) ∧
    (r.2 = none → r.1 = -1 ∧ acc.2 = none ∧ ∀ i ∈ l, mapFind assignment i ≠ none) := by
  induction l generalizing acc with
  | nil =>
    intro h1 h2
    exact ⟨h1, fun h => ⟨h2 h, h, fun i hi => by cases hi⟩⟩
  | cons i rest ih =>
    intro h1 h2
    simp only [List.foldl_cons]
    have hi : i < n := hl i (List.mem_cons_self _ _)
    have hrest : ∀ j ∈ rest, j < n := fun j hj => hl j (List.mem_cons_of_mem _ hj)
    by_cases hu : mapFind assignment i = none
    · have hgood : ∀ sz : Nat, ∃ v : Nat, (((i : Int), some sz) : Int × Option Nat).1 = (v : Int) ∧
          v < n ∧ mapFind assignment v = none := fun sz => ⟨i, rfl, hi, hu⟩
      have hstep : (mrvStep domains assignment acc i).2 ≠ none ∧
          ((mrvStep domains assignment acc i).2 ≠ none →
            ∃ v : Nat, (mrvStep domains assignment acc i).1 = (v : Int) ∧ v < n ∧
              mapFind assignment v = none) := by
        unfold mrvStep
        rw [hu]
        simp only [Option.isNone_none, if_true]
        cases hacc : acc.2 with
        | none => exact ⟨by simp, fun _ => hgood _⟩
        | some m =>
          simp only
          split
          · exact ⟨by simp, fun _ => hgood _⟩
          · exact ⟨by simp [hacc], fun _ => h1 (by simp [hacc])⟩
      have := ih hrest (mrvStep domains assignment acc i) hstep.2 (fun h => absurd h hstep.1)
      refine ⟨this.1, fun h => ?_⟩
      exact absurd (this.2 h).2.1 hstep.1
    · have hstep : mrvStep domains assignment acc i = acc := by
        unfold mrvStep
        cases hf : mapFind assignment i with
        | none => exact absurd hf hu
        | some x => simp
      rw [hstep]
      have := ih hrest acc h1 h2
      refine ⟨this.1, fun h => ?_⟩
      obtain ⟨h3, h4, h5⟩ := this.2 h
      refine ⟨h3, h4, fun j hj => ?_⟩
      rcases List.mem_cons.1 hj with hj | hj
      · rw [hj]; exact hu
      · exact h5 j hj

theorem mrvHeuristic_spec (csp : CSPInstance) (s : CSPSolver) :
    (mrvHeuristic csp s = -1 ∧ ∀ i, i < csp.num_variables → mapFind s.assignment i ≠ none) ∨
    (∃ v : Nat, mrvHeuristic csp s = (v : Int) ∧ v < csp.num_variables ∧
      mapFind s.assignment v = none) := by
  have h := mrv_foldl s.domains s.assignment csp.num_variables (List.range csp.num_variables)
    (fun i hi => List.mem_range.1 hi) (-1, none) (fun h => absurd rfl h) (fun _ => rfl)
  simp only at h
  unfold mrvHeuristic
  cases hr : ((List.range csp.num_variables).foldl (mrvStep s.domains s.assignment) (-1, none)).2 with
  | none =>
    left
    obtain ⟨h1, _, h3⟩ := h.2 hr
    exact ⟨h1, fun i hi => h3 i (List.mem_range.2 hi)⟩
  | some m =>
    right
    exact h.1 (by rw [hr]; simp)

theorem degree_foldl (graph : List (List Nat)) (assignment : List (Nat × Int)) (n : Nat)
    (l : List Nat) (hl : ∀ i ∈ l, i < n) (acc : Int × Int)
    (hacc : (acc.2 = -1 ∧ acc.1 = -1) ∨
      (0 ≤ acc.2 ∧ ∃ v : Nat, acc.1 = (v : Int) ∧ v < n ∧ mapFind assignment v = none)) :
    ((l.foldl (degreeStep graph assignment) acc).2 = -1 ∧
      (l.foldl (degreeStep graph assignment) acc).1 = -1 ∧ acc.2 = -1 ∧
      ∀ i ∈ l, mapFind assignment i ≠ none) ∨
    (0 ≤ (l.foldl (degreeStep graph assignment) acc).2 ∧
      ∃ v : Nat, (l.foldl (degreeStep graph assignment) acc).1 = (v : Int) ∧ v < n ∧
        mapFind assignment v = none) := by
  induction l generalizing acc with
  | nil =>
    rcases hacc with ⟨h1, h2⟩ | h
    · exact Or.inl ⟨h1, h2, h1, fun i hi => by cases hi⟩
    · exact Or.inr h
  | cons i rest ih =>
    simp only [List.foldl_cons]
    have hi : i < n := hl i (List.mem_cons_self _ _)
    have hrest : ∀ j ∈ rest, j < n := fun j hj => hl j (List.mem_cons_of_mem _ hj)
    by_cases hu : mapFind assignment i = none
    · have hgood : 0 ≤ (degreeStep graph assignment acc i).2 ∧
          ∃ v : Nat, (degreeStep graph assignment acc i).1 = (v : Int) ∧ v < n ∧
            mapFind assignment v = none := by
        unfold degreeStep
        rw [hu]
        simp only [Option.isNone_none, if_true]
        split
        · exact ⟨Int.natCast_nonneg _, i, rfl, hi, hu⟩
        · rename_i hgt
          rcases hacc with ⟨h1, _⟩ | h
          · exfalso; apply hgt; rw [h1]
            have := Int.natCast_nonneg (graph.getD i []).length
            omega
          · exact h
      rcases ih hrest _ (Or.inr hgood) with ⟨_, _, h3, _⟩ | h
      · omega
      · exact Or.inr h
    · have hstep : degreeStep graph assignment acc i = acc := by
        unfold degreeStep
        cases hf : mapFind assignment i with
        | none => exact absurd hf hu
        | some x => simp
      rw [hstep]
      rcases ih hrest acc hacc with ⟨h1, h2, h3, h4⟩ | h
      · refine Or.inl ⟨h1, h2, h3, fun j hj => ?_⟩
        rcases List.mem_cons.1 hj with hj | hj
        · rw [hj]; exact hu
        · exact h4 j hj
      · exact Or.inr h

theorem degreeHeuristic_spec (csp : CSPInstance) (s : CSPSolver) :
    (degreeHeuristic csp s = -1 ∧ ∀ i, i < csp.num_variables → mapFind s.assignment i ≠ none) ∨
    (∃ v : Nat, degreeHeuristic csp s = (v : Int) ∧ v < csp.num_variables ∧
      mapFind s.assignment v = none) := by
  unfold degreeHeuristic
  rcases degree_foldl s.var_interaction_graph s.assignment csp.num_variables
    (List.range csp.num_variables) (fun i hi => List.mem_range.1 hi) (-1, -1)
    (Or.inl ⟨rfl, rfl⟩) with ⟨_, h2, _, h4⟩ | ⟨_, h⟩
  · exact Or.inl ⟨h2, fun i hi => h4 i (List.mem_range.2 hi)⟩
  · exact Or.inr h

theorem randomVariable_spec (csp : CSPInstance) (w : World) (s : CSPSolver) :
    ((randomVariable csp w s).1 = -1 ∧ (randomVariable csp w s).2 = s ∧
      ∀ i, i < csp.num_variables → mapFind s.assignment i ≠ none) ∨
    (∃ v : Nat, (randomVariable csp w s).1 = (v : Int) ∧ v < csp.num_variables ∧
      mapFind s.assignment v = none ∧
      (randomVariable csp w s).2 = { s with rng_calls := s.rng_calls + 1 }) := by
  unfold randomVariable
  simp only
  cases hl : (List.range csp.num_variables).filter (fun i => (mapFind s.assignment i).isNone) with
  | nil =>
    left
    refine ⟨rfl, rfl, fun i hi hn => ?_⟩
    have : i ∈ (List.range csp.num_variables).filter (fun i => (mapFind s.assignment i).isNone) := by
      rw [List.mem_filter]; exact ⟨List.mem_range.2 hi, by rw [hn]; rfl⟩
    rw [hl] at this; cases this
  | cons x t =>
    right
    simp only [List.isEmpty_cons, Bool.false_eq_true, if_false]
    have hle := w.uniform_le s.rng_calls ((x :: t).length - 1)
    have hlt : w.uniform s.rng_calls ((x :: t).length - 1) < (x :: t).length := by
      simp only [List.length_cons] at hle ⊢; omega
    have hmem : (x :: t).getD (w.uniform s.rng_calls ((x :: t).length - 1)) 0 ∈ (x :: t) := by
      rw [List.getD_eq_getElem _ _ hlt]
      exact List.getElem_mem _
    have hmem2 : (x :: t).getD (w.uniform s.rng_calls ((x :: t).length - 1)) 0 ∈
        (List.range csp.num_variables).filter (fun i => (mapFind s.assignment i).isNone) := by
      rw [hl]; exact hmem
    rw [List.mem_filter] at hmem2
    exact ⟨_, rfl, List.mem_range.1 hmem2.1, Option.isNone_iff_eq_none.1 hmem2.2, trivial⟩

/-- Every variable strategy answers the sentinel when every variable is
assigned and an unassigned variable of the instance otherwise, and touches
nothing but the generator. -/
theorem selectVariable_spec (csp : CSPInstance) (w : World) (s : CSPSolver) (strategy : String) :
    (∃ k, (selectVariable csp w s strategy).2 = { s with rng_calls := k }) ∧
    (((selectVariable csp w s strategy).1 = -1 ∧
        ∀ i, i < csp.num_variables → mapFind s.assignment i ≠ none) ∨
      (∃ v : Nat, (selectVariable csp w s strategy).1 = (v : Int) ∧ v < csp.num_variables ∧
        mapFind s.assignment v = none)) := by
  unfold selectVariable
  split
  · exact ⟨⟨s.rng_calls, rfl⟩, mrvHeuristic_spec csp s⟩
  · split
    · exact ⟨⟨s.rng_calls, rfl⟩, degreeHeuristic_spec csp s⟩
    · split
      · rcases randomVariable_spec csp w s with ⟨h1, h2, h3⟩ | ⟨v, h1, h2, h3, h4⟩
        · exact ⟨⟨s.rng_calls, by rw [h2]⟩, Or.inl ⟨h1, h3⟩⟩
        · exact ⟨⟨s.rng_calls + 1, h4⟩, Or.inr ⟨v, h1, h2, h3⟩⟩
      · exact ⟨⟨s.rng_calls, rfl⟩, mrvHeuristic_spec csp s⟩

/-- Every value strategy answers a permutation of the current domain of the
variable and touches nothing but the generator. -/
theorem orderValues_spec (csp : CSPInstance) (w : World) (s : CSPSolver) (var : Nat)
    (strategy : String) :
    (∃ k, (orderValues csp w s var strategy).2 = { s with rng_calls := k }) ∧
    List.Perm (orderValues csp w s var strategy).1 (s.domains.getD var []) := by
  have hlex : List.Perm (lexicographicValues s var) (s.domains.getD var []) :=
    List.perm_insertionSort _ _
  unfold orderValues
  split
  · refine ⟨⟨s.rng_calls, rfl⟩, ?_⟩
    unfold lcvHeuristic
    have h1 := (w.sort_by_second_perm ((s.domains.getD var []).map (fun value =>
      (value, countConflicts csp s var value)))).map (fun pair => pair.1)
    refine h1.trans ?_
    rw [List.map_map]
    have : ((fun pair : Int × Int => pair.1) ∘ fun value => (value, countConflicts csp s var value))
        = id := rfl
    rw [this, List.map_id]
  · split
    · exact ⟨⟨s.rng_calls + 1, rfl⟩, w.shuffle_perm _ _⟩
    · split
      · exact ⟨⟨s.rng_calls, rfl⟩, hlex⟩
      · exact ⟨⟨s.rng_calls, rfl⟩, hlex⟩

/-! ## The constraint graph of the constructor -/

theorem uniqueAdjacent_sublist : ∀ l : List Nat, (uniqueAdjacent l).Sublist l
  | [] => List.Sublist.refl _
  | [_] => List.Sublist.refl _
  | x :: y :: rest => by
    unfold uniqueAdjacent
    split
    · exact (uniqueAdjacent_sublist (y :: rest)).cons x
    · exact (uniqueAdjacent_sublist (y :: rest)).cons₂ x

theorem getD_mem_or_nil {α : Type} (g : List (List α)) (u : Nat) :
    g.getD u [] ∈ g ∨ g.getD u [] = [] := by
  by_cases h : u < g.length
  · left; rw [List.getD_eq_getElem _ _ h]; exact List.getElem_mem _
  · right; simp [List.getElem?_eq_none (Nat.le_of_not_lt h)]

theorem addConstraintEdges_below (n : Nat) (graph : List (List Nat)) (c : Constraint)
    (hc : c.var1 < n ∧ c.var2 < n) (hg : ∀ l ∈ graph, ∀ w ∈ l, w < n) :
    ∀ l ∈ addConstraintEdges graph c, ∀ w ∈ l, w < n := by
  have hget : ∀ (g : List (List Nat)), (∀ l ∈ g, ∀ w ∈ l, w < n) → ∀ u, ∀ w ∈ g.getD u [], w < n := by
    intro g hg2 u w hw
    rcases getD_mem_or_nil g u with h | h
    · exact hg2 _ h w hw
    · rw [h] at hw; cases hw
  have hset : ∀ (g : List (List Nat)) (i x : Nat), x < n → (∀ l ∈ g, ∀ w ∈ l, w < n) →
      ∀ l ∈ g.set i (g.getD i [] ++ [x]), ∀ w ∈ l, w < n := by
    intro g i x hx hg2 l hl w hw
    rcases List.mem_or_eq_of_mem_set hl with h | h
    · exact hg2 l h w hw
    · rw [h] at hw
      rcases List.mem_append.1 hw with h2 | h2
      · exact hget g hg2 i w h2
      · rw [List.mem_singleton.1 h2]; exact hx
  unfold addConstraintEdges
  exact hset _ c.var2 c.var1 hc.1 (hset graph c.var1 c.var2 hc.2 hg)

theorem foldl_addConstraintEdges (n : Nat) (cs : List Constraint)
    (hcs : ∀ c ∈ cs, c.var1 < n ∧ c.var2 < n) (graph : List (List Nat))
    (hg : ∀ l ∈ graph, ∀ w ∈ l, w < n) :
    (cs.foldl addConstraintEdges graph).length = graph.length ∧
    ∀ l ∈ cs.foldl addConstraintEdges graph, ∀ w ∈ l, w < n := by
  induction cs generalizing graph with
  | nil => exact ⟨rfl, hg⟩
  | cons c rest ih =>
    simp only [List.foldl_cons]
    have := ih (fun c2 h2 => hcs c2 (List.mem_cons_of_mem _ h2)) (addConstraintEdges graph c)
      (addConstraintEdges_below n graph c (hcs c (List.mem_cons_self _ _)) hg)
    refine ⟨?_, this.2⟩
    rw [this.1]
    simp [addConstraintEdges]

/-- The constraint graph has one entry per variable and names only variables
of the instance. -/
theorem buildInteractionGraph_spec (csp : CSPInstance)
    (hcs : ∀ c ∈ csp.constraints, c.var1 < csp.num_variables ∧ c.var2 < csp.num_variables) :
    (buildInteractionGraph csp).length = csp.num_variables ∧
    ∀ u, ∀ w ∈ (buildInteractionGraph csp).getD u [], w < csp.num_variables := by
  have h := foldl_addConstraintEdges csp.num_variables csp.constraints hcs
    (List.replicate csp.num_variables []) (by
      intro l hl w hw
      rw [List.eq_of_mem_replicate hl] at hw
      cases hw)
  unfold buildInteractionGraph
  refine ⟨by rw [List.length_map, h.1, List.length_replicate], ?_⟩
  intro u w hw
  rcases getD_mem_or_nil ((csp.constraints.foldl addConstraintEdges
      (List.replicate csp.num_variables [])).map
      (fun neighbors => uniqueAdjacent (neighbors.insertionSort (fun a b => a ≤ b)))) u with h2 | h2
  · rw [List.mem_map] at h2
    obtain ⟨l, hl, heq⟩ := h2
    rw [← heq] at hw
    have h3 := (uniqueAdjacent_sublist _).subset hw
    exact h.2 l hl w ((List.perm_insertionSort _ l).subset h3)
  · rw [h2] at hw; cases hw

/-! ## Forward checking -/

/-- The forward checker changes only the domains; it keeps their number, it
only removes values, and it keeps every value `f w` that is compatible with
the tentative assignment. -/
theorem forwardCheckLoop_spec (csp : CSPInstance) (var : Nat) (value : Int)
    (nbrs : List Nat) (s : CSPSolver) :
    (forwardCheckLoop csp var value nbrs s).2 =
      { s with domains := (forwardCheckLoop csp var value nbrs s).2.domains } ∧
    (forwardCheckLoop csp var value nbrs s).2.domains.length = s.domains.length ∧
    (∀ i, ((forwardCheckLoop csp var value nbrs s).2.domains.getD i []).Sublist
      (s.domains.getD i [])) ∧
    (∀ (f : Nat → Int) (n : Nat), (∀ w ∈ nbrs, w < n) →
      (∀ i, i < n → f i ∈ s.domains.getD i []) →
      (∀ w, csp.isConsistent var value w (f w) = true) →
      (forwardCheckLoop csp var value nbrs s).1 = true ∧
      ∀ i, i < n → f i ∈ (forwardCheckLoop csp var value nbrs s).2.domains.getD i []) := by
  induction nbrs generalizing s with
  | nil =>
    exact ⟨rfl, rfl, fun i => List.Sublist.refl _, fun f n _ hf _ => ⟨rfl, hf⟩⟩
  | cons nb rest ih =>
    unfold forwardCheckLoop
    by_cases hun : (mapFind s.assignment nb).isNone = true
    · rw [if_pos hun]
      simp only
      by_cases hem : ((s.domains.getD nb []).filter (fun neighbor_value =>
          csp.isConsistent var value nb neighbor_value)).isEmpty = true
      · rw [if_pos hem]
        refine ⟨rfl, rfl, fun i => List.Sublist.refl _, fun f n hn hf hc => ?_⟩
        exfalso
        have hmem : f nb ∈ (s.domains.getD nb []).filter (fun neighbor_value =>
            csp.isConsistent var value nb neighbor_value) := by
          rw [List.mem_filter]
          exact ⟨hf nb (hn nb (List.mem_cons_self _ _)), hc nb⟩
        rw [List.isEmpty_iff] at hem
        rw [hem] at hmem
        cases hmem
      · rw [if_neg hem]
        obtain ⟨h1, h2, h3, h4⟩ := ih { s with domains := (s.domains.set nb
          ((s.domains.getD nb []).filter (fun neighbor_value =>
            csp.isConsistent var value nb neighbor_value))) }
        refine ⟨?_, ?_, ?_, ?_⟩
        · rw [h1]
        · rw [h2]; simp
        · intro i
          exact (h3 i).trans (set_getD_sublist _ _ _ (List.filter_sublist _) i)
        · intro f n hn hf hc
          refine h4 f n (fun w hw => hn w (List.mem_cons_of_mem _ hw)) ?_ hc
          intro i hi
          simp only
          by_cases hnb : nb < s.domains.length
          · by_cases hni : nb = i
            · subst hni
              rw [getD_set_self _ _ _ _ hnb, List.mem_filter]
              exact ⟨hf nb hi, hc nb⟩
            · rw [getD_set_ne _ _ _ _ _ hni]; exact hf i hi
          · rw [set_of_length_le _ _ _ (Nat.le_of_not_lt hnb)]; exact hf i hi
    · rw [if_neg hun]
      obtain ⟨h1, h2, h3, h4⟩ := ih s
      exact ⟨h1, h2, h3, fun f n hn hf hc =>
        h4 f n (fun w hw => hn w (List.mem_cons_of_mem _ hw)) hf hc⟩

/-! ## Initial domains -/

theorem mem_intervalValues (lo hi x : Int) : x ∈ intervalValues lo hi ↔ lo ≤ x ∧ x ≤ hi := by
  unfold intervalValues
  rw [List.mem_map]
  constructor
  · rintro ⟨k, hk, rfl⟩
    rw [List.mem_range] at hk
    omega
  · rintro ⟨h1, h2⟩
    refine ⟨(x - lo).toNat, ?_, ?_⟩
    · rw [List.mem_range]; omega
    · omega

theorem nodup_intervalValues (lo hi : Int) : (intervalValues lo hi).Nodup := by
  unfold intervalValues
  refine List.Nodup.map ?_ (List.nodup_range _)
  intro a b h
  simp only at h
  omega

theorem initialDomains_length (csp : CSPInstance) :
    csp.initialDomains.length = csp.num_variables := by
  simp [CSPInstance.initialDomains]

theorem initialDomains_getD (csp : CSPInstance) (i : Nat) (h : i < csp.num_variables) :
    csp.initialDomains.getD i [] =
      intervalValues (csp.domains.getD i (0, 0)).1 (csp.domains.getD i (0, 0)).2 := by
  unfold CSPInstance.initialDomains
  rw [List.getD_eq_getElem _ _ (by simpa using h)]
  simp

theorem sum_length_le_of_sublist (l1 l2 : List (List Int)) (hlen : l1.length = l2.length)
    (h : ∀ i, (l1.getD i []).Sublist (l2.getD i [])) :
    (l1.map List.length).sum ≤ (l2.map List.length).sum := by
  induction l1 generalizing l2 with
  | nil => simp
  | cons a t ih =>
    cases l2 with
    | nil => simp at hlen
    | cons b t2 =>
      have h0 := (h 0).length_le
      have ht := ih t2 (by simpa using hlen) (fun i => by simpa using h (i + 1))
      simp only [List.getD_cons_zero] at h0
      simp only [List.map_cons, List.sum_cons]
      omega

/-! ## The invariant of the search -/

theorem stateOk_domains (csp : CSPInstance) (D D2 : List (List Int)) (A : List (Nat × Int))
    (G : List (List Nat)) (h : StateOk csp D A G) (hlen : D2.length = D.length)
    (hsub : ∀ i, (D2.getD i []).Sublist (D.getD i [])) : StateOk csp D2 A G :=
  { dom_len := hlen.trans h.dom_len
    dom_sub := fun i => (hsub i).trans (h.dom_sub i)
    graph_lt := h.graph_lt
    asg_ord := h.asg_ord
    asg_in := h.asg_in
    asg_cons := h.asg_cons }

theorem stateOk_new (csp : CSPInstance)
    (hcs : ∀ c ∈ csp.constraints, c.var1 < csp.num_variables ∧ c.var2 < csp.num_variables) :
    StateOk csp (CSPSolver.new csp).domains (CSPSolver.new csp).assignment
      (CSPSolver.new csp).var_interaction_graph :=
  { dom_len := initialDomains_length csp
    dom_sub := fun _ => List.Sublist.refl _
    graph_lt := (buildInteractionGraph_spec csp hcs).2
    asg_ord := List.Pairwise.nil
    asg_in := fun kv h => by cases h
    asg_cons := fun c _ x y h => by simp [CSPSolver.new, mapFind] at h }

theorem stateOk_mem_domain (csp : CSPInstance) (D : List (List Int)) (A : List (Nat × Int))
    (G : List (List Nat)) (h : StateOk csp D A G) (i : Nat) (x : Int) (hx : x ∈ D.getD i []) :
    i < csp.num_variables ∧
      (csp.domains.getD i (0, 0)).1 ≤ x ∧ x ≤ (csp.domains.getD i (0, 0)).2 := by
  have hi : i < csp.num_variables := by
    by_contra hc
    rw [getD_nil_of_length_le _ _ (by rw [h.dom_len]; omega)] at hx
    cases hx
  have := (h.dom_sub i).subset hx
  rw [initialDomains_getD csp i hi, mem_intervalValues] at this
  exact ⟨hi, this⟩

theorem stateOk_nodup_domain (csp : CSPInstance) (D : List (List Int)) (A : List (Nat × Int))
    (G : List (List Nat)) (h : StateOk csp D A G) (i : Nat) : (D.getD i []).Nodup := by
  by_cases hi : i < csp.num_variables
  · have := h.dom_sub i
    rw [initialDomains_getD csp i hi] at this
    exact (nodup_intervalValues _ _).sublist this
  · rw [getD_nil_of_length_le _ _ (by rw [h.dom_len]; omega)]
    exact List.nodup_nil

theorem isConsistent_of_sat (csp : CSPInstance) (f : Nat → Int) (hf : Satisfies csp f)
    (u v : Nat) : csp.isConsistent u (f u) v (f v) = true := by
  rw [isConsistent_iff]
  intro c hc
  refine ⟨fun h => ?_, fun _ h => ?_⟩
  · rw [← h.1, ← h.2]; exact hf.2 c hc
  · rw [← h.1, ← h.2]; exact hf.2 c hc

/-- The per-value check of the search passes for the value of a satisfying
assignment that agrees with the partial assignment. -/
theorem solver_isConsistent_of_sat (csp : CSPInstance) (f : Nat → Int) (hf : Satisfies csp f)
    (s : CSPSolver) (hag : Agrees s.assignment f) (var : Nat) :
    CSPSolver.isConsistent csp s var (f var) = true := by
  unfold CSPSolver.isConsistent
  rw [List.all_eq_true]
  intro c _
  split
  · cases hm : mapFind s.assignment c.var2 with
    | none => rfl
    | some y =>
      simp only
      rw [hag _ _ hm]
      exact isConsistent_of_sat csp f hf _ _
  · split
    · cases hm : mapFind s.assignment c.var1 with
      | none => rfl
      | some x =>
        simp only
        rw [hag _ _ hm]
        exact isConsistent_of_sat csp f hf _ _
    · rfl

/-- A value that passes the per-value check extends the invariant. -/
theorem stateOk_insert (csp : CSPInstance)
    (hne : ∀ c ∈ csp.constraints, c.var1 ≠ c.var2)
    (s : CSPSolver) (D : List (List Int))
    (h : StateOk csp D s.assignment s.var_interaction_graph) (var : Nat) (value : Int)
    (hvar : var < csp.num_variables)
    (hval : (csp.domains.getD var (0, 0)).1 ≤ value ∧ value ≤ (csp.domains.getD var (0, 0)).2)
    (hc : CSPSolver.isConsistent csp s var value = true) :
    StateOk csp D (mapInsert s.assignment var value) s.var_interaction_graph :=
  { dom_len := h.dom_len
    dom_sub := h.dom_sub
    graph_lt := h.graph_lt
    asg_ord := mapInsert_ordered _ h.asg_ord _ _
    asg_in := by
      intro kv hkv
      rcases mapInsert_mem _ _ _ _ hkv with h1 | h1
      · rw [h1]; exact ⟨hvar, hval⟩
      · exact h.asg_in kv h1
    asg_cons := by
      intro c hcm x y hx hy
      rw [mapFind_insert] at hx hy
      unfold CSPSolver.isConsistent at hc
      rw [List.all_eq_true] at hc
      have hcc := hc c hcm
      by_cases h1 : c.var1 = var
      · have h2 : c.var2 ≠ var := fun h2 => hne c hcm (h1.trans h2.symm)
        rw [if_pos h1] at hx hcc
        rw [if_neg h2] at hy
        rw [hy] at hcc
        simp only at hcc
        rw [isConsistent_iff] at hcc
        have := (hcc c hcm).1 ⟨h1, rfl⟩
        have hxv : value = x := by simpa using hx
        rw [← hxv]; exact this
      · rw [if_neg h1] at hx hcc
        by_cases h2 : c.var2 = var
        · rw [if_pos h2] at hy hcc
          rw [hx] at hcc
          simp only at hcc
          rw [isConsistent_iff] at hcc
          have := (hcc c hcm).1 ⟨rfl, h2⟩
          have hyv : value = y := by simpa using hy
          rw [← hyv]; exact this
        · rw [if_neg h2] at hy
          exact h.asg_cons c hcm x y hx hy }

/-! ## Complete assignments -/

theorem mapFind_totalMap (n : Nat) (f : Nat → Int) (k : Nat) (hk : k < n) :
    mapFind (totalMap n f) k = some (f k) := by
  apply mapFind_of_mem
  · unfold MapOrdered totalMap
    rw [List.pairwise_map]
    exact List.Pairwise.imp (fun h => h) (List.pairwise_lt_range n)
  · unfold totalMap
    rw [List.mem_map]
    exact ⟨k, List.mem_range.2 hk, rfl⟩

theorem totalMap_keys (n : Nat) (f : Nat → Int) : (totalMap n f).map Prod.fst = List.range n := by
  unfold totalMap
  rw [List.map_map]
  exact List.map_id _

/-- A complete assignment that satisfies the invariant passes the validator and
is a solution in the sense of the specification. -/
theorem validate_of_stateOk (csp : CSPInstance)
    (hcs : ∀ c ∈ csp.constraints, c.var1 < csp.num_variables ∧ c.var2 < csp.num_variables)
    (D : List (List Int)) (A : List (Nat × Int)) (G : List (List Nat))
    (h : StateOk csp D A G) (hlen : A.length = csp.num_variables) :
    CSPSolver.validateSolution csp A = true ∧ IsSolution csp A := by
  have hkeys := mapOrdered_keys_eq_range A h.asg_ord csp.num_variables (by
    intro k hk
    rw [List.mem_map] at hk
    obtain ⟨kv, hkv, rfl⟩ := hk
    exact (h.asg_in kv hkv).1) hlen
  have hcons : ∀ c ∈ csp.constraints, ∀ x y, mapFind A c.var1 = some x →
      mapFind A c.var2 = some y → csp.isConsistent c.var1 x c.var2 y = true := by
    intro c hc x y hx hy
    rw [isConsistent_iff]
    intro c2 hc2
    refine ⟨fun h2 => ?_, fun _ h2 => ?_⟩
    · exact h.asg_cons c2 hc2 x y (by rw [h2.1]; exact hx) (by rw [h2.2]; exact hy)
    · exact h.asg_cons c2 hc2 y x (by rw [h2.1]; exact hy) (by rw [h2.2]; exact hx)
  have hsome : ∀ k, k < csp.num_variables → ∃ v, mapFind A k = some v := by
    intro k hk
    cases hm : mapFind A k with
    | some v => exact ⟨v, rfl⟩
    | none =>
      rw [mapFind_eq_none_iff, hkeys] at hm
      exact absurd (List.mem_range.2 hk) hm
  constructor
  · unfold CSPSolver.validateSolution
    rw [if_neg (by simpa using hlen)]
    have hall : A.all (fun kv =>
        decide (kv.1 < csp.num_variables) &&
        decide ((csp.domains.getD kv.1 (0, 0)).1 ≤ kv.2 ∧
          kv.2 ≤ (csp.domains.getD kv.1 (0, 0)).2)) = true := by
      rw [List.all_eq_true]
      intro kv hkv
      have := h.asg_in kv hkv
      simp only [Bool.and_eq_true, decide_eq_true_eq]
      exact this
    rw [hall]
    simp only [Bool.not_true, Bool.false_eq_true, if_false]
    rw [List.all_eq_true]
    intro c hc
    obtain ⟨x, hx⟩ := hsome c.var1 (hcs c hc).1
    obtain ⟨y, hy⟩ := hsome c.var2 (hcs c hc).2
    rw [hx, hy]
    exact hcons c hc x y hx hy
  · refine ⟨hkeys, fun kv hkv => (h.asg_in kv hkv).2, fun c hc => ?_⟩
    obtain ⟨x, hx⟩ := hsome c.var1 (hcs c hc).1
    obtain ⟨y, hy⟩ := hsome c.var2 (hcs c hc).2
    exact ⟨x, y, hx, hy, hcons c hc x y hx hy⟩

/-- A complete assignment that satisfies the invariant is the map of every
function it agrees with. -/
theorem eq_totalMap_of_agrees (csp : CSPInstance)
    (D : List (List Int)) (A : List (Nat × Int)) (G : List (List Nat))
    (h : StateOk csp D A G) (hlen : A.length = csp.num_variables) (f : Nat → Int)
    (hag : Agrees A f) : A = totalMap csp.num_variables f := by
  have hkeys := mapOrdered_keys_eq_range A h.asg_ord csp.num_variables (by
    intro k hk
    rw [List.mem_map] at hk
    obtain ⟨kv, hkv, rfl⟩ := hk
    exact (h.asg_in kv hkv).1) hlen
  refine map_ext_of_keys A _ (by rw [hkeys, totalMap_keys]) (mapOrdered_keys_nodup A h.asg_ord) ?_
  intro k v hkv
  rw [hag k v hkv]
  exact mapFind_totalMap _ _ _ (h.asg_in _ (mapFind_mem _ _ _ hkv)).1

/-- Every solution in the sense of the specification is the map of a function
that satisfies the instance. -/
theorem isSolution_totalMap (csp : CSPInstance) (sol : List (Nat × Int))
    (h : IsSolution csp sol) :
    ∃ f, Satisfies csp f ∧ sol = totalMap csp.num_variables f := by
  obtain ⟨hkeys, hin, hcons⟩ := h
  have hnd : (sol.map Prod.fst).Nodup := by rw [hkeys]; exact List.nodup_range _
  have hfind : ∀ k, k < csp.num_variables → ∃ v, mapFind sol k = some v := by
    intro k hk
    cases hm : mapFind sol k with
    | some v => exact ⟨v, rfl⟩
    | none =>
      rw [mapFind_eq_none_iff, hkeys] at hm
      exact absurd (List.mem_range.2 hk) hm
  refine ⟨fun i => (mapFind sol i).getD 0, ⟨?_, ?_⟩, ?_⟩
  · intro i hi
    obtain ⟨v, hv⟩ := hfind i hi
    simp only [hv, Option.getD_some]
    exact hin (i, v) (mapFind_mem _ _ _ hv)
  · intro c hc
    obtain ⟨x, y, hx, hy, hxy⟩ := hcons c hc
    simp only [hx, hy, Option.getD_some]
    rw [isConsistent_iff] at hxy
    exact (hxy c hc).1 ⟨rfl, rfl⟩
  · refine map_ext_of_keys sol _ (by rw [hkeys, totalMap_keys]) hnd ?_
    intro k v hkv
    have hk : k < csp.num_variables := by
      have := List.mem_map_of_mem Prod.fst (mapFind_mem _ _ _ hkv)
      rw [hkeys] at this
      exact List.mem_range.1 this
    rw [mapFind_totalMap _ _ _ hk]
    simp only [hkv, Option.getD_some]

/-! ## Node-level AC-3 in the search -/

theorem applyAC3_spec (csp : CSPInstance)
    (hcs : ∀ c ∈ csp.constraints, c.var1 < csp.num_variables ∧ c.var2 < csp.num_variables)
    (fuel : Nat) (s : CSPSolver)
    (h : StateOk csp s.domains s.assignment s.var_interaction_graph)
    (hfuel : ac3Fuel csp ≤ fuel) :
    ∃ b s1, CSPSolver.applyAC3 csp fuel s = some (b, s1) ∧
      s1 = { s with domains := s1.domains } ∧
      (b = false → s1 = s) ∧
      StateOk csp s1.domains s.assignment s.var_interaction_graph ∧
      (∀ f, Satisfies csp f → InDomains csp.num_variables s.domains f →
        b = true ∧ InDomains csp.num_variables s1.domains f) := by
  have hb : AC3Algorithm.fuelBound csp ((AC3Algorithm.new csp).setDomains s.domains) ≤ fuel := by
    refine le_trans ?_ hfuel
    unfold ac3Fuel AC3Algorithm.fuelBound AC3Algorithm.setDomains AC3Algorithm.new
    simp only
    have := sum_length_le_of_sublist s.domains csp.initialDomains
      (by rw [h.dom_len, initialDomains_length]) h.dom_sub
    have := Nat.mul_le_mul_right (csp.constraints.length + 1) this
    omega
  obtain ⟨b, a2, h1, h2, h3, _⟩ := apply_spec csp fuel _ hb
  have hkeep : ∀ f, Satisfies csp f → InDomains csp.num_variables s.domains f →
      b = true ∧ InDomains csp.num_variables a2.domains f := by
    intro f hf hin
    refine apply_keeps csp f csp.num_variables hcs hf.2 fuel
      ((AC3Algorithm.new csp).setDomains s.domains) b a2 ?_ hin h1
    intro arc harc
    obtain ⟨c, hc, h4 | h4⟩ := initialWorklist_mem _ _ harc
    · rw [h4.1, h4.2]; exact hcs c hc
    · rw [h4.1, h4.2]; exact ⟨(hcs c hc).2, (hcs c hc).1⟩
  unfold CSPSolver.applyAC3
  rw [h1]
  simp only
  cases b with
  | true =>
    refine ⟨true, _, rfl, rfl, ?_, ?_, hkeep⟩
    · intro hc; cases hc
    · exact stateOk_domains csp _ _ _ _ h h2 h3
  | false =>
    refine ⟨false, _, rfl, rfl, fun _ => rfl, h, ?_⟩
    intro f hf hin
    exact absurd (hkeep f hf hin).1 (by simp)

/-! ## The value loop of the search -/

theorem valueLoop_cons (csp : CSPInstance) (args : SolveArgs)
    (recurse : CSPSolver → Option (Bool × CSPSolver)) (var : Nat) (value : Int)
    (rest : List Int) (s : CSPSolver) :
    valueLoop csp args recurse var (value :: rest) s =
      if !CSPSolver.isConsistent csp (bumpNodes s) var value then
        valueLoop csp args recurse var rest (bumpNodes s)
      else if !(fcResult csp args (bumpNodes s) var value).1 then
        valueLoop csp args recurse var rest
          ((fcResult csp args (bumpNodes s) var value).2.restoreDomains
            (if args.use_forward_checking then (bumpNodes s).backupDomains else []))
      else
        match recurse (assignVar (fcResult csp args (bumpNodes s) var value).2 var value) with
        | none => none
        | some (result, s3) =>
          if result && args.first_solution_only then some (true, s3)
          else
            valueLoop csp args recurse var rest
              (undoValue args s3
                (if args.use_forward_checking then (bumpNodes s).backupDomains else []) var) := by
  rfl

theorem fcResult_spec (csp : CSPInstance) (args : SolveArgs) (s : CSPSolver) (var : Nat)
    (value : Int) :
    (fcResult csp args s var value).2 =
      { s with domains := (fcResult csp args s var value).2.domains } ∧
    (fcResult csp args s var value).2.domains.length = s.domains.length ∧
    (∀ i, ((fcResult csp args s var value).2.domains.getD i []).Sublist (s.domains.getD i [])) ∧
    ((fcResult csp args s var value).1 = false → args.use_forward_checking = true) ∧
    (args.use_forward_checking = false → (fcResult csp args s var value).2 = s) ∧
    (∀ (f : Nat → Int) (n : Nat), (∀ u, ∀ w ∈ s.var_interaction_graph.getD u [], w < n) →
      InDomains n s.domains f →
      (∀ w, csp.isConsistent var value w (f w) = true) →
      (fcResult csp args s var value).1 = true ∧
      InDomains n (fcResult csp args s var value).2.domains f) := by
  unfold fcResult
  by_cases h : args.use_forward_checking = true
  · rw [if_pos h]
    unfold CSPSolver.forwardCheckWithDomainReduction
    obtain ⟨h1, h2, h3, h4⟩ := forwardCheckLoop_spec csp var value
      (s.var_interaction_graph.getD var []) s
    refine ⟨h1, h2, h3, fun _ => h, ?_, ?_⟩
    · intro h5; rw [h] at h5; cases h5
    · intro f n hg hin hc
      exact h4 f n (hg var) hin hc
  · rw [if_neg h]
    refine ⟨rfl, rfl, fun i => List.Sublist.refl _, ?_, fun _ => rfl, ?_⟩
    · intro h5; cases h5
    · intro f n _ hin _
      exact ⟨rfl, hin⟩

theorem extends_of_insert (A sol : List (Nat × Int)) (var : Nat) (value : Int)
    (hun : mapFind A var = none) (h : Extends (mapInsert A var value) sol) :
    Extends A sol ∧ mapFind sol var = some value := by
  constructor
  · intro k v hkv
    apply h
    rw [mapFind_insert]
    by_cases hk : k = var
    · rw [hk, hun] at hkv; cases hkv
    · rw [if_neg hk]; exact hkv
  · apply h
    rw [mapFind_insert, if_pos rfl]

theorem agrees_insert (A : List (Nat × Int)) (f : Nat → Int) (var : Nat)
    (h : Agrees A f) : Agrees (mapInsert A var (f var)) f := by
  intro k v hkv
  rw [mapFind_insert] at hkv
  by_cases hk : k = var
  · rw [if_pos hk] at hkv
    rw [hk]
    simpa using hkv.symm
  · rw [if_neg hk] at hkv
    exact h k v hkv

theorem searchPost_of_eq (csp : CSPInstance) (w : World) (args : SolveArgs)
    (s t : CSPSolver) (b : Bool) (s2 : CSPSolver) (new : List (List (Nat × Int)))
    (hs : t.solutions = s.solutions) (ha : t.assignment = s.assignment)
    (hd : t.domains = s.domains) (hg : t.var_interaction_graph = s.var_interaction_graph)
    (h : SearchPost csp w args t b s2 new) : SearchPost csp w args s b s2 new :=
  { sols := by rw [← hs]; exact h.sols
    valid := by rw [← ha]; exact h.valid
    distinct := h.distinct
    found := h.found
    not_found := h.not_found
    frame := by rw [← hd, ← ha]; exact h.frame
    graph := by rw [← hg]; exact h.graph }

theorem searchComplete_of_eq (csp : CSPInstance) (w : World) (args : SolveArgs)
    (s t : CSPSolver) (b : Bool) (new : List (List (Nat × Int))) (sel : (Nat → Int) → Prop)
    (ha : t.assignment = s.assignment) (hd : t.domains = s.domains)
    (h : SearchComplete csp w args t b new sel) : SearchComplete csp w args s b new sel := by
  unfold SearchComplete at h ⊢
  rw [← ha, ← hd]
  exact h

theorem undoValue_fields (args : SolveArgs) (s : CSPSolver) (backup : List (List Int))
    (var : Nat) :
    (undoValue args s backup var).domains =
      (if args.use_forward_checking then backup else s.domains) ∧
    (undoValue args s backup var).assignment = mapErase s.assignment var ∧
    (undoValue args s backup var).solutions = s.solutions ∧
    (undoValue args s backup var).var_interaction_graph = s.var_interaction_graph := by
  unfold undoValue CSPSolver.restoreDomains
  by_cases h : args.use_forward_checking = true
  · simp only [h, if_true, and_self]
  · simp only [h, if_false, and_self]
    simp

/-- The value loop, given that the recursive call meets the contract of the
search on every state with one more assigned variable. -/
theorem valueLoop_spec (csp : CSPInstance) (w : World) (args : SolveArgs)
    (hwf : ∀ c ∈ csp.constraints,
      c.var1 ≠ c.var2 ∧ c.var1 < csp.num_variables ∧ c.var2 < csp.num_variables)
    (recurse : CSPSolver → Option (Bool × CSPSolver)) (var : Nat)
    (hvar : var < csp.num_variables)
    (A : List (Nat × Int)) (hun : mapFind A var = none)
    (hrec : ∀ s1 : CSPSolver, StateOk csp s1.domains s1.assignment s1.var_interaction_graph →
      s1.assignment.length = A.length + 1 →
      ∃ b s2 new, recurse s1 = some (b, s2) ∧ SearchPost csp w args s1 b s2 new ∧
        SearchComplete csp w args s1 b new (fun _ => True))
    (vals : List Int) (hnd : vals.Nodup)
    (hin : ∀ v ∈ vals,
      (csp.domains.getD var (0, 0)).1 ≤ v ∧ v ≤ (csp.domains.getD var (0, 0)).2)
    (s : CSPSolver) (hsA : s.assignment = A)
    (hok : StateOk csp s.domains s.assignment s.var_interaction_graph) :
    ∃ b s2 new, valueLoop csp args recurse var vals s = some (b, s2) ∧
      SearchPost csp w args s b s2 new ∧
      (∀ sol ∈ new, ∃ v ∈ vals, mapFind sol var = some v) ∧
      SearchComplete csp w args s b new (fun f => f var ∈ vals) := by
  induction vals generalizing s with
  | nil =>
    refine ⟨false, s, [], rfl, ?_, ?_, ?_⟩
    · exact { sols := by simp
              valid := fun sol h => by cases h
              distinct := List.Pairwise.nil
              found := fun h => by cases h
              not_found := fun _ _ => rfl
              frame := fun _ => ⟨rfl, rfl⟩
              graph := rfl }
    · intro sol h; cases h
    · intro _ f _ _ _ h; cases h
  | cons value rest ih =>
    have hnd2 : rest.Nodup := (List.nodup_cons.1 hnd).2
    have hnotin : value ∉ rest := (List.nodup_cons.1 hnd).1
    have hin2 : ∀ v ∈ rest,
        (csp.domains.getD var (0, 0)).1 ≤ v ∧ v ≤ (csp.domains.getD var (0, 0)).2 :=
      fun v hv => hin v (List.mem_cons_of_mem _ hv)
    have hval := hin value (List.mem_cons_self _ _)
    have hok1 : StateOk csp (bumpNodes s).domains (bumpNodes s).assignment
        (bumpNodes s).var_interaction_graph := hok
    have hmono : ∀ (new : List (List (Nat × Int))),
        (∀ sol ∈ new, ∃ v ∈ rest, mapFind sol var = some v) →
        ∀ sol ∈ new, ∃ v ∈ value :: rest, mapFind sol var = some v :=
      fun new h sol hs => by
        obtain ⟨v, hv, hm⟩ := h sol hs
        exact ⟨v, List.mem_cons_of_mem _ hv, hm⟩
    rw [valueLoop_cons]
    by_cases hc : CSPSolver.isConsistent csp (bumpNodes s) var value = true
    swap
    · -- the value fails the per-value check
      have hc2 : CSPSolver.isConsistent csp (bumpNodes s) var value = false := by simpa using hc
      rw [hc2]
      simp only [Bool.not_false, if_true]
      obtain ⟨b, s2, new, h1, h2, h3, h4⟩ := ih hnd2 hin2 (bumpNodes s) hsA hok1
      refine ⟨b, s2, new, h1, searchPost_of_eq csp w args s (bumpNodes s) b s2 new rfl rfl rfl rfl h2,
        hmono new h3, ?_⟩
      intro hnt f hf hag hind hsel
      rcases List.mem_cons.1 hsel with heq | hmem
      · have := solver_isConsistent_of_sat csp f hf (bumpNodes s) hag var
        rw [heq, hc2] at this
        cases this
      · exact h4 hnt f hf hag hind hmem
    · rw [hc]
      simp only [Bool.not_true, Bool.false_eq_true, if_false]
      obtain ⟨hfc1, hfc2, hfc3, hfc4, hfc5, hfc6⟩ := fcResult_spec csp args (bumpNodes s) var value
      have hfcA : (fcResult csp args (bumpNodes s) var value).2.assignment = s.assignment := by
        have := congrArg CSPSolver.assignment hfc1
        exact this
      have hfcS : (fcResult csp args (bumpNodes s) var value).2.solutions = s.solutions := by
        have := congrArg CSPSolver.solutions hfc1
        exact this
      have hfcG : (fcResult csp args (bumpNodes s) var value).2.var_interaction_graph
          = s.var_interaction_graph := by
        have := congrArg CSPSolver.var_interaction_graph hfc1
        exact this
      have hkeep : ∀ f, Satisfies csp f → InDomains csp.num_variables s.domains f →
          f var = value →
          (fcResult csp args (bumpNodes s) var value).1 = true ∧
          InDomains csp.num_variables (fcResult csp args (bumpNodes s) var value).2.domains f := by
        intro f hf hind heq
        refine hfc6 f csp.num_variables hok.graph_lt hind ?_
        intro u
        rw [← heq]
        exact isConsistent_of_sat csp f hf var u
      by_cases hfc : (fcResult csp args (bumpNodes s) var value).1 = true
      swap
      · -- forward checking fails
        have hfc0 : (fcResult csp args (bumpNodes s) var value).1 = false := by simpa using hfc
        rw [hfc0, if_pos (hfc4 hfc0)]
        simp only [Bool.not_false, if_true]
        have htA : ((fcResult csp args (bumpNodes s) var value).2.restoreDomains
            (bumpNodes s).backupDomains).assignment = s.assignment := hfcA
        have hokt : StateOk csp
            ((fcResult csp args (bumpNodes s) var value).2.restoreDomains
              (bumpNodes s).backupDomains).domains
            ((fcResult csp args (bumpNodes s) var value).2.restoreDomains
              (bumpNodes s).backupDomains).assignment
            ((fcResult csp args (bumpNodes s) var value).2.restoreDomains
              (bumpNodes s).backupDomains).var_interaction_graph := by
          rw [htA]
          have hg : ((fcResult csp args (bumpNodes s) var value).2.restoreDomains
              (bumpNodes s).backupDomains).var_interaction_graph = s.var_interaction_graph := hfcG
          rw [hg]
          exact hok
        obtain ⟨b, s2, new, h1, h2, h3, h4⟩ := ih hnd2 hin2 _ (htA.trans hsA) hokt
        refine ⟨b, s2, new, h1,
          searchPost_of_eq csp w args s
            ((fcResult csp args (bumpNodes s) var value).2.restoreDomains
              (bumpNodes s).backupDomains) b s2 new hfcS htA rfl hfcG h2, hmono new h3, ?_⟩
        intro hnt f hf hag hind hsel
        rcases List.mem_cons.1 hsel with heq | hmem
        · have := (hkeep f hf hind heq).1
          rw [hfc0] at this
          cases this
        · exact (searchComplete_of_eq csp w args s
            ((fcResult csp args (bumpNodes s) var value).2.restoreDomains
              (bumpNodes s).backupDomains) b new _ htA rfl h4) hnt f hf hag hind hmem
      · -- the value is assigned and the search recurses
        rw [hfc]
        simp only [Bool.not_true, Bool.false_eq_true, if_false]
        have hsinA : (assignVar (fcResult csp args (bumpNodes s) var value).2 var value).assignment
            = mapInsert s.assignment var value := by
          unfold assignVar
          simp only
          rw [hfcA]
        have hunS : mapFind s.assignment var = none := by rw [hsA]; exact hun
        have hoksin : StateOk csp
            (assignVar (fcResult csp args (bumpNodes s) var value).2 var value).domains
            (assignVar (fcResult csp args (bumpNodes s) var value).2 var value).assignment
            (assignVar (fcResult csp args (bumpNodes s) var value).2 var value).var_interaction_graph := by
          rw [hsinA]
          have hg : (assignVar (fcResult csp args (bumpNodes s) var value).2 var
              value).var_interaction_graph = s.var_interaction_graph := hfcG
          rw [hg]
          exact stateOk_insert csp (fun c hcm => (hwf c hcm).1) (bumpNodes s) _
            (stateOk_domains csp _ _ _ _ hok1 hfc2 hfc3) var value hvar hval hc
        obtain ⟨b1, s3, new1, hr, hp, hcpl⟩ := hrec _ hoksin (by
          rw [hsinA, mapInsert_length _ _ _ hunS, hsA])
        rw [hr]
        simp only
        have hext : ∀ sol ∈ new1, Extends s.assignment sol ∧ mapFind sol var = some value := by
          intro sol hs
          have := (hp.valid sol hs).2.2
          rw [hsinA] at this
          exact extends_of_insert _ _ _ _ hunS this
        have hsols3 : s3.solutions = s.solutions ++ new1 := by
          rw [hp.sols]
          show (fcResult csp args (bumpNodes s) var value).2.solutions ++ new1 = _
          rw [hfcS]
        have hg3 : s3.var_interaction_graph = s.var_interaction_graph := hp.graph.trans hfcG
        by_cases hb : (b1 && args.first_solution_only) = true
        · -- first solution found below: the loop is left by `return true`
          rw [if_pos hb]
          rw [Bool.and_eq_true] at hb
          refine ⟨true, s3, new1, rfl, ?_, ?_, ?_⟩
          · exact { sols := hsols3
                    valid := fun sol hs => ⟨(hp.valid sol hs).1, (hp.valid sol hs).2.1,
                      (hext sol hs).1⟩
                    distinct := hp.distinct
                    found := fun _ => ⟨hb.2, (hp.found hb.1).2⟩
                    not_found := fun h => by cases h
                    frame := fun h => by cases h
                    graph := hg3 }
          · intro sol hs
            exact ⟨value, List.mem_cons_self _ _, (hext sol hs).2⟩
          · intro _ f _ _ _ _
            refine ⟨fun h => ?_, fun _ => rfl⟩
            rw [hb.2] at h; cases h
        · -- the value is undone and the loop goes on
          rw [if_neg hb]
          have hb1 : b1 = false := by
            cases hb1 : b1 with
            | false => rfl
            | true =>
              exfalso
              apply hb
              rw [hb1, (hp.found hb1).1]
              rfl
          obtain ⟨hu1, hu2, hu3, hu4⟩ := undoValue_fields args s3
            (if args.use_forward_checking then (bumpNodes s).backupDomains else []) var
          have hfr := hp.frame hb1
          have htD : (undoValue args s3
              (if args.use_forward_checking then (bumpNodes s).backupDomains else []) var).domains
              = s.domains := by
            rw [hu1]
            by_cases hfcu : args.use_forward_checking = true
            · rw [if_pos hfcu, if_pos hfcu]; rfl
            · rw [if_neg hfcu, hfr.1]
              show (fcResult csp args (bumpNodes s) var value).2.domains = s.domains
              rw [hfc5 (by simpa using hfcu)]
              rfl
          have htA : (undoValue args s3
              (if args.use_forward_checking then (bumpNodes s).backupDomains else []) var).assignment
              = s.assignment := by
            rw [hu2, hfr.2, hsinA]
            exact mapErase_insert _ hok.asg_ord _ _ hunS
          have htS : (undoValue args s3
              (if args.use_forward_checking then (bumpNodes s).backupDomains else []) var).solutions
              = s.solutions ++ new1 := hu3.trans hsols3
          have htG : (undoValue args s3
              (if args.use_forward_checking then (bumpNodes s).backupDomains else [])
                var).var_interaction_graph = s.var_interaction_graph := hu4.trans hg3
          obtain ⟨b, s2, new2, h1, h2, h3, h4⟩ := ih hnd2 hin2 _ (htA.trans hsA) (by
            rw [htD, htA, htG]; exact hok)
          refine ⟨b, s2, new1 ++ new2, h1, ?_, ?_, ?_⟩
          · exact {
              sols := by rw [h2.sols, htS, List.append_assoc]
              valid := by
                intro sol hs
                rcases List.mem_append.1 hs with hs | hs
                · exact ⟨(hp.valid sol hs).1, (hp.valid sol hs).2.1, (hext sol hs).1⟩
                · have := h2.valid sol hs
                  rw [htA] at this
                  exact this
              distinct := by
                rw [List.pairwise_append]
                refine ⟨hp.distinct, h2.distinct, ?_⟩
                intro a ha b2 hb2
                obtain ⟨v, hv, hm⟩ := h3 b2 hb2
                refine ⟨var, ?_⟩
                rw [(hext a ha).2, hm]
                intro heq
                have : value = v := by simpa using heq
                exact hnotin (this ▸ hv)
              found := by
                intro hbt
                refine ⟨(h2.found hbt).1, ?_⟩
                rw [hp.not_found hb1 (h2.found hbt).1]
                exact (h2.found hbt).2
              not_found := by
                intro hbf hfo
                rw [hp.not_found hb1 hfo, h2.not_found hbf hfo]
                rfl
              frame := by
                intro hbf
                have := h2.frame hbf
                rw [htD, htA] at this
                exact this
              graph := h2.graph.trans htG }
          · intro sol hs
            rcases List.mem_append.1 hs with hs | hs
            · exact ⟨value, List.mem_cons_self _ _, (hext sol hs).2⟩
            · exact hmono new2 h3 sol hs
          · intro hnt f hf hag hind hsel
            rcases List.mem_cons.1 hsel with heq | hmem
            · have hk := hkeep f hf hind heq
              have hag2 : Agrees (assignVar (fcResult csp args (bumpNodes s) var value).2 var
                  value).assignment f := by
                rw [hsinA, ← heq]
                exact agrees_insert _ _ _ hag
              have := hcpl hnt f hf hag2 hk.2 trivial
              refine ⟨fun hfo => List.mem_append_left _ (this.1 hfo), fun hfo => ?_⟩
              have := this.2 hfo
              rw [hb1] at this
              cases this
            · have := (searchComplete_of_eq csp w args s _ b new2 _ htA htD h4) hnt f hf hag
                hind hmem
              exact ⟨fun hfo => List.mem_append_right _ (this.1 hfo), this.2⟩

/-! ## The recursive search -/

theorem backtrack_succ (csp : CSPInstance) (w : World) (args : SolveArgs) (fuel : Nat)
    (s : CSPSolver) :
    CSPSolver.backtrack csp w args (fuel + 1) s =
      if w.elapsed s.clock_reads ≥ args.max_time then
        some (false, { tick s with timeout_occurred := true })
      else if CSPSolver.isComplete csp (tick s) then
        some (args.first_solution_only,
          { tick s with solutions := (tick s).solutions ++ [(tick s).assignment] })
      else
        match nodeAC3 csp args fuel (tick s) with
        | none => none
        | some (false, s1) => some (false, s1.restoreDomains (tick s).backupDomains)
        | some (true, s1) =>
          if (selectVariable csp w s1 args.var_strategy).1 = -1 then
            some (false, (selectVariable csp w s1 args.var_strategy).2)
          else
            match valueLoop csp args (CSPSolver.backtrack csp w args fuel)
                (selectVariable csp w s1 args.var_strategy).1.toNat
                (orderValues csp w (selectVariable csp w s1 args.var_strategy).2
                  (selectVariable csp w s1 args.var_strategy).1.toNat args.val_strategy).1
                (orderValues csp w (selectVariable csp w s1 args.var_strategy).2
                  (selectVariable csp w s1 args.var_strategy).1.toNat args.val_strategy).2 with
            | none => none
            | some (true, s2) => some (true, s2)
            | some (false, s2) => some (false, s2.restoreDomains (tick s).backupDomains) := by
  rfl

theorem nodeAC3_spec (csp : CSPInstance) (args : SolveArgs)
    (hcs : ∀ c ∈ csp.constraints, c.var1 < csp.num_variables ∧ c.var2 < csp.num_variables)
    (fuel : Nat) (s : CSPSolver)
    (h : StateOk csp s.domains s.assignment s.var_interaction_graph)
    (hfuel : ac3Fuel csp ≤ fuel) :
    ∃ b s1, nodeAC3 csp args fuel s = some (b, s1) ∧
      s1 = { s with domains := s1.domains } ∧
      (b = false → s1 = s) ∧
      StateOk csp s1.domains s.assignment s.var_interaction_graph ∧
      (∀ f, Satisfies csp f → InDomains csp.num_variables s.domains f →
        b = true ∧ InDomains csp.num_variables s1.domains f) := by
  unfold nodeAC3
  by_cases hn : args.ac3_at_each_node = true
  · rw [if_pos hn]
    exact applyAC3_spec csp hcs fuel s h hfuel
  · rw [if_neg hn]
    refine ⟨true, s, rfl, rfl, ?_, h, ?_⟩
    · intro hc; cases hc
    · intro f _ hin
      exact ⟨rfl, hin⟩

theorem fuel_step (K N a n m : Nat) (h1 : K + (N - a) + 1 ≤ n + 1) (h2 : a ≤ N) (h3 : a ≠ N)
    (h4 : m = a + 1) : K + (N - m) + 1 ≤ n ∧ K ≤ n := by
  omega

/-- Contract of `backtrack`: with enough fuel the call returns; what it adds to
the solution list are solutions that extend the partial assignment and differ
pairwise; in first-solution mode it adds exactly one solution when it answers
true and none otherwise; a call that answers false leaves the domains and the
assignment as they were; and when the deadline is never hit no satisfying
assignment of the subtree is missed. -/
theorem backtrack_spec (csp : CSPInstance) (w : World) (args : SolveArgs)
    (hwf : ∀ c ∈ csp.constraints,
      c.var1 ≠ c.var2 ∧ c.var1 < csp.num_variables ∧ c.var2 < csp.num_variables)
    (fuel : Nat) (s : CSPSolver)
    (hok : StateOk csp s.domains s.assignment s.var_interaction_graph)
    (hfuel : ac3Fuel csp + (csp.num_variables - s.assignment.length) + 1 ≤ fuel) :
    ∃ b s2 new, CSPSolver.backtrack csp w args fuel s = some (b, s2) ∧
      SearchPost csp w args s b s2 new ∧
      SearchComplete csp w args s b new (fun _ => True) := by
  have hcs : ∀ c ∈ csp.constraints, c.var1 < csp.num_variables ∧ c.var2 < csp.num_variables :=
    fun c hc => (hwf c hc).2
  induction fuel generalizing s with
  | zero => omega
  | succ n ih =>
    rw [backtrack_succ]
    by_cases hto : w.elapsed s.clock_reads ≥ args.max_time
    · -- the deadline is hit
      rw [if_pos hto]
      refine ⟨false, _, [], rfl, ?_, ?_⟩
      · exact { sols := by simp [tick]
                valid := fun sol h => by cases h
                distinct := List.Pairwise.nil
                found := fun h => by cases h
                not_found := fun _ _ => rfl
                frame := fun _ => ⟨rfl, rfl⟩
                graph := rfl }
      · intro hnt
        exact absurd (hnt s.clock_reads) (not_lt.2 hto)
    · rw [if_neg hto]
      by_cases hcomp : CSPSolver.isComplete csp (tick s) = true
      · -- every variable is assigned
        rw [if_pos hcomp]
        have hlen : s.assignment.length = csp.num_variables := by
          unfold CSPSolver.isComplete at hcomp
          exact of_decide_eq_true hcomp
        have hv := validate_of_stateOk csp hcs _ _ _ hok hlen
        refine ⟨args.first_solution_only, _, [s.assignment], rfl, ?_, ?_⟩
        · exact { sols := rfl
                  valid := by
                    intro sol h
                    rw [List.mem_singleton.1 h]
                    exact ⟨hv.1, hv.2, fun _ _ h2 => h2⟩
                  distinct := List.pairwise_singleton _ _
                  found := fun h => ⟨h, rfl⟩
                  not_found := fun h1 h2 => by rw [h1] at h2; cases h2
                  frame := fun _ => ⟨rfl, rfl⟩
                  graph := rfl }
        · intro _ f _ hag _ _
          have := eq_totalMap_of_agrees csp _ _ _ hok hlen f hag
          exact ⟨fun _ => by rw [← this]; exact List.mem_singleton_self _, fun h => h⟩
      · rw [if_neg hcomp]
        have hlen : s.assignment.length ≠ csp.num_variables := by
          unfold CSPSolver.isComplete at hcomp
          intro h
          exact hcomp (decide_eq_true h)
        have hkeys : ∀ k ∈ s.assignment.map Prod.fst, k < csp.num_variables := by
          intro k hk
          rw [List.mem_map] at hk
          obtain ⟨kv, hkv, rfl⟩ := hk
          exact (hok.asg_in kv hkv).1
        obtain ⟨hle, hex⟩ := mapOrdered_exists_unassigned s.assignment hok.asg_ord
          csp.num_variables hkeys
        have hfuel2 : ∀ m, m = s.assignment.length + 1 →
            ac3Fuel csp + (csp.num_variables - m) + 1 ≤ n :=
          fun m hm => (fuel_step _ _ _ _ m hfuel hle hlen hm).1
        have hfuel3 : ac3Fuel csp ≤ n := (fuel_step _ _ _ _ _ hfuel hle hlen rfl).2
        obtain ⟨b1, s1, hac, hs1, hs1f, hok1, hkeep1⟩ := nodeAC3_spec csp args hcs n (tick s)
          hok hfuel3
        rw [hac]
        have hs1A : s1.assignment = s.assignment := by
          have := congrArg CSPSolver.assignment hs1
          exact this
        have hs1S : s1.solutions = s.solutions := by
          have := congrArg CSPSolver.solutions hs1
          exact this
        have hs1G : s1.var_interaction_graph = s.var_interaction_graph := by
          have := congrArg CSPSolver.var_interaction_graph hs1
          exact this
        cases b1 with
        | false =>
          -- node-level AC-3 answers inconsistent
          simp only
          refine ⟨false, _, [], rfl, ?_, ?_⟩
          · exact { sols := by
                      show s1.solutions = s.solutions ++ []
                      rw [hs1S]; simp
                    valid := fun sol h => by cases h
                    distinct := List.Pairwise.nil
                    found := fun h => by cases h
                    not_found := fun _ _ => rfl
                    frame := fun _ => ⟨rfl, hs1A⟩
                    graph := hs1G }
          · intro _ f hf _ hind _
            have := (hkeep1 f hf hind).1
            cases this
        | true =>
          simp only
          obtain ⟨⟨k1, hsel2⟩, hsel1⟩ := selectVariable_spec csp w s1 args.var_strategy
          rcases hsel1 with ⟨_, hall⟩ | ⟨v, hv1, hv2, hv3⟩
          · exfalso
            obtain ⟨i, hi, hnone⟩ := hex hlen
            rw [← hs1A] at hnone
            exact hall i hi hnone
          · rw [hv1, if_neg (by omega), Int.toNat_ofNat]
            obtain ⟨⟨k2, hord2⟩, hperm⟩ := orderValues_spec csp w
              (selectVariable csp w s1 args.var_strategy).2 v args.val_strategy
            have hselD : (selectVariable csp w s1 args.var_strategy).2.domains = s1.domains := by
              have := congrArg CSPSolver.domains hsel2
              exact this
            have hselA : (selectVariable csp w s1 args.var_strategy).2.assignment
                = s.assignment := by
              have := congrArg CSPSolver.assignment hsel2
              exact this.trans hs1A
            have hselS : (selectVariable csp w s1 args.var_strategy).2.solutions
                = s.solutions := by
              have := congrArg CSPSolver.solutions hsel2
              exact this.trans hs1S
            have hselG : (selectVariable csp w s1 args.var_strategy).2.var_interaction_graph
                = s.var_interaction_graph := by
              have := congrArg CSPSolver.var_interaction_graph hsel2
              exact this.trans hs1G
            have hordD : (orderValues csp w (selectVariable csp w s1 args.var_strategy).2 v
                args.val_strategy).2.domains = s1.domains := by
              have := congrArg CSPSolver.domains hord2
              exact this.trans hselD
            have hordA : (orderValues csp w (selectVariable csp w s1 args.var_strategy).2 v
                args.val_strategy).2.assignment = s.assignment := by
              have := congrArg CSPSolver.assignment hord2
              exact this.trans hselA
            have hordS : (orderValues csp w (selectVariable csp w s1 args.var_strategy).2 v
                args.val_strategy).2.solutions = s.solutions := by
              have := congrArg CSPSolver.solutions hord2
              exact this.trans hselS
            have hordG : (orderValues csp w (selectVariable csp w s1 args.var_strategy).2 v
                args.val_strategy).2.var_interaction_graph = s.var_interaction_graph := by
              have := congrArg CSPSolver.var_interaction_graph hord2
              exact this.trans hselG
            rw [hselD] at hperm
            have hun : mapFind s.assignment v = none := by rw [← hs1A]; exact hv3
            obtain ⟨b, s2, new, hloop, hpost, _, hcpl⟩ := valueLoop_spec csp w args hwf
              (CSPSolver.backtrack csp w args n) v hv2 s.assignment hun
              (fun t hokt hlent => ih t hokt (hfuel2 _ hlent))
              (orderValues csp w (selectVariable csp w s1 args.var_strategy).2 v
                args.val_strategy).1
              (hperm.nodup_iff.2 (stateOk_nodup_domain csp _ _ _ hok1 v))
              (fun x hx => (stateOk_mem_domain csp _ _ _ hok1 v x (hperm.subset hx)).2)
              (orderValues csp w (selectVariable csp w s1 args.var_strategy).2 v
                args.val_strategy).2 hordA
              (by rw [hordD, hordA, hordG]; exact hok1)
            rw [hloop]
            have hcomplete : ∀ bx, (b = false → bx = false) → (b = true → bx = true) →
                SearchComplete csp w args s bx new (fun _ => True) := by
              intro bx _ hbx hnt f hf hag hind _
              have hk := hkeep1 f hf hind
              have := hcpl hnt f hf (by rw [hordA]; exact hag) (by rw [hordD]; exact hk.2)
                (hperm.symm.subset (hk.2 v hv2))
              exact ⟨this.1, fun hfo => hbx (this.2 hfo)⟩
            cases b with
            | true =>
              simp only
              refine ⟨true, s2, new, rfl, ?_, hcomplete true (fun h => by cases h) (fun _ => rfl)⟩
              exact { sols := by rw [hpost.sols, hordS]
                      valid := by
                        intro sol hs
                        have := hpost.valid sol hs
                        rw [hordA] at this
                        exact this
                      distinct := hpost.distinct
                      found := hpost.found
                      not_found := fun h => by cases h
                      frame := fun h => by cases h
                      graph := hpost.graph.trans hordG }
            | false =>
              simp only
              refine ⟨false, _, new, rfl, ?_,
                hcomplete false (fun _ => rfl) (fun h => by cases h)⟩
              exact { sols := by
                        show s2.solutions = s.solutions ++ new
                        rw [hpost.sols, hordS]
                      valid := by
                        intro sol hs
                        have := hpost.valid sol hs
                        rw [hordA] at this
                        exact this
                      distinct := hpost.distinct
                      found := fun h => by cases h
                      not_found := hpost.not_found
                      frame := fun _ => ⟨rfl, ((hpost.frame rfl).2).trans hordA⟩
                      graph := hpost.graph.trans hordG }

/-! ## From the contract of the search to `solve` and to the pipeline -/

theorem satisfies_inDomains_initial (csp : CSPInstance) (f : Nat → Int) (hf : Satisfies csp f) :
    InDomains csp.num_variables csp.initialDomains f := by
  intro i hi
  rw [initialDomains_getD csp i hi, mem_intervalValues]
  exact hf.1 i hi

theorem wellFormed_constraints (csp : CSPInstance) (hwf : csp.WellFormed) :
    ∀ c ∈ csp.constraints,
      c.var1 ≠ c.var2 ∧ c.var1 < csp.num_variables ∧ c.var2 < csp.num_variables :=
  hwf.2.2.2

/-- An inconsistent answer of the AC-3 preprocessing of a new solver means
that no total assignment satisfies the instance. -/
theorem applyAC3_false_no_solution (csp : CSPInstance)
    (hcs : ∀ c ∈ csp.constraints, c.var1 < csp.num_variables ∧ c.var2 < csp.num_variables)
    (fuel : Nat) (s : CSPSolver)
    (h : CSPSolver.applyAC3 csp fuel (CSPSolver.new csp) = some (false, s))
    (f : Nat → Int) (hf : Satisfies csp f) : False := by
  unfold CSPSolver.applyAC3 at h
  cases ha : AC3Algorithm.apply csp fuel
      ((AC3Algorithm.new csp).setDomains (CSPSolver.new csp).domains) with
  | none => rw [ha] at h; cases h
  | some r =>
    obtain ⟨b, a2⟩ := r
    rw [ha] at h
    simp only at h
    have hk := apply_keeps csp f csp.num_variables hcs hf.2 fuel
      ((AC3Algorithm.new csp).setDomains (CSPSolver.new csp).domains) b a2 (by
        intro arc harc
        obtain ⟨c, hc, h4 | h4⟩ := initialWorklist_mem _ _ harc
        · rw [h4.1, h4.2]; exact hcs c hc
        · rw [h4.1, h4.2]; exact ⟨(hcs c hc).2, (hcs c hc).1⟩)
      (satisfies_inDomains_initial csp f hf) ha
    rw [hk.1] at h
    simp at h

/-- The states on which the claims call `solve`: a new solver, possibly after
`applyAC3`. They satisfy the invariant, have an empty assignment, and their
domains hold every satisfying assignment. -/
theorem start_state_ok (csp : CSPInstance)
    (hcs : ∀ c ∈ csp.constraints, c.var1 < csp.num_variables ∧ c.var2 < csp.num_variables)
    (fuel : Nat) (hfuel : ac3Fuel csp ≤ fuel) (s0 : CSPSolver)
    (hs : s0 = CSPSolver.new csp ∨
      ∃ b, CSPSolver.applyAC3 csp fuel (CSPSolver.new csp) = some (b, s0)) :
    StateOk csp s0.domains s0.assignment s0.var_interaction_graph ∧ s0.assignment = [] ∧
    ∀ f, Satisfies csp f → InDomains csp.num_variables s0.domains f := by
  rcases hs with hs | ⟨b, hs⟩
  · rw [hs]
    exact ⟨stateOk_new csp hcs, rfl, fun f hf => satisfies_inDomains_initial csp f hf⟩
  · obtain ⟨b1, s1, h1, h2, _, h4, h5⟩ := applyAC3_spec csp hcs fuel (CSPSolver.new csp)
      (stateOk_new csp hcs) hfuel
    rw [h1] at hs
    simp only [Option.some.injEq, Prod.mk.injEq] at hs
    rw [← hs.2]
    have hA : s1.assignment = [] := by
      have := congrArg CSPSolver.assignment h2
      exact this
    have hG : s1.var_interaction_graph = (CSPSolver.new csp).var_interaction_graph := by
      have := congrArg CSPSolver.var_interaction_graph h2
      exact this
    refine ⟨?_, hA, fun f hf => (h5 f hf (satisfies_inDomains_initial csp f hf)).2⟩
    rw [hA, hG]
    exact h4

/-- Contract of `solve` on a state that satisfies the invariant and has an
empty assignment. -/
theorem solve_spec (csp : CSPInstance) (w : World) (args : SolveArgs)
    (hwf : ∀ c ∈ csp.constraints,
      c.var1 ≠ c.var2 ∧ c.var1 < csp.num_variables ∧ c.var2 < csp.num_variables)
    (fuel : Nat) (hfuel : solveFuel csp ≤ fuel) (s0 : CSPSolver)
    (hok : StateOk csp s0.domains s0.assignment s0.var_interaction_graph)
    (hA : s0.assignment = []) :
    ∃ b s2, CSPSolver.solve csp w args fuel s0 = some (b, s2) ∧
      b = !s2.solutions.isEmpty ∧
      (∀ sol ∈ s2.solutions, CSPSolver.validateSolution csp sol = true ∧ IsSolution csp sol) ∧
      List.Pairwise Differ s2.solutions ∧
      (args.first_solution_only = true → s2.solutions.length ≤ 1) ∧
      (NoTimeout w args.max_time → ∀ f, Satisfies csp f →
        InDomains csp.num_variables s0.domains f →
        (args.first_solution_only = false → totalMap csp.num_variables f ∈ s2.solutions) ∧
        (args.first_solution_only = true → s2.solutions.length = 1)) := by
  obtain ⟨b, s2, new, h1, h2, h3⟩ := backtrack_spec csp w args hwf fuel
    { s0 with solutions := [], nodes_explored := 0, backtracks := 0,
              timeout_occurred := false, clock_reads := 0, rng_calls := 0 } hok (by
      show ac3Fuel csp + (csp.num_variables - s0.assignment.length) + 1 ≤ fuel
      rw [hA]
      unfold solveFuel at hfuel
      simpa using hfuel)
  have hsols : s2.solutions = new := by
    rw [h2.sols]; rfl
  unfold CSPSolver.solve
  rw [h1]
  refine ⟨_, s2, rfl, rfl, ?_, ?_, ?_, ?_⟩
  · intro sol hs
    rw [hsols] at hs
    exact ⟨(h2.valid sol hs).1, (h2.valid sol hs).2.1⟩
  · rw [hsols]; exact h2.distinct
  · intro hfo
    rw [hsols]
    cases hb : b with
    | true => rw [(h2.found hb).2]
    | false => rw [h2.not_found hb hfo]; simp
  · intro hnt f hf hind
    have := h3 hnt f hf (by
      show Agrees s0.assignment f
      rw [hA]
      intro k v hkv
      simp [mapFind] at hkv) hind trivial
    rw [hsols]
    exact ⟨this.1, fun hfo => (h2.found (this.2 hfo)).2⟩

theorem noTimeout_example : NoTimeout exampleWorld 300 := by
  intro k
  show (0 : Int) < 300
  decide

theorem differ_var_lt (csp : CSPInstance) (a b : List (Nat × Int)) (ha : IsSolution csp a)
    (hb : IsSolution csp b) (h : Differ a b) :
    ∃ v, v < csp.num_variables ∧ mapFind a v ≠ mapFind b v := by
  obtain ⟨v, hv⟩ := h
  refine ⟨v, ?_, hv⟩
  by_contra hlt
  have h1 : mapFind a v = none := by
    rw [mapFind_eq_none_iff, ha.1, List.mem_range]; exact hlt
  have h2 : mapFind b v = none := by
    rw [mapFind_eq_none_iff, hb.1, List.mem_range]; exact hlt
  exact hv (h1.trans h2.symm)

theorem differ_symm (a b : List (Nat × Int)) (h : Differ a b) : Differ b a := by
  obtain ⟨v, hv⟩ := h
  exact ⟨v, fun h2 => hv h2.symm⟩

/-- What the claims on `solve` say about one start state. -/
theorem solve_on_start_state (csp : CSPInstance) (w : World) (args : SolveArgs)
    (hwf : csp.WellFormed) (fuel : Nat) (hfuel : solveFuel csp ≤ fuel) (s0 : CSPSolver)
    (hs : s0 = CSPSolver.new csp ∨
      ∃ b, CSPSolver.applyAC3 csp fuel (CSPSolver.new csp) = some (b, s0)) :
    ∃ b s2, CSPSolver.solve csp w args fuel s0 = some (b, s2) ∧
      b = !s2.solutions.isEmpty ∧
      (∀ sol ∈ s2.solutions, CSPSolver.validateSolution csp sol = true ∧ IsSolution csp sol) ∧
      (∀ i j, i < s2.solutions.length → j < s2.solutions.length → i ≠ j →
        ∃ v, v < csp.num_variables ∧
          mapFind (s2.solutions.getD i []) v ≠ mapFind (s2.solutions.getD j []) v) ∧
      (args.first_solution_only = true → s2.solutions.length ≤ 1) ∧
      (NoTimeout w args.max_time → ∀ sol, IsSolution csp sol →
        (args.first_solution_only = false → sol ∈ s2.solutions) ∧
        (args.first_solution_only = true → s2.solutions.length = 1)) := by
  have hc := wellFormed_constraints csp hwf
  have hcs : ∀ c ∈ csp.constraints, c.var1 < csp.num_variables ∧ c.var2 < csp.num_variables :=
    fun c h => (hc c h).2
  obtain ⟨hok, hA, hdom⟩ := start_state_ok csp hcs fuel (by unfold solveFuel at hfuel; omega) s0 hs
  obtain ⟨b, s2, h1, h2, h3, h4, h5, h6⟩ := solve_spec csp w args hc fuel hfuel s0 hok hA
  refine ⟨b, s2, h1, h2, h3, ?_, h5, ?_⟩
  · intro i j hi hj hij
    rw [List.pairwise_iff_getElem] at h4
    rw [List.getD_eq_getElem _ _ hi, List.getD_eq_getElem _ _ hj]
    have hsi := (h3 _ (List.getElem_mem hi)).2
    have hsj := (h3 _ (List.getElem_mem hj)).2
    rcases Nat.lt_or_gt_of_ne hij with hlt | hgt
    · exact differ_var_lt csp _ _ hsi hsj (h4 i j hi hj hlt)
    · exact differ_var_lt csp _ _ hsi hsj (differ_symm _ _ (h4 j i hj hi hgt))
  · intro hnt sol hsol
    obtain ⟨f, hf, heq⟩ := isSolution_totalMap csp sol hsol
    rw [heq]
    exact h6 hnt f hf (hdom f hf)

/-- C1. Soundness of search: for every well-formed instance, every
configuration and every world (clock and random choices), `solve` on a new
solver, and on a new solver after `applyAC3`, returns, and every assignment in
the returned solution list passes `validateSolution`: it has one entry per
variable `0 .. N-1`, each value lies in the initial interval of its variable,
and `CSPInstance.isConsistent` holds for every constraint. -/
theorem solve_solutions_valid (csp : CSPInstance) (w : World) (args : SolveArgs)
    (hwf : csp.WellFormed) (fuel : Nat) (hfuel : solveFuel csp ≤ fuel) :
    (∃ b s2, CSPSolver.solve csp w args fuel (CSPSolver.new csp) = some (b, s2) ∧
      ∀ sol ∈ s2.solutions, CSPSolver.validateSolution csp sol = true ∧ IsSolution csp sol) ∧
    (∃ c s1, CSPSolver.applyAC3 csp fuel (CSPSolver.new csp) = some (c, s1) ∧
      ∃ b s2, CSPSolver.solve csp w args fuel s1 = some (b, s2) ∧
      ∀ sol ∈ s2.solutions, CSPSolver.validateSolution csp sol = true ∧ IsSolution csp sol) := by
  have hc := wellFormed_constraints csp hwf
  constructor
  · obtain ⟨b, s2, h1, _, h3, _⟩ := solve_on_start_state csp w args hwf fuel hfuel _ (Or.inl rfl)
    exact ⟨b, s2, h1, h3⟩
  · obtain ⟨c, s1, hac, _⟩ := applyAC3_spec csp (fun c h => (hc c h).2) fuel (CSPSolver.new csp)
      (stateOk_new csp (fun c h => (hc c h).2)) (by unfold solveFuel at hfuel; omega)
    obtain ⟨b, s2, h1, _, h3, _⟩ := solve_on_start_state csp w args hwf fuel hfuel s1
      (Or.inr ⟨c, hac⟩)
    exact ⟨c, s1, hac, b, s2, h1, h3⟩

/-- Witness of C1 on the forced chain with the default configuration. -/
theorem solve_solutions_valid_witness :
    chainInstance.WellFormed ∧ solveFuel chainInstance ≤ 40 ∧
    ((∃ b s2, CSPSolver.solve chainInstance exampleWorld defaultArgs 40
        (CSPSolver.new chainInstance) = some (b, s2) ∧
      ∀ sol ∈ s2.solutions, CSPSolver.validateSolution chainInstance sol = true ∧
        IsSolution chainInstance sol) ∧
    (∃ c s1, CSPSolver.applyAC3 chainInstance 40 (CSPSolver.new chainInstance) = some (c, s1) ∧
      ∃ b s2, CSPSolver.solve chainInstance exampleWorld defaultArgs 40 s1 = some (b, s2) ∧
      ∀ sol ∈ s2.solutions, CSPSolver.validateSolution chainInstance sol = true ∧
        IsSolution chainInstance sol)) :=
  ⟨by decide, by decide,
    solve_solutions_valid chainInstance exampleWorld defaultArgs (by decide) 40 (by decide)⟩

/-- C2. Completeness of plain backtracking: for every well-formed instance, a
new solver without AC-3 preprocessing, no forward checking, no node-level
AC-3, `mrv`, `lexicographic`, all-solutions mode and a deadline that is never
hit, `solve` returns a list whose members are exactly the total assignments
with values in the initial intervals that satisfy every constraint. -/
theorem plain_backtracking_complete (csp : CSPInstance) (w : World) (max_time : Int)
    (hwf : csp.WellFormed) (hnt : NoTimeout w max_time)
    (fuel : Nat) (hfuel : solveFuel csp ≤ fuel) :
    ∃ b s2, CSPSolver.solve csp w
        { max_time := max_time, first_solution_only := false, var_strategy := "mrv",
          val_strategy := "lexicographic", use_forward_checking := false,
          ac3_at_each_node := false } fuel (CSPSolver.new csp) = some (b, s2) ∧
      ∀ sol, sol ∈ s2.solutions ↔ IsSolution csp sol := by
  obtain ⟨b, s2, h1, _, h3, _, _, h6⟩ := solve_on_start_state csp w
    { max_time := max_time, first_solution_only := false, var_strategy := "mrv",
      val_strategy := "lexicographic", use_forward_checking := false,
      ac3_at_each_node := false } hwf fuel hfuel _ (Or.inl rfl)
  exact ⟨b, s2, h1, fun sol => ⟨fun h => (h3 sol h).2, fun h => (h6 hnt sol h).1 rfl⟩⟩

/-- Witness of C2 on the forced chain. -/
theorem plain_backtracking_complete_witness :
    chainInstance.WellFormed ∧ NoTimeout exampleWorld 300 ∧ solveFuel chainInstance ≤ 40 ∧
    ∃ b s2, CSPSolver.solve chainInstance exampleWorld
        { max_time := 300, first_solution_only := false, var_strategy := "mrv",
          val_strategy := "lexicographic", use_forward_checking := false,
          ac3_at_each_node := false } 40 (CSPSolver.new chainInstance) = some (b, s2) ∧
      ∀ sol, sol ∈ s2.solutions ↔ IsSolution chainInstance sol :=
  ⟨by decide, noTimeout_example, by decide,
    plain_backtracking_complete chainInstance exampleWorld 300 (by decide) noTimeout_example 40
      (by decide)⟩

/-- The pipeline of `main` in all-solutions mode with a deadline that is never
hit: it ends, and the solutions it reports are exactly the solutions of the
instance. -/
theorem runSolver_spec (csp : CSPInstance) (w : World) (params : SolverParams)
    (hwf : csp.WellFormed) (hfo : params.first_solution_only = false)
    (hnt : NoTimeout w params.max_time) (fuel : Nat) (hfuel : solveFuel csp ≤ fuel) :
    ∃ r, runSolver csp w params fuel = some r ∧ ∀ sol, sol ∈ r.solutions ↔ IsSolution csp sol := by
  have hc := wellFormed_constraints csp hwf
  have hcs : ∀ c ∈ csp.constraints, c.var1 < csp.num_variables ∧ c.var2 < csp.num_variables :=
    fun c h => (hc c h).2
  have hstart : ∃ b s1,
      (if params.use_ac3 then CSPSolver.applyAC3 csp fuel (CSPSolver.new csp)
        else some (true, CSPSolver.new csp)) = some (b, s1) ∧
      (b = false → ∀ sol, ¬ IsSolution csp sol) ∧
      (s1 = CSPSolver.new csp ∨
        ∃ b2, CSPSolver.applyAC3 csp fuel (CSPSolver.new csp) = some (b2, s1)) := by
    by_cases hu : params.use_ac3 = true
    · rw [if_pos hu]
      obtain ⟨c, s1, hac, _⟩ := applyAC3_spec csp hcs fuel (CSPSolver.new csp)
        (stateOk_new csp hcs) (by unfold solveFuel at hfuel; omega)
      refine ⟨c, s1, hac, ?_, Or.inr ⟨c, hac⟩⟩
      intro hcf sol hsol
      rw [hcf] at hac
      obtain ⟨f, hf, _⟩ := isSolution_totalMap csp sol hsol
      exact applyAC3_false_no_solution csp hcs fuel s1 hac f hf
    · rw [if_neg hu]
      refine ⟨true, _, rfl, ?_, Or.inl rfl⟩
      intro h; cases h
  obtain ⟨b, s1, hst, hno, hs1⟩ := hstart
  unfold runSolver
  simp only
  rw [hst]
  cases b with
  | false =>
    simp only
    refine ⟨_, rfl, fun sol => ?_⟩
    simp only [List.not_mem_nil, false_iff]
    exact hno rfl sol
  | true =>
    simp only
    obtain ⟨b2, s2, h1, _, h3, _, _, h6⟩ := solve_on_start_state csp w params.toSolveArgs hwf
      fuel hfuel s1 hs1
    rw [h1]
    simp only
    refine ⟨_, rfl, fun sol => ⟨fun h => (h3 sol h).2, fun h => ?_⟩⟩
    exact (h6 hnt sol h).1 hfo

/-- C3. Pruning does not change the answer: for every well-formed instance,
any two configurations in all-solutions mode (any flags `use_ac3`,
`use_forward_checking`, `ac3_at_each_node`, any strategy names) and any two
worlds (random choices) whose deadline is never hit, the pipeline of `main`
(optional `applyAC3`, then `solve`) reports the same set of solutions, namely
the solutions of the instance; and when the AC-3 preprocessing of a new solver
answers inconsistent, both lists are empty. -/
theorem pipeline_solution_set_invariant (csp : CSPInstance) (w1 w2 : World)
    (p1 p2 : SolverParams) (hwf : csp.WellFormed)
    (h1 : p1.first_solution_only = false) (h2 : p2.first_solution_only = false)
    (hnt1 : NoTimeout w1 p1.max_time) (hnt2 : NoTimeout w2 p2.max_time)
    (fuel : Nat) (hfuel : solveFuel csp ≤ fuel) :
    ∃ r1 r2, runSolver csp w1 p1 fuel = some r1 ∧ runSolver csp w2 p2 fuel = some r2 ∧
      (∀ sol, sol ∈ r1.solutions ↔ sol ∈ r2.solutions) ∧
      (∀ sol, sol ∈ r1.solutions ↔ IsSolution csp sol) ∧
      ((∃ s, CSPSolver.applyAC3 csp fuel (CSPSolver.new csp) = some (false, s)) →
        r1.solutions = [] ∧ r2.solutions = []) := by
  obtain ⟨r1, hr1, hs1⟩ := runSolver_spec csp w1 p1 hwf h1 hnt1 fuel hfuel
  obtain ⟨r2, hr2, hs2⟩ := runSolver_spec csp w2 p2 hwf h2 hnt2 fuel hfuel
  refine ⟨r1, r2, hr1, hr2, fun sol => (hs1 sol).trans (hs2 sol).symm, hs1, ?_⟩
  rintro ⟨s, hs⟩
  have hc := wellFormed_constraints csp hwf
  have hno : ∀ sol, ¬ IsSolution csp sol := by
    intro sol hsol
    obtain ⟨f, hf, _⟩ := isSolution_totalMap csp sol hsol
    exact applyAC3_false_no_solution csp (fun c h => (hc c h).2) fuel s hs f hf
  constructor
  · rw [List.eq_nil_iff_forall_not_mem]
    intro sol hsol
    exact hno sol ((hs1 sol).1 hsol)
  · rw [List.eq_nil_iff_forall_not_mem]
    intro sol hsol
    exact hno sol ((hs2 sol).1 hsol)

/-- Witness of C3 on the forced chain: the default configuration against the
configuration with every propagation switched off. -/
theorem pipeline_solution_set_invariant_witness :
    chainInstance.WellFormed ∧ NoTimeout exampleWorld 300 ∧ solveFuel chainInstance ≤ 40 ∧
    ∃ r1 r2,
      runSolver chainInstance exampleWorld {} 40 = some r1 ∧
      runSolver chainInstance exampleWorld
        { use_ac3 := false, use_forward_checking := false, ac3_at_each_node := false,
          var_strategy := "degree", val_strategy := "random" } 40 = some r2 ∧
      (∀ sol, sol ∈ r1.solutions ↔ sol ∈ r2.solutions) ∧
      (∀ sol, sol ∈ r1.solutions ↔ IsSolution chainInstance sol) ∧
      ((∃ s, CSPSolver.applyAC3 chainInstance 40 (CSPSolver.new chainInstance) = some (false, s)) →
        r1.solutions = [] ∧ r2.solutions = []) :=
  ⟨by decide, noTimeout_example, by decide,
    pipeline_solution_set_invariant chainInstance exampleWorld exampleWorld {}
      { use_ac3 := false, use_forward_checking := false, ac3_at_each_node := false,
        var_strategy := "degree", val_strategy := "random" }
      (by decide) rfl rfl noTimeout_example noTimeout_example 40 (by decide)⟩

/-- C4. First-solution mode: for every well-formed instance, every
configuration with `first_solution_only = true` and a deadline that is never
hit, `solve` on a new solver (and on a new solver after `applyAC3`) returns
true with exactly one solution when the instance has a solution, and false
with an empty list otherwise. -/
theorem first_solution_mode (csp : CSPInstance) (w : World) (args : SolveArgs)
    (hwf : csp.WellFormed) (hfo : args.first_solution_only = true)
    (hnt : NoTimeout w args.max_time) (fuel : Nat) (hfuel : solveFuel csp ≤ fuel) :
    (∃ b s2, CSPSolver.solve csp w args fuel (CSPSolver.new csp) = some (b, s2) ∧
      ((∃ sol, IsSolution csp sol) → b = true ∧ s2.solutions.length = 1) ∧
      ((¬ ∃ sol, IsSolution csp sol) → b = false ∧ s2.solutions = [])) ∧
    (∃ c s1, CSPSolver.applyAC3 csp fuel (CSPSolver.new csp) = some (c, s1) ∧
      ∃ b s2, CSPSolver.solve csp w args fuel s1 = some (b, s2) ∧
      ((∃ sol, IsSolution csp sol) → b = true ∧ s2.solutions.length = 1) ∧
      ((¬ ∃ sol, IsSolution csp sol) → b = false ∧ s2.solutions = [])) := by
  have hc := wellFormed_constraints csp hwf
  have key : ∀ s0 : CSPSolver, (s0 = CSPSolver.new csp ∨
      ∃ b, CSPSolver.applyAC3 csp fuel (CSPSolver.new csp) = some (b, s0)) →
      ∃ b s2, CSPSolver.solve csp w args fuel s0 = some (b, s2) ∧
      ((∃ sol, IsSolution csp sol) → b = true ∧ s2.solutions.length = 1) ∧
      ((¬ ∃ sol, IsSolution csp sol) → b = false ∧ s2.solutions = []) := by
    intro s0 hs
    obtain ⟨b, s2, h1, h2, h3, _, _, h6⟩ := solve_on_start_state csp w args hwf fuel hfuel s0 hs
    refine ⟨b, s2, h1, ?_, ?_⟩
    · rintro ⟨sol, hsol⟩
      have hl := (h6 hnt sol hsol).2 hfo
      refine ⟨?_, hl⟩
      rw [h2]
      cases hsl : s2.solutions with
      | nil => rw [hsl] at hl; cases hl
      | cons a t => rfl
    · intro hno
      have hnil : s2.solutions = [] := by
        rw [List.eq_nil_iff_forall_not_mem]
        intro sol hsol
        exact hno ⟨sol, (h3 sol hsol).2⟩
      refine ⟨?_, hnil⟩
      rw [h2, hnil]
      rfl
  constructor
  · exact key _ (Or.inl rfl)
  · obtain ⟨c, s1, hac, _⟩ := applyAC3_spec csp (fun c h => (hc c h).2) fuel (CSPSolver.new csp)
      (stateOk_new csp (fun c h => (hc c h).2)) (by unfold solveFuel at hfuel; omega)
    obtain ⟨b, s2, h⟩ := key s1 (Or.inr ⟨c, hac⟩)
    exact ⟨c, s1, hac, b, s2, h⟩

/-- Witness of C4 on the forced chain. -/
theorem first_solution_mode_witness :
    chainInstance.WellFormed ∧ NoTimeout exampleWorld 300 ∧ solveFuel chainInstance ≤ 40 ∧
    ((∃ b s2, CSPSolver.solve chainInstance exampleWorld
        { defaultArgs with first_solution_only := true } 40 (CSPSolver.new chainInstance)
          = some (b, s2) ∧
      ((∃ sol, IsSolution chainInstance sol) → b = true ∧ s2.solutions.length = 1) ∧
      ((¬ ∃ sol, IsSolution chainInstance sol) → b = false ∧ s2.solutions = [])) ∧
    (∃ c s1, CSPSolver.applyAC3 chainInstance 40 (CSPSolver.new chainInstance) = some (c, s1) ∧
      ∃ b s2, CSPSolver.solve chainInstance exampleWorld
        { defaultArgs with first_solution_only := true } 40 s1 = some (b, s2) ∧
      ((∃ sol, IsSolution chainInstance sol) → b = true ∧ s2.solutions.length = 1) ∧
      ((¬ ∃ sol, IsSolution chainInstance sol) → b = false ∧ s2.solutions = []))) :=
  ⟨by decide, noTimeout_example, by decide,
    first_solution_mode chainInstance exampleWorld { defaultArgs with first_solution_only := true }
      (by decide) rfl noTimeout_example 40 (by decide)⟩

/-- C5. No duplicate solutions: for every well-formed instance, every
configuration and every world, any two entries at different positions of the
solution list returned by `solve` (on a new solver, and on a new solver after
`applyAC3`) differ in the value of at least one variable. -/
theorem solve_no_duplicates (csp : CSPInstance) (w : World) (args : SolveArgs)
    (hwf : csp.WellFormed) (fuel : Nat) (hfuel : solveFuel csp ≤ fuel) :
    (∃ b s2, CSPSolver.solve csp w args fuel (CSPSolver.new csp) = some (b, s2) ∧
      ∀ i j, i < s2.solutions.length → j < s2.solutions.length → i ≠ j →
        ∃ v, v < csp.num_variables ∧
          mapFind (s2.solutions.getD i []) v ≠ mapFind (s2.solutions.getD j []) v) ∧
    (∃ c s1, CSPSolver.applyAC3 csp fuel (CSPSolver.new csp) = some (c, s1) ∧
      ∃ b s2, CSPSolver.solve csp w args fuel s1 = some (b, s2) ∧
      ∀ i j, i < s2.solutions.length → j < s2.solutions.length → i ≠ j →
        ∃ v, v < csp.num_variables ∧
          mapFind (s2.solutions.getD i []) v ≠ mapFind (s2.solutions.getD j []) v) := by
  have hc := wellFormed_constraints csp hwf
  constructor
  · obtain ⟨b, s2, h1, _, _, h4, _⟩ := solve_on_start_state csp w args hwf fuel hfuel _ (Or.inl rfl)
    exact ⟨b, s2, h1, h4⟩
  · obtain ⟨c, s1, hac, _⟩ := applyAC3_spec csp (fun c h => (hc c h).2) fuel (CSPSolver.new csp)
      (stateOk_new csp (fun c h => (hc c h).2)) (by unfold solveFuel at hfuel; omega)
    obtain ⟨b, s2, h1, _, _, h4, _⟩ := solve_on_start_state csp w args hwf fuel hfuel s1
      (Or.inr ⟨c, hac⟩)
    exact ⟨c, s1, hac, b, s2, h1, h4⟩

/-- Witness of C5 on an instance with two solutions. -/
theorem solve_no_duplicates_witness :
    differInstance.WellFormed ∧ solveFuel differInstance ≤ 20 ∧
    ((∃ b s2, CSPSolver.solve differInstance exampleWorld defaultArgs 20
        (CSPSolver.new differInstance) = some (b, s2) ∧
      ∀ i j, i < s2.solutions.length → j < s2.solutions.length → i ≠ j →
        ∃ v, v < differInstance.num_variables ∧
          mapFind (s2.solutions.getD i []) v ≠ mapFind (s2.solutions.getD j []) v) ∧
    (∃ c s1, CSPSolver.applyAC3 differInstance 20 (CSPSolver.new differInstance) = some (c, s1) ∧
      ∃ b s2, CSPSolver.solve differInstance exampleWorld defaultArgs 20 s1 = some (b, s2) ∧
      ∀ i j, i < s2.solutions.length → j < s2.solutions.length → i ≠ j →
        ∃ v, v < differInstance.num_variables ∧
          mapFind (s2.solutions.getD i []) v ≠ mapFind (s2.solutions.getD j []) v)) :=
  ⟨by decide, by decide,
    solve_no_duplicates differInstance exampleWorld defaultArgs (by decide) 20 (by decide)⟩

/-! ## Claims on the AC-3 engine and on the orientation rule -/

/-- C6, the code at a failing input: on `gapInstance` (relations `v0 = v1`
and `v1 = v2 = 1`, both symmetric) `AC3Algorithm.apply` answers consistent and
leaves the domains `[0,1]`, `[1]`, `[1]`, although the value 0 of variable 0
has no support in the domain of its neighbour 1, neither under
`CSPInstance.isConsistent` nor under the test of the engine itself. -/
theorem ac3_consistent_without_arc_consistency :
    AC3Algorithm.apply gapInstance (AC3Algorithm.fuelBound gapInstance (AC3Algorithm.new gapInstance))
        (AC3Algorithm.new gapInstance)
      = some (true, { domains := [[0, 1], [1], [1]], worklist := [], revisions_count := 2 }) ∧
    (∀ y ∈ [(1 : Int)], gapInstance.isConsistent 0 0 1 y = false) ∧
    (∀ y ∈ [(1 : Int)], AC3Algorithm.isConsistent gapInstance 0 0 1 y = false) := by
  decide

/-- C7, the code at a failing input: on `orientedInstance` (single allowed
pair `v0 = 0, v1 = 1`) `revise(0, 1)` on the initial domains returns false and
changes nothing, although the value 1 of variable 0 has no support in the
domain of variable 1 under `CSPInstance.isConsistent`. -/
theorem revise_keeps_unsupported_value :
    AC3Algorithm.revise orientedInstance (AC3Algorithm.new orientedInstance) 0 1
      = (false, AC3Algorithm.new orientedInstance) ∧
    (AC3Algorithm.new orientedInstance).domains = [[0, 1], [0, 1]] ∧
    (∀ y ∈ [(0 : Int), 1], orientedInstance.isConsistent 0 1 1 y = false) := by
  decide

/-- C8. Orientation rule: for an instance whose constraints all join two
different variables, `isConsistent(a, x, b, y)` is true exactly when every
stored constraint `(u, v, P)` with `(a, b) = (u, v)` has `(x, y)` in `P` and
every stored constraint with `(a, b) = (v, u)` has `(y, x)` in `P`;
consequently `isConsistent(a, x, b, y) = isConsistent(b, y, a, x)` for all
`a ≠ b`. -/
theorem isConsistent_orientation (csp : CSPInstance)
    (hne : ∀ c ∈ csp.constraints, c.var1 ≠ c.var2) :
    (∀ a x b y, csp.isConsistent a x b y = true ↔
      ∀ c ∈ csp.constraints,
        (c.var1 = a ∧ c.var2 = b → (x, y) ∈ c.allowed_pairs) ∧
        (c.var1 = b ∧ c.var2 = a → (y, x) ∈ c.allowed_pairs)) ∧
    (∀ a b x y, a ≠ b → csp.isConsistent a x b y = csp.isConsistent b y a x) := by
  have hiff : ∀ a x b y, csp.isConsistent a x b y = true ↔
      ∀ c ∈ csp.constraints,
        (c.var1 = a ∧ c.var2 = b → (x, y) ∈ c.allowed_pairs) ∧
        (c.var1 = b ∧ c.var2 = a → (y, x) ∈ c.allowed_pairs) := by
    intro a x b y
    rw [isConsistent_iff]
    refine forall_congr' (fun c => forall_congr' (fun hc => ?_))
    constructor
    · rintro ⟨h1, h2⟩
      refine ⟨h1, fun h3 => h2 ?_ h3⟩
      rintro ⟨h4, _⟩
      exact hne c hc (h4.trans h3.2.symm)
    · rintro ⟨h1, h2⟩
      exact ⟨h1, fun _ h3 => h2 h3⟩
  refine ⟨hiff, ?_⟩
  intro a b x y _
  rw [Bool.eq_iff_iff, hiff, hiff]
  refine forall_congr' (fun c => forall_congr' (fun _ => ?_))
  exact ⟨fun h => ⟨h.2, h.1⟩, fun h => ⟨h.2, h.1⟩⟩

/-- Witness of C8 on `orientedInstance`. -/
theorem isConsistent_orientation_witness :
    (∀ c ∈ orientedInstance.constraints, c.var1 ≠ c.var2) ∧
    ((∀ a x b y, orientedInstance.isConsistent a x b y = true ↔
      ∀ c ∈ orientedInstance.constraints,
        (c.var1 = a ∧ c.var2 = b → (x, y) ∈ c.allowed_pairs) ∧
        (c.var1 = b ∧ c.var2 = a → (y, x) ∈ c.allowed_pairs)) ∧
    (∀ a b x y, a ≠ b →
      orientedInstance.isConsistent a x b y = orientedInstance.isConsistent b y a x)) :=
  ⟨by decide, isConsistent_orientation orientedInstance (by decide)⟩

/-- C9. AC-3 on an arc-consistent state is a no-op: when every value of every
domain has a support under `CSPInstance.isConsistent` in the domain of every
neighbour, a new engine set to these domains answers consistent, counts zero
revisions and returns the domains unchanged. -/
theorem ac3_noop_on_arc_consistent (csp : CSPInstance) (doms : List (List Int)) (fuel : Nat)
    (hfuel : AC3Algorithm.fuelBound csp ((AC3Algorithm.new csp).setDomains doms) ≤ fuel)
    (hac : ∀ c ∈ csp.constraints,
      (∀ x ∈ doms.getD c.var1 [], ∃ y ∈ doms.getD c.var2 [],
        csp.isConsistent c.var1 x c.var2 y = true) ∧
      (∀ y ∈ doms.getD c.var2 [], ∃ x ∈ doms.getD c.var1 [],
        csp.isConsistent c.var2 y c.var1 x = true)) :
    ∃ a2, AC3Algorithm.apply csp fuel ((AC3Algorithm.new csp).setDomains doms) = some (true, a2) ∧
      a2.getRevisionsCount = 0 ∧ a2.getDomains = doms := by
  refine ⟨_, apply_noop csp fuel ((AC3Algorithm.new csp).setDomains doms) ?_ ?_, rfl, rfl⟩
  · unfold AC3Algorithm.fuelBound at hfuel
    omega
  · intro arc harc x hx
    unfold AC3Algorithm.hasSupport
    rw [List.any_eq_true]
    obtain ⟨c, hc, h | h⟩ := initialWorklist_mem _ _ harc
    · rw [h.1] at hx
      rw [h.1, h.2]
      obtain ⟨y, hy, hxy⟩ := (hac c hc).1 x hx
      exact ⟨y, hy, ac3_isConsistent_of_isConsistent csp _ _ _ _ hxy⟩
    · rw [h.1] at hx
      rw [h.1, h.2]
      obtain ⟨y, hy, hxy⟩ := (hac c hc).2 x hx
      exact ⟨y, hy, ac3_isConsistent_of_isConsistent csp _ _ _ _ hxy⟩

/-- Witness of C9: the initial domains of `differInstance` are arc consistent. -/
theorem ac3_noop_on_arc_consistent_witness :
    AC3Algorithm.fuelBound differInstance
        ((AC3Algorithm.new differInstance).setDomains [[0, 1], [0, 1]]) ≤ 20 ∧
    (∀ c ∈ differInstance.constraints,
      (∀ x ∈ [[(0 : Int), 1], [0, 1]].getD c.var1 [], ∃ y ∈ [[(0 : Int), 1], [0, 1]].getD c.var2 [],
        differInstance.isConsistent c.var1 x c.var2 y = true) ∧
      (∀ y ∈ [[(0 : Int), 1], [0, 1]].getD c.var2 [], ∃ x ∈ [[(0 : Int), 1], [0, 1]].getD c.var1 [],
        differInstance.isConsistent c.var2 y c.var1 x = true)) ∧
    ∃ a2, AC3Algorithm.apply differInstance 20
        ((AC3Algorithm.new differInstance).setDomains [[0, 1], [0, 1]]) = some (true, a2) ∧
      a2.getRevisionsCount = 0 ∧ a2.getDomains = [[0, 1], [0, 1]] :=
  ⟨by decide, by decide,
    ac3_noop_on_arc_consistent differInstance [[0, 1], [0, 1]] 20 (by decide) (by decide)⟩

/-- C10. AC-3 never adds a value: for every instance and every solver state,
`AC3Algorithm.apply` on the domains of the state returns (whatever its
answer), and each resulting domain is a subsequence of the input domain;
likewise each domain of the solver after `CSPSolver.applyAC3` is a subsequence
of its previous content. -/
theorem ac3_never_adds_value (csp : CSPInstance) (s : CSPSolver) (fuel : Nat)
    (hfuel : AC3Algorithm.fuelBound csp ((AC3Algorithm.new csp).setDomains s.domains) ≤ fuel) :
    (∃ b a2, AC3Algorithm.apply csp fuel ((AC3Algorithm.new csp).setDomains s.domains)
        = some (b, a2) ∧
      a2.getDomains.length = s.domains.length ∧
      ∀ i, (a2.getDomains.getD i []).Sublist (s.domains.getD i [])) ∧
    (∃ b s2, CSPSolver.applyAC3 csp fuel s = some (b, s2) ∧
      s2.domains.length = s.domains.length ∧
      ∀ i, (s2.domains.getD i []).Sublist (s.domains.getD i [])) := by
  obtain ⟨b, a2, h1, h2, h3, _⟩ := apply_spec csp fuel _ hfuel
  refine ⟨⟨b, a2, h1, h2, h3⟩, ?_⟩
  unfold CSPSolver.applyAC3
  rw [h1]
  cases b with
  | true => exact ⟨true, _, rfl, h2, h3⟩
  | false => exact ⟨false, s, rfl, rfl, fun i => List.Sublist.refl _⟩

/-- Witness of C10 on a new solver for `gapInstance`, where AC-3 removes values. -/
theorem ac3_never_adds_value_witness :
    AC3Algorithm.fuelBound gapInstance
        ((AC3Algorithm.new gapInstance).setDomains (CSPSolver.new gapInstance).domains) ≤ 30 ∧
    ((∃ b a2, AC3Algorithm.apply gapInstance 30
        ((AC3Algorithm.new gapInstance).setDomains (CSPSolver.new gapInstance).domains)
          = some (b, a2) ∧
      a2.getDomains.length = (CSPSolver.new gapInstance).domains.length ∧
      ∀ i, (a2.getDomains.getD i []).Sublist ((CSPSolver.new gapInstance).domains.getD i [])) ∧
    (∃ b s2, CSPSolver.applyAC3 gapInstance 30 (CSPSolver.new gapInstance) = some (b, s2) ∧
      s2.domains.length = (CSPSolver.new gapInstance).domains.length ∧
      ∀ i, (s2.domains.getD i []).Sublist ((CSPSolver.new gapInstance).domains.getD i []))) :=
  ⟨by decide, ac3_never_adds_value gapInstance (CSPSolver.new gapInstance) 30 (by decide)⟩

/-! ## An inconsistent answer of AC-3 -/

/-- When the loop of `apply` answers inconsistent, some domain that was not
empty at the start is empty at the end. -/
theorem apply_false_empties (csp : CSPInstance) (fuel : Nat) (a a2 : AC3Algorithm)
    (h : AC3Algorithm.apply csp fuel a = some (false, a2)) :
    a2.domains.length = a.domains.length ∧
    ∃ i, i < a.domains.length ∧ a2.domains.getD i [] = [] ∧ a.domains.getD i [] ≠ [] := by
  induction fuel generalizing a with
  | zero => simp [AC3Algorithm.apply] at h
  | succ k ih =>
    obtain ⟨doms, wl, cnt⟩ := a
    cases wl with
    | nil => simp [AC3Algorithm.apply] at h
    | cons arc rest =>
      unfold AC3Algorithm.apply at h
      simp only at h
      have hlen := revise_length csp ⟨doms, rest, cnt⟩ arc.var1 arc.var2
      have hsub := revise_getD_sublist csp ⟨doms, rest, cnt⟩ arc.var1 arc.var2
      simp only at hlen hsub
      by_cases hr : (AC3Algorithm.revise csp ⟨doms, rest, cnt⟩ arc.var1 arc.var2).1 = true
      · rw [if_pos hr] at h
        obtain ⟨x, hx, _⟩ := (revise_fst_iff csp ⟨doms, rest, cnt⟩ arc.var1 arc.var2).1 hr
        simp only at hx
        have hu : arc.var1 < doms.length := by
          by_contra hu
          rw [getD_nil_of_length_le _ _ (Nat.le_of_not_lt hu)] at hx
          cases hx
        by_cases hem : ((AC3Algorithm.revise csp ⟨doms, rest, cnt⟩ arc.var1 arc.var2).2.domains.getD
            arc.var1 []).isEmpty = true
        · rw [if_pos hem] at h
          simp only [Option.some.injEq, Prod.mk.injEq, true_and] at h
          rw [← h]
          refine ⟨hlen, arc.var1, hu, List.isEmpty_iff.1 hem, ?_⟩
          intro hnil
          simp only at hnil
          rw [hnil] at hx
          cases hx
        · rw [if_neg hem] at h
          obtain ⟨h1, i, hi, h2, h3⟩ := ih _ h
          simp only at h1 hi h3
          refine ⟨h1.trans hlen, i, by rw [← hlen]; exact hi, h2, ?_⟩
          intro hnil
          have := hsub i
          simp only at hnil
          rw [hnil] at this
          exact h3 (List.sublist_nil.1 this)
      · rw [if_neg hr] at h
        have hfalse : (AC3Algorithm.revise csp ⟨doms, rest, cnt⟩ arc.var1 arc.var2).1 = false := by
          simpa using hr
        have heq : (AC3Algorithm.revise csp ⟨doms, rest, cnt⟩ arc.var1 arc.var2).2
            = ⟨doms, rest, cnt⟩ := by
          rw [revise_eq, hfalse]; rfl
        rw [heq] at h
        have := ih ⟨doms, rest, cnt⟩ h
        exact this

/-- C11. When `AC3Algorithm.apply` returns false, `hasEmptyDomain()` is true
on the engine and the domains of the engine differ from the input domains: a
domain that held a value at the start is empty. -/
theorem ac3_inconsistent_has_empty_domain (csp : CSPInstance) (fuel : Nat)
    (a a2 : AC3Algorithm) (h : AC3Algorithm.apply csp fuel a = some (false, a2)) :
    a2.hasEmptyDomain = true ∧ a2.getDomains ≠ a.getDomains ∧
    ∃ i, i < a.getDomains.length ∧ a2.getDomains.getD i [] = [] ∧ a.getDomains.getD i [] ≠ [] := by
  obtain ⟨hlen, i, hi, h2, h3⟩ := apply_false_empties csp fuel a a2 h
  refine ⟨?_, ?_, i, hi, h2, h3⟩
  · unfold AC3Algorithm.hasEmptyDomain
    rw [List.any_eq_true]
    refine ⟨a2.domains.getD i [], ?_, by rw [h2]; rfl⟩
    rw [List.getD_eq_getElem _ _ (by rw [hlen]; exact hi)]
    exact List.getElem_mem _
  · intro heq
    unfold AC3Algorithm.getDomains at heq
    rw [heq] at h2
    exact h3 h2

/-- Witness of C11: the empty relation makes the engine answer inconsistent. -/
theorem ac3_inconsistent_has_empty_domain_witness :
    AC3Algorithm.apply emptyRelationInstance 10 (AC3Algorithm.new emptyRelationInstance)
      = some (false, { domains := [[], [0, 1]], worklist := [{ var1 := 1, var2 := 0 }],
                       revisions_count := 1 }) ∧
    ((AC3Algorithm.mk [[], [0, 1]] [{ var1 := 1, var2 := 0 }] 1).hasEmptyDomain = true ∧
      (AC3Algorithm.mk [[], [0, 1]] [{ var1 := 1, var2 := 0 }] 1).getDomains
        ≠ (AC3Algorithm.new emptyRelationInstance).getDomains ∧
      ∃ i, i < (AC3Algorithm.new emptyRelationInstance).getDomains.length ∧
        (AC3Algorithm.mk [[], [0, 1]] [{ var1 := 1, var2 := 0 }] 1).getDomains.getD i [] = [] ∧
        (AC3Algorithm.new emptyRelationInstance).getDomains.getD i [] ≠ []) :=
  ⟨by decide, ac3_inconsistent_has_empty_domain emptyRelationInstance 10
    (AC3Algorithm.new emptyRelationInstance) _ (by decide)⟩

/-! ## Validator -/

/-- C13. Validator: for every instance and every map (entries in key order),
`validateSolution` is true exactly when the keys are `0 .. N-1`, each value
lies in the initial interval of its variable, and `CSPInstance.isConsistent`
holds for every stored constraint on the values of its two variables. -/
theorem validateSolution_iff (csp : CSPInstance) (solution : List (Nat × Int))
    (hm : MapOrdered solution) :
    CSPSolver.validateSolution csp solution = true ↔
      (solution.map Prod.fst = List.range csp.num_variables ∧
       (∀ kv ∈ solution, (csp.domains.getD kv.1 (0, 0)).1 ≤ kv.2 ∧
          kv.2 ≤ (csp.domains.getD kv.1 (0, 0)).2) ∧
       ∀ c ∈ csp.constraints, ∀ x y, mapFind solution c.var1 = some x →
          mapFind solution c.var2 = some y → csp.isConsistent c.var1 x c.var2 y = true) := by
  have hcons : (csp.constraints.all (fun c =>
        match mapFind solution c.var1, mapFind solution c.var2 with
        | some val1, some val2 => csp.isConsistent c.var1 val1 c.var2 val2
        | _, _ => true) = true) ↔
      ∀ c ∈ csp.constraints, ∀ x y, mapFind solution c.var1 = some x →
          mapFind solution c.var2 = some y → csp.isConsistent c.var1 x c.var2 y = true := by
    rw [List.all_eq_true]
    refine forall_congr' (fun c => forall_congr' (fun _ => ?_))
    cases h1 : mapFind solution c.var1 with
    | none => simp
    | some x =>
      cases h2 : mapFind solution c.var2 with
      | none => simp
      | some y => simp
  have hall : (solution.all (fun kv =>
        decide (kv.1 < csp.num_variables) &&
        decide ((csp.domains.getD kv.1 (0, 0)).1 ≤ kv.2 ∧
          kv.2 ≤ (csp.domains.getD kv.1 (0, 0)).2)) = true) ↔
      ∀ kv ∈ solution, kv.1 < csp.num_variables ∧
        ((csp.domains.getD kv.1 (0, 0)).1 ≤ kv.2 ∧ kv.2 ≤ (csp.domains.getD kv.1 (0, 0)).2) := by
    rw [List.all_eq_true]
    refine forall_congr' (fun kv => forall_congr' (fun _ => ?_))
    simp only [Bool.and_eq_true, decide_eq_true_eq]
  unfold CSPSolver.validateSolution
  constructor
  · intro h
    by_cases hlen : solution.length ≠ csp.num_variables
    · rw [if_pos hlen] at h; cases h
    · rw [if_neg hlen] at h
      have hlen2 : solution.length = csp.num_variables := not_not.1 hlen
      by_cases ha : solution.all (fun kv =>
          decide (kv.1 < csp.num_variables) &&
          decide ((csp.domains.getD kv.1 (0, 0)).1 ≤ kv.2 ∧
            kv.2 ≤ (csp.domains.getD kv.1 (0, 0)).2)) = true
      · rw [ha] at h
        simp only [Bool.not_true, Bool.false_eq_true, if_false] at h
        have ha2 := hall.1 ha
        refine ⟨?_, fun kv hkv => (ha2 kv hkv).2, hcons.1 h⟩
        refine mapOrdered_keys_eq_range solution hm csp.num_variables ?_ hlen2
        intro k hk
        rw [List.mem_map] at hk
        obtain ⟨kv, hkv, rfl⟩ := hk
        exact (ha2 kv hkv).1
      · have hf : solution.all (fun kv =>
            decide (kv.1 < csp.num_variables) &&
            decide ((csp.domains.getD kv.1 (0, 0)).1 ≤ kv.2 ∧
              kv.2 ≤ (csp.domains.getD kv.1 (0, 0)).2)) = false := by simpa using ha
        rw [hf] at h
        simp at h
  · rintro ⟨hkeys, hval, hc⟩
    have hlen : solution.length = csp.num_variables := by
      have := congrArg List.length hkeys
      simpa using this
    rw [if_neg (by simpa using hlen)]
    have ha : solution.all (fun kv =>
        decide (kv.1 < csp.num_variables) &&
        decide ((csp.domains.getD kv.1 (0, 0)).1 ≤ kv.2 ∧
          kv.2 ≤ (csp.domains.getD kv.1 (0, 0)).2)) = true := by
      rw [hall]
      intro kv hkv
      refine ⟨?_, hval kv hkv⟩
      have := List.mem_map_of_mem Prod.fst hkv
      rw [hkeys] at this
      exact List.mem_range.1 this
    rw [ha]
    simp only [Bool.not_true, Bool.false_eq_true, if_false]
    exact hcons.2 hc

/-- Witness of C13 on the solution of the forced chain. -/
theorem validateSolution_iff_witness :
    MapOrdered [(0, 0), (1, 1), (2, 2)] ∧
    (CSPSolver.validateSolution chainInstance [(0, 0), (1, 1), (2, 2)] = true ↔
      (([(0, 0), (1, 1), (2, 2)] : List (Nat × Int)).map Prod.fst
          = List.range chainInstance.num_variables ∧
       (∀ kv ∈ ([(0, 0), (1, 1), (2, 2)] : List (Nat × Int)),
          (chainInstance.domains.getD kv.1 (0, 0)).1 ≤ kv.2 ∧
          kv.2 ≤ (chainInstance.domains.getD kv.1 (0, 0)).2) ∧
       ∀ c ∈ chainInstance.constraints, ∀ x y, mapFind [(0, 0), (1, 1), (2, 2)] c.var1 = some x →
          mapFind [(0, 0), (1, 1), (2, 2)] c.var2 = some y →
          chainInstance.isConsistent c.var1 x c.var2 y = true)) :=
  ⟨by unfold MapOrdered; decide,
    validateSolution_iff chainInstance [(0, 0), (1, 1), (2, 2)] (by unfold MapOrdered; decide)⟩

/-! ## Snapshots -/

/-- C16. Snapshot round trip: `restoreDomains(backupDomains())` leaves the
solver as it was; after a snapshot `S` of a state `s`, restoring `S` on any
later state gives the domains of `s`, and restoring `S` twice is the same as
restoring it once; after forward checking or `applyAC3` on `s`, which change
nothing but domains, restoring `S` gives back `s` itself. -/
theorem snapshot_round_trip (csp : CSPInstance) (s t : CSPSolver) (var : Nat) (value : Int)
    (fuel : Nat) :
    s.restoreDomains s.backupDomains = s ∧
    (t.restoreDomains s.backupDomains).domains = s.domains ∧
    (t.restoreDomains s.backupDomains).restoreDomains s.backupDomains
      = t.restoreDomains s.backupDomains ∧
    (CSPSolver.forwardCheckWithDomainReduction csp s var value).2.restoreDomains s.backupDomains
      = s ∧
    (CSPSolver.applyAC3 csp fuel s).map (fun r => r.2.restoreDomains s.backupDomains)
      = (CSPSolver.applyAC3 csp fuel s).map (fun _ => s) := by
  refine ⟨rfl, rfl, rfl, ?_, ?_⟩
  · unfold CSPSolver.forwardCheckWithDomainReduction
    have h := (forwardCheckLoop_spec csp var value (s.var_interaction_graph.getD var []) s).1
    rw [h]
    rfl
  · unfold CSPSolver.applyAC3
    cases AC3Algorithm.apply csp fuel ((AC3Algorithm.new csp).setDomains s.domains) with
    | none => rfl
    | some r =>
      obtain ⟨b, a2⟩ := r
      cases b with
      | true => rfl
      | false => rfl

/-! ## Variable selection -/

/-- C19. For every strategy name and every state, `selectVariable` returns -1
exactly when every variable in `[0, N)` is in the assignment, and otherwise a
variable in `[0, N)` that is not in the assignment. -/
theorem selectVariable_sentinel (csp : CSPInstance) (w : World) (s : CSPSolver)
    (strategy : String) :
    ((selectVariable csp w s strategy).1 = -1 ↔
      ∀ i, i < csp.num_variables → mapFind s.assignment i ≠ none) ∧
    ((selectVariable csp w s strategy).1 ≠ -1 →
      ∃ v : Nat, (selectVariable csp w s strategy).1 = (v : Int) ∧ v < csp.num_variables ∧
        mapFind s.assignment v = none) := by
  rcases (selectVariable_spec csp w s strategy).2 with ⟨h1, h2⟩ | ⟨v, h1, h2, h3⟩
  · exact ⟨⟨fun _ => h2, fun _ => h1⟩, fun h => absurd h1 h⟩
  · refine ⟨⟨fun h => ?_, fun h => absurd h3 (h v h2)⟩, fun _ => ⟨v, h1, h2, h3⟩⟩
    rw [h1] at h
    omega

theorem mrv_range (domains : List (List Int)) (assignment : List (Nat × Int)) (n : Nat) :
    (((List.range n).foldl (mrvStep domains assignment) (-1, none)) = (-1, none) ∧
      ∀ i, i < n → mapFind assignment i ≠ none) ∨
    (∃ v : Nat, ((List.range n).foldl (mrvStep domains assignment) (-1, none))
        = ((v : Int), some (domains.getD v []).length) ∧
      v < n ∧ mapFind assignment v = none ∧
      (∀ u, u < n → mapFind assignment u = none →
        (domains.getD v []).length ≤ (domains.getD u []).length) ∧
      (∀ u, u < n → mapFind assignment u = none →
        (domains.getD u []).length = (domains.getD v []).length → v ≤ u)) := by
  induction n with
  | zero =>
    left
    exact ⟨rfl, fun i hi => absurd hi (Nat.not_lt_zero i)⟩
  | succ n ih =>
    rw [List.range_succ, List.foldl_append]
    simp only [List.foldl_cons, List.foldl_nil]
    by_cases hu : mapFind assignment n = none
    · rcases ih with ⟨h1, h2⟩ | ⟨v, h1, h2, h3, h4, h5⟩
      · right
        refine ⟨n, ?_, Nat.lt_succ_self n, hu, ?_, ?_⟩
        · rw [h1]
          unfold mrvStep
          rw [hu]
          rfl
        · intro u hlt huu
          rcases Nat.lt_succ_iff_lt_or_eq.1 hlt with h | h
          · exact absurd huu (h2 u h)
          · rw [h]
        · intro u hlt huu _
          rcases Nat.lt_succ_iff_lt_or_eq.1 hlt with h | h
          · exact absurd huu (h2 u h)
          · rw [h]
      · right
        rw [h1]
        by_cases hlt : (domains.getD n []).length < (domains.getD v []).length
        · refine ⟨n, ?_, Nat.lt_succ_self n, hu, ?_, ?_⟩
          · unfold mrvStep
            rw [hu]
            simp only [Option.isNone_none, if_true]
            rw [if_pos hlt]
          · intro u hult huu
            rcases Nat.lt_succ_iff_lt_or_eq.1 hult with h | h
            · have := h4 u h huu
              omega
            · rw [h]
          · intro u hult huu heq
            rcases Nat.lt_succ_iff_lt_or_eq.1 hult with h | h
            · have := h4 u h huu
              omega
            · rw [h]
        · refine ⟨v, ?_, Nat.lt_succ_of_lt h2, h3, ?_, ?_⟩
          · unfold mrvStep
            rw [hu]
            simp only [Option.isNone_none, if_true]
            rw [if_neg hlt]
          · intro u hult huu
            rcases Nat.lt_succ_iff_lt_or_eq.1 hult with h | h
            · exact h4 u h huu
            · rw [h]; omega
          · intro u hult huu heq
            rcases Nat.lt_succ_iff_lt_or_eq.1 hult with h | h
            · exact h5 u h huu heq
            · rw [h]; omega
    · have hstep : ∀ acc, mrvStep domains assignment acc n = acc := by
        intro acc
        unfold mrvStep
        cases hf : mapFind assignment n with
        | none => exact absurd hf hu
        | some x => simp
      rw [hstep]
      rcases ih with ⟨h1, h2⟩ | ⟨v, h1, h2, h3, h4, h5⟩
      · left
        refine ⟨h1, fun i hi => ?_⟩
        rcases Nat.lt_succ_iff_lt_or_eq.1 hi with h | h
        · exact h2 i h
        · rw [h]; exact hu
      · right
        refine ⟨v, h1, Nat.lt_succ_of_lt h2, h3, ?_, ?_⟩
        · intro u hult huu
          rcases Nat.lt_succ_iff_lt_or_eq.1 hult with h | h
          · exact h4 u h huu
          · rw [h] at huu; exact absurd huu hu
        · intro u hult huu heq
          rcases Nat.lt_succ_iff_lt_or_eq.1 hult with h | h
          · exact h5 u h huu heq
          · rw [h] at huu; exact absurd huu hu

/-- C17. MRV: when at least one variable is unassigned, `selectVariable("mrv")`
returns an unassigned variable whose current domain is smallest among the
unassigned variables, and the lowest variable among those with a smallest
domain. -/
theorem mrv_selects_first_minimum (csp : CSPInstance) (w : World) (s : CSPSolver)
    (h : ∃ i, i < csp.num_variables ∧ mapFind s.assignment i = none) :
    ∃ v : Nat, (selectVariable csp w s "mrv").1 = (v : Int) ∧ v < csp.num_variables ∧
      mapFind s.assignment v = none ∧
      (∀ u, u < csp.num_variables → mapFind s.assignment u = none →
        (s.domains.getD v []).length ≤ (s.domains.getD u []).length) ∧
      (∀ u, u < csp.num_variables → mapFind s.assignment u = none →
        (s.domains.getD u []).length = (s.domains.getD v []).length → v ≤ u) := by
  have hsel : (selectVariable csp w s "mrv").1 = mrvHeuristic csp s := by
    unfold selectVariable
    rw [if_pos rfl]
  rw [hsel]
  unfold mrvHeuristic
  rcases mrv_range s.domains s.assignment csp.num_variables with ⟨_, h2⟩ | ⟨v, h1, h2, h3, h4, h5⟩
  · obtain ⟨i, hi, hn⟩ := h
    exact absurd hn (h2 i hi)
  · exact ⟨v, by rw [h1], h2, h3, h4, h5⟩

/-- Witness of C17 on a new solver for the forced chain. -/
theorem mrv_selects_first_minimum_witness :
    (∃ i, i < chainInstance.num_variables ∧
      mapFind (CSPSolver.new chainInstance).assignment i = none) ∧
    ∃ v : Nat, (selectVariable chainInstance exampleWorld (CSPSolver.new chainInstance) "mrv").1
        = (v : Int) ∧ v < chainInstance.num_variables ∧
      mapFind (CSPSolver.new chainInstance).assignment v = none ∧
      (∀ u, u < chainInstance.num_variables →
        mapFind (CSPSolver.new chainInstance).assignment u = none →
        ((CSPSolver.new chainInstance).domains.getD v []).length
          ≤ ((CSPSolver.new chainInstance).domains.getD u []).length) ∧
      (∀ u, u < chainInstance.num_variables →
        mapFind (CSPSolver.new chainInstance).assignment u = none →
        ((CSPSolver.new chainInstance).domains.getD u []).length
          = ((CSPSolver.new chainInstance).domains.getD v []).length → v ≤ u) :=
  ⟨⟨0, by decide, rfl⟩,
    mrv_selects_first_minimum chainInstance exampleWorld (CSPSolver.new chainInstance)
      ⟨0, by decide, rfl⟩⟩

theorem degree_range (graph : List (List Nat)) (assignment : List (Nat × Int)) (n : Nat) :
    (((List.range n).foldl (degreeStep graph assignment) (-1, -1)) = (-1, -1) ∧
      ∀ i, i < n → mapFind assignment i ≠ none) ∨
    (∃ v : Nat, ((List.range n).foldl (degreeStep graph assignment) (-1, -1))
        = ((v : Int), ((graph.getD v []).length : Int)) ∧
      v < n ∧ mapFind assignment v = none ∧
      (∀ u, u < n → mapFind assignment u = none →
        (graph.getD u []).length ≤ (graph.getD v []).length) ∧
      (∀ u, u < n → mapFind assignment u = none →
        (graph.getD u []).length = (graph.getD v []).length → v ≤ u)) := by
  induction n with
  | zero =>
    left
    exact ⟨rfl, fun i hi => absurd hi (Nat.not_lt_zero i)⟩
  | succ n ih =>
    rw [List.range_succ, List.foldl_append]
    simp only [List.foldl_cons, List.foldl_nil]
    by_cases hu : mapFind assignment n = none
    · rcases ih with ⟨h1, h2⟩ | ⟨v, h1, h2, h3, h4, h5⟩
      · right
        refine ⟨n, ?_, Nat.lt_succ_self n, hu, ?_, ?_⟩
        · rw [h1]
          unfold degreeStep
          rw [hu]
          simp only [Option.isNone_none, if_true]
          rw [if_pos (by
            have := Int.natCast_nonneg (graph.getD n []).length
            show ((graph.getD n []).length : Int) > -1
            omega)]
        · intro u hlt huu
          rcases Nat.lt_succ_iff_lt_or_eq.1 hlt with h | h
          · exact absurd huu (h2 u h)
          · rw [h]
        · intro u hlt huu _
          rcases Nat.lt_succ_iff_lt_or_eq.1 hlt with h | h
          · exact absurd huu (h2 u h)
          · rw [h]
      · right
        rw [h1]
        by_cases hgt : (graph.getD n []).length > (graph.getD v []).length
        · refine ⟨n, ?_, Nat.lt_succ_self n, hu, ?_, ?_⟩
          · unfold degreeStep
            rw [hu]
            simp only [Option.isNone_none, if_true]
            rw [if_pos (by
              show ((graph.getD n []).length : Int) > ((graph.getD v []).length : Int)
              omega)]
          · intro u hult huu
            rcases Nat.lt_succ_iff_lt_or_eq.1 hult with h | h
            · have := h4 u h huu
              omega
            · rw [h]
          · intro u hult huu heq
            rcases Nat.lt_succ_iff_lt_or_eq.1 hult with h | h
            · have := h4 u h huu
              omega
            · rw [h]
        · refine ⟨v, ?_, Nat.lt_succ_of_lt h2, h3, ?_, ?_⟩
          · unfold degreeStep
            rw [hu]
            simp only [Option.isNone_none, if_true]
            rw [if_neg (by
              show ¬ ((graph.getD n []).length : Int) > ((graph.getD v []).length : Int)
              omega)]
          · intro u hult huu
            rcases Nat.lt_succ_iff_lt_or_eq.1 hult with h | h
            · exact h4 u h huu
            · rw [h]; omega
          · intro u hult huu heq
            rcases Nat.lt_succ_iff_lt_or_eq.1 hult with h | h
            · exact h5 u h huu heq
            · rw [h]; omega
    · have hstep : ∀ acc, degreeStep graph assignment acc n = acc := by
        intro acc
        unfold degreeStep
        cases hf : mapFind assignment n with
        | none => exact absurd hf hu
        | some x => simp
      rw [hstep]
      rcases ih with ⟨h1, h2⟩ | ⟨v, h1, h2, h3, h4, h5⟩
      · left
        refine ⟨h1, fun i hi => ?_⟩
        rcases Nat.lt_succ_iff_lt_or_eq.1 hi with h | h
        · exact h2 i h
        · rw [h]; exact hu
      · right
        refine ⟨v, h1, Nat.lt_succ_of_lt h2, h3, ?_, ?_⟩
        · intro u hult huu
          rcases Nat.lt_succ_iff_lt_or_eq.1 hult with h | h
          · exact h4 u h huu
          · rw [h] at huu; exact absurd huu hu
        · intro u hult huu heq
          rcases Nat.lt_succ_iff_lt_or_eq.1 hult with h | h
          · exact h5 u h huu heq
          · rw [h] at huu; exact absurd huu hu

/-- C18. Degree heuristic: when at least one variable is unassigned,
`selectVariable("degree")` returns an unassigned variable whose entry of the
constraint graph is longest among the unassigned variables, and the lowest
variable among those with a longest entry. -/
theorem degree_selects_first_maximum (csp : CSPInstance) (w : World) (s : CSPSolver)
    (h : ∃ i, i < csp.num_variables ∧ mapFind s.assignment i = none) :
    ∃ v : Nat, (selectVariable csp w s "degree").1 = (v : Int) ∧ v < csp.num_variables ∧
      mapFind s.assignment v = none ∧
      (∀ u, u < csp.num_variables → mapFind s.assignment u = none →
        (s.var_interaction_graph.getD u []).length ≤ (s.var_interaction_graph.getD v []).length) ∧
      (∀ u, u < csp.num_variables → mapFind s.assignment u = none →
        (s.var_interaction_graph.getD u []).length = (s.var_interaction_graph.getD v []).length →
        v ≤ u) := by
  have hsel : (selectVariable csp w s "degree").1 = degreeHeuristic csp s := by
    unfold selectVariable
    rw [if_neg (by decide), if_pos rfl]
  rw [hsel]
  unfold degreeHeuristic
  rcases degree_range s.var_interaction_graph s.assignment csp.num_variables with
    ⟨_, h2⟩ | ⟨v, h1, h2, h3, h4, h5⟩
  · obtain ⟨i, hi, hn⟩ := h
    exact absurd hn (h2 i hi)
  · exact ⟨v, by rw [h1], h2, h3, h4, h5⟩

/-- Witness of C18 on a new solver for the forced chain, where variable 1 has
two neighbours. -/
theorem degree_selects_first_maximum_witness :
    (∃ i, i < chainInstance.num_variables ∧
      mapFind (CSPSolver.new chainInstance).assignment i = none) ∧
    ∃ v : Nat, (selectVariable chainInstance exampleWorld (CSPSolver.new chainInstance) "degree").1
        = (v : Int) ∧ v < chainInstance.num_variables ∧
      mapFind (CSPSolver.new chainInstance).assignment v = none ∧
      (∀ u, u < chainInstance.num_variables →
        mapFind (CSPSolver.new chainInstance).assignment u = none →
        ((CSPSolver.new chainInstance).var_interaction_graph.getD u []).length
          ≤ ((CSPSolver.new chainInstance).var_interaction_graph.getD v []).length) ∧
      (∀ u, u < chainInstance.num_variables →
        mapFind (CSPSolver.new chainInstance).assignment u = none →
        ((CSPSolver.new chainInstance).var_interaction_graph.getD u []).length
          = ((CSPSolver.new chainInstance).var_interaction_graph.getD v []).length → v ≤ u) :=
  ⟨⟨0, by decide, rfl⟩,
    degree_selects_first_maximum chainInstance exampleWorld (CSPSolver.new chainInstance)
      ⟨0, by decide, rfl⟩⟩

/-! ## Frame of the node-level AC-3 step -/

theorem nodeAC3_frame (csp : CSPInstance) (args : SolveArgs) (fuel : Nat) (s : CSPSolver)
    (b : Bool) (s1 : CSPSolver) (h : nodeAC3 csp args fuel s = some (b, s1)) :
    s1 = { s with domains := s1.domains } := by
  unfold nodeAC3 at h
  by_cases hn : args.ac3_at_each_node = true
  · rw [if_pos hn] at h
    unfold CSPSolver.applyAC3 at h
    cases ha : AC3Algorithm.apply csp fuel ((AC3Algorithm.new csp).setDomains s.domains) with
    | none => rw [ha] at h; cases h
    | some r =>
      obtain ⟨c, a2⟩ := r
      rw [ha] at h
      simp only at h
      cases c with
      | true =>
        simp only [if_true, Option.some.injEq, Prod.mk.injEq] at h
        rw [← h.2]
      | false =>
        simp only [Bool.false_eq_true, if_false, Option.some.injEq, Prod.mk.injEq] at h
        rw [← h.2]
  · rw [if_neg hn] at h
    simp only [Option.some.injEq, Prod.mk.injEq] at h
    rw [← h.2]

/-! ## Resolution status after a deadline -/

/-- C14, the code at a failing input: on `singleInstance` with `max_time = 1`, the
default configuration and a clock that passes the deadline after the first solution is recorded,
`solve` returns true with `wasTimeout()` true and the partial list `[{0 → 0}]`,
and the status computed by `main` is "All solutions found", not "Timeout". -/
theorem timeout_with_partial_list_status :
    (CSPSolver.solve singleInstance deadlineWorld { defaultArgs with max_time := 1 } 20
        (CSPSolver.new singleInstance)).map
      (fun r => (r.1, r.2.wasTimeout, r.2.solutions)) = some (true, true, [[(0, 0)]]) ∧
    runSolver singleInstance deadlineWorld { max_time := 1 } 20
      = some { solutions := [[(0, 0)]], resolution_status := "All solutions found",
               nodes_explored := 3, backtracks := 3 } := by
  decide

/-! ## The forward checker, neighbour by neighbour -/

theorem uniqueAdjacent_strict : ∀ l : List Nat, List.Sorted (fun a b => a ≤ b) l →
    List.Pairwise (fun a b => a < b) (uniqueAdjacent l)
  | [], _ => List.Pairwise.nil
  | [_], _ => List.pairwise_singleton _ _
  | x :: y :: rest, h => by
    have hs : List.Pairwise (fun a b : Nat => a ≤ b) (x :: y :: rest) := h
    rw [List.pairwise_cons] at hs
    have ih := uniqueAdjacent_strict (y :: rest) hs.2
    unfold uniqueAdjacent
    by_cases hxy : x = y
    · rw [if_pos hxy]; exact ih
    · rw [if_neg hxy, List.pairwise_cons]
      refine ⟨?_, ih⟩
      intro z hz
      have hz2 := (uniqueAdjacent_sublist (y :: rest)).subset hz
      have hxle : x ≤ y := hs.1 y (List.mem_cons_self _ _)
      have hyz : y ≤ z := by
        rcases List.mem_cons.1 hz2 with h1 | h1
        · rw [h1]
        · exact (List.pairwise_cons.1 hs.2).1 z h1
      omega

theorem mem_getD_set_iff (graph : List (List Nat)) (i : Nat) (l : List Nat) (u w : Nat)
    (h : w ∈ (graph.set i l).getD u []) : (i = u ∧ w ∈ l) ∨ w ∈ graph.getD u [] := by
  by_cases hi : i < graph.length
  · by_cases hiu : i = u
    · subst hiu
      rw [getD_set_self _ _ _ _ hi] at h
      exact Or.inl ⟨rfl, h⟩
    · rw [getD_set_ne _ _ _ _ _ hiu] at h
      exact Or.inr h
  · rw [set_of_length_le _ _ _ (Nat.le_of_not_lt hi)] at h
    exact Or.inr h

theorem addConstraintEdges_mem (graph : List (List Nat)) (c : Constraint) (u w : Nat)
    (h : w ∈ (addConstraintEdges graph c).getD u []) :
    w ∈ graph.getD u [] ∨ (c.var1 = u ∧ c.var2 = w) ∨ (c.var2 = u ∧ c.var1 = w) := by
  unfold addConstraintEdges at h
  simp only at h
  have hinner : ∀ v, w ∈ (graph.set c.var1 (graph.getD c.var1 [] ++ [c.var2])).getD v [] →
      w ∈ graph.getD v [] ∨ (c.var1 = v ∧ c.var2 = w) := by
    intro v hv
    rcases mem_getD_set_iff _ _ _ _ _ hv with ⟨h4, h5⟩ | h5
    · rcases List.mem_append.1 h5 with h6 | h6
      · rw [h4] at h6; exact Or.inl h6
      · exact Or.inr ⟨h4, (List.mem_singleton.1 h6).symm⟩
    · exact Or.inl h5
  rcases mem_getD_set_iff _ _ _ _ _ h with ⟨h1, h2⟩ | h2
  · rcases List.mem_append.1 h2 with h3 | h3
    · rcases hinner c.var2 h3 with h4 | h4
      · rw [h1] at h4; exact Or.inl h4
      · exact Or.inr (Or.inl ⟨h4.1.trans h1, h4.2⟩)
    · exact Or.inr (Or.inr ⟨h1, (List.mem_singleton.1 h3).symm⟩)
  · rcases hinner u h2 with h4 | h4
    · exact Or.inl h4
    · exact Or.inr (Or.inl h4)

theorem foldl_addConstraintEdges_mem (cs : List Constraint) (graph : List (List Nat))
    (u w : Nat) (h : w ∈ (cs.foldl addConstraintEdges graph).getD u []) :
    w ∈ graph.getD u [] ∨
      ∃ c ∈ cs, (c.var1 = u ∧ c.var2 = w) ∨ (c.var2 = u ∧ c.var1 = w) := by
  induction cs generalizing graph with
  | nil => exact Or.inl h
  | cons c rest ih =>
    simp only [List.foldl_cons] at h
    rcases ih _ h with h1 | ⟨c2, hc2, h2⟩
    · rcases addConstraintEdges_mem graph c u w h1 with h3 | h3
      · exact Or.inl h3
      · exact Or.inr ⟨c, List.mem_cons_self _ _, h3⟩
    · exact Or.inr ⟨c2, List.mem_cons_of_mem _ hc2, h2⟩

/-- Every entry of the constraint graph is strictly ascending, and each of its
members is joined to the variable of the entry by a stored constraint. -/
theorem buildInteractionGraph_entry (csp : CSPInstance) (u : Nat) :
    List.Pairwise (fun a b => a < b) ((buildInteractionGraph csp).getD u []) ∧
    ∀ w ∈ (buildInteractionGraph csp).getD u [],
      ∃ c ∈ csp.constraints, (c.var1 = u ∧ c.var2 = w) ∨ (c.var2 = u ∧ c.var1 = w) := by
  unfold buildInteractionGraph
  by_cases hu : u < (csp.constraints.foldl addConstraintEdges
      (List.replicate csp.num_variables [])).length
  · have hget : ((csp.constraints.foldl addConstraintEdges
        (List.replicate csp.num_variables [])).map
        (fun neighbors => uniqueAdjacent (neighbors.insertionSort (fun a b => a ≤ b)))).getD u []
        = uniqueAdjacent (((csp.constraints.foldl addConstraintEdges
            (List.replicate csp.num_variables [])).getD u []).insertionSort
              (fun a b => a ≤ b)) := by
      rw [List.getD_eq_getElem _ _ (by simpa using hu), List.getD_eq_getElem _ _ hu]
      simp
    rw [hget]
    refine ⟨uniqueAdjacent_strict _ (List.sorted_insertionSort _ _), ?_⟩
    intro w hw
    have h1 := (uniqueAdjacent_sublist _).subset hw
    have h2 := (List.perm_insertionSort _ _).subset h1
    rcases foldl_addConstraintEdges_mem _ _ u w h2 with h3 | h3
    · exfalso
      rcases getD_mem_or_nil (List.replicate csp.num_variables ([] : List Nat)) u with h4 | h4
      · rw [List.eq_of_mem_replicate h4] at h3; cases h3
      · rw [h4] at h3; cases h3
    · exact h3
  · have hget : ((csp.constraints.foldl addConstraintEdges
        (List.replicate csp.num_variables [])).map
        (fun neighbors => uniqueAdjacent (neighbors.insertionSort (fun a b => a ≤ b)))).getD u []
        = [] := by
      rw [List.getD_eq_default _ _ (by simpa using hu)]
    rw [hget]
    exact ⟨List.Pairwise.nil, fun w hw => by cases hw⟩

theorem fcFilter_set_ne (csp : CSPInstance) (domains : List (List Int)) (var : Nat)
    (value : Int) (nb : Nat) (l : List Int) (w : Nat) (h : nb ≠ w) :
    fcFilter csp (domains.set nb l) var value w = fcFilter csp domains var value w := by
  unfold fcFilter
  rw [getD_set_ne _ _ _ _ _ h]

/-- The loop of the forward checker over a list of distinct neighbours: it
fails exactly when the filtered domain of some unassigned neighbour is empty,
and when it succeeds the domain of every unassigned neighbour is its filtered
domain and every other domain is unchanged. -/
theorem forwardCheckLoop_char (csp : CSPInstance) (var : Nat) (value : Int)
    (nbrs : List Nat) (hnd : nbrs.Nodup) (s : CSPSolver) :
    ((forwardCheckLoop csp var value nbrs s).1 = false ↔
      ∃ w ∈ nbrs, mapFind s.assignment w = none ∧ fcFilter csp s.domains var value w = []) ∧
    ((forwardCheckLoop csp var value nbrs s).1 = true →
      ∀ i, (forwardCheckLoop csp var value nbrs s).2.domains.getD i [] =
        if i ∈ nbrs ∧ mapFind s.assignment i = none then fcFilter csp s.domains var value i
        else s.domains.getD i []) := by
  induction nbrs generalizing s with
  | nil =>
    refine ⟨?_, fun _ i => ?_⟩
    · constructor
      · intro h; cases h
      · rintro ⟨w, hw, _⟩; cases hw
    · rw [if_neg (fun h => by cases h.1)]
      rfl
  | cons nb rest ih =>
    have hnb : nb ∉ rest := (List.nodup_cons.1 hnd).1
    have hrest : rest.Nodup := (List.nodup_cons.1 hnd).2
    unfold forwardCheckLoop
    by_cases hun : (mapFind s.assignment nb).isNone = true
    · have hun2 : mapFind s.assignment nb = none := Option.isNone_iff_eq_none.1 hun
      rw [if_pos hun]
      simp only
      by_cases hem : ((s.domains.getD nb []).filter (fun neighbor_value =>
          csp.isConsistent var value nb neighbor_value)).isEmpty = true
      · rw [if_pos hem]
        refine ⟨⟨fun _ => ⟨nb, List.mem_cons_self _ _, hun2, List.isEmpty_iff.1 hem⟩, fun _ => rfl⟩,
          fun h => by cases h⟩
      · rw [if_neg hem]
        have hne : fcFilter csp s.domains var value nb ≠ [] := by
          intro h
          apply hem
          unfold fcFilter at h
          rw [h]
          rfl
        have hlt : nb < s.domains.length := by
          by_contra hc
          apply hne
          unfold fcFilter
          rw [getD_nil_of_length_le _ _ (Nat.le_of_not_lt hc)]
          rfl
        obtain ⟨ih1, ih2⟩ := ih hrest { s with domains := (s.domains.set nb
          ((s.domains.getD nb []).filter (fun neighbor_value =>
            csp.isConsistent var value nb neighbor_value))) }
        constructor
        · rw [ih1]
          constructor
          · rintro ⟨w, hw, h1, h2⟩
            have hnw : nb ≠ w := fun h => hnb (h ▸ hw)
            simp only at h1 h2
            rw [fcFilter_set_ne _ _ _ _ _ _ _ hnw] at h2
            exact ⟨w, List.mem_cons_of_mem _ hw, h1, h2⟩
          · rintro ⟨w, hw, h1, h2⟩
            rcases List.mem_cons.1 hw with h3 | h3
            · rw [h3] at h2; exact absurd h2 hne
            · have hnw : nb ≠ w := fun h => hnb (h ▸ h3)
              refine ⟨w, h3, h1, ?_⟩
              simp only
              rw [fcFilter_set_ne _ _ _ _ _ _ _ hnw]
              exact h2
        · intro htrue i
          rw [ih2 htrue i]
          simp only
          by_cases hi : nb = i
          · subst hi
            rw [if_neg (fun h => hnb h.1), if_pos ⟨List.mem_cons_self _ _, hun2⟩,
              getD_set_self _ _ _ _ hlt]
            rfl
          · rw [fcFilter_set_ne _ _ _ _ _ _ _ hi, getD_set_ne _ _ _ _ _ hi]
            have hiff : (i ∈ rest ∧ mapFind s.assignment i = none) ↔
                (i ∈ nb :: rest ∧ mapFind s.assignment i = none) := by
              constructor
              · exact fun h => ⟨List.mem_cons_of_mem _ h.1, h.2⟩
              · intro h
                rcases List.mem_cons.1 h.1 with h1 | h1
                · exact absurd h1.symm hi
                · exact ⟨h1, h.2⟩
            by_cases hcond : i ∈ rest ∧ mapFind s.assignment i = none
            · rw [if_pos hcond, if_pos (hiff.1 hcond)]
            · rw [if_neg hcond, if_neg (fun h => hcond (hiff.2 h))]
    · rw [if_neg hun]
      have hun2 : mapFind s.assignment nb ≠ none := fun h => hun (by rw [h]; rfl)
      obtain ⟨ih1, ih2⟩ := ih hrest s
      constructor
      · rw [ih1]
        constructor
        · rintro ⟨w, hw, h1, h2⟩
          exact ⟨w, List.mem_cons_of_mem _ hw, h1, h2⟩
        · rintro ⟨w, hw, h1, h2⟩
          rcases List.mem_cons.1 hw with h3 | h3
          · rw [h3] at h1; exact absurd h1 hun2
          · exact ⟨w, h3, h1, h2⟩
      · intro htrue i
        rw [ih2 htrue i]
        have hiff : (i ∈ rest ∧ mapFind s.assignment i = none) ↔
            (i ∈ nb :: rest ∧ mapFind s.assignment i = none) := by
          constructor
          · exact fun h => ⟨List.mem_cons_of_mem _ h.1, h.2⟩
          · intro h
            rcases List.mem_cons.1 h.1 with h1 | h1
            · rw [h1] at h; exact absurd h.2 hun2
            · exact ⟨h1, h.2⟩
        by_cases hcond : i ∈ rest ∧ mapFind s.assignment i = none
        · rw [if_pos hcond, if_pos (hiff.1 hcond)]
        · rw [if_neg hcond, if_neg (fun h => hcond (hiff.2 h))]

theorem uniqueAdjacent_mem : ∀ (l : List Nat) (z : Nat), z ∈ l → z ∈ uniqueAdjacent l
  | [], _, h => h
  | [_], _, h => h
  | x :: y :: rest, z, h => by
    unfold uniqueAdjacent
    by_cases hxy : x = y
    · rw [if_pos hxy]
      apply uniqueAdjacent_mem (y :: rest) z
      rcases List.mem_cons.1 h with h1 | h1
      · rw [h1, hxy]; exact List.mem_cons_self _ _
      · exact h1
    · rw [if_neg hxy]
      rcases List.mem_cons.1 h with h1 | h1
      · rw [h1]; exact List.mem_cons_self _ _
      · exact List.mem_cons_of_mem _ (uniqueAdjacent_mem (y :: rest) z h1)

theorem mem_getD_set_append (graph : List (List Nat)) (i x u w : Nat)
    (h : w ∈ graph.getD u []) : w ∈ (graph.set i (graph.getD i [] ++ [x])).getD u [] := by
  by_cases hi : i < graph.length
  · by_cases hiu : i = u
    · subst hiu
      rw [getD_set_self _ _ _ _ hi]
      exact List.mem_append_left _ h
    · rw [getD_set_ne _ _ _ _ _ hiu]; exact h
  · rw [set_of_length_le _ _ _ (Nat.le_of_not_lt hi)]; exact h

theorem addConstraintEdges_mono (graph : List (List Nat)) (c : Constraint) (u w : Nat)
    (h : w ∈ graph.getD u []) : w ∈ (addConstraintEdges graph c).getD u [] := by
  unfold addConstraintEdges
  exact mem_getD_set_append _ _ _ _ _ (mem_getD_set_append _ _ _ _ _ h)

theorem addConstraintEdges_adds (graph : List (List Nat)) (c : Constraint) :
    (c.var1 < graph.length → c.var2 ∈ (addConstraintEdges graph c).getD c.var1 []) ∧
    (c.var2 < graph.length → c.var1 ∈ (addConstraintEdges graph c).getD c.var2 []) := by
  unfold addConstraintEdges
  constructor
  · intro h1
    apply mem_getD_set_append
    rw [getD_set_self _ _ _ _ h1]
    exact List.mem_append_right _ (List.mem_singleton_self _)
  · intro h2
    simp only
    rw [getD_set_self _ _ _ _ (by simpa using h2)]
    exact List.mem_append_right _ (List.mem_singleton_self _)

theorem addConstraintEdges_length (graph : List (List Nat)) (c : Constraint) :
    (addConstraintEdges graph c).length = graph.length := by
  unfold addConstraintEdges
  simp only [List.length_set]

theorem foldl_addConstraintEdges_length (cs : List Constraint) (graph : List (List Nat)) :
    (cs.foldl addConstraintEdges graph).length = graph.length := by
  induction cs generalizing graph with
  | nil => rfl
  | cons c rest ih =>
    simp only [List.foldl_cons]
    rw [ih, addConstraintEdges_length]

theorem foldl_addConstraintEdges_mono (cs : List Constraint) (graph : List (List Nat))
    (u w : Nat) (h : w ∈ graph.getD u []) : w ∈ (cs.foldl addConstraintEdges graph).getD u [] := by
  induction cs generalizing graph with
  | nil => exact h
  | cons c rest ih =>
    simp only [List.foldl_cons]
    exact ih _ (addConstraintEdges_mono graph c u w h)

theorem foldl_addConstraintEdges_adds (cs : List Constraint) (graph : List (List Nat))
    (c : Constraint) (hc : c ∈ cs) :
    (c.var1 < graph.length → c.var2 ∈ (cs.foldl addConstraintEdges graph).getD c.var1 []) ∧
    (c.var2 < graph.length → c.var1 ∈ (cs.foldl addConstraintEdges graph).getD c.var2 []) := by
  induction cs generalizing graph with
  | nil => cases hc
  | cons c2 rest ih =>
    simp only [List.foldl_cons]
    rcases List.mem_cons.1 hc with h | h
    · subst h
      exact ⟨fun h1 => foldl_addConstraintEdges_mono _ _ _ _ ((addConstraintEdges_adds graph c).1 h1),
        fun h2 => foldl_addConstraintEdges_mono _ _ _ _ ((addConstraintEdges_adds graph c).2 h2)⟩
    · have := ih (addConstraintEdges graph c2) h
      rw [addConstraintEdges_length] at this
      exact this

/-- The entry of a variable of the instance in the constraint graph holds
exactly the variables joined to it by a stored constraint. -/
theorem buildInteractionGraph_mem_iff (csp : CSPInstance) (u w : Nat)
    (hu : u < csp.num_variables) :
    w ∈ (buildInteractionGraph csp).getD u [] ↔
      ∃ c ∈ csp.constraints, (c.var1 = u ∧ c.var2 = w) ∨ (c.var2 = u ∧ c.var1 = w) := by
  constructor
  · exact (buildInteractionGraph_entry csp u).2 w
  · rintro ⟨c, hc, hj⟩
    have hlen : (csp.constraints.foldl addConstraintEdges
        (List.replicate csp.num_variables [])).length = csp.num_variables := by
      rw [foldl_addConstraintEdges_length, List.length_replicate]
    have hadd := foldl_addConstraintEdges_adds csp.constraints
      (List.replicate csp.num_variables []) c hc
    rw [List.length_replicate] at hadd
    have hmem : w ∈ (csp.constraints.foldl addConstraintEdges
        (List.replicate csp.num_variables [])).getD u [] := by
      rcases hj with ⟨h1, h2⟩ | ⟨h1, h2⟩
      · rw [← h1, ← h2]; exact hadd.1 (h1 ▸ hu)
      · rw [← h1, ← h2]; exact hadd.2 (h1 ▸ hu)
    unfold buildInteractionGraph
    rw [List.getD_eq_getElem _ _ (by rw [List.length_map, hlen]; exact hu)]
    rw [List.getD_eq_getElem _ _ (by rw [hlen]; exact hu)] at hmem
    simp only [List.getElem_map]
    exact uniqueAdjacent_mem _ _ ((List.perm_insertionSort _ _).symm.subset hmem)

/-- C12. Forward checker: for an instance whose constraints all join two
different variables and a solver that holds the constraint graph of the
constructor, `forwardCheckWithDomainReduction(var, value)` returns false
exactly when some neighbour of `var` (an entry of its graph list) that is not
in the assignment has no value compatible with `var = value` under
`CSPInstance.isConsistent`; when it returns true the domain of every such
neighbour is its old domain filtered, in order, to the compatible values, and
the domains of `var`, of assigned variables and of non-neighbours are
unchanged; it changes nothing but domains; and for a variable of the instance
the neighbours are exactly the variables joined to it by a stored constraint. -/
theorem forward_check_characterization (csp : CSPInstance) (s : CSPSolver) (var : Nat)
    (value : Int) (hne : ∀ c ∈ csp.constraints, c.var1 ≠ c.var2)
    (hg : s.var_interaction_graph = buildInteractionGraph csp) :
    ((CSPSolver.forwardCheckWithDomainReduction csp s var value).1 = false ↔
      ∃ w ∈ s.var_interaction_graph.getD var [], mapFind s.assignment w = none ∧
        ∀ y ∈ s.domains.getD w [], csp.isConsistent var value w y = false) ∧
    ((CSPSolver.forwardCheckWithDomainReduction csp s var value).1 = true →
      (∀ w ∈ s.var_interaction_graph.getD var [], mapFind s.assignment w = none →
        (CSPSolver.forwardCheckWithDomainReduction csp s var value).2.domains.getD w [] =
          (s.domains.getD w []).filter (fun y => csp.isConsistent var value w y)) ∧
      (CSPSolver.forwardCheckWithDomainReduction csp s var value).2.domains.getD var []
        = s.domains.getD var [] ∧
      (∀ w, mapFind s.assignment w ≠ none →
        (CSPSolver.forwardCheckWithDomainReduction csp s var value).2.domains.getD w []
          = s.domains.getD w []) ∧
      (∀ w, w ∉ s.var_interaction_graph.getD var [] →
        (CSPSolver.forwardCheckWithDomainReduction csp s var value).2.domains.getD w []
          = s.domains.getD w [])) ∧
    (CSPSolver.forwardCheckWithDomainReduction csp s var value).2 =
      { s with domains :=
          (CSPSolver.forwardCheckWithDomainReduction csp s var value).2.domains } ∧
    (var < csp.num_variables → ∀ w, w ∈ s.var_interaction_graph.getD var [] ↔
      ∃ c ∈ csp.constraints, (c.var1 = var ∧ c.var2 = w) ∨ (c.var2 = var ∧ c.var1 = w)) := by
  have hentry := buildInteractionGraph_entry csp var
  rw [← hg] at hentry
  have hnd : (s.var_interaction_graph.getD var []).Nodup :=
    List.Pairwise.imp (fun h => Nat.ne_of_lt h) hentry.1
  have hself : var ∉ s.var_interaction_graph.getD var [] := by
    intro h
    obtain ⟨c, hc, h1 | h1⟩ := hentry.2 var h
    · exact hne c hc (h1.1.trans h1.2.symm)
    · exact hne c hc (h1.2.trans h1.1.symm)
  obtain ⟨hc1, hc2⟩ := forwardCheckLoop_char csp var value
    (s.var_interaction_graph.getD var []) hnd s
  have hframe := (forwardCheckLoop_spec csp var value (s.var_interaction_graph.getD var []) s).1
  unfold CSPSolver.forwardCheckWithDomainReduction
  refine ⟨?_, ?_, hframe, ?_⟩
  · rw [hc1]
    constructor
    · rintro ⟨w, hw, h1, h2⟩
      refine ⟨w, hw, h1, fun y hy => ?_⟩
      unfold fcFilter at h2
      rw [List.filter_eq_nil_iff] at h2
      simpa using h2 y hy
    · rintro ⟨w, hw, h1, h2⟩
      refine ⟨w, hw, h1, ?_⟩
      unfold fcFilter
      rw [List.filter_eq_nil_iff]
      intro y hy
      rw [h2 y hy]
      exact Bool.false_ne_true
  · intro htrue
    have h := hc2 htrue
    refine ⟨?_, ?_, ?_, ?_⟩
    · intro w hw hun
      rw [h w, if_pos ⟨hw, hun⟩]
      rfl
    · rw [h var, if_neg (fun hc => hself hc.1)]
    · intro w hw
      rw [h w, if_neg (fun hc => hw hc.2)]
    · intro w hw
      rw [h w, if_neg (fun hc => hw hc.1)]
  · intro hvar w
    rw [hg]
    exact buildInteractionGraph_mem_iff csp var w hvar

/-- Witness of C12 on a new solver for the forced chain, `var = 1, value = 1`. -/
theorem forward_check_characterization_witness :
    (∀ c ∈ chainInstance.constraints, c.var1 ≠ c.var2) ∧
    (CSPSolver.new chainInstance).var_interaction_graph = buildInteractionGraph chainInstance ∧
    (CSPSolver.forwardCheckWithDomainReduction chainInstance (CSPSolver.new chainInstance) 1 1).1
      = true ∧
    (CSPSolver.forwardCheckWithDomainReduction chainInstance
      (CSPSolver.new chainInstance) 1 1).2.domains = [[0], [0, 1, 2], [2]] ∧
    (((CSPSolver.forwardCheckWithDomainReduction chainInstance
        (CSPSolver.new chainInstance) 1 1).1 = false ↔
      ∃ w ∈ (CSPSolver.new chainInstance).var_interaction_graph.getD 1 [],
        mapFind (CSPSolver.new chainInstance).assignment w = none ∧
        ∀ y ∈ (CSPSolver.new chainInstance).domains.getD w [],
          chainInstance.isConsistent 1 1 w y = false) ∧
    ((CSPSolver.forwardCheckWithDomainReduction chainInstance
        (CSPSolver.new chainInstance) 1 1).1 = true →
      (∀ w ∈ (CSPSolver.new chainInstance).var_interaction_graph.getD 1 [],
        mapFind (CSPSolver.new chainInstance).assignment w = none →
        (CSPSolver.forwardCheckWithDomainReduction chainInstance
          (CSPSolver.new chainInstance) 1 1).2.domains.getD w [] =
          ((CSPSolver.new chainInstance).domains.getD w []).filter
            (fun y => chainInstance.isConsistent 1 1 w y)) ∧
      (CSPSolver.forwardCheckWithDomainReduction chainInstance
        (CSPSolver.new chainInstance) 1 1).2.domains.getD 1 []
        = (CSPSolver.new chainInstance).domains.getD 1 [] ∧
      (∀ w, mapFind (CSPSolver.new chainInstance).assignment w ≠ none →
        (CSPSolver.forwardCheckWithDomainReduction chainInstance
          (CSPSolver.new chainInstance) 1 1).2.domains.getD w []
          = (CSPSolver.new chainInstance).domains.getD w []) ∧
      (∀ w, w ∉ (CSPSolver.new chainInstance).var_interaction_graph.getD 1 [] →
        (CSPSolver.forwardCheckWithDomainReduction chainInstance
          (CSPSolver.new chainInstance) 1 1).2.domains.getD w []
          = (CSPSolver.new chainInstance).domains.getD w [])) ∧
    (CSPSolver.forwardCheckWithDomainReduction chainInstance (CSPSolver.new chainInstance) 1 1).2 =
      { CSPSolver.new chainInstance with domains :=
          (CSPSolver.forwardCheckWithDomainReduction chainInstance
            (CSPSolver.new chainInstance) 1 1).2.domains } ∧
    (1 < chainInstance.num_variables →
      ∀ w, w ∈ (CSPSolver.new chainInstance).var_interaction_graph.getD 1 [] ↔
        ∃ c ∈ chainInstance.constraints,
          (c.var1 = 1 ∧ c.var2 = w) ∨ (c.var2 = 1 ∧ c.var1 = w))) :=
  ⟨by decide, rfl, by decide, by decide,
    forward_check_characterization chainInstance (CSPSolver.new chainInstance) 1 1
      (by decide) rfl⟩

/-! ## Value ordering by least constraining value -/

theorem countLoop_eq (p : Int → Bool) (l : List Int) (c0 : Int) :
    l.foldl (fun conflicts neighbor_value => if p neighbor_value then conflicts + 1 else conflicts) c0
      = c0 + ((l.filter p).length : Int) := by
  induction l generalizing c0 with
  | nil => simp
  | cons y rest ih =>
    simp only [List.foldl_cons]
    rw [ih]
    by_cases hp : p y = true
    · rw [if_pos hp, List.filter_cons_of_pos hp]
      simp only [List.length_cons]
      push_cast
      ring
    · rw [if_neg hp, List.filter_cons_of_neg hp]

theorem countConflicts_loop (csp : CSPInstance) (s : CSPSolver) (var : Nat) (value : Int)
    (nbrs : List Nat) (c0 : Int) :
    nbrs.foldl (fun conflicts neighbor =>
      if (mapFind s.assignment neighbor).isNone then
        (s.domains.getD neighbor []).foldl (fun conflicts neighbor_value =>
          if !csp.isConsistent var value neighbor neighbor_value then conflicts + 1 else conflicts)
          conflicts
      else conflicts) c0
    = c0 + (((nbrs.filter (fun w => (mapFind s.assignment w).isNone)).flatMap
        (fun w => ((s.domains.getD w []).filter
          (fun y => !csp.isConsistent var value w y)).map (fun y => (w, y)))).length : Int) := by
  induction nbrs generalizing c0 with
  | nil => simp
  | cons w rest ih =>
    simp only [List.foldl_cons]
    rw [ih]
    by_cases hw : (mapFind s.assignment w).isNone = true
    · have hf : (w :: rest).filter (fun u => (mapFind s.assignment u).isNone)
          = w :: rest.filter (fun u => (mapFind s.assignment u).isNone) :=
        List.filter_cons_of_pos hw
      rw [if_pos hw, hf, List.flatMap_cons, List.length_append, List.length_map, countLoop_eq]
      push_cast
      ring
    · have hf : (w :: rest).filter (fun u => (mapFind s.assignment u).isNone)
          = rest.filter (fun u => (mapFind s.assignment u).isNone) :=
        List.filter_cons_of_neg hw
      rw [if_neg hw, hf]

/-- The loop result of `countConflicts` is the number of listed conflict pairs. -/
theorem countConflicts_eq (csp : CSPInstance) (s : CSPSolver) (var : Nat) (value : Int) :
    countConflicts csp s var value = ((conflictPairs csp s var value).length : Int) := by
  unfold countConflicts conflictPairs
  rw [countConflicts_loop]
  simp

theorem mem_conflictPairs (csp : CSPInstance) (s : CSPSolver) (var : Nat) (value : Int)
    (p : Nat × Int) :
    p ∈ conflictPairs csp s var value ↔
      p.1 ∈ s.var_interaction_graph.getD var [] ∧ mapFind s.assignment p.1 = none ∧
      p.2 ∈ s.domains.getD p.1 [] ∧ csp.isConsistent var value p.1 p.2 = false := by
  unfold conflictPairs
  simp only [List.mem_flatMap, List.mem_filter, List.mem_map, Option.isNone_iff_eq_none,
    Bool.not_eq_true']
  constructor
  · rintro ⟨w, ⟨hw, hun⟩, y, ⟨hy, hc⟩, rfl⟩
    exact ⟨hw, hun, hy, hc⟩
  · rintro ⟨hw, hun, hy, hc⟩
    exact ⟨p.1, ⟨hw, hun⟩, p.2, ⟨hy, hc⟩, rfl⟩

theorem conflictPairs_nodup (csp : CSPInstance) (s : CSPSolver) (var : Nat) (value : Int)
    (hn : (s.var_interaction_graph.getD var []).Nodup)
    (hd : ∀ w, (s.domains.getD w []).Nodup) : (conflictPairs csp s var value).Nodup := by
  unfold conflictPairs
  rw [List.nodup_flatMap]
  constructor
  · intro w _
    exact List.Nodup.map (fun a b h => (Prod.mk.inj h).2) (List.Nodup.filter _ (hd w))
  · apply List.Pairwise.imp _ (List.Nodup.filter _ hn)
    intro a b hab
    show List.Disjoint _ _
    intro p h1 h2
    simp only [List.mem_map] at h1 h2
    obtain ⟨y1, _, rfl⟩ := h1
    obtain ⟨y2, _, h3⟩ := h2
    exact hab (Prod.mk.inj h3).1.symm

theorem lcvHeuristic_sorted (csp : CSPInstance) (w : World) (s : CSPSolver) (var : Nat) :
    List.Pairwise (fun a b => countConflicts csp s var a ≤ countConflicts csp s var b)
      (lcvHeuristic csp w s var) := by
  unfold lcvHeuristic
  rw [List.pairwise_map]
  have hperm := w.sort_by_second_perm ((s.domains.getD var []).map (fun value =>
      (value, countConflicts csp s var value)))
  have hkey : ∀ p ∈ w.sort_by_second ((s.domains.getD var []).map (fun value =>
      (value, countConflicts csp s var value))), p.2 = countConflicts csp s var p.1 := by
    intro p hp
    have := hperm.subset hp
    simp only [List.mem_map] at this
    obtain ⟨v, _, rfl⟩ := this
    rfl
  apply List.Pairwise.imp_of_mem _ (w.sort_by_second_sorted _)
  intro a b ha hb hab
  rw [← hkey a ha, ← hkey b hb]
  exact not_lt.mp hab

theorem lcvHeuristic_perm (csp : CSPInstance) (w : World) (s : CSPSolver) (var : Nat) :
    List.Perm (lcvHeuristic csp w s var) (s.domains.getD var []) := by
  unfold lcvHeuristic
  have h1 := (w.sort_by_second_perm ((s.domains.getD var []).map (fun value =>
    (value, countConflicts csp s var value)))).map (fun pair => pair.1)
  rw [List.map_map] at h1
  have : ((fun pair : Int × Int => pair.1) ∘ fun value => (value, countConflicts csp s var value))
      = id := rfl
  rw [this, List.map_id] at h1
  exact h1

/-- C20, the order of ties. On one variable over `0..16` without constraints
every value has conflict count 0, so all 17 values are tied; the `std::sort` of
libstdc++ partitions an array of more than 16 elements before its insertion
sort, and `orderValues(0, "lcv")` returns `8, 16, 15, ..., 9, 0, 7, ..., 1`:
the values `0` and `1` come out after `8`, in the reverse of their order in
the domain, and the search records the solutions in that order. -/
theorem lcv_ties_not_in_domain_order :
    parseCSPFile 0 "1\n0 0 16\n# constraints\n0\n".toList = some tieInstance ∧
    tieInstance.WellFormed ∧
    (CSPSolver.new tieInstance).domains.getD 0 []
      = [0, 1, 2, 3, 4, 5, 6, 7, 8, 9, 10, 11, 12, 13, 14, 15, 16] ∧
    (∀ value ∈ (CSPSolver.new tieInstance).domains.getD 0 [],
      countConflicts tieInstance (CSPSolver.new tieInstance) 0 value = 0) ∧
    stdSortBySecond (((CSPSolver.new tieInstance).domains.getD 0 []).map (fun value =>
        (value, countConflicts tieInstance (CSPSolver.new tieInstance) 0 value)))
      = some [(8, 0), (16, 0), (15, 0), (14, 0), (13, 0), (12, 0), (11, 0), (10, 0), (9, 0),
          (0, 0), (7, 0), (6, 0), (5, 0), (4, 0), (3, 0), (2, 0), (1, 0)] ∧
    (orderValues tieInstance gnuWorld (CSPSolver.new tieInstance) 0 "lcv").1
      = [8, 16, 15, 14, 13, 12, 11, 10, 9, 0, 7, 6, 5, 4, 3, 2, 1] ∧
    List.Sublist [0, 8] ((CSPSolver.new tieInstance).domains.getD 0 []) ∧
    ¬ List.Sublist [0, 8]
      (orderValues tieInstance gnuWorld (CSPSolver.new tieInstance) 0 "lcv").1 ∧
    (CSPSolver.solve tieInstance gnuWorld defaultArgs 20 (CSPSolver.new tieInstance)).map
        (fun r => r.2.solutions.map (fun sol => sol.map (fun kv => kv.2)))
      = some [[8], [16], [15], [14], [13], [12], [11], [10], [9], [0], [7], [6], [5], [4], [3],
          [2], [1]] := by
  refine ⟨rfl, by decide, by decide, by decide, by decide, by decide, by decide, by decide, ?_⟩
  decide

/-- C20, amended. For every behaviour of `std::sort`, `orderValues(var, "lcv")`
returns a permutation of the current domain of `var` in ascending order of
`countConflicts(var, value)` and leaves the solver as it was, where
`countConflicts(var, value)` is the number of pairs `(w, y)` with `w` a
neighbour of `var` outside the assignment and `y` a value of the domain of `w`
such that `isConsistent(var, value, w, y)` is false (the pairs are listed
without repetition when the graph is the one of the constructor and the
domains have no repeated value); the relative order of values with equal
counts is not fixed. -/
theorem lcv_sorted_by_conflicts (csp : CSPInstance) (w : World) (s : CSPSolver) (var : Nat)
    (hg : s.var_interaction_graph = buildInteractionGraph csp)
    (hd : ∀ u, (s.domains.getD u []).Nodup) :
    (orderValues csp w s var "lcv").2 = s ∧
    List.Perm (orderValues csp w s var "lcv").1 (s.domains.getD var []) ∧
    List.Pairwise (fun a b => countConflicts csp s var a ≤ countConflicts csp s var b)
      (orderValues csp w s var "lcv").1 ∧
    (∀ value, countConflicts csp s var value = ((conflictPairs csp s var value).length : Int)) ∧
    (∀ value, (conflictPairs csp s var value).Nodup) ∧
    (∀ value u y, (u, y) ∈ conflictPairs csp s var value ↔
      u ∈ s.var_interaction_graph.getD var [] ∧ mapFind s.assignment u = none ∧
      y ∈ s.domains.getD u [] ∧ csp.isConsistent var value u y = false) := by
  have hn : (s.var_interaction_graph.getD var []).Nodup := by
    rw [hg]
    exact List.Pairwise.imp (fun h => Nat.ne_of_lt h) (buildInteractionGraph_entry csp var).1
  have ho : orderValues csp w s var "lcv" = (lcvHeuristic csp w s var, s) := by
    unfold orderValues
    rw [if_pos rfl]
  rw [ho]
  exact ⟨rfl, lcvHeuristic_perm csp w s var, lcvHeuristic_sorted csp w s var,
    fun value => countConflicts_eq csp s var value,
    fun value => conflictPairs_nodup csp s var value hn hd,
    fun value u y => mem_conflictPairs csp s var value (u, y)⟩

/-- Witness of the amended C20 on a new solver for the forced chain and
`var = 1`, under the world whose `std::sort` is the routine of libstdc++. -/
theorem lcv_sorted_by_conflicts_witness :
    (CSPSolver.new chainInstance).var_interaction_graph = buildInteractionGraph chainInstance ∧
    (∀ u, ((CSPSolver.new chainInstance).domains.getD u []).Nodup) ∧
    conflictPairs chainInstance (CSPSolver.new chainInstance) 1 0
      = [(0, 0), (0, 1), (0, 2), (2, 0), (2, 2)] ∧
    ((orderValues chainInstance gnuWorld (CSPSolver.new chainInstance) 1 "lcv").2
      = CSPSolver.new chainInstance ∧
    List.Perm (orderValues chainInstance gnuWorld (CSPSolver.new chainInstance) 1 "lcv").1
      ((CSPSolver.new chainInstance).domains.getD 1 []) ∧
    List.Pairwise (fun a b => countConflicts chainInstance (CSPSolver.new chainInstance) 1 a
        ≤ countConflicts chainInstance (CSPSolver.new chainInstance) 1 b)
      (orderValues chainInstance gnuWorld (CSPSolver.new chainInstance) 1 "lcv").1 ∧
    (∀ value, countConflicts chainInstance (CSPSolver.new chainInstance) 1 value
      = ((conflictPairs chainInstance (CSPSolver.new chainInstance) 1 value).length : Int)) ∧
    (∀ value, (conflictPairs chainInstance (CSPSolver.new chainInstance) 1 value).Nodup) ∧
    (∀ value u y, (u, y) ∈ conflictPairs chainInstance (CSPSolver.new chainInstance) 1 value ↔
      u ∈ (CSPSolver.new chainInstance).var_interaction_graph.getD 1 [] ∧
      mapFind (CSPSolver.new chainInstance).assignment u = none ∧
      y ∈ (CSPSolver.new chainInstance).domains.getD u [] ∧
      chainInstance.isConsistent 1 value u y = false)) :=
  have hd : ∀ u, ((CSPSolver.new chainInstance).domains.getD u []).Nodup := by
    intro u
    match u with
    | 0 => decide
    | 1 => decide
    | 2 => decide
    | (n + 3) => exact List.nodup_nil
  ⟨rfl, hd, by decide,
    lcv_sorted_by_conflicts chainInstance gnuWorld (CSPSolver.new chainInstance) 1 rfl hd⟩

/-! ## Unknown strategy names -/

/-- C21. Unknown strategy names fall back silently: a variable strategy other
than `mrv`, `degree` and `random` selects as `mrv` does, and a value strategy
other than `lcv`, `random` and `lexicographic` orders as `lexicographic` does,
which returns the current domain of `var` in ascending numeric order and leaves
the solver as it was. -/
theorem unknown_strategy_fallback (csp : CSPInstance) (w : World) (s : CSPSolver) (var : Nat)
    (vname oname : String)
    (hv1 : vname ≠ "mrv") (hv2 : vname ≠ "degree") (hv3 : vname ≠ "random")
    (ho1 : oname ≠ "lcv") (ho2 : oname ≠ "random") (ho3 : oname ≠ "lexicographic") :
    selectVariable csp w s vname = selectVariable csp w s "mrv" ∧
    orderValues csp w s var oname = orderValues csp w s var "lexicographic" ∧
    (orderValues csp w s var "lexicographic").2 = s ∧
    List.Perm (orderValues csp w s var "lexicographic").1 (s.domains.getD var []) ∧
    List.Sorted (fun a b => a ≤ b) (orderValues csp w s var "lexicographic").1 := by
  have hlex : orderValues csp w s var "lexicographic" = (lexicographicValues s var, s) := by
    unfold orderValues
    rw [if_neg (by decide), if_neg (by decide), if_pos rfl]
  refine ⟨?_, ?_, ?_, ?_, ?_⟩
  · unfold selectVariable
    rw [if_neg hv1, if_neg hv2, if_neg hv3, if_pos rfl]
  · rw [hlex]
    unfold orderValues
    rw [if_neg ho1, if_neg ho2, if_neg ho3]
  · rw [hlex]
  · rw [hlex]
    exact List.perm_insertionSort _ _
  · rw [hlex]
    exact List.sorted_insertionSort (fun (a b : Int) => a ≤ b) _

/-- Witness of C21 with the names `first-fail` and `min-value`, on a solver
whose domain of variable 0 is out of order. -/
theorem unknown_strategy_fallback_witness :
    "first-fail" ≠ "mrv" ∧ "first-fail" ≠ "degree" ∧ "first-fail" ≠ "random" ∧
    "min-value" ≠ "lcv" ∧ "min-value" ≠ "random" ∧ "min-value" ≠ "lexicographic" ∧
    (orderValues chainInstance exampleWorld
      { CSPSolver.new chainInstance with domains := [[2, 0, 1], [0, 1, 2], [0, 1, 2]] } 0
      "min-value").1 = [0, 1, 2] ∧
    (selectVariable chainInstance exampleWorld
        { CSPSolver.new chainInstance with domains := [[2, 0, 1], [0, 1, 2], [0, 1, 2]] }
        "first-fail"
      = selectVariable chainInstance exampleWorld
        { CSPSolver.new chainInstance with domains := [[2, 0, 1], [0, 1, 2], [0, 1, 2]] } "mrv" ∧
    orderValues chainInstance exampleWorld
        { CSPSolver.new chainInstance with domains := [[2, 0, 1], [0, 1, 2], [0, 1, 2]] } 0
        "min-value"
      = orderValues chainInstance exampleWorld
        { CSPSolver.new chainInstance with domains := [[2, 0, 1], [0, 1, 2], [0, 1, 2]] } 0
        "lexicographic" ∧
    (orderValues chainInstance exampleWorld
        { CSPSolver.new chainInstance with domains := [[2, 0, 1], [0, 1, 2], [0, 1, 2]] } 0
        "lexicographic").2
      = { CSPSolver.new chainInstance with domains := [[2, 0, 1], [0, 1, 2], [0, 1, 2]] } ∧
    List.Perm (orderValues chainInstance exampleWorld
        { CSPSolver.new chainInstance with domains := [[2, 0, 1], [0, 1, 2], [0, 1, 2]] } 0
        "lexicographic").1
      (({ CSPSolver.new chainInstance with
          domains := [[2, 0, 1], [0, 1, 2], [0, 1, 2]] } : CSPSolver).domains.getD 0 []) ∧
    List.Sorted (fun a b => a ≤ b) (orderValues chainInstance exampleWorld
        { CSPSolver.new chainInstance with domains := [[2, 0, 1], [0, 1, 2], [0, 1, 2]] } 0
        "lexicographic").1) :=
  ⟨by decide, by decide, by decide, by decide, by decide, by decide, by decide,
    unknown_strategy_fallback chainInstance exampleWorld
      { CSPSolver.new chainInstance with domains := [[2, 0, 1], [0, 1, 2], [0, 1, 2]] } 0
      "first-fail" "min-value" (by decide) (by decide) (by decide) (by decide) (by decide)
      (by decide)⟩

/-! ## Neighbourhood -/

theorem setInsert_mem (l : List Nat) (x z : Nat) : z ∈ setInsert l x ↔ z = x ∨ z ∈ l := by
  induction l with
  | nil => simp [setInsert]
  | cons y rest ih =>
    unfold setInsert
    by_cases h1 : x < y
    · rw [if_pos h1]
      simp only [List.mem_cons]
    · rw [if_neg h1]
      by_cases h2 : x = y
      · rw [if_pos h2]
        simp only [List.mem_cons]
        constructor
        · intro h; exact Or.inr h
        · rintro (h | h)
          · exact Or.inl (h.trans h2)
          · exact h
      · rw [if_neg h2]
        simp only [List.mem_cons, ih]
        constructor
        · rintro (h | h | h)
          · exact Or.inr (Or.inl h)
          · exact Or.inl h
          · exact Or.inr (Or.inr h)
        · rintro (h | h | h)
          · exact Or.inr (Or.inl h)
          · exact Or.inl h
          · exact Or.inr (Or.inr h)

theorem setInsert_strict (l : List Nat) (x : Nat) (h : List.Pairwise (fun a b => a < b) l) :
    List.Pairwise (fun a b => a < b) (setInsert l x) := by
  induction l with
  | nil => simp [setInsert]
  | cons y rest ih =>
    unfold setInsert
    rw [List.pairwise_cons] at h
    by_cases h1 : x < y
    · rw [if_pos h1]
      refine List.Pairwise.cons ?_ (List.Pairwise.cons h.1 h.2)
      intro z hz
      rcases List.mem_cons.1 hz with hz | hz
      · rw [hz]; exact h1
      · exact Nat.lt_trans h1 (h.1 z hz)
    · rw [if_neg h1]
      by_cases h2 : x = y
      · rw [if_pos h2]
        exact List.Pairwise.cons h.1 h.2
      · rw [if_neg h2]
        refine List.Pairwise.cons ?_ (ih h.2)
        intro z hz
        rcases (setInsert_mem rest x z).1 hz with hz | hz
        · rw [hz]; omega
        · exact h.1 z hz

theorem getNeighbors_loop (var : Nat) (cs : List Constraint) (acc : List Nat)
    (hacc : List.Pairwise (fun a b => a < b) acc) :
    List.Pairwise (fun a b => a < b) (cs.foldl (fun neighbors c =>
      if c.var1 = var then setInsert neighbors c.var2
      else if c.var2 = var then setInsert neighbors c.var1
      else neighbors) acc) ∧
    ∀ w, w ∈ cs.foldl (fun neighbors c =>
      if c.var1 = var then setInsert neighbors c.var2
      else if c.var2 = var then setInsert neighbors c.var1
      else neighbors) acc ↔
      w ∈ acc ∨ ∃ c ∈ cs, (c.var1 = var ∧ c.var2 = w) ∨ (c.var2 = var ∧ c.var1 = w) := by
  induction cs generalizing acc with
  | nil => exact ⟨hacc, fun w => by simp⟩
  | cons c rest ih =>
    simp only [List.foldl_cons]
    by_cases h1 : c.var1 = var
    · rw [if_pos h1]
      obtain ⟨i1, i2⟩ := ih (setInsert acc c.var2) (setInsert_strict acc c.var2 hacc)
      refine ⟨i1, fun w => ?_⟩
      rw [i2 w, setInsert_mem]
      constructor
      · rintro ((h | h) | ⟨c2, hc2, h⟩)
        · exact Or.inr ⟨c, List.mem_cons_self _ _, Or.inl ⟨h1, h.symm⟩⟩
        · exact Or.inl h
        · exact Or.inr ⟨c2, List.mem_cons_of_mem _ hc2, h⟩
      · rintro (h | ⟨c2, hc2, h⟩)
        · exact Or.inl (Or.inr h)
        · rcases List.mem_cons.1 hc2 with hc | hc
          · subst hc
            rcases h with ⟨_, h⟩ | ⟨h3, h4⟩
            · exact Or.inl (Or.inl h.symm)
            · exact Or.inl (Or.inl (by rw [← h4, h1, ← h3]))
          · exact Or.inr ⟨c2, hc, h⟩
    · rw [if_neg h1]
      by_cases h2 : c.var2 = var
      · rw [if_pos h2]
        obtain ⟨i1, i2⟩ := ih (setInsert acc c.var1) (setInsert_strict acc c.var1 hacc)
        refine ⟨i1, fun w => ?_⟩
        rw [i2 w, setInsert_mem]
        constructor
        · rintro ((h | h) | ⟨c2, hc2, h⟩)
          · exact Or.inr ⟨c, List.mem_cons_self _ _, Or.inr ⟨h2, h.symm⟩⟩
          · exact Or.inl h
          · exact Or.inr ⟨c2, List.mem_cons_of_mem _ hc2, h⟩
        · rintro (h | ⟨c2, hc2, h⟩)
          · exact Or.inl (Or.inr h)
          · rcases List.mem_cons.1 hc2 with hc | hc
            · subst hc
              rcases h with ⟨h3, _⟩ | ⟨_, h⟩
              · exact absurd h3 h1
              · exact Or.inl (Or.inl h.symm)
            · exact Or.inr ⟨c2, hc, h⟩
      · rw [if_neg h2]
        obtain ⟨i1, i2⟩ := ih acc hacc
        refine ⟨i1, fun w => ?_⟩
        rw [i2 w]
        constructor
        · rintro (h | ⟨c2, hc2, h⟩)
          · exact Or.inl h
          · exact Or.inr ⟨c2, List.mem_cons_of_mem _ hc2, h⟩
        · rintro (h | ⟨c2, hc2, h⟩)
          · exact Or.inl h
          · rcases List.mem_cons.1 hc2 with hc | hc
            · subst hc
              rcases h with ⟨h3, _⟩ | ⟨h3, _⟩
              · exact absurd h3 h1
              · exact absurd h3 h2
            · exact Or.inr ⟨c2, hc, h⟩

/-- The result of `getNeighbors` is strictly ascending and holds exactly the
variables joined to `var` by a stored constraint. -/
theorem getNeighbors_spec (csp : CSPInstance) (var : Nat) :
    List.Pairwise (fun a b => a < b) (csp.getNeighbors var) ∧
    ∀ w, w ∈ csp.getNeighbors var ↔
      ∃ c ∈ csp.constraints, (c.var1 = var ∧ c.var2 = w) ∨ (c.var2 = var ∧ c.var1 = w) := by
  obtain ⟨h1, h2⟩ := getNeighbors_loop var csp.constraints [] List.Pairwise.nil
  refine ⟨h1, fun w => ?_⟩
  unfold CSPInstance.getNeighbors
  rw [h2 w]
  simp

theorem strict_lists_eq (l1 l2 : List Nat) (h1 : List.Pairwise (fun a b => a < b) l1)
    (h2 : List.Pairwise (fun a b => a < b) l2) (h : ∀ w, w ∈ l1 ↔ w ∈ l2) : l1 = l2 := by
  have n1 : l1.Nodup := List.Pairwise.imp (fun h => Nat.ne_of_lt h) h1
  have n2 : l2.Nodup := List.Pairwise.imp (fun h => Nat.ne_of_lt h) h2
  have hp : List.Perm l1 l2 := (List.perm_ext_iff_of_nodup n1 n2).2 h
  have s1 : List.Sorted (fun a b : Nat => a ≤ b) l1 := List.Pairwise.imp (fun h => Nat.le_of_lt h) h1
  have s2 : List.Sorted (fun a b : Nat => a ≤ b) l2 := List.Pairwise.imp (fun h => Nat.le_of_lt h) h2
  exact List.eq_of_perm_of_sorted hp s1 s2

/-- C27. Neighbourhood: after the construction of a solver on an instance whose
constraints name variables of the instance, for every variable `u` the list
`var_interaction_graph[u]` is strictly ascending, contains `w` exactly when a
stored constraint joins `u` and `w`, is symmetric, and equals
`CSPInstance.getNeighbors(u)`. -/
theorem neighbourhood_of_constructor (csp : CSPInstance)
    (hcs : ∀ c ∈ csp.constraints, c.var1 < csp.num_variables ∧ c.var2 < csp.num_variables)
    (u : Nat) (hu : u < csp.num_variables) :
    List.Pairwise (fun a b => a < b) ((CSPSolver.new csp).var_interaction_graph.getD u []) ∧
    (∀ w, w ∈ (CSPSolver.new csp).var_interaction_graph.getD u [] ↔
      ∃ c ∈ csp.constraints, (c.var1 = u ∧ c.var2 = w) ∨ (c.var2 = u ∧ c.var1 = w)) ∧
    (∀ w, w ∈ (CSPSolver.new csp).var_interaction_graph.getD u [] ↔
      u ∈ (CSPSolver.new csp).var_interaction_graph.getD w []) ∧
    (CSPSolver.new csp).var_interaction_graph.getD u [] = csp.getNeighbors u := by
  have hg : (CSPSolver.new csp).var_interaction_graph = buildInteractionGraph csp := rfl
  rw [hg]
  have hstrict := (buildInteractionGraph_entry csp u).1
  have hmem := fun w => buildInteractionGraph_mem_iff csp u w hu
  refine ⟨hstrict, hmem, fun w => ?_, ?_⟩
  · constructor
    · intro h
      have hw : w < csp.num_variables := (buildInteractionGraph_spec csp hcs).2 u w h
      obtain ⟨c, hc, hj⟩ := (hmem w).1 h
      rw [buildInteractionGraph_mem_iff csp w u hw]
      exact ⟨c, hc, hj.symm.imp (fun h => ⟨h.2, h.1⟩) (fun h => ⟨h.2, h.1⟩)⟩
    · intro h
      obtain ⟨c, hc, hj⟩ := (buildInteractionGraph_entry csp w).2 u h
      rw [hmem w]
      exact ⟨c, hc, hj.symm.imp (fun h => ⟨h.2, h.1⟩) (fun h => ⟨h.2, h.1⟩)⟩
  · apply strict_lists_eq _ _ hstrict (getNeighbors_spec csp u).1
    intro w
    rw [hmem w, (getNeighbors_spec csp u).2 w]

/-- Witness of C27 on the forced chain and its middle variable. -/
theorem neighbourhood_of_constructor_witness :
    (∀ c ∈ chainInstance.constraints,
      c.var1 < chainInstance.num_variables ∧ c.var2 < chainInstance.num_variables) ∧
    1 < chainInstance.num_variables ∧
    (CSPSolver.new chainInstance).var_interaction_graph.getD 1 [] = [0, 2] ∧
    (List.Pairwise (fun a b => a < b)
      ((CSPSolver.new chainInstance).var_interaction_graph.getD 1 []) ∧
    (∀ w, w ∈ (CSPSolver.new chainInstance).var_interaction_graph.getD 1 [] ↔
      ∃ c ∈ chainInstance.constraints, (c.var1 = 1 ∧ c.var2 = w) ∨ (c.var2 = 1 ∧ c.var1 = w)) ∧
    (∀ w, w ∈ (CSPSolver.new chainInstance).var_interaction_graph.getD 1 [] ↔
      1 ∈ (CSPSolver.new chainInstance).var_interaction_graph.getD w []) ∧
    (CSPSolver.new chainInstance).var_interaction_graph.getD 1 []
      = chainInstance.getNeighbors 1) :=
  ⟨by decide, by decide, by decide,
    neighbourhood_of_constructor chainInstance (by decide) 1 (by decide)⟩

/-! ## The propagation step of AC-3 on a worked input -/

/-- C28, the code at a failing input: `gapInstance` with all domains `0..1` when
the arc `(1, 2)` is at the front of the worklist. `revise(1, 2)` returns true
and leaves `D(1) = [1]`; the arcs that the loop appends are those of
`getArcs(1)` whose second variable is not 2, that is the single arc `(1, 0)`,
which revises variable 1 again; the arc `(0, 1)` that revises the neighbour 0
against the new `D(1)` is not appended, and the iteration continues with the
worklist `(2, 1), (1, 0)`. -/
theorem ac3_requeues_arcs_of_revised_variable :
    (AC3Algorithm.revise gapInstance
      { domains := [[0, 1], [0, 1], [0, 1]], worklist := [⟨2, 1⟩], revisions_count := 0 } 1 2)
      = (true, { domains := [[0, 1], [1], [0, 1]], worklist := [⟨2, 1⟩], revisions_count := 1 }) ∧
    (AC3Algorithm.getArcs gapInstance 1).filter (fun neighbor => decide (neighbor.var2 ≠ 2))
      = [⟨1, 0⟩] ∧
    (∀ fuel,
      AC3Algorithm.apply gapInstance (fuel + 1)
        { domains := [[0, 1], [0, 1], [0, 1]], worklist := [⟨1, 2⟩, ⟨2, 1⟩], revisions_count := 0 }
      = AC3Algorithm.apply gapInstance fuel
        { domains := [[0, 1], [1], [0, 1]], worklist := [⟨2, 1⟩, ⟨1, 0⟩], revisions_count := 1 }) ∧
    AC3Algorithm.apply gapInstance 10
        { domains := [[0, 1], [0, 1], [0, 1]], worklist := [⟨1, 2⟩, ⟨2, 1⟩], revisions_count := 0 }
      = some (true, { domains := [[0, 1], [1], [1]], worklist := [], revisions_count := 2 }) :=
  ⟨by decide, by decide, fun _ => rfl, by decide⟩

/-- C29, the code at a failing input: on `gapInstance` a new engine answers
consistent with the domains `[0,1], [1], [1]`; a new engine on these domains
answers consistent again, but makes one revision and returns the different
domains `[1], [1], [1]`. -/
theorem ac3_second_run_revises :
    AC3Algorithm.apply gapInstance 20 (AC3Algorithm.new gapInstance)
      = some (true, { domains := [[0, 1], [1], [1]], worklist := [], revisions_count := 2 }) ∧
    AC3Algorithm.apply gapInstance 20
        ((AC3Algorithm.new gapInstance).setDomains [[0, 1], [1], [1]])
      = some (true, { domains := [[1], [1], [1]], worklist := [], revisions_count := 1 }) ∧
    (CSPSolver.applyAC3 gapInstance 20 (CSPSolver.new gapInstance)).map
        (fun r => (r.1, r.2.domains)) = some (true, [[0, 1], [1], [1]]) ∧
    (CSPSolver.applyAC3 gapInstance 20
        { CSPSolver.new gapInstance with domains := [[0, 1], [1], [1]] }).map
        (fun r => (r.1, r.2.domains)) = some (true, [[1], [1], [1]]) := by
  decide

/-! ## An explicit empty relation -/

theorem revise_unsupported (csp : CSPInstance) (a : AC3Algorithm) (u v : Nat)
    (hbad : ∀ x y, AC3Algorithm.isConsistent csp u x v y = false)
    (hne : a.domains.getD u [] ≠ []) :
    (AC3Algorithm.revise csp a u v).1 = true ∧
    (AC3Algorithm.revise csp a u v).2.domains.getD u [] = [] := by
  have hsup : ∀ x dom2, AC3Algorithm.hasSupport csp u x v dom2 = false := by
    intro x dom2
    unfold AC3Algorithm.hasSupport
    rw [List.any_eq_false]
    intro y _
    rw [hbad x y]
    exact Bool.false_ne_true
  have hu : u < a.domains.length := by
    by_contra hu
    exact hne (getD_nil_of_length_le _ _ (Nat.le_of_not_lt hu))
  have h1 : (AC3Algorithm.revise csp a u v).1 = true := by
    rw [revise_fst_iff]
    cases hd : a.domains.getD u [] with
    | nil => exact absurd hd hne
    | cons x rest => exact ⟨x, List.mem_cons_self _ _, hsup x _⟩
  refine ⟨h1, ?_⟩
  rw [revise_eq, h1, if_pos rfl]
  show (a.domains.set u (revisedDomain csp a.domains u v)).getD u [] = []
  rw [getD_set_self _ _ _ _ hu]
  unfold revisedDomain
  rw [List.filter_eq_nil_iff]
  intro x _
  rw [hsup x _]
  exact Bool.false_ne_true

/-- While the worklist holds an arc `(u, v)` on which the test of the engine
rejects every pair and `D(u)` is not empty, the loop can only answer
inconsistent. -/
theorem apply_bad_arc (csp : CSPInstance) (fuel : Nat) (a : AC3Algorithm) (b : Bool)
    (a2 : AC3Algorithm)
    (hbad : ∃ arc ∈ a.worklist,
      (∀ x y, AC3Algorithm.isConsistent csp arc.var1 x arc.var2 y = false) ∧
      a.domains.getD arc.var1 [] ≠ [])
    (h : AC3Algorithm.apply csp fuel a = some (b, a2)) : b = false := by
  induction fuel generalizing a with
  | zero => simp [AC3Algorithm.apply] at h
  | succ k ih =>
    obtain ⟨doms, wl, cnt⟩ := a
    obtain ⟨bad, hmem, hrej, hne⟩ := hbad
    simp only at hmem hne
    cases wl with
    | nil => cases hmem
    | cons arc rest =>
      unfold AC3Algorithm.apply at h
      simp only at h
      by_cases hr : (AC3Algorithm.revise csp ⟨doms, rest, cnt⟩ arc.var1 arc.var2).1 = true
      · rw [if_pos hr] at h
        by_cases hem : ((AC3Algorithm.revise csp ⟨doms, rest, cnt⟩ arc.var1 arc.var2).2.domains.getD
            arc.var1 []).isEmpty = true
        · rw [if_pos hem] at h
          simp only [Option.some.injEq, Prod.mk.injEq] at h
          exact h.1.symm
        · rw [if_neg hem] at h
          have hhead : bad ≠ arc := by
            intro hba
            subst hba
            exact hem (List.isEmpty_iff.2
              (revise_unsupported csp ⟨doms, rest, cnt⟩ bad.var1 bad.var2 hrej hne).2)
          have hin : bad ∈ rest := by
            rcases List.mem_cons.1 hmem with h1 | h1
            · exact absurd h1 hhead
            · exact h1
          refine ih _ ⟨bad, ?_, hrej, ?_⟩ h
          · simp only
            rw [revise_worklist]
            exact List.mem_append_left _ hin
          · simp only
            by_cases hv : arc.var1 = bad.var1
            · rw [← hv]
              intro hnil
              exact hem (List.isEmpty_iff.2 hnil)
            · rw [revise_eq, hr, if_pos rfl]
              show (doms.set arc.var1 _).getD bad.var1 [] ≠ []
              rw [getD_set_ne _ _ _ _ _ hv]
              exact hne
      · rw [if_neg hr] at h
        have hfalse : (AC3Algorithm.revise csp ⟨doms, rest, cnt⟩ arc.var1 arc.var2).1 = false := by
          simpa using hr
        have heq : (AC3Algorithm.revise csp ⟨doms, rest, cnt⟩ arc.var1 arc.var2).2
            = ⟨doms, rest, cnt⟩ := by
          rw [revise_eq, hfalse]; rfl
        rw [heq] at h
        have hhead : bad ≠ arc := by
          intro hba
          subst hba
          exact hr (revise_unsupported csp ⟨doms, rest, cnt⟩ bad.var1 bad.var2 hrej hne).1
        have hin : bad ∈ rest := by
          rcases List.mem_cons.1 hmem with h1 | h1
          · exact absurd h1 hhead
          · exact h1
        exact ih ⟨doms, rest, cnt⟩ ⟨bad, hin, hrej, hne⟩ h

theorem initialWorklist_forward (cs : List Constraint) (c : Constraint) (hc : c ∈ cs) :
    Arc.mk c.var1 c.var2 ∈ initialWorklist cs := by
  induction cs with
  | nil => cases hc
  | cons c2 rest ih =>
    unfold initialWorklist
    rcases List.mem_cons.1 hc with h | h
    · subst h
      exact List.mem_cons_self _ _
    · exact List.mem_cons_of_mem _ (List.mem_cons_of_mem _ (ih h))

theorem intervalValues_ne_nil (lo hi : Int) (h : lo ≤ hi) : intervalValues lo hi ≠ [] := by
  intro hnil
  have hmem : lo ∈ intervalValues lo hi := (mem_intervalValues lo hi lo).2 ⟨le_refl _, h⟩
  rw [hnil] at hmem
  cases hmem

/-- The AC-3 preprocessing of a new solver answers inconsistent on a
well-formed instance with a stored constraint without allowed pair. -/
theorem applyAC3_empty_relation (csp : CSPInstance) (c : Constraint) (hwf : csp.WellFormed)
    (hc : c ∈ csp.constraints) (he : c.allowed_pairs = []) (fuel : Nat)
    (hfuel : ac3Fuel csp ≤ fuel) :
    CSPSolver.applyAC3 csp fuel (CSPSolver.new csp) = some (false, CSPSolver.new csp) := by
  have hcs : ∀ c ∈ csp.constraints, c.var1 < csp.num_variables ∧ c.var2 < csp.num_variables :=
    fun c h => (wellFormed_constraints csp hwf c h).2
  obtain ⟨b, a2, hap, _⟩ := apply_spec csp fuel (AC3Algorithm.new csp) hfuel
  have hrej : ∀ x y, AC3Algorithm.isConsistent csp c.var1 x c.var2 y = false := by
    intro x y
    by_contra hcon
    have htrue : AC3Algorithm.isConsistent csp c.var1 x c.var2 y = true := by simpa using hcon
    have := (ac3_isConsistent_iff csp c.var1 x c.var2 y).1 htrue c hc (Or.inl ⟨rfl, rfl⟩)
    rw [he] at this
    rcases this with h | h <;> cases h
  have hdom : (AC3Algorithm.new csp).domains.getD c.var1 [] ≠ [] := by
    show csp.initialDomains.getD c.var1 [] ≠ []
    rw [initialDomains_getD csp c.var1 (hcs c hc).1]
    apply intervalValues_ne_nil
    apply hwf.2.2.1
    rw [List.getD_eq_getElem _ _ (by rw [hwf.2.1]; exact (hcs c hc).1)]
    exact List.getElem_mem _
  have hb := apply_bad_arc csp fuel (AC3Algorithm.new csp) b a2
    ⟨Arc.mk c.var1 c.var2, initialWorklist_forward csp.constraints c hc, hrej, hdom⟩ hap
  unfold CSPSolver.applyAC3
  have hset : (AC3Algorithm.new csp).setDomains (CSPSolver.new csp).domains
      = AC3Algorithm.new csp := rfl
  rw [hset, hap, hb]
  rfl

theorem undoValue_flag (args : SolveArgs) (s : CSPSolver) (backup : List (List Int))
    (var : Nat) : (undoValue args s backup var).timeout_occurred = s.timeout_occurred := by
  unfold undoValue CSPSolver.restoreDomains
  by_cases h : args.use_forward_checking = true
  · simp only [h, if_true]
  · simp only [h, if_false]
    simp

theorem valueLoop_flag (csp : CSPInstance) (args : SolveArgs)
    (recurse : CSPSolver → Option (Bool × CSPSolver)) (var : Nat)
    (hrec : ∀ t b t2, recurse t = some (b, t2) → t2.timeout_occurred = t.timeout_occurred)
    (vals : List Int) (s : CSPSolver) (b : Bool) (s2 : CSPSolver)
    (h : valueLoop csp args recurse var vals s = some (b, s2)) :
    s2.timeout_occurred = s.timeout_occurred := by
  induction vals generalizing s with
  | nil =>
    simp only [valueLoop, Option.some.injEq, Prod.mk.injEq] at h
    rw [← h.2]
  | cons value rest ih =>
    rw [valueLoop_cons] at h
    by_cases hc : CSPSolver.isConsistent csp (bumpNodes s) var value = true
    swap
    · rw [if_pos (by simpa using hc)] at h
      exact ih (bumpNodes s) h
    · rw [if_neg (by simpa using hc)] at h
      have hfc1 := (fcResult_spec csp args (bumpNodes s) var value).1
      have hft : (fcResult csp args (bumpNodes s) var value).2.timeout_occurred
          = s.timeout_occurred := by
        have := congrArg CSPSolver.timeout_occurred hfc1
        exact this
      by_cases hfc : (fcResult csp args (bumpNodes s) var value).1 = true
      swap
      · rw [if_pos (by simpa using hfc)] at h
        exact (ih _ h).trans hft
      · rw [if_neg (by simpa using hfc)] at h
        cases hr : recurse (assignVar (fcResult csp args (bumpNodes s) var value).2 var value) with
        | none => rw [hr] at h; cases h
        | some r =>
          obtain ⟨result, s3⟩ := r
          rw [hr] at h
          simp only at h
          have h3 : s3.timeout_occurred = s.timeout_occurred := (hrec _ _ _ hr).trans hft
          by_cases hb2 : (result && args.first_solution_only) = true
          · rw [if_pos hb2] at h
            simp only [Option.some.injEq, Prod.mk.injEq] at h
            rw [← h.2]
            exact h3
          · rw [if_neg hb2] at h
            exact ((ih _ h).trans (undoValue_flag args s3 _ var)).trans h3

/-- When the deadline is never hit, a call of `backtrack` that returns leaves
the timeout flag as it was. -/
theorem backtrack_flag (csp : CSPInstance) (w : World) (args : SolveArgs)
    (hnt : NoTimeout w args.max_time) (fuel : Nat)
    (s : CSPSolver) (b : Bool) (s2 : CSPSolver)
    (h : CSPSolver.backtrack csp w args fuel s = some (b, s2)) :
    s2.timeout_occurred = s.timeout_occurred := by
  induction fuel generalizing s b s2 with
  | zero => simp [CSPSolver.backtrack] at h
  | succ n ih =>
    rw [backtrack_succ] at h
    have hto : ¬ w.elapsed s.clock_reads ≥ args.max_time := not_le.mpr (hnt _)
    rw [if_neg hto] at h
    by_cases hcomp : CSPSolver.isComplete csp (tick s) = true
    · rw [if_pos hcomp] at h
      simp only [Option.some.injEq, Prod.mk.injEq] at h
      rw [← h.2]
      rfl
    · rw [if_neg hcomp] at h
      cases hac : nodeAC3 csp args n (tick s) with
      | none => rw [hac] at h; cases h
      | some r1 =>
        obtain ⟨b1, s1⟩ := r1
        rw [hac] at h
        have hs1 := nodeAC3_frame csp args n (tick s) b1 s1 hac
        have hs1t : s1.timeout_occurred = s.timeout_occurred := by
          have := congrArg CSPSolver.timeout_occurred hs1
          exact this
        cases b1 with
        | false =>
          simp only [Option.some.injEq, Prod.mk.injEq] at h
          rw [← h.2]
          exact hs1t
        | true =>
          simp only at h
          obtain ⟨k1, hsel⟩ := (selectVariable_spec csp w s1 args.var_strategy).1
          have hst : (selectVariable csp w s1 args.var_strategy).2.timeout_occurred
              = s.timeout_occurred := by
            have := congrArg CSPSolver.timeout_occurred hsel
            exact this.trans hs1t
          by_cases hm : (selectVariable csp w s1 args.var_strategy).1 = -1
          · rw [if_pos hm] at h
            simp only [Option.some.injEq, Prod.mk.injEq] at h
            rw [← h.2]
            exact hst
          · rw [if_neg hm] at h
            obtain ⟨k2, hord⟩ := (orderValues_spec csp w
              (selectVariable csp w s1 args.var_strategy).2
              (selectVariable csp w s1 args.var_strategy).1.toNat args.val_strategy).1
            have hot : (orderValues csp w (selectVariable csp w s1 args.var_strategy).2
                (selectVariable csp w s1 args.var_strategy).1.toNat
                args.val_strategy).2.timeout_occurred = s.timeout_occurred := by
              have := congrArg CSPSolver.timeout_occurred hord
              exact this.trans hst
            cases hloop : valueLoop csp args (CSPSolver.backtrack csp w args n)
                (selectVariable csp w s1 args.var_strategy).1.toNat
                (orderValues csp w (selectVariable csp w s1 args.var_strategy).2
                  (selectVariable csp w s1 args.var_strategy).1.toNat args.val_strategy).1
                (orderValues csp w (selectVariable csp w s1 args.var_strategy).2
                  (selectVariable csp w s1 args.var_strategy).1.toNat args.val_strategy).2 with
            | none => rw [hloop] at h; cases h
            | some r2 =>
              obtain ⟨b2, s3⟩ := r2
              rw [hloop] at h
              have hl := valueLoop_flag csp args (CSPSolver.backtrack csp w args n) _
                (fun t bt t2 ht => ih t bt t2 ht) _ _ b2 s3 hloop
              cases b2 with
              | true =>
                simp only [Option.some.injEq, Prod.mk.injEq] at h
                rw [← h.2]
                exact hl.trans hot
              | false =>
                simp only [Option.some.injEq, Prod.mk.injEq] at h
                rw [← h.2]
                exact hl.trans hot

/-- C24. Empty relation is unsatisfiable: on a well-formed instance with a
stored constraint `(u, v)` without allowed pair, `CSPInstance.isConsistent(u,
x, v, y)` is false for all values; the AC-3 preprocessing answers
inconsistent and `main` reports `Inconsistent (AC-3)` with no solution when
`use_ac3` is on; with `use_ac3` off `solve` returns no solution, and the status
is `No solution (full exploration)` when the deadline is not hit. -/
theorem empty_relation_unsatisfiable (csp : CSPInstance) (w : World) (params : SolverParams)
    (c : Constraint) (hwf : csp.WellFormed) (hc : c ∈ csp.constraints)
    (he : c.allowed_pairs = []) (fuel : Nat) (hfuel : solveFuel csp ≤ fuel) :
    (∀ x y, csp.isConsistent c.var1 x c.var2 y = false) ∧
    CSPSolver.applyAC3 csp fuel (CSPSolver.new csp) = some (false, CSPSolver.new csp) ∧
    (params.use_ac3 = true →
      runSolver csp w params fuel =
        some { solutions := [], resolution_status := "Inconsistent (AC-3)",
               nodes_explored := 0, backtracks := 0 }) ∧
    (∃ s2, CSPSolver.solve csp w params.toSolveArgs fuel (CSPSolver.new csp) = some (false, s2) ∧
      s2.solutions = []) ∧
    (params.use_ac3 = false → ∃ r, runSolver csp w params fuel = some r ∧ r.solutions = [] ∧
      (NoTimeout w params.max_time → r.resolution_status = "No solution (full exploration)")) := by
  have hrej : ∀ x y, csp.isConsistent c.var1 x c.var2 y = false := by
    intro x y
    by_contra hcon
    have htrue : csp.isConsistent c.var1 x c.var2 y = true := by simpa using hcon
    have := ((isConsistent_iff csp c.var1 x c.var2 y).1 htrue c hc).1 ⟨rfl, rfl⟩
    rw [he] at this
    cases this
  have hac := applyAC3_empty_relation csp c hwf hc he fuel
    (by unfold solveFuel at hfuel; omega)
  obtain ⟨b, s2, hsolve, hb, hvalid, _⟩ := solve_on_start_state csp w params.toSolveArgs hwf
    fuel hfuel (CSPSolver.new csp) (Or.inl rfl)
  have hnil : s2.solutions = [] := by
    rw [List.eq_nil_iff_forall_not_mem]
    intro sol hsol
    obtain ⟨x, y, _, _, hxy⟩ := (hvalid sol hsol).2.2.2 c hc
    rw [hrej x y] at hxy
    cases hxy
  have hbf : b = false := by rw [hb, hnil]; rfl
  rw [hbf] at hsolve
  refine ⟨hrej, hac, ?_, ⟨s2, hsolve, hnil⟩, ?_⟩
  · intro hu
    unfold runSolver
    simp only
    rw [if_pos hu, hac]
  · intro hu
    have hflag : NoTimeout w params.max_time → s2.timeout_occurred = false := by
      intro hnt
      unfold CSPSolver.solve at hsolve
      cases hbt : CSPSolver.backtrack csp w params.toSolveArgs fuel
          { CSPSolver.new csp with solutions := [], nodes_explored := 0, backtracks := 0,
                                   timeout_occurred := false, clock_reads := 0,
                                   rng_calls := 0 } with
      | none => rw [hbt] at hsolve; cases hsolve
      | some r =>
        obtain ⟨b3, s3⟩ := r
        rw [hbt] at hsolve
        simp only [Option.some.injEq, Prod.mk.injEq] at hsolve
        rw [← hsolve.2]
        exact backtrack_flag csp w params.toSolveArgs hnt fuel _ b3 s3 hbt
    unfold runSolver
    simp only
    have hu2 : params.use_ac3 = false := hu
    rw [hu2]
    simp only [Bool.false_eq_true, if_false]
    rw [hsolve]
    simp only
    refine ⟨_, rfl, hnil, fun hnt => ?_⟩
    simp only [Bool.false_eq_true, if_false, hflag hnt]

/-- Witness of C24 on the instance `N = 2`, domains `0..1` and `0..1`, and the
constraint `0 1` without pair, under the default configuration. -/
theorem empty_relation_unsatisfiable_witness :
    emptyRelationInstance.WellFormed ∧
    (⟨0, 1, []⟩ : Constraint) ∈ emptyRelationInstance.constraints ∧
    (⟨0, 1, []⟩ : Constraint).allowed_pairs = [] ∧
    solveFuel emptyRelationInstance ≤ 20 ∧
    runSolver emptyRelationInstance exampleWorld { use_ac3 := false } 20 =
      some { solutions := [], resolution_status := "No solution (full exploration)",
             nodes_explored := 2, backtracks := 0 } ∧
    ((∀ x y, emptyRelationInstance.isConsistent (⟨0, 1, []⟩ : Constraint).var1 x
        (⟨0, 1, []⟩ : Constraint).var2 y = false) ∧
    CSPSolver.applyAC3 emptyRelationInstance 20 (CSPSolver.new emptyRelationInstance)
      = some (false, CSPSolver.new emptyRelationInstance) ∧
    (({} : SolverParams).use_ac3 = true →
      runSolver emptyRelationInstance exampleWorld {} 20 =
        some { solutions := [], resolution_status := "Inconsistent (AC-3)",
               nodes_explored := 0, backtracks := 0 }) ∧
    (∃ s2, CSPSolver.solve emptyRelationInstance exampleWorld ({} : SolverParams).toSolveArgs 20
        (CSPSolver.new emptyRelationInstance) = some (false, s2) ∧ s2.solutions = []) ∧
    (({} : SolverParams).use_ac3 = false →
      ∃ r, runSolver emptyRelationInstance exampleWorld {} 20 = some r ∧ r.solutions = [] ∧
        (NoTimeout exampleWorld ({} : SolverParams).max_time →
          r.resolution_status = "No solution (full exploration)"))) :=
  ⟨by decide, by decide, rfl, by decide, by decide,
    empty_relation_unsatisfiable emptyRelationInstance exampleWorld {} ⟨0, 1, []⟩
      (by decide) (by decide) rfl 20 (by decide)⟩

/-! ## Scenarios: 4-queens and the forced chain -/

/-- The solutions that the solver block of `main` reports are pairwise
different lists. -/
theorem runSolver_nodup (csp : CSPInstance) (w : World) (params : SolverParams)
    (hwf : csp.WellFormed) (fuel : Nat) (hfuel : solveFuel csp ≤ fuel) (r : RunResult)
    (h : runSolver csp w params fuel = some r) : r.solutions.Nodup := by
  have hc := wellFormed_constraints csp hwf
  have hcs : ∀ c ∈ csp.constraints, c.var1 < csp.num_variables ∧ c.var2 < csp.num_variables :=
    fun c h => (hc c h).2
  have hstart : ∃ b s1,
      (if params.use_ac3 then CSPSolver.applyAC3 csp fuel (CSPSolver.new csp)
        else some (true, CSPSolver.new csp)) = some (b, s1) ∧
      (s1 = CSPSolver.new csp ∨
        ∃ b2, CSPSolver.applyAC3 csp fuel (CSPSolver.new csp) = some (b2, s1)) := by
    by_cases hu : params.use_ac3 = true
    · rw [if_pos hu]
      obtain ⟨c, s1, hac, _⟩ := applyAC3_spec csp hcs fuel (CSPSolver.new csp)
        (stateOk_new csp hcs) (by unfold solveFuel at hfuel; omega)
      exact ⟨c, s1, hac, Or.inr ⟨c, hac⟩⟩
    · rw [if_neg hu]
      exact ⟨true, _, rfl, Or.inl rfl⟩
  obtain ⟨b, s1, hst, hs1⟩ := hstart
  unfold runSolver at h
  simp only at h
  rw [hst] at h
  cases b with
  | false =>
    simp only [Option.some.injEq] at h
    rw [← h]
    exact List.nodup_nil
  | true =>
    simp only at h
    obtain ⟨b2, s2, h1, _, _, h4, _⟩ := solve_on_start_state csp w params.toSolveArgs hwf
      fuel hfuel s1 hs1
    rw [h1] at h
    simp only [Option.some.injEq] at h
    rw [← h]
    show s2.solutions.Nodup
    rw [List.nodup_iff_getElem?_ne_getElem?]
    intro i j hij hj heq
    obtain ⟨v, _, hv⟩ := h4 i j (by omega) hj (by omega)
    apply hv
    have hi : i < s2.solutions.length := by omega
    rw [List.getD_eq_getElem?_getD, List.getD_eq_getElem?_getD, heq]

/-- The solver as a decision procedure: the solution list of one run in
all-solutions mode whose deadline is never hit is the solution set of the
instance, and every other such run reports a permutation of it. -/
theorem runSolver_perm_of_reference (csp : CSPInstance) (hwf : csp.WellFormed)
    (w0 : World) (p0 : SolverParams) (fuel0 : Nat) (expected : List (List (Nat × Int)))
    (hfo0 : p0.first_solution_only = false) (hnt0 : NoTimeout w0 p0.max_time)
    (hfuel0 : solveFuel csp ≤ fuel0)
    (href : (runSolver csp w0 p0 fuel0).map (fun r => r.solutions) = some expected)
    (w : World) (params : SolverParams) (hfo : params.first_solution_only = false)
    (hnt : NoTimeout w params.max_time) (fuel : Nat) (hfuel : solveFuel csp ≤ fuel) :
    ∃ r, runSolver csp w params fuel = some r ∧ List.Perm r.solutions expected ∧
      ∀ sol, sol ∈ expected ↔ IsSolution csp sol := by
  obtain ⟨r0, hr0, hm0⟩ := runSolver_spec csp w0 p0 hwf hfo0 hnt0 fuel0 hfuel0
  have hn0 := runSolver_nodup csp w0 p0 hwf fuel0 hfuel0 r0 hr0
  rw [hr0] at href
  simp only [Option.map_some', Option.some.injEq] at href
  rw [href] at hm0 hn0
  obtain ⟨r, hr, hm⟩ := runSolver_spec csp w params hwf hfo hnt fuel hfuel
  have hn := runSolver_nodup csp w params hwf fuel hfuel r hr
  refine ⟨r, hr, (List.perm_ext_iff_of_nodup hn hn0).2 (fun sol => ?_), hm0⟩
  rw [hm sol, hm0 sol]

/-- C25. 4-queens scenario: on `queensInstance` the solver block of `main`, in
all-solutions mode with the deadline not hit, reports exactly the two
solutions `(1, 3, 0, 2)` and `(2, 0, 3, 1)` for every setting of the AC-3
preprocessing, forward checking and node-level AC-3 flags and for every
variable and value strategy. -/
theorem four_queens_two_solutions (w : World) (params : SolverParams)
    (hfo : params.first_solution_only = false) (hnt : NoTimeout w params.max_time)
    (fuel : Nat) (hfuel : solveFuel queensInstance ≤ fuel) :
    ∃ r, runSolver queensInstance w params fuel = some r ∧
      List.Perm r.solutions
        [[(0, 1), (1, 3), (2, 0), (3, 2)], [(0, 2), (1, 0), (2, 3), (3, 1)]] := by
  obtain ⟨r, hr, hp, _⟩ := runSolver_perm_of_reference queensInstance (by decide)
    exampleWorld plainParams 130
    [[(0, 1), (1, 3), (2, 0), (3, 2)], [(0, 2), (1, 0), (2, 3), (3, 1)]]
    rfl noTimeout_example (by decide) (by decide) w params hfo hnt fuel hfuel
  exact ⟨r, hr, hp⟩

/-- Witness of C25 under the default configuration. -/
theorem four_queens_two_solutions_witness :
    ({} : SolverParams).first_solution_only = false ∧
    NoTimeout exampleWorld ({} : SolverParams).max_time ∧
    solveFuel queensInstance ≤ 130 ∧
    (runSolver queensInstance exampleWorld {} 130).map (fun r => r.solutions)
      = some [[(0, 1), (1, 3), (2, 0), (3, 2)], [(0, 2), (1, 0), (2, 3), (3, 1)]] ∧
    (runSolver queensInstance exampleWorld
        { var_strategy := "degree", val_strategy := "lexicographic", use_ac3 := false } 130).map
        (fun r => r.solutions)
      = some [[(0, 1), (1, 3), (2, 0), (3, 2)], [(0, 2), (1, 0), (2, 3), (3, 1)]] ∧
    ∃ r, runSolver queensInstance exampleWorld {} 130 = some r ∧
      List.Perm r.solutions
        [[(0, 1), (1, 3), (2, 0), (3, 2)], [(0, 2), (1, 0), (2, 3), (3, 1)]] :=
  ⟨rfl, noTimeout_example, by decide, by decide, by decide,
    four_queens_two_solutions exampleWorld {} rfl noTimeout_example 130 (by decide)⟩

/-- C26. Forced-chain scenario with asymmetric relations: on
`forcedChainInstance` the solver block of `main`, in all-solutions mode with
the deadline not hit, reports exactly the four solutions `(0,1,2)`, `(1,2,3)`,
`(2,3,4)` and `(3,4,5)` under every configuration, in particular under the
default one and with every propagation flag turned off. -/
theorem forced_chain_four_solutions (w : World) (params : SolverParams)
    (hfo : params.first_solution_only = false) (hnt : NoTimeout w params.max_time)
    (fuel : Nat) (hfuel : solveFuel forcedChainInstance ≤ fuel) :
    ∃ r, runSolver forcedChainInstance w params fuel = some r ∧
      List.Perm r.solutions
        [[(0, 0), (1, 1), (2, 2)], [(0, 1), (1, 2), (2, 3)], [(0, 2), (1, 3), (2, 4)],
          [(0, 3), (1, 4), (2, 5)]] := by
  obtain ⟨r, hr, hp, _⟩ := runSolver_perm_of_reference forcedChainInstance (by decide)
    exampleWorld plainParams 63
    [[(0, 0), (1, 1), (2, 2)], [(0, 1), (1, 2), (2, 3)], [(0, 2), (1, 3), (2, 4)],
      [(0, 3), (1, 4), (2, 5)]]
    rfl noTimeout_example (by decide) (by decide) w params hfo hnt fuel hfuel
  exact ⟨r, hr, hp⟩

/-- Witness of C26 under the default configuration, with the runs of the
default configuration and of the configuration without propagation. -/
theorem forced_chain_four_solutions_witness :
    ({} : SolverParams).first_solution_only = false ∧
    NoTimeout exampleWorld ({} : SolverParams).max_time ∧
    solveFuel forcedChainInstance ≤ 63 ∧
    (runSolver forcedChainInstance exampleWorld {} 63).map (fun r => r.solutions)
      = some [[(0, 0), (1, 1), (2, 2)], [(0, 1), (1, 2), (2, 3)], [(0, 2), (1, 3), (2, 4)],
          [(0, 3), (1, 4), (2, 5)]] ∧
    (runSolver forcedChainInstance exampleWorld plainParams 63).map (fun r => r.solutions)
      = some [[(0, 0), (1, 1), (2, 2)], [(0, 1), (1, 2), (2, 3)], [(0, 2), (1, 3), (2, 4)],
          [(0, 3), (1, 4), (2, 5)]] ∧
    ∃ r, runSolver forcedChainInstance exampleWorld {} 63 = some r ∧
      List.Perm r.solutions
        [[(0, 0), (1, 1), (2, 2)], [(0, 1), (1, 2), (2, 3)], [(0, 2), (1, 3), (2, 4)],
          [(0, 3), (1, 4), (2, 5)]] :=
  ⟨rfl, noTimeout_example, by decide, by decide, by decide,
    forced_chain_four_solutions exampleWorld {} rfl noTimeout_example 63 (by decide)⟩

/-! ## Arithmetic of `int` -/

theorem int32_of_range (x : Int) (h1 : -2147483648 ≤ x) (h2 : x ≤ 2147483647) :
    int32 x = x := by
  unfold int32
  omega

theorem int32_range (x : Int) : -2147483648 ≤ int32 x ∧ int32 x ≤ 2147483647 := by
  unfold int32
  omega

theorem int32_add_int32 (x y : Int) : int32 (int32 x + y) = int32 (x + y) := by
  unfold int32
  omega

/-- As long as the sum stays in the range of an `int`, `k` increments add `k`. -/
theorem incTimes_eq (k : Nat) (x : Int) (h1 : -2147483648 ≤ x) (h2 : x + k ≤ 2147483647) :
    incTimes k x = x + k := by
  induction k generalizing x with
  | zero => simp [incTimes]
  | succ n ih =>
    have hx : int32 (x + 1) = x + 1 := int32_of_range _ (by omega) (by push_cast at h2; omega)
    show incTimes n (int32 (x + 1)) = x + ((n + 1 : Nat) : Int)
    rw [hx, ih (x + 1) (by omega) (by push_cast at h2 ⊢; omega)]
    push_cast
    omega

/-- From a content in the range of an `int`, `k` increments give the wrapped sum. -/
theorem incTimes_wrap (k : Nat) (x : Int) (h1 : -2147483648 ≤ x) (h2 : x ≤ 2147483647) :
    incTimes k x = int32 (x + k) := by
  induction k generalizing x with
  | zero =>
    show x = int32 (x + ((0 : Nat) : Int))
    rw [Nat.cast_zero, add_zero, int32_of_range x h1 h2]
  | succ n ih =>
    show incTimes n (int32 (x + 1)) = int32 (x + ((n + 1 : Nat) : Int))
    rw [ih _ (int32_range _).1 (int32_range _).2, int32_add_int32]
    push_cast
    congr 1
    omega

theorem incTimes_add (j k : Nat) (x : Int) : incTimes (j + k) x = incTimes k (incTimes j x) := by
  induction j generalizing x with
  | zero => rw [Nat.zero_add]; rfl
  | succ n ih =>
    rw [Nat.succ_add]
    exact ih (int32 (x + 1))

/-! ## The search after the deadline -/

/-- A call of `backtrack` whose reading of the clock is at or past the
deadline returns false at once: it raises the flag and counts the reading. -/
theorem backtrack_past_deadline (csp : CSPInstance) (w : World) (args : SolveArgs) (fuel : Nat)
    (s : CSPSolver) (hpast : args.max_time ≤ w.elapsed s.clock_reads) :
    CSPSolver.backtrack csp w args (fuel + 1) s = some (false, raiseTimeout s) := by
  rw [backtrack_succ, if_pos hpast]
  rfl

theorem undoValue_raiseTimeout (args : SolveArgs) (s : CSPSolver) (backup : List (List Int))
    (var : Nat) :
    (undoValue args (raiseTimeout s) backup var).domains =
      (if args.use_forward_checking then backup else s.domains) ∧
    (undoValue args (raiseTimeout s) backup var).solutions = s.solutions ∧
    (undoValue args (raiseTimeout s) backup var).nodes_explored = s.nodes_explored ∧
    (undoValue args (raiseTimeout s) backup var).backtracks = int32 (s.backtracks + 1) ∧
    (undoValue args (raiseTimeout s) backup var).clock_reads = s.clock_reads + 1 := by
  unfold undoValue CSPSolver.restoreDomains raiseTimeout tick
  by_cases h : args.use_forward_checking = true
  · simp only [h, if_true, and_self]
  · simp only [h, if_false, and_self]
    simp

/-- A value loop that starts after the deadline was observed runs over all its
values: each one is counted, and none changes the solutions or, in the end,
the domains. -/
theorem valueLoop_past_deadline (csp : CSPInstance) (w : World) (args : SolveArgs)
    (hmono : ∀ i j, i ≤ j → w.elapsed i ≤ w.elapsed j) (fuel : Nat) (var : Nat)
    (vals : List Int) (s : CSPSolver) (hpast : args.max_time ≤ w.elapsed s.clock_reads) :
    ∃ s2, valueLoop csp args (CSPSolver.backtrack csp w args (fuel + 1)) var vals s
        = some (false, s2) ∧
      s2.solutions = s.solutions ∧ s2.domains = s.domains ∧
      s2.nodes_explored = incTimes vals.length s.nodes_explored ∧
      (∃ k, k ≤ vals.length ∧ s2.backtracks = incTimes k s.backtracks) ∧
      s.clock_reads ≤ s2.clock_reads := by
  induction vals generalizing s with
  | nil => exact ⟨s, rfl, rfl, rfl, rfl, ⟨0, le_refl _, rfl⟩, le_refl _⟩
  | cons value rest ih =>
    have hskip : ∃ s2, valueLoop csp args (CSPSolver.backtrack csp w args (fuel + 1)) var rest
          (bumpNodes s) = some (false, s2) ∧
        s2.solutions = s.solutions ∧ s2.domains = s.domains ∧
        s2.nodes_explored = incTimes (value :: rest).length s.nodes_explored ∧
        (∃ k, k ≤ (value :: rest).length ∧ s2.backtracks = incTimes k s.backtracks) ∧
        s.clock_reads ≤ s2.clock_reads := by
      obtain ⟨s2, h1, h2, h3, h4, ⟨k, hk1, hk2⟩, h6⟩ := ih (bumpNodes s) hpast
      exact ⟨s2, h1, h2, h3, h4, ⟨k, Nat.le_succ_of_le hk1, hk2⟩, h6⟩
    rw [valueLoop_cons]
    by_cases hc : CSPSolver.isConsistent csp (bumpNodes s) var value = true
    swap
    · rw [if_pos (by simpa using hc)]
      exact hskip
    · rw [if_neg (by simpa using hc)]
      obtain ⟨hfc1, _, _, hfc4, hfc5, _⟩ := fcResult_spec csp args (bumpNodes s) var value
      by_cases hfc : (fcResult csp args (bumpNodes s) var value).1 = true
      swap
      · rw [if_pos (by simpa using hfc)]
        have huse : args.use_forward_checking = true := hfc4 (by simpa using hfc)
        have hst : (fcResult csp args (bumpNodes s) var value).2.restoreDomains
            (if args.use_forward_checking then (bumpNodes s).backupDomains else [])
            = bumpNodes s := by
          rw [if_pos huse, hfc1]
          rfl
        rw [hst]
        exact hskip
      · rw [if_neg (by simpa using hfc)]
        have hclock : (assignVar (fcResult csp args (bumpNodes s) var value).2 var
            value).clock_reads = s.clock_reads := by
          have := congrArg CSPSolver.clock_reads hfc1
          exact this
        have hsol : (assignVar (fcResult csp args (bumpNodes s) var value).2 var
            value).solutions = s.solutions := by
          have := congrArg CSPSolver.solutions hfc1
          exact this
        have hnod : (assignVar (fcResult csp args (bumpNodes s) var value).2 var
            value).nodes_explored = int32 (s.nodes_explored + 1) := by
          have := congrArg CSPSolver.nodes_explored hfc1
          exact this
        have hbk : (assignVar (fcResult csp args (bumpNodes s) var value).2 var
            value).backtracks = s.backtracks := by
          have := congrArg CSPSolver.backtracks hfc1
          exact this
        have hdom : (if args.use_forward_checking then (bumpNodes s).backupDomains
            else (assignVar (fcResult csp args (bumpNodes s) var value).2 var value).domains)
            = s.domains := by
          by_cases huse : args.use_forward_checking = true
          · rw [if_pos huse]; rfl
          · rw [if_neg huse]
            show (fcResult csp args (bumpNodes s) var value).2.domains = s.domains
            rw [hfc5 (by simpa using huse)]; rfl
        rw [backtrack_past_deadline csp w args fuel _ (by rw [hclock]; exact hpast)]
        simp only [Bool.false_and, Bool.false_eq_true, if_false]
        obtain ⟨u1, u2, u3, u4, u5⟩ := undoValue_raiseTimeout args
          (assignVar (fcResult csp args (bumpNodes s) var value).2 var value)
          (if args.use_forward_checking then (bumpNodes s).backupDomains else []) var
        have hpast2 : args.max_time ≤ w.elapsed (s.clock_reads + 1) :=
          le_trans hpast (hmono _ _ (Nat.le_succ _))
        obtain ⟨s2, h1, h2, h3, h4, ⟨k, hk1, hk2⟩, h6⟩ :=
          ih _ (by rw [u5, hclock]; exact hpast2)
        rw [u2, hsol] at h2
        rw [u3, hnod] at h4
        rw [u4, hbk] at hk2
        rw [u5, hclock] at h6
        refine ⟨s2, h1, h2, ?_, h4, ⟨k + 1, Nat.succ_le_succ hk1, hk2⟩, ?_⟩
        · rw [h3, u1]
          by_cases huse : args.use_forward_checking = true
          · rw [if_pos huse, if_pos huse]; rfl
          · rw [if_neg huse]
            rw [if_neg huse] at hdom
            exact hdom
        · omega

theorem deadlineWorld_monotone : ∀ i j, i ≤ j → deadlineWorld.elapsed i ≤ deadlineWorld.elapsed j := by
  intro i j hij
  show (if i < 2 then (0 : Int) else 1) ≤ (if j < 2 then (0 : Int) else 1)
  by_cases hi : i < 2
  · rw [if_pos hi]
    by_cases hj : j < 2
    · rw [if_pos hj]
    · rw [if_neg hj]; decide
  · rw [if_neg hi, if_neg (by omega)]

/-- C30, the value loop after the deadline. On `differInstance` with `max_time
= 1`, the default flags and a clock that shows 1 second from its third reading
on (a non-decreasing clock), the root loop over the values `0, 1` of variable 0
has raised the timeout flag when it is done with the value 0, with 2 nodes
counted; it then goes on with the value 1: the node counter becomes 3 and the
forward check for `0 = 1` writes `D(1) = [0]` before the recursive call
returns at its deadline check. `solve` returns with 3 nodes counted. -/
theorem deadline_does_not_stop_value_loop :
    (∀ i j, i ≤ j → deadlineWorld.elapsed i ≤ deadlineWorld.elapsed j) ∧
    (valueLoop differInstance { defaultArgs with max_time := 1 }
        (CSPSolver.backtrack differInstance deadlineWorld { defaultArgs with max_time := 1 } 20)
        0 [0] { CSPSolver.new differInstance with clock_reads := 1 }).map
      (fun r => (r.2.timeout_occurred, r.2.nodes_explored, r.2.domains,
        (CSPSolver.forwardCheckWithDomainReduction differInstance (bumpNodes r.2) 0 1).2.domains))
      = some (true, 2, [[0, 1], [0, 1]], [[0, 1], [0]]) ∧
    (valueLoop differInstance { defaultArgs with max_time := 1 }
        (CSPSolver.backtrack differInstance deadlineWorld { defaultArgs with max_time := 1 } 20)
        0 [0, 1] { CSPSolver.new differInstance with clock_reads := 1 }).map
      (fun r => (r.2.timeout_occurred, r.2.nodes_explored)) = some (true, 3) ∧
    (CSPSolver.solve differInstance deadlineWorld { defaultArgs with max_time := 1 } 21
        (CSPSolver.new differInstance)).map
      (fun r => (r.2.wasTimeout, r.2.getNodesExplored, r.2.solutions)) = some (true, 3, []) :=
  ⟨deadlineWorld_monotone, by decide, by decide, by decide⟩

/-- C30, amended. With a non-decreasing clock, once a reading at or past the
deadline has been observed: every later call of `backtrack` returns false at
its deadline check, changing nothing but the flag and the count of readings (no
AC-3 pass, no selection, no solution recorded); the value loops of the active
calls are not cut short: such a loop still runs over all its remaining values,
counts one node for each and forward-checks it, and ends with the return value
false, the same solution list and the same domains (the counters are `int`
counters: the count of the nodes is exact, and the sum it is written as holds
as long as it stays within the range of an `int`). -/
theorem unwinding_after_deadline (csp : CSPInstance) (w : World) (args : SolveArgs)
    (hmono : ∀ i j, i ≤ j → w.elapsed i ≤ w.elapsed j) (s : CSPSolver)
    (hobs : ∃ k, k ≤ s.clock_reads ∧ args.max_time ≤ w.elapsed k) (fuel : Nat) :
    CSPSolver.backtrack csp w args (fuel + 1) s = some (false, raiseTimeout s) ∧
    (raiseTimeout s).solutions = s.solutions ∧ (raiseTimeout s).domains = s.domains ∧
    (raiseTimeout s).assignment = s.assignment ∧
    (raiseTimeout s).nodes_explored = s.nodes_explored ∧
    (raiseTimeout s).backtracks = s.backtracks ∧
    ∀ var vals, ∃ s2,
      valueLoop csp args (CSPSolver.backtrack csp w args (fuel + 1)) var vals s
        = some (false, s2) ∧
      s2.solutions = s.solutions ∧ s2.domains = s.domains ∧
      s2.nodes_explored = incTimes vals.length s.nodes_explored ∧
      (∃ k, k ≤ vals.length ∧ s2.backtracks = incTimes k s.backtracks) ∧
      (0 ≤ s.nodes_explored → s.nodes_explored + vals.length ≤ 2147483647 →
        s2.nodes_explored = s.nodes_explored + vals.length) ∧
      (0 ≤ s.backtracks → s.backtracks + vals.length ≤ 2147483647 →
        s2.backtracks ≤ s.backtracks + vals.length) := by
  obtain ⟨k, hk, hk2⟩ := hobs
  have hpast : args.max_time ≤ w.elapsed s.clock_reads := le_trans hk2 (hmono _ _ hk)
  refine ⟨backtrack_past_deadline csp w args fuel s hpast, rfl, rfl, rfl, rfl, rfl,
    fun var vals => ?_⟩
  obtain ⟨s2, h1, h2, h3, h4, ⟨j, hj1, hj2⟩, _⟩ :=
    valueLoop_past_deadline csp w args hmono fuel var vals s hpast
  refine ⟨s2, h1, h2, h3, h4, ⟨j, hj1, hj2⟩, fun h0 hmax => ?_, fun h0 hmax => ?_⟩
  · rw [h4]
    exact incTimes_eq vals.length s.nodes_explored (by omega) hmax
  · rw [hj2, incTimes_eq j s.backtracks (by omega) (by omega)]
    omega

/-- Witness of the amended C30 on `differInstance` after the third reading of
the clock of `deadlineWorld`. -/
theorem unwinding_after_deadline_witness :
    (∀ i j, i ≤ j → deadlineWorld.elapsed i ≤ deadlineWorld.elapsed j) ∧
    (∃ k, k ≤ flaggedState.clock_reads ∧
      ({ defaultArgs with max_time := 1 } : SolveArgs).max_time ≤ deadlineWorld.elapsed k) ∧
    (CSPSolver.backtrack differInstance deadlineWorld { defaultArgs with max_time := 1 } (5 + 1)
        flaggedState = some (false, raiseTimeout flaggedState) ∧
    (raiseTimeout flaggedState).solutions = flaggedState.solutions ∧
    (raiseTimeout flaggedState).domains = flaggedState.domains ∧
    (raiseTimeout flaggedState).assignment = flaggedState.assignment ∧
    (raiseTimeout flaggedState).nodes_explored = flaggedState.nodes_explored ∧
    (raiseTimeout flaggedState).backtracks = flaggedState.backtracks ∧
    ∀ var vals, ∃ s2,
      valueLoop differInstance { defaultArgs with max_time := 1 }
          (CSPSolver.backtrack differInstance deadlineWorld { defaultArgs with max_time := 1 }
            (5 + 1)) var vals flaggedState
        = some (false, s2) ∧
      s2.solutions = flaggedState.solutions ∧ s2.domains = flaggedState.domains ∧
      s2.nodes_explored = incTimes vals.length flaggedState.nodes_explored ∧
      (∃ k, k ≤ vals.length ∧ s2.backtracks = incTimes k flaggedState.backtracks) ∧
      (0 ≤ flaggedState.nodes_explored →
        flaggedState.nodes_explored + vals.length ≤ 2147483647 →
        s2.nodes_explored = flaggedState.nodes_explored + vals.length) ∧
      (0 ≤ flaggedState.backtracks → flaggedState.backtracks + vals.length ≤ 2147483647 →
        s2.backtracks ≤ flaggedState.backtracks + vals.length)) :=
  ⟨deadlineWorld_monotone, ⟨2, by decide, by decide⟩,
    unwinding_after_deadline differInstance deadlineWorld { defaultArgs with max_time := 1 }
      deadlineWorld_monotone flaggedState ⟨2, by decide, by decide⟩ 5⟩

/-! ## Parser -/

/-- C22, the code at a failing input: a file in the documented format without
any comment or blank line, `N = 2`, two domain lines, `M = 1` and the constraint
line `0 1 (0,1)`. The domain loop reads one line more than the `N` domain
lines before it tests its counter, so the line `1` that holds `M` is dropped;
the constraint line is then taken for the count line (`stoi` reads `0` from
it) and the instance is returned without any constraint. With one comment line
after the domain lines the same file is parsed as documented, and the
documented file with `M = 0` right after the domain lines is rejected. -/
theorem parser_drops_line_after_domains :
    (∀ uninitialized, parseCSPFile uninitialized "2\n0 0 1\n1 0 1\n1\n0 1 (0,1)\n".toList
      = some { num_variables := 2, domains := [(0, 1), (0, 1)], constraints := [] }) ∧
    (∀ uninitialized,
      parseCSPFile uninitialized "2\n0 0 1\n1 0 1\n# constraints\n1\n0 1 (0,1)\n".toList
      = some { num_variables := 2, domains := [(0, 1), (0, 1)],
               constraints := [⟨0, 1, [(0, 1)]⟩] }) ∧
    (∀ uninitialized, parseCSPFile uninitialized "2\n0 0 1\n1 0 1\n0\n".toList = none) :=
  ⟨fun _ => rfl, fun _ => rfl, fun _ => rfl⟩

theorem skip_of_not_significant (l : List Char) (h : significant l = false) :
    (isComment (trim l) || isEmpty (trim l)) = true := by
  unfold significant at h
  cases hb : (isComment (trim l) || isEmpty (trim l)) with
  | true => rfl
  | false => rw [hb] at h; cases h

theorem noskip_of_significant (l : List Char) (h : significant l = true) :
    (isComment (trim l) || isEmpty (trim l)) = false := by
  unfold significant at h
  cases hb : (isComment (trim l) || isEmpty (trim l)) with
  | true => rw [hb] at h; cases h
  | false => rfl

theorem readNumVariables_first (good : Bool) (uninitialized : Int) (pending : List (List Char))
    (line l : List Char) (n : Int)
    (hfind : pending.find? significant = some l) (hn : stoi (trim l) = some n) :
    ∃ r, readNumVariables good uninitialized pending line = some (n, r) := by
  induction pending generalizing line with
  | nil => cases hfind
  | cons p rest ih =>
    rw [List.find?_cons] at hfind
    by_cases hsig : significant p = true
    · rw [hsig] at hfind
      simp only [Option.some.injEq] at hfind
      subst hfind
      have hskip := noskip_of_significant p hsig
      simp only [readNumVariables, hskip, Bool.false_eq_true, if_false, hn]
      exact ⟨_, rfl⟩
    · have hsig2 : significant p = false := by simpa using hsig
      rw [hsig2] at hfind
      have hskip := skip_of_not_significant p hsig2
      simp only [readNumVariables, hskip, if_true]
      exact ih (trim p) hfind

theorem parseConstraintBody_range (num_variables : Int) (line : List Char) (c : Constraint)
    (h : parseConstraintBody num_variables line = some c) :
    c.var1 < num_variables.toNat ∧ c.var2 < num_variables.toNat := by
  unfold parseConstraintBody at h
  split at h
  · split at h
    · split at h
      · cases h
      · split at h
        · cases h
        · rename_i var1 var2 _ _ hrange _ _
          simp only [Option.some.injEq] at h
          rw [← h]
          simp only
          omega
    · cases h
  · cases h

theorem parseConstraintBody_outside (num_variables : Int) (line t0 t1 : List Char)
    (ts : List (List Char)) (u v : Int)
    (htok : split line ' ' = t0 :: t1 :: ts) (hu : stoi t0 = some u) (hv : stoi t1 = some v)
    (hout : u < 0 ∨ num_variables ≤ u ∨ v < 0 ∨ num_variables ≤ v) :
    parseConstraintBody num_variables line = none := by
  unfold parseConstraintBody
  rw [htok]
  simp only [hu, hv]
  rw [if_pos hout]

theorem readConstraints_range (num_variables num_constraints : Int)
    (pending : List (List Char)) (constraints : List Constraint) (constraints_read : Nat)
    (result : List Constraint)
    (hacc : ∀ c ∈ constraints, c.var1 < num_variables.toNat ∧ c.var2 < num_variables.toNat)
    (h : readConstraints num_variables num_constraints pending constraints constraints_read
      = some result) :
    ∀ c ∈ result, c.var1 < num_variables.toNat ∧ c.var2 < num_variables.toNat := by
  induction pending generalizing constraints constraints_read with
  | nil =>
    simp only [readConstraints, Option.some.injEq] at h
    rw [← h]
    exact hacc
  | cons l rest ih =>
    simp only [readConstraints] at h
    by_cases hk : (constraints_read : Int) < num_constraints
    · rw [if_pos hk] at h
      by_cases hskip : (isComment (trim l) || isEmpty (trim l)) = true
      · rw [if_pos hskip] at h
        exact ih constraints constraints_read hacc h
      · rw [if_neg hskip] at h
        cases hp : parseConstraintBody num_variables (trim l) with
        | none => rw [hp] at h; cases h
        | some c =>
          rw [hp] at h
          refine ih (constraints ++ [c]) (constraints_read + 1) ?_ h
          intro c2 hc2
          rcases List.mem_append.1 hc2 with h1 | h1
          · exact hacc c2 h1
          · rw [List.mem_singleton.1 h1]
            exact parseConstraintBody_range num_variables (trim l) c hp
    · rw [if_neg hk] at h
      simp only [Option.some.injEq] at h
      rw [← h]
      exact hacc

/-- The constraint loop fails on a significant line among the first
`num_constraints` ones that names a variable outside `[0, num_variables)`. -/
theorem readConstraints_outside (num_variables num_constraints : Int)
    (pre : List (List Char)) (l : List Char) (rest : List (List Char))
    (constraints : List Constraint) (constraints_read : Nat)
    (t0 t1 : List Char) (ts : List (List Char)) (u v : Int)
    (hcount : (constraints_read : Int) + ((pre.filter significant).length : Int)
      < num_constraints)
    (hsig : significant l = true)
    (htok : split (trim l) ' ' = t0 :: t1 :: ts) (hu : stoi t0 = some u) (hv : stoi t1 = some v)
    (hout : u < 0 ∨ num_variables ≤ u ∨ v < 0 ∨ num_variables ≤ v) :
    readConstraints num_variables num_constraints (pre ++ l :: rest) constraints
      constraints_read = none := by
  induction pre generalizing constraints constraints_read with
  | nil =>
    have hk : (constraints_read : Int) < num_constraints := by
      simp only [List.filter_nil, List.length_nil] at hcount
      omega
    have hskip := noskip_of_significant l hsig
    simp only [List.nil_append, readConstraints, if_pos hk, hskip, Bool.false_eq_true, if_false]
    rw [parseConstraintBody_outside num_variables (trim l) t0 t1 ts u v htok hu hv hout]
  | cons p pre2 ih =>
    have hk : (constraints_read : Int) < num_constraints := by
      have : (0 : Int) ≤ (((p :: pre2).filter significant).length : Int) := Int.natCast_nonneg _
      omega
    simp only [List.cons_append, readConstraints, if_pos hk]
    by_cases hsp : significant p = true
    · have hskip := noskip_of_significant p hsp
      rw [hskip]
      simp only [Bool.false_eq_true, if_false]
      cases hp : parseConstraintBody num_variables (trim p) with
      | none => rfl
      | some c =>
        simp only
        apply ih
        rw [List.filter_cons_of_pos hsp, List.length_cons] at hcount
        push_cast at hcount ⊢
        omega
    · have hsp2 : significant p = false := by simpa using hsp
      have hskip := skip_of_not_significant p hsp2
      rw [hskip]
      simp only [if_true]
      apply ih
      rw [List.filter_cons_of_neg hsp] at hcount
      exact hcount

theorem readHeader_positive (uninitialized : Int) (text : List Char) (num_variables : Int)
    (domains : List (Int × Int)) (num_constraints : Int) (pending : List (List Char))
    (h : readHeader uninitialized text = some (num_variables, domains, num_constraints, pending)) :
    0 < num_variables := by
  unfold readHeader at h
  split at h
  · cases h
  · rename_i n r1 _
    by_cases hn : n ≤ 0
    · rw [if_pos hn] at h; cases h
    · rw [if_neg hn] at h
      split at h
      · cases h
      · split at h
        · cases h
        · split at h
          · cases h
          · simp only [Option.some.injEq, Prod.mk.injEq] at h
            rw [← h.1]
            omega

/-- C23. Parser validation: `parseCSPFile` fails when the first significant
line converts to an integer `N <= 0`, and when one of the constraint lines it
reads names a variable outside `[0, N)`; an instance that it returns has at
least one variable and no constraint with `var1` or `var2` outside `[0,
num_variables)`. -/
theorem parser_validation (uninitialized : Int) (text : List Char) :
    (∀ l n, (getlines '\n' text).find? significant = some l → stoi (trim l) = some n → n ≤ 0 →
      parseCSPFile uninitialized text = none) ∧
    (∀ num_variables domains num_constraints pending pre l rest t0 t1 ts u v,
      readHeader uninitialized text = some (num_variables, domains, num_constraints, pending) →
      pending = pre ++ l :: rest →
      ((pre.filter significant).length : Int) < num_constraints → significant l = true →
      split (trim l) ' ' = t0 :: t1 :: ts → stoi t0 = some u → stoi t1 = some v →
      (u < 0 ∨ num_variables ≤ u ∨ v < 0 ∨ num_variables ≤ v) →
      parseCSPFile uninitialized text = none) ∧
    (∀ csp, parseCSPFile uninitialized text = some csp →
      0 < csp.num_variables ∧
      ∀ c ∈ csp.constraints, c.var1 < csp.num_variables ∧ c.var2 < csp.num_variables) := by
  refine ⟨?_, ?_, ?_⟩
  · intro l n hfind hn hle
    obtain ⟨r, hr⟩ := readNumVariables_first
      (text.isEmpty || text.getLast? == some '\n') uninitialized (getlines '\n' text) [] l n
      hfind hn
    unfold parseCSPFile readHeader
    rw [hr]
    simp only [if_pos hle]
  · intro num_variables domains num_constraints pending pre l rest t0 t1 ts u v hh hp hc hs
      htok hu hv hout
    unfold parseCSPFile
    rw [hh]
    simp only
    rw [hp, readConstraints_outside num_variables num_constraints pre l rest [] 0 t0 t1 ts u v
      (by push_cast; omega) hs htok hu hv hout]
  · intro csp h
    unfold parseCSPFile at h
    split at h
    · cases h
    · rename_i num_variables domains num_constraints pending hh
      split at h
      · cases h
      · rename_i constraints hc
        simp only [Option.some.injEq] at h
        rw [← h]
        simp only
        have hpos := readHeader_positive uninitialized text num_variables domains
          num_constraints pending hh
        refine ⟨by omega, ?_⟩
        exact readConstraints_range num_variables num_constraints pending [] 0 constraints
          (fun c hc => by cases hc) hc

/-- Witness of C23: a file with `N = 0`, a file whose constraint line names the
variable 2 of a two-variable instance, and a file in the documented format
that is parsed to `orientedInstance`. -/
theorem parser_validation_witness :
    parseCSPFile 0 "# empty instance\n0\n".toList = none ∧
    parseCSPFile 0 "2\n0 0 1\n1 0 1\n# constraints\n1\n0 2 (0,1)\n".toList = none ∧
    parseCSPFile 0 "2\n0 0 1\n1 0 1\n# constraints\n1\n0 1 (0,1)\n".toList
      = some orientedInstance ∧
    (0 < orientedInstance.num_variables ∧
      ∀ c ∈ orientedInstance.constraints,
        c.var1 < orientedInstance.num_variables ∧ c.var2 < orientedInstance.num_variables) :=
  ⟨(parser_validation 0 "# empty instance\n0\n".toList).1 "0".toList 0 rfl rfl (by decide),
    (parser_validation 0 "2\n0 0 1\n1 0 1\n# constraints\n1\n0 2 (0,1)\n".toList).2.1
      2 [(0, 1), (0, 1)] 1 ["0 2 (0,1)".toList] [] "0 2 (0,1)".toList [] "0".toList "2".toList
      ["(0,1)".toList] 0 2 rfl rfl (by decide) rfl rfl rfl rfl
      (Or.inr (Or.inr (Or.inr (by decide)))),
    rfl,
    (parser_validation 0 "2\n0 0 1\n1 0 1\n# constraints\n1\n0 1 (0,1)\n".toList).2.2
      orientedInstance rfl⟩

/-! ## Deadline at the root, the per-value check, and atomicity of `applyAC3` -/

/-- C31. Deadline check at the root: for every instance, configuration and
solver state, `solve` called with `max_time <= 0` (the first reading of the
clock being at least 0 seconds) returns false with an empty solution list,
`nodes_explored = 0`, `backtracks = 0` and `wasTimeout()` true, and leaves
the domains and the assignment as they were. -/
theorem solve_deadline_at_root (csp : CSPInstance) (w : World) (args : SolveArgs)
    (s : CSPSolver) (fuel : Nat) (hmax : args.max_time ≤ 0) (hclock : 0 ≤ w.elapsed 0) :
    ∃ s2, CSPSolver.solve csp w args (fuel + 1) s = some (false, s2) ∧
      s2.solutions = [] ∧ s2.getNodesExplored = 0 ∧ s2.getBacktracks = 0 ∧
      s2.wasTimeout = true ∧ s2.domains = s.domains ∧ s2.assignment = s.assignment := by
  unfold CSPSolver.solve
  rw [backtrack_succ, if_pos (le_trans hmax hclock)]
  exact ⟨_, rfl, rfl, rfl, rfl, rfl, rfl, rfl⟩

/-- Witness of C31 on a new solver for the forced chain with `max_time = 0`. -/
theorem solve_deadline_at_root_witness :
    ({ defaultArgs with max_time := 0 } : SolveArgs).max_time ≤ 0 ∧
    0 ≤ exampleWorld.elapsed 0 ∧
    ∃ s2, CSPSolver.solve chainInstance exampleWorld { defaultArgs with max_time := 0 } (0 + 1)
        (CSPSolver.new chainInstance) = some (false, s2) ∧
      s2.solutions = [] ∧ s2.getNodesExplored = 0 ∧ s2.getBacktracks = 0 ∧
      s2.wasTimeout = true ∧ s2.domains = (CSPSolver.new chainInstance).domains ∧
      s2.assignment = (CSPSolver.new chainInstance).assignment :=
  ⟨by decide, by decide,
    solve_deadline_at_root chainInstance exampleWorld { defaultArgs with max_time := 0 }
      (CSPSolver.new chainInstance) 0 (by decide) (by decide)⟩

theorem isConsistent_swap (csp : CSPInstance) (a : Nat) (x : Int) (b : Nat) (y : Int)
    (hab : a ≠ b) (h : csp.isConsistent a x b y = true) : csp.isConsistent b y a x = true := by
  rw [isConsistent_iff] at h ⊢
  intro c hc
  obtain ⟨h1, h2⟩ := h c hc
  refine ⟨fun h3 => h2 (fun h4 => hab (h4.1.symm.trans h3.1)) h3, fun _ h3 => h1 h3⟩

/-- The consistency check of the search against the assigned variables. -/
theorem solver_isConsistent_iff (csp : CSPInstance) (s : CSPSolver) (var : Nat) (value : Int) :
    CSPSolver.isConsistent csp s var value = true ↔
      ∀ w val, mapFind s.assignment w = some val → csp.isConsistent var value w val = true := by
  unfold CSPSolver.isConsistent
  rw [List.all_eq_true]
  constructor
  · intro h w val hw
    rw [isConsistent_iff]
    intro c hc
    have hbody := h c hc
    constructor
    · rintro ⟨h1, h2⟩
      rw [if_pos h1, h2, hw] at hbody
      simp only at hbody
      exact ((isConsistent_iff csp var value w val).1 hbody c hc).1 ⟨h1, h2⟩
    · rintro hn ⟨h1, h2⟩
      have h3 : c.var1 ≠ var := by
        intro h4
        exact hn ⟨h4, h2.trans (h4.symm.trans h1)⟩
      rw [if_neg h3, if_pos h2, h1, hw] at hbody
      simp only at hbody
      exact ((isConsistent_iff csp w val var value).1 hbody c hc).1 ⟨h1, h2⟩
  · intro h c hc
    by_cases h1 : c.var1 = var
    · rw [if_pos h1]
      cases hm : mapFind s.assignment c.var2 with
      | none => rfl
      | some val2 => exact h c.var2 val2 hm
    · rw [if_neg h1]
      by_cases h2 : c.var2 = var
      · rw [if_pos h2]
        cases hm : mapFind s.assignment c.var1 with
        | none => rfl
        | some val1 =>
          exact isConsistent_swap csp var value c.var1 val1 (fun h3 => h1 h3.symm)
            (h c.var1 val1 hm)
      · rw [if_neg h2]

/-- C33. Per-value consistency check: `CSPSolver.isConsistent(var, value)` is
true exactly when `CSPInstance.isConsistent(var, value, w, assignment[w])`
holds for every assigned variable `w`; a value for which it is false is
skipped by the value loop of `backtrack`, which goes on with the next value
from a state that differs only by `nodes_explored++`, an `int` increment. -/
theorem per_value_consistency_check (csp : CSPInstance) (s : CSPSolver) (var : Nat)
    (value : Int) :
    (CSPSolver.isConsistent csp s var value = true ↔
      ∀ w val, mapFind s.assignment w = some val → csp.isConsistent var value w val = true) ∧
    (CSPSolver.isConsistent csp s var value = false →
      ∀ (args : SolveArgs) (recurse : CSPSolver → Option (Bool × CSPSolver)) (rest : List Int),
        valueLoop csp args recurse var (value :: rest) s
          = valueLoop csp args recurse var rest
              { s with nodes_explored := int32 (s.nodes_explored + 1) }) := by
  refine ⟨solver_isConsistent_iff csp s var value, ?_⟩
  intro h args recurse rest
  rw [valueLoop_cons]
  have h2 : CSPSolver.isConsistent csp (bumpNodes s) var value = false := h
  rw [h2]
  rfl

/-- Witness of C33 on the forced chain with `0 -> 0` assigned: the value 0 of
variable 1 is rejected (the pair `(0, 0)` is not allowed) and skipped. -/
theorem per_value_consistency_check_witness :
    CSPSolver.isConsistent chainInstance
      { CSPSolver.new chainInstance with assignment := [(0, 0)] } 1 0 = false ∧
    CSPSolver.isConsistent chainInstance
      { CSPSolver.new chainInstance with assignment := [(0, 0)] } 1 1 = true ∧
    ∀ (args : SolveArgs) (recurse : CSPSolver → Option (Bool × CSPSolver)) (rest : List Int),
      valueLoop chainInstance args recurse 1 (0 :: rest)
          { CSPSolver.new chainInstance with assignment := [(0, 0)] }
        = valueLoop chainInstance args recurse 1 rest
          { CSPSolver.new chainInstance with assignment := [(0, 0)], nodes_explored := 1 } :=
  ⟨by decide, by decide,
    (per_value_consistency_check chainInstance
      { CSPSolver.new chainInstance with assignment := [(0, 0)] } 1 0).2 (by decide)⟩

/-- C39. `CSPSolver.applyAC3` is atomic on failure: when it returns false the
solver is exactly what it was before the call, and when it returns true its
domains are the output domains of the engine and nothing else has changed;
consequently the restore that `backtrack` performs after a failed node-level
AC-3 changes nothing. -/
theorem applyAC3_atomic (csp : CSPInstance) (fuel : Nat) (s : CSPSolver) (b : Bool)
    (s1 : CSPSolver) (h : CSPSolver.applyAC3 csp fuel s = some (b, s1)) :
    (b = false → s1 = s ∧ s1.restoreDomains s.backupDomains = s1) ∧
    (b = true → ∃ ac3, AC3Algorithm.apply csp fuel ((AC3Algorithm.new csp).setDomains s.domains)
        = some (true, ac3) ∧ s1 = { s with domains := ac3.getDomains }) := by
  unfold CSPSolver.applyAC3 at h
  cases ha : AC3Algorithm.apply csp fuel ((AC3Algorithm.new csp).setDomains s.domains) with
  | none => rw [ha] at h; cases h
  | some r =>
    obtain ⟨c, a2⟩ := r
    rw [ha] at h
    simp only at h
    cases c with
    | true =>
      simp only [if_true, Option.some.injEq, Prod.mk.injEq] at h
      refine ⟨fun hb => ?_, fun _ => ⟨a2, rfl, h.2.symm⟩⟩
      rw [← h.1] at hb
      cases hb
    | false =>
      simp only [Bool.false_eq_true, if_false, Option.some.injEq, Prod.mk.injEq] at h
      refine ⟨fun _ => ?_, fun hb => ?_⟩
      · rw [← h.2]
        exact ⟨rfl, rfl⟩
      · rw [← h.1] at hb
        cases hb

/-- Witness of C39: a failed run on `emptyRelationInstance` and a successful
run on `gapInstance`. -/
theorem applyAC3_atomic_witness :
    CSPSolver.applyAC3 emptyRelationInstance 20 (CSPSolver.new emptyRelationInstance)
      = some (false, CSPSolver.new emptyRelationInstance) ∧
    CSPSolver.applyAC3 gapInstance 20 (CSPSolver.new gapInstance)
      = some (true, { CSPSolver.new gapInstance with domains := [[0, 1], [1], [1]] }) ∧
    ((false = false → CSPSolver.new emptyRelationInstance = CSPSolver.new emptyRelationInstance ∧
        (CSPSolver.new emptyRelationInstance).restoreDomains
          (CSPSolver.new emptyRelationInstance).backupDomains
          = CSPSolver.new emptyRelationInstance) ∧
      (false = true → ∃ ac3, AC3Algorithm.apply emptyRelationInstance 20
          ((AC3Algorithm.new emptyRelationInstance).setDomains
            (CSPSolver.new emptyRelationInstance).domains) = some (true, ac3) ∧
        CSPSolver.new emptyRelationInstance
          = { CSPSolver.new emptyRelationInstance with domains := ac3.getDomains })) :=
  ⟨by decide, by decide,
    applyAC3_atomic emptyRelationInstance 20 (CSPSolver.new emptyRelationInstance) false
      (CSPSolver.new emptyRelationInstance) (by decide)⟩

/-! ## AC-3: termination and preservation of solutions -/

/-- Every successful revision of a run of `apply` removes at least one value:
the revision counter plus the number of values left does not grow. -/
theorem apply_revisions_bound (csp : CSPInstance) (fuel : Nat) (a : AC3Algorithm) (b : Bool)
    (a2 : AC3Algorithm) (h : AC3Algorithm.apply csp fuel a = some (b, a2)) :
    a2.revisions_count + (a2.domains.map List.length).sum
      ≤ a.revisions_count + (a.domains.map List.length).sum := by
  induction fuel generalizing a with
  | zero => simp [AC3Algorithm.apply] at h
  | succ k ih =>
    obtain ⟨doms, wl, cnt⟩ := a
    cases wl with
    | nil =>
      simp only [AC3Algorithm.apply, Option.some.injEq, Prod.mk.injEq] at h
      rw [← h.2]
    | cons arc rest =>
      unfold AC3Algorithm.apply at h
      simp only at h
      by_cases hr : (AC3Algorithm.revise csp ⟨doms, rest, cnt⟩ arc.var1 arc.var2).1 = true
      · rw [if_pos hr] at h
        have hsum := revise_sum_lt csp ⟨doms, rest, cnt⟩ arc.var1 arc.var2 hr
        have hcnt : (AC3Algorithm.revise csp ⟨doms, rest, cnt⟩ arc.var1 arc.var2).2.revisions_count
            = cnt + 1 := by
          rw [revise_eq, hr, if_pos rfl]
        simp only at hsum
        by_cases hem : ((AC3Algorithm.revise csp ⟨doms, rest, cnt⟩ arc.var1 arc.var2).2.domains.getD
            arc.var1 []).isEmpty = true
        · rw [if_pos hem] at h
          simp only [Option.some.injEq, Prod.mk.injEq] at h
          rw [← h.2, hcnt]
          show cnt + 1 + ((AC3Algorithm.revise csp ⟨doms, rest, cnt⟩ arc.var1
            arc.var2).2.domains.map List.length).sum ≤ cnt + (doms.map List.length).sum
          omega
        · rw [if_neg hem] at h
          have := ih _ h
          simp only at this
          rw [hcnt] at this
          show a2.revisions_count + (a2.domains.map List.length).sum
            ≤ cnt + (doms.map List.length).sum
          omega
      · rw [if_neg hr] at h
        have hfalse : (AC3Algorithm.revise csp ⟨doms, rest, cnt⟩ arc.var1 arc.var2).1 = false := by
          simpa using hr
        have heq : (AC3Algorithm.revise csp ⟨doms, rest, cnt⟩ arc.var1 arc.var2).2
            = ⟨doms, rest, cnt⟩ := by
          rw [revise_eq, hfalse]; rfl
        rw [heq] at h
        have := ih ⟨doms, rest, cnt⟩ h
        exact this

/-- C35. AC-3 terminates: on every instance and every engine state the
worklist loop of `apply` ends within `fuelBound` iterations (the number of
values times the number of constraints plus one, plus the length of the
worklist, plus one), and the number of successful revisions it makes is at most
the number of values in the input domains, each revision removing a value. -/
theorem ac3_terminates (csp : CSPInstance) (a : AC3Algorithm) (fuel : Nat)
    (hfuel : AC3Algorithm.fuelBound csp a ≤ fuel) :
    ∃ b a2, AC3Algorithm.apply csp fuel a = some (b, a2) ∧
      a2.getRevisionsCount ≤ a.getRevisionsCount + (a.getDomains.map List.length).sum ∧
      a2.getRevisionsCount + (a2.getDomains.map List.length).sum
        ≤ a.getRevisionsCount + (a.getDomains.map List.length).sum := by
  obtain ⟨b, a2, h, _⟩ := apply_spec csp fuel a hfuel
  have hb := apply_revisions_bound csp fuel a b a2 h
  refine ⟨b, a2, h, ?_, hb⟩
  unfold AC3Algorithm.getRevisionsCount AC3Algorithm.getDomains
  omega

/-- Witness of C35 on a new engine for `gapInstance`: 6 values, 2 revisions. -/
theorem ac3_terminates_witness :
    AC3Algorithm.fuelBound gapInstance (AC3Algorithm.new gapInstance) ≤ 23 ∧
    AC3Algorithm.apply gapInstance 23 (AC3Algorithm.new gapInstance)
      = some (true, { domains := [[0, 1], [1], [1]], worklist := [], revisions_count := 2 }) ∧
    ∃ b a2, AC3Algorithm.apply gapInstance 23 (AC3Algorithm.new gapInstance) = some (b, a2) ∧
      a2.getRevisionsCount ≤ (AC3Algorithm.new gapInstance).getRevisionsCount +
        ((AC3Algorithm.new gapInstance).getDomains.map List.length).sum ∧
      a2.getRevisionsCount + (a2.getDomains.map List.length).sum
        ≤ (AC3Algorithm.new gapInstance).getRevisionsCount +
          ((AC3Algorithm.new gapInstance).getDomains.map List.length).sum :=
  ⟨by decide, by decide,
    ac3_terminates gapInstance (AC3Algorithm.new gapInstance) 23 (by decide)⟩

/-- C36. AC-3 loses no solution: on an instance whose constraints name
variables of the instance and for every input domain state, when a total
assignment `f` satisfies every constraint under `CSPInstance.isConsistent` and
has `f w` in the input domain of every variable `w`, a new engine set to these
domains answers consistent and `f w` is still in the output domain of every
`w`; hence an inconsistent answer means that no such assignment exists; and
the engine answers within `fuelBound` iterations. -/
theorem ac3_loses_no_solution (csp : CSPInstance)
    (hcs : ∀ c ∈ csp.constraints, c.var1 < csp.num_variables ∧ c.var2 < csp.num_variables)
    (doms : List (List Int)) (fuel : Nat) :
    (∀ f : Nat → Int,
      (∀ c ∈ csp.constraints, csp.isConsistent c.var1 (f c.var1) c.var2 (f c.var2) = true) →
      (∀ w, w < csp.num_variables → f w ∈ doms.getD w []) →
      ∀ b a2, AC3Algorithm.apply csp fuel ((AC3Algorithm.new csp).setDomains doms) = some (b, a2) →
        b = true ∧ ∀ w, w < csp.num_variables → f w ∈ a2.getDomains.getD w []) ∧
    (∀ a2, AC3Algorithm.apply csp fuel ((AC3Algorithm.new csp).setDomains doms) = some (false, a2) →
      ¬ ∃ f : Nat → Int,
        (∀ c ∈ csp.constraints, csp.isConsistent c.var1 (f c.var1) c.var2 (f c.var2) = true) ∧
        (∀ w, w < csp.num_variables → f w ∈ doms.getD w [])) ∧
    (AC3Algorithm.fuelBound csp ((AC3Algorithm.new csp).setDomains doms) ≤ fuel →
      ∃ b a2, AC3Algorithm.apply csp fuel ((AC3Algorithm.new csp).setDomains doms)
        = some (b, a2)) := by
  have hkeep : ∀ f : Nat → Int,
      (∀ c ∈ csp.constraints, csp.isConsistent c.var1 (f c.var1) c.var2 (f c.var2) = true) →
      (∀ w, w < csp.num_variables → f w ∈ doms.getD w []) →
      ∀ b a2, AC3Algorithm.apply csp fuel ((AC3Algorithm.new csp).setDomains doms) = some (b, a2) →
        b = true ∧ ∀ w, w < csp.num_variables → f w ∈ a2.getDomains.getD w [] := by
    intro f hsat hf b a2 h
    refine apply_keeps csp f csp.num_variables hcs ?_ fuel
      ((AC3Algorithm.new csp).setDomains doms) b a2 ?_ hf h
    · intro c hc
      exact ((isConsistent_iff csp c.var1 (f c.var1) c.var2 (f c.var2)).1 (hsat c hc) c hc).1
        ⟨rfl, rfl⟩
    · intro arc harc
      obtain ⟨c, hc, h1 | h1⟩ := initialWorklist_mem csp.constraints arc harc
      · rw [h1.1, h1.2]; exact hcs c hc
      · rw [h1.1, h1.2]; exact ⟨(hcs c hc).2, (hcs c hc).1⟩
  refine ⟨hkeep, ?_, ?_⟩
  · rintro a2 h ⟨f, hsat, hf⟩
    have := (hkeep f hsat hf false a2 h).1
    cases this
  · intro hfuel
    obtain ⟨b, a2, h, _⟩ := apply_spec csp fuel _ hfuel
    exact ⟨b, a2, h⟩

/-- Witness of C36 on `gapInstance`, its solution `(1, 1, 1)` and the initial
domains. -/
theorem ac3_loses_no_solution_witness :
    (∀ c ∈ gapInstance.constraints,
      c.var1 < gapInstance.num_variables ∧ c.var2 < gapInstance.num_variables) ∧
    (∀ c ∈ gapInstance.constraints, gapInstance.isConsistent c.var1 1 c.var2 1 = true) ∧
    (∀ w, w < gapInstance.num_variables → (1 : Int) ∈ [[0, 1], [0, 1], [0, 1]].getD w []) ∧
    AC3Algorithm.apply gapInstance 23
        ((AC3Algorithm.new gapInstance).setDomains [[0, 1], [0, 1], [0, 1]])
      = some (true, { domains := [[0, 1], [1], [1]], worklist := [], revisions_count := 2 }) ∧
    (true = true ∧ ∀ w, w < gapInstance.num_variables →
      (1 : Int) ∈ ({ domains := [[0, 1], [1], [1]], worklist := [],
                     revisions_count := 2 } : AC3Algorithm).getDomains.getD w []) :=
  ⟨by decide, by decide, by decide, by decide,
    (ac3_loses_no_solution gapInstance (by decide) [[0, 1], [0, 1], [0, 1]] 23).1
      (fun _ => 1) (by decide) (by decide) true _ (by decide)⟩

/-! ## The state after a call of `backtrack` -/

theorem asgOk_insert (csp : CSPInstance) (A : List (Nat × Int)) (h : AsgOk csp A) (var : Nat)
    (value : Int) (hvar : var < csp.num_variables) : AsgOk csp (mapInsert A var value) := by
  refine ⟨mapInsert_ordered A h.1 var value, fun kv hkv => ?_⟩
  rcases mapInsert_mem A var value kv hkv with h1 | h1
  · rw [h1]; exact hvar
  · exact h.2 kv h1

theorem valueLoop_frame (csp : CSPInstance) (args : SolveArgs)
    (recurse : CSPSolver → Option (Bool × CSPSolver)) (var : Nat)
    (hvar : var < csp.num_variables)
    (hrec : ∀ t b t2, AsgOk csp t.assignment → recurse t = some (b, t2) → FramePost args t b t2)
    (vals : List Int) (s : CSPSolver) (hA : AsgOk csp s.assignment)
    (hun : mapFind s.assignment var = none) (b : Bool) (s2 : CSPSolver)
    (h : valueLoop csp args recurse var vals s = some (b, s2)) : FramePost args s b s2 := by
  induction vals generalizing s with
  | nil =>
    simp only [valueLoop, Option.some.injEq, Prod.mk.injEq] at h
    rw [← h.1, ← h.2]
    exact ⟨fun _ => ⟨rfl, rfl⟩, fun hb => by cases hb⟩
  | cons value rest ih =>
    rw [valueLoop_cons] at h
    by_cases hc : CSPSolver.isConsistent csp (bumpNodes s) var value = true
    swap
    · rw [if_pos (by simpa using hc)] at h
      exact ih (bumpNodes s) hA hun h
    · rw [if_neg (by simpa using hc)] at h
      obtain ⟨hfc1, _, _, hfc4, hfc5, _⟩ := fcResult_spec csp args (bumpNodes s) var value
      by_cases hfc : (fcResult csp args (bumpNodes s) var value).1 = true
      swap
      · rw [if_pos (by simpa using hfc)] at h
        have huse : args.use_forward_checking = true := hfc4 (by simpa using hfc)
        have hst : (fcResult csp args (bumpNodes s) var value).2.restoreDomains
            (if args.use_forward_checking then (bumpNodes s).backupDomains else [])
            = bumpNodes s := by
          rw [if_pos huse, hfc1]
          rfl
        rw [hst] at h
        exact ih (bumpNodes s) hA hun h
      · rw [if_neg (by simpa using hfc)] at h
        have htA : (assignVar (fcResult csp args (bumpNodes s) var value).2 var value).assignment
            = mapInsert s.assignment var value := by
          have := congrArg CSPSolver.assignment hfc1
          show mapInsert (fcResult csp args (bumpNodes s) var value).2.assignment var value = _
          rw [this]
          rfl
        cases hr : recurse (assignVar (fcResult csp args (bumpNodes s) var value).2 var value) with
        | none => rw [hr] at h; cases h
        | some r =>
          obtain ⟨result, s3⟩ := r
          rw [hr] at h
          simp only at h
          have hpost := hrec _ result s3
            (by rw [htA]; exact asgOk_insert csp s.assignment hA var value hvar) hr
          by_cases hb2 : (result && args.first_solution_only) = true
          · rw [if_pos hb2] at h
            simp only [Option.some.injEq, Prod.mk.injEq] at h
            rw [← h.1]
            simp only [Bool.and_eq_true] at hb2
            refine ⟨?_, fun _ => hb2.2⟩
            intro hb
            cases hb
          · rw [if_neg hb2] at h
            have hres : result = false := by
              cases hres : result with
              | false => rfl
              | true =>
                exfalso
                apply hb2
                rw [hres, hpost.2 hres]
                rfl
            obtain ⟨hd3, ha3⟩ := hpost.1 hres
            obtain ⟨u1, u2, _, _⟩ := undoValue_fields args s3
              (if args.use_forward_checking then (bumpNodes s).backupDomains else []) var
            have hud : (undoValue args s3
                (if args.use_forward_checking then (bumpNodes s).backupDomains else [])
                var).domains = s.domains := by
              rw [u1]
              by_cases huse : args.use_forward_checking = true
              · rw [if_pos huse, if_pos huse]; rfl
              · rw [if_neg huse, hd3]
                show (fcResult csp args (bumpNodes s) var value).2.domains = s.domains
                rw [hfc5 (by simpa using huse)]; rfl
            have hua : (undoValue args s3
                (if args.use_forward_checking then (bumpNodes s).backupDomains else [])
                var).assignment = s.assignment := by
              rw [u2, ha3, htA]
              exact mapErase_insert s.assignment hA.1 var value hun
            obtain ⟨f1, f2⟩ := ih _ (by rw [hua]; exact hA) (by rw [hua]; exact hun) h
            refine ⟨fun hb => ?_, f2⟩
            obtain ⟨g1, g2⟩ := f1 hb
            exact ⟨g1.trans hud, g2.trans hua⟩

/-- A call of `backtrack` on a state whose assignment is a map over variables
of the instance: after the return value false the domains and the assignment
are restored, and true is returned in first-solution mode only. -/
theorem backtrack_frame (csp : CSPInstance) (w : World) (args : SolveArgs) (fuel : Nat)
    (s : CSPSolver) (hA : AsgOk csp s.assignment) (b : Bool) (s2 : CSPSolver)
    (h : CSPSolver.backtrack csp w args fuel s = some (b, s2)) : FramePost args s b s2 := by
  induction fuel generalizing s b s2 with
  | zero => simp [CSPSolver.backtrack] at h
  | succ n ih =>
    rw [backtrack_succ] at h
    by_cases hto : w.elapsed s.clock_reads ≥ args.max_time
    · rw [if_pos hto] at h
      simp only [Option.some.injEq, Prod.mk.injEq] at h
      rw [← h.1, ← h.2]
      exact ⟨fun _ => ⟨rfl, rfl⟩, fun hb => by cases hb⟩
    · rw [if_neg hto] at h
      by_cases hcomp : CSPSolver.isComplete csp (tick s) = true
      · rw [if_pos hcomp] at h
        simp only [Option.some.injEq, Prod.mk.injEq] at h
        rw [← h.1, ← h.2]
        exact ⟨fun _ => ⟨rfl, rfl⟩, fun hb => hb⟩
      · rw [if_neg hcomp] at h
        have hlen : s.assignment.length ≠ csp.num_variables := by
          intro hl
          apply hcomp
          unfold CSPSolver.isComplete
          exact decide_eq_true hl
        cases hac : nodeAC3 csp args n (tick s) with
        | none => rw [hac] at h; cases h
        | some r1 =>
          obtain ⟨b1, s1⟩ := r1
          rw [hac] at h
          have hs1 := nodeAC3_frame csp args n (tick s) b1 s1 hac
          have hs1a : s1.assignment = s.assignment := by
            have := congrArg CSPSolver.assignment hs1
            exact this
          cases b1 with
          | false =>
            simp only [Option.some.injEq, Prod.mk.injEq] at h
            rw [← h.1, ← h.2]
            exact ⟨fun _ => ⟨rfl, hs1a⟩, fun hb => by cases hb⟩
          | true =>
            simp only at h
            obtain ⟨⟨k1, hsel⟩, hcase⟩ := selectVariable_spec csp w s1 args.var_strategy
            have hsa : (selectVariable csp w s1 args.var_strategy).2.assignment
                = s.assignment := by
              have := congrArg CSPSolver.assignment hsel
              exact this.trans hs1a
            rcases hcase with ⟨_, hall⟩ | ⟨v, hv1, hv2, hv3⟩
            · exfalso
              obtain ⟨i, hi, hnone⟩ := (mapOrdered_exists_unassigned s.assignment hA.1
                csp.num_variables (by
                  intro k hk
                  obtain ⟨kv, hkv, rfl⟩ := List.mem_map.1 hk
                  exact hA.2 kv hkv)).2 hlen
              rw [hs1a] at hall
              exact hall i hi hnone
            · have hm : (selectVariable csp w s1 args.var_strategy).1 ≠ -1 := by
                rw [hv1]; omega
              rw [if_neg hm] at h
              have htoNat : (selectVariable csp w s1 args.var_strategy).1.toNat = v := by
                rw [hv1]; rfl
              obtain ⟨k2, hord⟩ := (orderValues_spec csp w
                (selectVariable csp w s1 args.var_strategy).2
                (selectVariable csp w s1 args.var_strategy).1.toNat args.val_strategy).1
              have hoa : (orderValues csp w (selectVariable csp w s1 args.var_strategy).2
                  (selectVariable csp w s1 args.var_strategy).1.toNat
                  args.val_strategy).2.assignment = s.assignment := by
                have := congrArg CSPSolver.assignment hord
                exact this.trans hsa
              cases hloop : valueLoop csp args (CSPSolver.backtrack csp w args n)
                  (selectVariable csp w s1 args.var_strategy).1.toNat
                  (orderValues csp w (selectVariable csp w s1 args.var_strategy).2
                    (selectVariable csp w s1 args.var_strategy).1.toNat args.val_strategy).1
                  (orderValues csp w (selectVariable csp w s1 args.var_strategy).2
                    (selectVariable csp w s1 args.var_strategy).1.toNat args.val_strategy).2 with
              | none => rw [hloop] at h; cases h
              | some r2 =>
                obtain ⟨b2, s3⟩ := r2
                rw [hloop] at h
                obtain ⟨l1, l2⟩ := valueLoop_frame csp args (CSPSolver.backtrack csp w args n) _
                  (by rw [htoNat]; exact hv2)
                  (fun t bt t2 htA ht => ih t htA bt t2 ht) _ _
                  (by rw [hoa]; exact hA)
                  (by rw [hoa, htoNat, ← hs1a]; exact hv3) b2 s3 hloop
                cases b2 with
                | true =>
                  simp only [Option.some.injEq, Prod.mk.injEq] at h
                  rw [← h.1]
                  refine ⟨?_, fun _ => l2 rfl⟩
                  intro hb
                  cases hb
                | false =>
                  simp only [Option.some.injEq, Prod.mk.injEq] at h
                  rw [← h.1, ← h.2]
                  refine ⟨fun _ => ⟨rfl, ((l1 rfl).2).trans hoa⟩, ?_⟩
                  intro hb
                  cases hb

/-- C38. State is restored after an exhaustive search: for every instance,
configuration with `first_solution_only = false` and world (deadline hit or
not), when `solve` returns from a solver whose assignment was empty, the
assignment is empty again and the domains are those of the moment `solve` was
called. -/
theorem solve_restores_state (csp : CSPInstance) (w : World) (args : SolveArgs)
    (hfo : args.first_solution_only = false) (s0 : CSPSolver) (hA : s0.assignment = [])
    (fuel : Nat) (b : Bool) (s2 : CSPSolver)
    (h : CSPSolver.solve csp w args fuel s0 = some (b, s2)) :
    s2.assignment = [] ∧ s2.domains = s0.domains := by
  unfold CSPSolver.solve at h
  cases hbt : CSPSolver.backtrack csp w args fuel
      { s0 with solutions := [], nodes_explored := 0, backtracks := 0,
                timeout_occurred := false, clock_reads := 0, rng_calls := 0 } with
  | none => rw [hbt] at h; cases h
  | some r =>
    obtain ⟨b3, s3⟩ := r
    rw [hbt] at h
    simp only [Option.some.injEq, Prod.mk.injEq] at h
    rw [← h.2]
    have hpost := backtrack_frame csp w args fuel _
      (by
        show AsgOk csp s0.assignment
        rw [hA]
        exact ⟨List.Pairwise.nil, fun kv hkv => by cases hkv⟩) b3 s3 hbt
    have hb3 : b3 = false := by
      cases hb3 : b3 with
      | false => rfl
      | true =>
        have := hpost.2 hb3
        rw [hfo] at this
        cases this
    obtain ⟨h1, h2⟩ := hpost.1 hb3
    exact ⟨h2.trans hA, h1⟩

/-- Witness of C38 on `differInstance` with `max_time = 1` and a clock that
reaches the deadline during the search. -/
theorem solve_restores_state_witness :
    ({ defaultArgs with max_time := 1 } : SolveArgs).first_solution_only = false ∧
    (CSPSolver.new differInstance).assignment = [] ∧
    CSPSolver.solve differInstance deadlineWorld { defaultArgs with max_time := 1 } 21
        (CSPSolver.new differInstance)
      = some (false, { CSPSolver.new differInstance with
          nodes_explored := 3, backtracks := 3, timeout_occurred := true, clock_reads := 4 }) ∧
    (({ CSPSolver.new differInstance with
        nodes_explored := 3, backtracks := 3, timeout_occurred := true,
        clock_reads := 4 } : CSPSolver).assignment = [] ∧
      ({ CSPSolver.new differInstance with
        nodes_explored := 3, backtracks := 3, timeout_occurred := true,
        clock_reads := 4 } : CSPSolver).domains = (CSPSolver.new differInstance).domains) :=
  ⟨rfl, rfl, by decide,
    solve_restores_state differInstance deadlineWorld { defaultArgs with max_time := 1 } rfl
      (CSPSolver.new differInstance) rfl 21 false _ (by decide)⟩

/-! ## First-solution mode against enumeration -/

theorem selectVariable_world (csp : CSPInstance) (w1 w2 : World) (s : CSPSolver)
    (strategy : String) (h : strategy ≠ "random") :
    selectVariable csp w1 s strategy = selectVariable csp w2 s strategy := by
  unfold selectVariable
  rw [if_neg h, if_neg h]

theorem orderValues_world (csp : CSPInstance) (w1 w2 : World) (s : CSPSolver) (var : Nat)
    (strategy : String) (h : strategy ≠ "random")
    (hsort : w1.sort_by_second = w2.sort_by_second) :
    orderValues csp w1 s var strategy = orderValues csp w2 s var strategy := by
  unfold orderValues lcvHeuristic
  rw [if_neg h, if_neg h, hsort]

theorem firstAgrees_of_solutions (s t : CSPSolver) (rall : Bool × CSPSolver)
    (rfirst : Option (Bool × CSPSolver)) (hs : t.solutions = s.solutions)
    (h : FirstAgrees t rall rfirst) : FirstAgrees s rall rfirst := by
  unfold FirstAgrees at h ⊢
  rw [hs] at h
  exact h

theorem valueLoop_first_agrees (csp : CSPInstance) (args : SolveArgs)
    (rec1 rec2 : CSPSolver → Option (Bool × CSPSolver))
    (hrec : ∀ t r, rec1 t = some r → FirstAgrees t r (rec2 t))
    (var : Nat) (vals : List Int) (s : CSPSolver) (r : Bool × CSPSolver)
    (h : valueLoop csp args rec1 var vals s = some r) :
    FirstAgrees s r
      (valueLoop csp { args with first_solution_only := true } rec2 var vals s) := by
  induction vals generalizing s with
  | nil =>
    simp only [valueLoop, Option.some.injEq] at h
    rw [← h]
    exact ⟨rfl, [], (List.append_nil _).symm, fun _ => rfl, fun sol more hn => by cases hn⟩
  | cons value rest ih =>
    rw [valueLoop_cons] at h
    rw [valueLoop_cons]
    have hfcr : fcResult csp { args with first_solution_only := true } (bumpNodes s) var value
        = fcResult csp args (bumpNodes s) var value := rfl
    have huse : ({ args with first_solution_only := true } : SolveArgs).use_forward_checking
        = args.use_forward_checking := rfl
    rw [hfcr, huse]
    by_cases hc : CSPSolver.isConsistent csp (bumpNodes s) var value = true
    swap
    · rw [if_pos (by simpa using hc)] at h
      rw [if_pos (by simpa using hc)]
      exact firstAgrees_of_solutions s (bumpNodes s) _ _ rfl (ih (bumpNodes s) h)
    · rw [if_neg (by simpa using hc)] at h
      rw [if_neg (by simpa using hc)]
      have hfc1 := (fcResult_spec csp args (bumpNodes s) var value).1
      have hfs : (fcResult csp args (bumpNodes s) var value).2.solutions = s.solutions := by
        have := congrArg CSPSolver.solutions hfc1
        exact this
      by_cases hfc : (fcResult csp args (bumpNodes s) var value).1 = true
      swap
      · rw [if_pos (by simpa using hfc)] at h
        rw [if_pos (by simpa using hfc)]
        exact firstAgrees_of_solutions s _ _ _ hfs (ih _ h)
      · rw [if_neg (by simpa using hfc)] at h
        rw [if_neg (by simpa using hfc)]
        cases hr : rec1 (assignVar (fcResult csp args (bumpNodes s) var value).2 var value) with
        | none => rw [hr] at h; cases h
        | some r1 =>
          obtain ⟨result, s3⟩ := r1
          rw [hr] at h
          simp only at h
          obtain ⟨hres, new1, hsol1, hnil1, hcons1⟩ := hrec _ _ hr
          simp only at hres hsol1 hnil1
          have hts : (assignVar (fcResult csp args (bumpNodes s) var value).2 var
              value).solutions = s.solutions := hfs
          rw [hts] at hsol1 hcons1
          rw [hres] at h
          simp only [Bool.false_and, Bool.false_eq_true, if_false] at h
          have hus : (undoValue args s3
              (if args.use_forward_checking then (bumpNodes s).backupDomains else [])
              var).solutions = s.solutions ++ new1 := by
            rw [(undoValue_fields args s3 _ var).2.2.1]
            exact hsol1
          obtain ⟨hr1, new2, hsol2, hnil2, hcons2⟩ := ih _ h
          rw [hus] at hsol2 hcons2
          have hundo : undoValue { args with first_solution_only := true } s3
              (if args.use_forward_checking then (bumpNodes s).backupDomains else []) var
              = undoValue args s3
                (if args.use_forward_checking then (bumpNodes s).backupDomains else []) var :=
            rfl
          cases new1 with
          | nil =>
            rw [hnil1 rfl]
            simp only [Bool.false_and, Bool.false_eq_true, if_false]
            rw [hundo]
            rw [List.append_nil] at hsol2 hcons2
            exact ⟨hr1, new2, hsol2, hnil2, hcons2⟩
          | cons sol more =>
            obtain ⟨t, ht1, ht2⟩ := hcons1 sol more rfl
            rw [ht1]
            simp only [Bool.and_self, if_true]
            refine ⟨hr1, sol :: (more ++ new2), ?_, ?_, ?_⟩
            · rw [hsol2, List.append_assoc]
              rfl
            · intro hn
              cases hn
            · intro sol2 more2 hn
              simp only [List.cons.injEq] at hn
              rw [← hn.1]
              exact ⟨t, rfl, ht2⟩

/-- One call of `backtrack` in all-solutions mode against the same call in
first-solution mode, for strategies other than `random`, the same `std::sort`
and clocks that never reach the deadline. -/
theorem backtrack_first_agrees (csp : CSPInstance) (w1 w2 : World) (args : SolveArgs)
    (hfo : args.first_solution_only = false)
    (hv : args.var_strategy ≠ "random") (ho : args.val_strategy ≠ "random")
    (hsort : w1.sort_by_second = w2.sort_by_second)
    (hnt1 : NoTimeout w1 args.max_time) (hnt2 : NoTimeout w2 args.max_time)
    (fuel : Nat) (s : CSPSolver) (r : Bool × CSPSolver)
    (h : CSPSolver.backtrack csp w1 args fuel s = some r) :
    FirstAgrees s r
      (CSPSolver.backtrack csp w2 { args with first_solution_only := true } fuel s) := by
  induction fuel generalizing s r with
  | zero => simp [CSPSolver.backtrack] at h
  | succ n ih =>
    rw [backtrack_succ] at h
    rw [backtrack_succ]
    have hto1 : ¬ w1.elapsed s.clock_reads ≥ args.max_time := not_le.mpr (hnt1 _)
    have hto2 : ¬ w2.elapsed s.clock_reads ≥
        ({ args with first_solution_only := true } : SolveArgs).max_time := not_le.mpr (hnt2 _)
    rw [if_neg hto1] at h
    rw [if_neg hto2]
    by_cases hcomp : CSPSolver.isComplete csp (tick s) = true
    · rw [if_pos hcomp] at h
      rw [if_pos hcomp]
      simp only [Option.some.injEq] at h
      rw [← h]
      refine ⟨hfo, [s.assignment], rfl, ?_, ?_⟩
      · intro hn
        cases hn
      · intro sol more hn
        simp only [List.cons.injEq] at hn
        rw [← hn.1]
        exact ⟨_, rfl, rfl⟩
    · rw [if_neg hcomp] at h
      rw [if_neg hcomp]
      have hnode : nodeAC3 csp { args with first_solution_only := true } n (tick s)
          = nodeAC3 csp args n (tick s) := rfl
      rw [hnode]
      cases hac : nodeAC3 csp args n (tick s) with
      | none => rw [hac] at h; cases h
      | some r1 =>
        obtain ⟨b1, s1⟩ := r1
        rw [hac] at h
        have hs1 := nodeAC3_frame csp args n (tick s) b1 s1 hac
        have hs1s : s1.solutions = s.solutions := by
          have := congrArg CSPSolver.solutions hs1
          exact this
        cases b1 with
        | false =>
          simp only [Option.some.injEq] at h
          rw [← h]
          refine ⟨rfl, [], ?_, fun _ => rfl, ?_⟩
          · rw [List.append_nil]
            exact hs1s
          · intro sol more hn
            cases hn
        | true =>
          simp only at h ⊢
          have hvs : ({ args with first_solution_only := true } : SolveArgs).var_strategy
              = args.var_strategy := rfl
          have hos : ({ args with first_solution_only := true } : SolveArgs).val_strategy
              = args.val_strategy := rfl
          rw [hvs, hos, ← selectVariable_world csp w1 w2 s1 args.var_strategy hv,
            ← orderValues_world csp w1 w2 _ _ args.val_strategy ho hsort]
          obtain ⟨k1, hsel⟩ := (selectVariable_spec csp w1 s1 args.var_strategy).1
          have hss : (selectVariable csp w1 s1 args.var_strategy).2.solutions = s.solutions := by
            have := congrArg CSPSolver.solutions hsel
            exact this.trans hs1s
          by_cases hm : (selectVariable csp w1 s1 args.var_strategy).1 = -1
          · rw [if_pos hm] at h
            rw [if_pos hm]
            simp only [Option.some.injEq] at h
            rw [← h]
            refine ⟨rfl, [], ?_, fun _ => rfl, ?_⟩
            · rw [List.append_nil]
              exact hss
            · intro sol more hn
              cases hn
          · rw [if_neg hm] at h
            rw [if_neg hm]
            obtain ⟨k2, hord⟩ := (orderValues_spec csp w1
              (selectVariable csp w1 s1 args.var_strategy).2
              (selectVariable csp w1 s1 args.var_strategy).1.toNat args.val_strategy).1
            have hosol : (orderValues csp w1 (selectVariable csp w1 s1 args.var_strategy).2
                (selectVariable csp w1 s1 args.var_strategy).1.toNat
                args.val_strategy).2.solutions = s.solutions := by
              have := congrArg CSPSolver.solutions hord
              exact this.trans hss
            cases hloop : valueLoop csp args (CSPSolver.backtrack csp w1 args n)
                (selectVariable csp w1 s1 args.var_strategy).1.toNat
                (orderValues csp w1 (selectVariable csp w1 s1 args.var_strategy).2
                  (selectVariable csp w1 s1 args.var_strategy).1.toNat args.val_strategy).1
                (orderValues csp w1 (selectVariable csp w1 s1 args.var_strategy).2
                  (selectVariable csp w1 s1 args.var_strategy).1.toNat args.val_strategy).2 with
            | none => rw [hloop] at h; cases h
            | some r2 =>
              obtain ⟨b2, s3⟩ := r2
              rw [hloop] at h
              obtain ⟨hb2, new, hsol, hnil, hcons⟩ := valueLoop_first_agrees csp args
                (CSPSolver.backtrack csp w1 args n)
                (CSPSolver.backtrack csp w2 { args with first_solution_only := true } n)
                (fun t rt ht => ih t rt ht) _ _ _ (b2, s3) hloop
              simp only at hb2 hsol hnil
              rw [hosol] at hsol hcons
              rw [hb2] at h
              simp only [Option.some.injEq] at h
              rw [← h]
              refine ⟨rfl, new, hsol, ?_, ?_⟩
              · intro hn
                rw [hnil hn]
              · intro sol more hn
                obtain ⟨t, ht1, ht2⟩ := hcons sol more hn
                rw [ht1]
                exact ⟨t, rfl, ht2⟩

/-- C40. First-solution mode agrees with enumeration: for every instance and
start state, every configuration whose strategies are not `random`, and two
runs with the same `std::sort` whose clocks never reach the deadline, when
`solve` in all-solutions mode returns a list that starts with the solution
`sol`, `solve` in first-solution mode from the same state returns true with the
one-element list `[sol]`. -/
theorem first_solution_is_head_of_enumeration (csp : CSPInstance) (w1 w2 : World)
    (args : SolveArgs) (hfo : args.first_solution_only = false)
    (hv : args.var_strategy ≠ "random") (ho : args.val_strategy ≠ "random")
    (hsort : w1.sort_by_second = w2.sort_by_second)
    (hnt1 : NoTimeout w1 args.max_time) (hnt2 : NoTimeout w2 args.max_time)
    (fuel : Nat) (s0 : CSPSolver) (b : Bool) (s2 : CSPSolver)
    (h : CSPSolver.solve csp w1 args fuel s0 = some (b, s2))
    (sol : List (Nat × Int)) (more : List (List (Nat × Int)))
    (hL : s2.solutions = sol :: more) :
    ∃ t, CSPSolver.solve csp w2 { args with first_solution_only := true } fuel s0
        = some (true, t) ∧ t.solutions = [sol] := by
  unfold CSPSolver.solve at h ⊢
  cases hbt : CSPSolver.backtrack csp w1 args fuel
      { s0 with solutions := [], nodes_explored := 0, backtracks := 0,
                timeout_occurred := false, clock_reads := 0, rng_calls := 0 } with
  | none => rw [hbt] at h; cases h
  | some r =>
    rw [hbt] at h
    simp only [Option.some.injEq, Prod.mk.injEq] at h
    obtain ⟨_, new, hsol, _, hcons⟩ := backtrack_first_agrees csp w1 w2 args hfo hv ho hsort
      hnt1 hnt2 fuel _ r hbt
    rw [h.2, hL] at hsol
    simp only [List.nil_append] at hsol hcons
    obtain ⟨t, ht1, ht2⟩ := hcons sol more hsol.symm
    rw [ht1]
    refine ⟨t, ?_, ht2⟩
    simp only [Option.some.injEq, Prod.mk.injEq, and_true]
    rw [ht2]
    rfl

/-- Witness of C40 on `differInstance` under the default strategies: the
enumeration returns `(0, 1)` then `(1, 0)`, the first-solution run returns
`(0, 1)`. -/
theorem first_solution_is_head_of_enumeration_witness :
    defaultArgs.first_solution_only = false ∧
    defaultArgs.var_strategy ≠ "random" ∧ defaultArgs.val_strategy ≠ "random" ∧
    NoTimeout exampleWorld defaultArgs.max_time ∧
    CSPSolver.solve differInstance exampleWorld defaultArgs 20 (CSPSolver.new differInstance)
      = some (true,
          { CSPSolver.new differInstance with
            solutions := [[(0, 0), (1, 1)], [(0, 1), (1, 0)]]
            nodes_explored := 4
            backtracks := 4
            clock_reads := 5 }) ∧
    (CSPSolver.solve differInstance exampleWorld { defaultArgs with first_solution_only := true }
        20 (CSPSolver.new differInstance)).map (fun r => (r.1, r.2.solutions))
      = some (true, [[(0, 0), (1, 1)]]) ∧
    ∃ t, CSPSolver.solve differInstance exampleWorld
          { defaultArgs with first_solution_only := true } 20 (CSPSolver.new differInstance)
        = some (true, t) ∧ t.solutions = [[(0, 0), (1, 1)]] :=
  ⟨rfl, by decide, by decide, noTimeout_example, by decide, by decide,
    first_solution_is_head_of_enumeration differInstance exampleWorld exampleWorld defaultArgs
      rfl (by decide) (by decide) rfl noTimeout_example noTimeout_example 20
      (CSPSolver.new differInstance) true
      { CSPSolver.new differInstance with
        solutions := [[(0, 0), (1, 1)], [(0, 1), (1, 0)]]
        nodes_explored := 4
        backtracks := 4
        clock_reads := 5 }
      (by decide) [(0, 0), (1, 1)] [[(0, 1), (1, 0)]] rfl⟩

/-! ## The calls of `backtrack` during a search -/

theorem apply_shrinks (csp : CSPInstance) (fuel : Nat) (a : AC3Algorithm) (b : Bool)
    (a2 : AC3Algorithm) (h : AC3Algorithm.apply csp fuel a = some (b, a2)) :
    a2.domains.length = a.domains.length ∧
    ∀ i, (a2.domains.getD i []).Sublist (a.domains.getD i []) := by
  induction fuel generalizing a with
  | zero => simp [AC3Algorithm.apply] at h
  | succ k ih =>
    obtain ⟨doms, wl, cnt⟩ := a
    cases wl with
    | nil =>
      simp only [AC3Algorithm.apply, Option.some.injEq, Prod.mk.injEq] at h
      rw [← h.2]
      exact ⟨rfl, fun i => List.Sublist.refl _⟩
    | cons arc rest =>
      unfold AC3Algorithm.apply at h
      simp only at h
      have hlen := revise_length csp ⟨doms, rest, cnt⟩ arc.var1 arc.var2
      have hsub := revise_getD_sublist csp ⟨doms, rest, cnt⟩ arc.var1 arc.var2
      simp only at hlen hsub
      by_cases hr : (AC3Algorithm.revise csp ⟨doms, rest, cnt⟩ arc.var1 arc.var2).1 = true
      · rw [if_pos hr] at h
        by_cases hem : ((AC3Algorithm.revise csp ⟨doms, rest, cnt⟩ arc.var1 arc.var2).2.domains.getD
            arc.var1 []).isEmpty = true
        · rw [if_pos hem] at h
          simp only [Option.some.injEq, Prod.mk.injEq] at h
          rw [← h.2]
          exact ⟨hlen, hsub⟩
        · rw [if_neg hem] at h
          obtain ⟨h1, h2⟩ := ih _ h
          simp only at h1 h2
          exact ⟨h1.trans hlen, fun i => (h2 i).trans (hsub i)⟩
      · rw [if_neg hr] at h
        obtain ⟨h1, h2⟩ := ih _ h
        exact ⟨h1.trans hlen, fun i => (h2 i).trans (hsub i)⟩

theorem applyAC3_shrinks (csp : CSPInstance) (fuel : Nat) (s : CSPSolver) (b : Bool)
    (s1 : CSPSolver) (h : CSPSolver.applyAC3 csp fuel s = some (b, s1)) :
    s1 = { s with domains := s1.domains } ∧ s1.domains.length = s.domains.length ∧
    ∀ i, (s1.domains.getD i []).Sublist (s.domains.getD i []) := by
  unfold CSPSolver.applyAC3 at h
  cases ha : AC3Algorithm.apply csp fuel ((AC3Algorithm.new csp).setDomains s.domains) with
  | none => rw [ha] at h; cases h
  | some r =>
    obtain ⟨c, a2⟩ := r
    rw [ha] at h
    simp only at h
    obtain ⟨l1, l2⟩ := apply_shrinks csp fuel _ c a2 ha
    cases c with
    | true =>
      simp only [if_true, Option.some.injEq, Prod.mk.injEq] at h
      rw [← h.2]
      exact ⟨rfl, l1, l2⟩
    | false =>
      simp only [Bool.false_eq_true, if_false, Option.some.injEq, Prod.mk.injEq] at h
      rw [← h.2]
      exact ⟨rfl, rfl, fun i => List.Sublist.refl _⟩

theorem nodeAC3_shrinks (csp : CSPInstance) (args : SolveArgs) (fuel : Nat) (s : CSPSolver)
    (b : Bool) (s1 : CSPSolver) (h : nodeAC3 csp args fuel s = some (b, s1)) :
    s1.domains.length = s.domains.length ∧
    ∀ i, (s1.domains.getD i []).Sublist (s.domains.getD i []) := by
  unfold nodeAC3 at h
  by_cases hn : args.ac3_at_each_node = true
  · rw [if_pos hn] at h
    exact (applyAC3_shrinks csp fuel s b s1 h).2
  · rw [if_neg hn] at h
    simp only [Option.some.injEq, Prod.mk.injEq] at h
    rw [← h.2]
    exact ⟨rfl, fun i => List.Sublist.refl _⟩

/-- What holds of a call `p` made below a call on the state `s` with the
argument `depth`. -/
theorem valueLoopCalls_inv (csp : CSPInstance) (args : SolveArgs)
    (hne : ∀ c ∈ csp.constraints, c.var1 ≠ c.var2)
    (recurse : CSPSolver → Option (Bool × CSPSolver))
    (calls : CSPSolver → List (Nat × CSPSolver)) (depth : Nat) (var : Nat)
    (hvar : var < csp.num_variables)
    (hrec : ∀ t b t2, AsgOk csp t.assignment → recurse t = some (b, t2) → FramePost args t b t2)
    (hcalls : ∀ t, StateOk csp t.domains t.assignment [] → ∀ p ∈ calls t,
      StateOk csp p.2.domains p.2.assignment [] ∧
      p.1 + t.assignment.length = depth + 1 + p.2.assignment.length ∧
      ∀ i, (p.2.domains.getD i []).Sublist (t.domains.getD i []))
    (vals : List Int)
    (hin : ∀ v ∈ vals,
      (csp.domains.getD var (0, 0)).1 ≤ v ∧ v ≤ (csp.domains.getD var (0, 0)).2)
    (s : CSPSolver) (hok : StateOk csp s.domains s.assignment [])
    (hun : mapFind s.assignment var = none) :
    ∀ p ∈ valueLoopCalls csp args recurse calls var vals s,
      StateOk csp p.2.domains p.2.assignment [] ∧
      p.1 + s.assignment.length = depth + p.2.assignment.length ∧
      ∀ i, (p.2.domains.getD i []).Sublist (s.domains.getD i []) := by
  induction vals generalizing s with
  | nil =>
    intro p hp
    simp only [valueLoopCalls, List.not_mem_nil] at hp
  | cons value rest ih =>
    have hin2 : ∀ v ∈ rest,
        (csp.domains.getD var (0, 0)).1 ≤ v ∧ v ≤ (csp.domains.getD var (0, 0)).2 :=
      fun v hv => hin v (List.mem_cons_of_mem _ hv)
    intro p hp
    unfold valueLoopCalls at hp
    by_cases hc : CSPSolver.isConsistent csp (bumpNodes s) var value = true
    swap
    · rw [if_pos (by simpa using hc)] at hp
      exact ih hin2 (bumpNodes s) hok hun p hp
    · rw [if_neg (by simpa using hc)] at hp
      obtain ⟨hfc1, hfc2, hfc3, hfc4, hfc5, _⟩ := fcResult_spec csp args (bumpNodes s) var value
      by_cases hfc : (fcResult csp args (bumpNodes s) var value).1 = true
      swap
      · rw [if_pos (by simpa using hfc)] at hp
        have huse : args.use_forward_checking = true := hfc4 (by simpa using hfc)
        have hst : (fcResult csp args (bumpNodes s) var value).2.restoreDomains
            (if args.use_forward_checking then (bumpNodes s).backupDomains else [])
            = bumpNodes s := by
          rw [if_pos huse, hfc1]
          rfl
        rw [hst] at hp
        exact ih hin2 (bumpNodes s) hok hun p hp
      · rw [if_neg (by simpa using hfc)] at hp
        have htA : (assignVar (fcResult csp args (bumpNodes s) var value).2 var value).assignment
            = mapInsert s.assignment var value := by
          have := congrArg CSPSolver.assignment hfc1
          show mapInsert (fcResult csp args (bumpNodes s) var value).2.assignment var value = _
          rw [this]
          rfl
        have htD : (assignVar (fcResult csp args (bumpNodes s) var value).2 var value).domains
            = (fcResult csp args (bumpNodes s) var value).2.domains := rfl
        have hokD : StateOk csp (fcResult csp args (bumpNodes s) var value).2.domains
            s.assignment [] := stateOk_domains csp s.domains _ s.assignment [] hok hfc2 hfc3
        have hokT : StateOk csp
            (assignVar (fcResult csp args (bumpNodes s) var value).2 var value).domains
            (assignVar (fcResult csp args (bumpNodes s) var value).2 var value).assignment [] := by
          rw [htA, htD]
          exact stateOk_insert csp hne { s with var_interaction_graph := [] } _ hokD var value
            hvar (hin value (List.mem_cons_self _ _)) hc
        have hAs : AsgOk csp s.assignment :=
          ⟨hok.asg_ord, fun kv hkv => (hok.asg_in kv hkv).1⟩
        rcases List.mem_append.1 hp with hp1 | hp2
        · obtain ⟨c1, c2, c3⟩ := hcalls _ hokT p hp1
          rw [htA, mapInsert_length s.assignment var value hun] at c2
          refine ⟨c1, by omega, fun i => (c3 i).trans ?_⟩
          rw [htD]
          exact hfc3 i
        · cases hr : recurse (assignVar (fcResult csp args (bumpNodes s) var value).2 var
              value) with
          | none => rw [hr] at hp2; cases hp2
          | some r =>
            obtain ⟨result, s3⟩ := r
            rw [hr] at hp2
            simp only at hp2
            have hpost := hrec _ result s3
              (by rw [htA]; exact asgOk_insert csp s.assignment hAs var value hvar) hr
            by_cases hb2 : (result && args.first_solution_only) = true
            · rw [if_pos hb2] at hp2
              cases hp2
            · rw [if_neg hb2] at hp2
              have hres : result = false := by
                cases hres : result with
                | false => rfl
                | true =>
                  exfalso
                  apply hb2
                  rw [hres, hpost.2 hres]
                  rfl
              obtain ⟨hd3, ha3⟩ := hpost.1 hres
              obtain ⟨u1, u2, _, _⟩ := undoValue_fields args s3
                (if args.use_forward_checking then (bumpNodes s).backupDomains else []) var
              have hud : (undoValue args s3
                  (if args.use_forward_checking then (bumpNodes s).backupDomains else [])
                  var).domains = s.domains := by
                rw [u1]
                by_cases huse : args.use_forward_checking = true
                · rw [if_pos huse, if_pos huse]; rfl
                · rw [if_neg huse, hd3, htD, hfc5 (by simpa using huse)]; rfl
              have hua : (undoValue args s3
                  (if args.use_forward_checking then (bumpNodes s).backupDomains else [])
                  var).assignment = s.assignment := by
                rw [u2, ha3, htA]
                exact mapErase_insert s.assignment hok.asg_ord var value hun
              obtain ⟨c1, c2, c3⟩ := ih hin2 _ (by rw [hud, hua]; exact hok)
                (by rw [hua]; exact hun) p hp2
              rw [hua] at c2
              rw [hud] at c3
              exact ⟨c1, c2, c3⟩

/-- Every call of `backtrack` made below a call on a state that satisfies the
invariant of the search is entered in such a state, at a depth that has grown
like the assignment, with domains that are sublists of those of the ancestor. -/
theorem backtrackCalls_inv (csp : CSPInstance) (w : World) (args : SolveArgs)
    (hne : ∀ c ∈ csp.constraints, c.var1 ≠ c.var2)
    (fuel : Nat) (depth : Nat) (s : CSPSolver)
    (hok : StateOk csp s.domains s.assignment []) :
    ∀ p ∈ backtrackCalls csp w args fuel depth s,
      StateOk csp p.2.domains p.2.assignment [] ∧
      p.1 + s.assignment.length = depth + p.2.assignment.length ∧
      ∀ i, (p.2.domains.getD i []).Sublist (s.domains.getD i []) := by
  induction fuel generalizing depth s with
  | zero =>
    intro p hp
    simp only [backtrackCalls, List.mem_singleton] at hp
    rw [hp]
    exact ⟨hok, rfl, fun i => List.Sublist.refl _⟩
  | succ n ih =>
    intro p hp
    unfold backtrackCalls at hp
    rcases List.mem_cons.1 hp with hp0 | hp1
    · rw [hp0]
      exact ⟨hok, rfl, fun i => List.Sublist.refl _⟩
    · by_cases hto : w.elapsed s.clock_reads ≥ args.max_time
      · rw [if_pos hto] at hp1
        cases hp1
      · rw [if_neg hto] at hp1
        by_cases hcomp : CSPSolver.isComplete csp (tick s) = true
        · rw [if_pos hcomp] at hp1
          cases hp1
        · rw [if_neg hcomp] at hp1
          cases hac : nodeAC3 csp args n (tick s) with
          | none => rw [hac] at hp1; cases hp1
          | some r1 =>
            obtain ⟨b1, s1⟩ := r1
            rw [hac] at hp1
            cases b1 with
            | false => cases hp1
            | true =>
              simp only at hp1
              have hs1 := nodeAC3_frame csp args n (tick s) true s1 hac
              obtain ⟨hl1, hsub1⟩ := nodeAC3_shrinks csp args n (tick s) true s1 hac
              have hs1a : s1.assignment = s.assignment := by
                have := congrArg CSPSolver.assignment hs1
                exact this
              have hok1 : StateOk csp s1.domains s.assignment [] :=
                stateOk_domains csp s.domains _ s.assignment [] hok hl1 hsub1
              obtain ⟨⟨k1, hsel⟩, hcase⟩ := selectVariable_spec csp w s1 args.var_strategy
              have hsa : (selectVariable csp w s1 args.var_strategy).2.assignment
                  = s.assignment := by
                have := congrArg CSPSolver.assignment hsel
                exact this.trans hs1a
              have hsd : (selectVariable csp w s1 args.var_strategy).2.domains = s1.domains := by
                have := congrArg CSPSolver.domains hsel
                exact this
              by_cases hm : (selectVariable csp w s1 args.var_strategy).1 = -1
              · rw [if_pos hm] at hp1
                cases hp1
              · rw [if_neg hm] at hp1
                rcases hcase with ⟨hm1, _⟩ | ⟨v, hv1, hv2, hv3⟩
                · exact absurd hm1 hm
                · have htoNat : (selectVariable csp w s1 args.var_strategy).1.toNat = v := by
                    rw [hv1]; rfl
                  obtain ⟨⟨k2, hord⟩, hperm⟩ := orderValues_spec csp w
                    (selectVariable csp w s1 args.var_strategy).2
                    (selectVariable csp w s1 args.var_strategy).1.toNat args.val_strategy
                  have hoa : (orderValues csp w (selectVariable csp w s1 args.var_strategy).2
                      (selectVariable csp w s1 args.var_strategy).1.toNat
                      args.val_strategy).2.assignment = s.assignment := by
                    have := congrArg CSPSolver.assignment hord
                    exact this.trans hsa
                  have hod : (orderValues csp w (selectVariable csp w s1 args.var_strategy).2
                      (selectVariable csp w s1 args.var_strategy).1.toNat
                      args.val_strategy).2.domains = s1.domains := by
                    have := congrArg CSPSolver.domains hord
                    exact this.trans hsd
                  obtain ⟨c1, c2, c3⟩ := valueLoopCalls_inv csp args hne
                    (CSPSolver.backtrack csp w args n)
                    (backtrackCalls csp w args n (depth + 1)) depth
                    (selectVariable csp w s1 args.var_strategy).1.toNat
                    (by rw [htoNat]; exact hv2)
                    (fun t bt t2 htA ht => backtrack_frame csp w args n t htA bt t2 ht)
                    (fun t htok q hq => ih (depth + 1) t htok q hq)
                    _
                    (by
                      intro x hx
                      have hx2 := hperm.subset hx
                      rw [hsd] at hx2
                      exact (stateOk_mem_domain csp s1.domains s.assignment [] hok1 _ x hx2).2)
                    _ (by rw [hod, hoa]; exact hok1)
                    (by rw [hoa, htoNat, ← hs1a]; exact hv3) p hp1
                  rw [hoa] at c2
                  refine ⟨c1, c2, fun i => ?_⟩
                  have := c3 i
                  rw [hod] at this
                  exact this.trans (hsub1 i)

theorem valueLoop_shrinks (csp : CSPInstance) (args : SolveArgs)
    (recurse : CSPSolver → Option (Bool × CSPSolver)) (var : Nat)
    (hvar : var < csp.num_variables)
    (hrec : ∀ t b t2, AsgOk csp t.assignment → recurse t = some (b, t2) →
      FramePost args t b t2 ∧ ∀ i, (t2.domains.getD i []).Sublist (t.domains.getD i []))
    (vals : List Int) (s : CSPSolver) (hA : AsgOk csp s.assignment)
    (hun : mapFind s.assignment var = none) (b : Bool) (s2 : CSPSolver)
    (h : valueLoop csp args recurse var vals s = some (b, s2)) :
    ∀ i, (s2.domains.getD i []).Sublist (s.domains.getD i []) := by
  induction vals generalizing s with
  | nil =>
    simp only [valueLoop, Option.some.injEq, Prod.mk.injEq] at h
    rw [← h.2]
    exact fun i => List.Sublist.refl _
  | cons value rest ih =>
    rw [valueLoop_cons] at h
    by_cases hc : CSPSolver.isConsistent csp (bumpNodes s) var value = true
    swap
    · rw [if_pos (by simpa using hc)] at h
      exact ih (bumpNodes s) hA hun h
    · rw [if_neg (by simpa using hc)] at h
      obtain ⟨hfc1, _, hfc3, hfc4, hfc5, _⟩ := fcResult_spec csp args (bumpNodes s) var value
      by_cases hfc : (fcResult csp args (bumpNodes s) var value).1 = true
      swap
      · rw [if_pos (by simpa using hfc)] at h
        have huse : args.use_forward_checking = true := hfc4 (by simpa using hfc)
        have hst : (fcResult csp args (bumpNodes s) var value).2.restoreDomains
            (if args.use_forward_checking then (bumpNodes s).backupDomains else [])
            = bumpNodes s := by
          rw [if_pos huse, hfc1]
          rfl
        rw [hst] at h
        exact ih (bumpNodes s) hA hun h
      · rw [if_neg (by simpa using hfc)] at h
        have htA : (assignVar (fcResult csp args (bumpNodes s) var value).2 var value).assignment
            = mapInsert s.assignment var value := by
          have := congrArg CSPSolver.assignment hfc1
          show mapInsert (fcResult csp args (bumpNodes s) var value).2.assignment var value = _
          rw [this]
          rfl
        have htD : (assignVar (fcResult csp args (bumpNodes s) var value).2 var value).domains
            = (fcResult csp args (bumpNodes s) var value).2.domains := rfl
        cases hr : recurse (assignVar (fcResult csp args (bumpNodes s) var value).2 var value) with
        | none => rw [hr] at h; cases h
        | some r =>
          obtain ⟨result, s3⟩ := r
          rw [hr] at h
          simp only at h
          obtain ⟨hpost, hshr⟩ := hrec _ result s3
            (by rw [htA]; exact asgOk_insert csp s.assignment hA var value hvar) hr
          by_cases hb2 : (result && args.first_solution_only) = true
          · rw [if_pos hb2] at h
            simp only [Option.some.injEq, Prod.mk.injEq] at h
            rw [← h.2]
            intro i
            have := hshr i
            rw [htD] at this
            exact this.trans (hfc3 i)
          · rw [if_neg hb2] at h
            have hres : result = false := by
              cases hres : result with
              | false => rfl
              | true =>
                exfalso
                apply hb2
                rw [hres, hpost.2 hres]
                rfl
            obtain ⟨hd3, ha3⟩ := hpost.1 hres
            obtain ⟨u1, u2, _, _⟩ := undoValue_fields args s3
              (if args.use_forward_checking then (bumpNodes s).backupDomains else []) var
            have hud : (undoValue args s3
                (if args.use_forward_checking then (bumpNodes s).backupDomains else [])
                var).domains = s.domains := by
              rw [u1]
              by_cases huse : args.use_forward_checking = true
              · rw [if_pos huse, if_pos huse]; rfl
              · rw [if_neg huse, hd3, htD, hfc5 (by simpa using huse)]; rfl
            have hua : (undoValue args s3
                (if args.use_forward_checking then (bumpNodes s).backupDomains else [])
                var).assignment = s.assignment := by
              rw [u2, ha3, htA]
              exact mapErase_insert s.assignment hA.1 var value hun
            have := ih _ (by rw [hua]; exact hA) (by rw [hua]; exact hun) h
            rw [hud] at this
            exact this

/-- The domains that a call of `backtrack` leaves are sublists of those it was
entered with. -/
theorem backtrack_shrinks (csp : CSPInstance) (w : World) (args : SolveArgs) (fuel : Nat)
    (s : CSPSolver) (hA : AsgOk csp s.assignment) (b : Bool) (s2 : CSPSolver)
    (h : CSPSolver.backtrack csp w args fuel s = some (b, s2)) :
    ∀ i, (s2.domains.getD i []).Sublist (s.domains.getD i []) := by
  induction fuel generalizing s b s2 with
  | zero => simp [CSPSolver.backtrack] at h
  | succ n ih =>
    cases hb : b with
    | false =>
      rw [hb] at h
      rw [((backtrack_frame csp w args (n + 1) s hA false s2 h).1 rfl).1]
      exact fun i => List.Sublist.refl _
    | true =>
      rw [hb] at h
      rw [backtrack_succ] at h
      by_cases hto : w.elapsed s.clock_reads ≥ args.max_time
      · rw [if_pos hto] at h
        simp only [Option.some.injEq, Prod.mk.injEq] at h
        cases h.1
      · rw [if_neg hto] at h
        by_cases hcomp : CSPSolver.isComplete csp (tick s) = true
        · rw [if_pos hcomp] at h
          simp only [Option.some.injEq, Prod.mk.injEq] at h
          rw [← h.2]
          exact fun i => List.Sublist.refl _
        · rw [if_neg hcomp] at h
          cases hac : nodeAC3 csp args n (tick s) with
          | none => rw [hac] at h; cases h
          | some r1 =>
            obtain ⟨b1, s1⟩ := r1
            rw [hac] at h
            have hs1 := nodeAC3_frame csp args n (tick s) b1 s1 hac
            obtain ⟨_, hsub1⟩ := nodeAC3_shrinks csp args n (tick s) b1 s1 hac
            have hs1a : s1.assignment = s.assignment := by
              have := congrArg CSPSolver.assignment hs1
              exact this
            cases b1 with
            | false =>
              simp only [Option.some.injEq, Prod.mk.injEq] at h
              cases h.1
            | true =>
              simp only at h
              obtain ⟨⟨k1, hsel⟩, hcase⟩ := selectVariable_spec csp w s1 args.var_strategy
              have hsa : (selectVariable csp w s1 args.var_strategy).2.assignment
                  = s.assignment := by
                have := congrArg CSPSolver.assignment hsel
                exact this.trans hs1a
              have hsd : (selectVariable csp w s1 args.var_strategy).2.domains = s1.domains := by
                have := congrArg CSPSolver.domains hsel
                exact this
              by_cases hm : (selectVariable csp w s1 args.var_strategy).1 = -1
              · rw [if_pos hm] at h
                simp only [Option.some.injEq, Prod.mk.injEq] at h
                cases h.1
              · rw [if_neg hm] at h
                rcases hcase with ⟨hm1, _⟩ | ⟨v, hv1, hv2, hv3⟩
                · exact absurd hm1 hm
                · have htoNat : (selectVariable csp w s1 args.var_strategy).1.toNat = v := by
                    rw [hv1]; rfl
                  obtain ⟨k2, hord⟩ := (orderValues_spec csp w
                    (selectVariable csp w s1 args.var_strategy).2
                    (selectVariable csp w s1 args.var_strategy).1.toNat args.val_strategy).1
                  have hoa : (orderValues csp w (selectVariable csp w s1 args.var_strategy).2
                      (selectVariable csp w s1 args.var_strategy).1.toNat
                      args.val_strategy).2.assignment = s.assignment := by
                    have := congrArg CSPSolver.assignment hord
                    exact this.trans hsa
                  have hod : (orderValues csp w (selectVariable csp w s1 args.var_strategy).2
                      (selectVariable csp w s1 args.var_strategy).1.toNat
                      args.val_strategy).2.domains = s1.domains := by
                    have := congrArg CSPSolver.domains hord
                    exact this.trans hsd
                  cases hloop : valueLoop csp args (CSPSolver.backtrack csp w args n)
                      (selectVariable csp w s1 args.var_strategy).1.toNat
                      (orderValues csp w (selectVariable csp w s1 args.var_strategy).2
                        (selectVariable csp w s1 args.var_strategy).1.toNat
                        args.val_strategy).1
                      (orderValues csp w (selectVariable csp w s1 args.var_strategy).2
                        (selectVariable csp w s1 args.var_strategy).1.toNat
                        args.val_strategy).2 with
                  | none => rw [hloop] at h; cases h
                  | some r2 =>
                    obtain ⟨b2, s3⟩ := r2
                    rw [hloop] at h
                    have hl := valueLoop_shrinks csp args (CSPSolver.backtrack csp w args n) _
                      (by rw [htoNat]; exact hv2)
                      (fun t bt t2 htA ht =>
                        ⟨backtrack_frame csp w args n t htA bt t2 ht, ih t htA bt t2 ht⟩) _ _
                      (by rw [hoa]; exact hA)
                      (by rw [hoa, htoNat, ← hs1a]; exact hv3) b2 s3 hloop
                    cases b2 with
                    | true =>
                      simp only [Option.some.injEq, Prod.mk.injEq] at h
                      rw [← h.2]
                      intro i
                      have := hl i
                      rw [hod] at this
                      exact this.trans (hsub1 i)
                    | false =>
                      simp only [Option.some.injEq, Prod.mk.injEq] at h
                      cases h.1

theorem stateOk_no_graph (csp : CSPInstance) (D : List (List Int)) (A : List (Nat × Int))
    (G : List (List Nat)) (h : StateOk csp D A G) : StateOk csp D A [] :=
  { dom_len := h.dom_len
    dom_sub := h.dom_sub
    graph_lt := by
      intro u w hw
      simp at hw
    asg_ord := h.asg_ord
    asg_in := h.asg_in
    asg_cons := h.asg_cons }

theorem intervalValues_strict (lo hi : Int) :
    List.Pairwise (fun a b => a < b) (intervalValues lo hi) := by
  unfold intervalValues
  rw [List.pairwise_map]
  apply List.Pairwise.imp _ (List.pairwise_lt_range _)
  intro a b hab
  omega

theorem stateOk_strict (csp : CSPInstance) (D : List (List Int)) (A : List (Nat × Int))
    (G : List (List Nat)) (h : StateOk csp D A G) (i : Nat) :
    (D.getD i []).Sublist (csp.initialDomains.getD i []) ∧
    List.Pairwise (fun a b => a < b) (D.getD i []) := by
  refine ⟨h.dom_sub i, List.Pairwise.sublist (h.dom_sub i) ?_⟩
  by_cases hi : i < csp.num_variables
  · rw [initialDomains_getD csp i hi]
    exact intervalValues_strict _ _
  · rw [getD_nil_of_length_le _ _ (by rw [initialDomains_length]; omega)]
    exact List.Pairwise.nil

/-- A new solver, and a new solver after the AC-3 preprocessing, satisfy the
invariant of the search with an empty assignment. -/
theorem start_state_invariant (csp : CSPInstance)
    (hcs : ∀ c ∈ csp.constraints, c.var1 < csp.num_variables ∧ c.var2 < csp.num_variables)
    (fuel0 : Nat) (s0 : CSPSolver)
    (hs : s0 = CSPSolver.new csp ∨
      ∃ b, CSPSolver.applyAC3 csp fuel0 (CSPSolver.new csp) = some (b, s0)) :
    StateOk csp s0.domains s0.assignment [] ∧ s0.assignment = [] := by
  have hnew := stateOk_no_graph csp _ _ _ (stateOk_new csp hcs)
  rcases hs with hs | ⟨b, hs⟩
  · rw [hs]
    exact ⟨hnew, rfl⟩
  · obtain ⟨h1, h2, h3⟩ := applyAC3_shrinks csp fuel0 _ b s0 hs
    have ha : s0.assignment = [] := by
      have := congrArg CSPSolver.assignment h1
      exact this
    rw [ha]
    exact ⟨stateOk_domains csp _ _ _ _ hnew h2 h3, rfl⟩

/-! ## The loops of the constructors -/

theorem intervalValues_cons (lo hi : Int) (h : lo ≤ hi) :
    intervalValues lo hi = lo :: intervalValues (lo + 1) hi := by
  unfold intervalValues
  have h1 : (hi + 1 - lo).toNat = (hi + 1 - (lo + 1)).toNat + 1 := by omega
  rw [h1, List.range_succ_eq_map, List.map_cons, List.map_map]
  congr 1
  · simp
  · apply List.map_congr_left
    intro k _
    simp only [Function.comp_apply, Nat.cast_succ]
    omega

theorem intervalValues_nil (lo hi : Int) (h : hi < lo) : intervalValues lo hi = [] := by
  unfold intervalValues
  have h1 : (hi + 1 - lo).toNat = 0 := by omega
  rw [h1]
  rfl

/-- Below 2147483647 the loop exits, with the sequence `val, ..., max_val`
appended. -/
theorem domainLoop_exits (max_val : Int) (hmax : max_val < 2147483647) (fuel : Nat) (val : Int)
    (values : List Int) (hval : -2147483648 ≤ val)
    (hfuel : (max_val + 1 - val).toNat < fuel) :
    domainLoop max_val fuel val values = some (values ++ intervalValues val max_val) := by
  induction fuel generalizing val values with
  | zero => omega
  | succ n ih =>
    unfold domainLoop
    by_cases h : val ≤ max_val
    · rw [if_pos h, int32_of_range (val + 1) (by omega) (by omega),
        ih (val + 1) (values ++ [val]) (by omega) (by omega), intervalValues_cons val max_val h,
        List.append_assoc]
      rfl
    · rw [if_neg h, intervalValues_nil val max_val (by omega), List.append_nil]

/-- At `max_val = 2147483647` the loop condition `val <= max_val` holds of
every `int`: the loop does not exit. -/
theorem domainLoop_never_exits (max_val : Int) (hmax : 2147483647 ≤ max_val) (fuel : Nat)
    (val : Int) (values : List Int) (hval : val ≤ 2147483647) :
    domainLoop max_val fuel val values = none := by
  induction fuel generalizing val values with
  | zero => rfl
  | succ n ih =>
    unfold domainLoop
    rw [if_pos (le_trans hval hmax)]
    exact ih _ _ (int32_range _).2

theorem constructDomains_exits (csp : CSPInstance) (fuel : Nat) (vars : List Nat)
    (h : ∀ i ∈ vars, -2147483648 ≤ (csp.domains.getD i (0, 0)).1 ∧
      (csp.domains.getD i (0, 0)).2 < 2147483647 ∧
      ((csp.domains.getD i (0, 0)).2 + 1 - (csp.domains.getD i (0, 0)).1).toNat < fuel) :
    constructDomains csp fuel vars = some (vars.map (fun i =>
      intervalValues (csp.domains.getD i (0, 0)).1 (csp.domains.getD i (0, 0)).2)) := by
  induction vars with
  | nil => rfl
  | cons i rest ih =>
    obtain ⟨h1, h2, h3⟩ := h i (List.mem_cons_self _ _)
    unfold constructDomains
    rw [domainLoop_exits _ h2 fuel _ [] h1 h3, ih (fun j hj => h j (List.mem_cons_of_mem _ hj))]
    rfl

theorem constructDomains_never_exits (csp : CSPInstance) (fuel : Nat) (vars : List Nat)
    (h : ∃ i ∈ vars, (csp.domains.getD i (0, 0)).1 ≤ 2147483647 ∧
      2147483647 ≤ (csp.domains.getD i (0, 0)).2) :
    constructDomains csp fuel vars = none := by
  induction vars with
  | nil =>
    obtain ⟨i, hi, _⟩ := h
    cases hi
  | cons j rest ih =>
    unfold constructDomains
    cases hd : domainLoop (csp.domains.getD j (0, 0)).2 fuel (csp.domains.getD j (0, 0)).1 [] with
    | none => rfl
    | some values =>
      obtain ⟨i, hi, h1, h2⟩ := h
      rcases List.mem_cons.1 hi with rfl | hi2
      · rw [domainLoop_never_exits _ h2 fuel _ [] h1] at hd
        cases hd
      · simp only
        rw [ih ⟨i, hi2, h1, h2⟩]

/-- Where every interval starts at an `int` and ends below 2147483647, the
constructor of the solver returns, and what it returns is `CSPSolver.new`. -/
theorem construct_eq_new (csp : CSPInstance) (fuel : Nat)
    (h : ∀ i, i < csp.num_variables → -2147483648 ≤ (csp.domains.getD i (0, 0)).1 ∧
      (csp.domains.getD i (0, 0)).2 < 2147483647 ∧
      ((csp.domains.getD i (0, 0)).2 + 1 - (csp.domains.getD i (0, 0)).1).toNat < fuel) :
    CSPSolver.construct csp fuel = some (CSPSolver.new csp) ∧
    AC3Algorithm.construct csp fuel = some (AC3Algorithm.new csp) := by
  have hd := constructDomains_exits csp fuel (List.range csp.num_variables)
    (fun i hi => h i (List.mem_range.1 hi))
  unfold CSPSolver.construct AC3Algorithm.construct
  rw [hd]
  exact ⟨rfl, rfl⟩

/-- Where some interval ends at 2147483647, neither constructor returns. -/
theorem construct_never_returns (csp : CSPInstance) (fuel : Nat)
    (h : ∃ i, i < csp.num_variables ∧ (csp.domains.getD i (0, 0)).1 ≤ 2147483647 ∧
      2147483647 ≤ (csp.domains.getD i (0, 0)).2) :
    CSPSolver.construct csp fuel = none ∧ AC3Algorithm.construct csp fuel = none := by
  obtain ⟨i, hi, h1, h2⟩ := h
  have hd := constructDomains_never_exits csp fuel (List.range csp.num_variables)
    ⟨i, List.mem_range.2 hi, h1, h2⟩
  unfold CSPSolver.construct AC3Algorithm.construct
  rw [hd]
  exact ⟨rfl, rfl⟩

/-- When the loop exits, from an `int` and with `max_val` below 2147483647,
what it has appended is the sequence `val, ..., max_val`. -/
theorem domainLoop_result (max_val : Int) (hmax : max_val < 2147483647) (fuel : Nat) (val : Int)
    (values r : List Int) (hval : -2147483648 ≤ val)
    (h : domainLoop max_val fuel val values = some r) :
    r = values ++ intervalValues val max_val := by
  induction fuel generalizing val values with
  | zero => cases h
  | succ n ih =>
    unfold domainLoop at h
    by_cases hle : val ≤ max_val
    · rw [if_pos hle, int32_of_range (val + 1) (by omega) (by omega)] at h
      rw [ih (val + 1) (values ++ [val]) (by omega) h, intervalValues_cons val max_val hle,
        List.append_assoc]
      rfl
    · rw [if_neg hle] at h
      rw [intervalValues_nil val max_val (by omega), List.append_nil]
      exact (Option.some.inj h).symm

theorem constructDomains_result (csp : CSPInstance) (fuel : Nat) (vars : List Nat)
    (hint : ∀ i ∈ vars, -2147483648 ≤ (csp.domains.getD i (0, 0)).1 ∧
      (csp.domains.getD i (0, 0)).1 ≤ 2147483647 ∧ (csp.domains.getD i (0, 0)).2 ≤ 2147483647)
    (domains : List (List Int)) (h : constructDomains csp fuel vars = some domains) :
    domains = vars.map (fun i =>
      intervalValues (csp.domains.getD i (0, 0)).1 (csp.domains.getD i (0, 0)).2) := by
  induction vars generalizing domains with
  | nil =>
    unfold constructDomains at h
    exact (Option.some.inj h).symm
  | cons i rest ih =>
    obtain ⟨h1, h2, h3⟩ := hint i (List.mem_cons_self _ _)
    unfold constructDomains at h
    cases hd : domainLoop (csp.domains.getD i (0, 0)).2 fuel (csp.domains.getD i (0, 0)).1 [] with
    | none => rw [hd] at h; cases h
    | some values =>
      rw [hd] at h
      simp only at h
      cases hr : constructDomains csp fuel rest with
      | none => rw [hr] at h; cases h
      | some others =>
        rw [hr] at h
        simp only [Option.some.injEq] at h
        have hlt : (csp.domains.getD i (0, 0)).2 < 2147483647 := by
          by_contra hge
          rw [domainLoop_never_exits _ (by omega) fuel _ [] h2] at hd
          cases hd
        rw [← h, domainLoop_result _ hlt fuel _ [] values h1 hd,
          ih (fun j hj => hint j (List.mem_cons_of_mem _ hj)) others hr]
        rfl

/-- On an instance whose interval bounds are `int`s, whenever the constructor
of the solver returns, what it returns is `CSPSolver.new`; likewise for the
engine. -/
theorem construct_returns_new (csp : CSPInstance) (fuel : Nat)
    (hint : ∀ i, i < csp.num_variables → -2147483648 ≤ (csp.domains.getD i (0, 0)).1 ∧
      (csp.domains.getD i (0, 0)).1 ≤ 2147483647 ∧ (csp.domains.getD i (0, 0)).2 ≤ 2147483647) :
    (∀ s, CSPSolver.construct csp fuel = some s → s = CSPSolver.new csp) ∧
    (∀ a, AC3Algorithm.construct csp fuel = some a → a = AC3Algorithm.new csp) := by
  have hres := constructDomains_result csp fuel (List.range csp.num_variables)
    (fun i hi => hint i (List.mem_range.1 hi))
  constructor
  · intro s h
    unfold CSPSolver.construct at h
    cases hd : constructDomains csp fuel (List.range csp.num_variables) with
    | none => rw [hd] at h; cases h
    | some domains =>
      rw [hd] at h
      simp only [Option.some.injEq] at h
      rw [← h, hres domains hd]
      rfl
  · intro a h
    unfold AC3Algorithm.construct at h
    cases hd : constructDomains csp fuel (List.range csp.num_variables) with
    | none => rw [hd] at h; cases h
    | some domains =>
      rw [hd] at h
      simp only [Option.some.injEq] at h
      rw [← h, hres domains hd]
      rfl

/-! ## The domains during the search -/

theorem solveCalls_inv (csp : CSPInstance) (w : World) (args : SolveArgs)
    (hwf : csp.WellFormed) (fuel0 fuel : Nat) (s0 : CSPSolver)
    (hs : s0 = CSPSolver.new csp ∨
      ∃ b, CSPSolver.applyAC3 csp fuel0 (CSPSolver.new csp) = some (b, s0)) :
    ∀ p ∈ solveCalls csp w args fuel s0,
      StateOk csp p.2.domains p.2.assignment [] ∧ p.1 = p.2.assignment.length ∧
      ∀ i, (p.2.domains.getD i []).Sublist (s0.domains.getD i []) := by
  have hc := wellFormed_constraints csp hwf
  obtain ⟨hok, hA⟩ := start_state_invariant csp (fun c h => (hc c h).2) fuel0 s0 hs
  intro p hp
  unfold solveCalls at hp
  obtain ⟨h1, h2, h3⟩ :=
    backtrackCalls_inv csp w args (fun c h => (hc c h).1) fuel 0 _ (by exact hok) p hp
  have hlen : s0.assignment.length = 0 := by rw [hA]; rfl
  have h2b : p.1 + s0.assignment.length = 0 + p.2.assignment.length := h2
  exact ⟨h1, by omega, h3⟩

/-- Current-domain invariant where the constructor returns: on a well-formed
instance whose intervals start at an `int` and end below 2147483647, the
constructor returns the solver whose domains are the sequences `min..max`,
which are strictly ascending; after the AC-3 preprocessing, at the entry of
every call of `backtrack` during `solve`, and when `solve` returns, each
current domain is a strictly ascending sublist of the initial sequence of its
variable; the domains at the entry of a call made below another call are
sublists of the domains at the entry of that call; and `applyAC3` and the
forward checker, the two steps that change domains, turn each domain of any
state into a sublist of itself. -/
theorem current_domain_invariant (csp : CSPInstance) (hwf : csp.WellFormed)
    (hint : ∀ i, i < csp.num_variables → -2147483648 ≤ (csp.domains.getD i (0, 0)).1 ∧
      (csp.domains.getD i (0, 0)).2 < 2147483647)
    (w : World) (args : SolveArgs) (fuel0 fuel : Nat) (s0 : CSPSolver)
    (hs : s0 = CSPSolver.new csp ∨
      ∃ b, CSPSolver.applyAC3 csp fuel0 (CSPSolver.new csp) = some (b, s0)) :
    (∀ fuelc, (∀ i, i < csp.num_variables →
        ((csp.domains.getD i (0, 0)).2 + 1 - (csp.domains.getD i (0, 0)).1).toNat < fuelc) →
      CSPSolver.construct csp fuelc = some (CSPSolver.new csp)) ∧
    (∀ i, (CSPSolver.new csp).domains.getD i [] = csp.initialDomains.getD i [] ∧
      (i < csp.num_variables → csp.initialDomains.getD i [] =
        intervalValues (csp.domains.getD i (0, 0)).1 (csp.domains.getD i (0, 0)).2) ∧
      List.Pairwise (fun a b => a < b) (csp.initialDomains.getD i [])) ∧
    (∀ i, (s0.domains.getD i []).Sublist (csp.initialDomains.getD i []) ∧
      List.Pairwise (fun a b => a < b) (s0.domains.getD i [])) ∧
    (∀ p ∈ solveCalls csp w args fuel s0,
      (∀ i, (p.2.domains.getD i []).Sublist (csp.initialDomains.getD i []) ∧
        List.Pairwise (fun a b => a < b) (p.2.domains.getD i [])) ∧
      ∀ fuel2 depth, ∀ q ∈ backtrackCalls csp w args fuel2 depth p.2,
        ∀ i, (q.2.domains.getD i []).Sublist (p.2.domains.getD i [])) ∧
    (∀ b s2, CSPSolver.solve csp w args fuel s0 = some (b, s2) →
      ∀ i, (s2.domains.getD i []).Sublist (s0.domains.getD i []) ∧
        (s2.domains.getD i []).Sublist (csp.initialDomains.getD i []) ∧
        List.Pairwise (fun a b => a < b) (s2.domains.getD i [])) ∧
    (∀ (s : CSPSolver) (fuel1 : Nat) (b : Bool) (s1 : CSPSolver),
      CSPSolver.applyAC3 csp fuel1 s = some (b, s1) →
      ∀ i, (s1.domains.getD i []).Sublist (s.domains.getD i [])) ∧
    (∀ (s : CSPSolver) (var : Nat) (value : Int) (i : Nat),
      ((CSPSolver.forwardCheckWithDomainReduction csp s var value).2.domains.getD i []).Sublist
        (s.domains.getD i [])) := by
  have hc := wellFormed_constraints csp hwf
  have hcs : ∀ c ∈ csp.constraints, c.var1 < csp.num_variables ∧ c.var2 < csp.num_variables :=
    fun c h => (hc c h).2
  obtain ⟨hok, hA⟩ := start_state_invariant csp hcs fuel0 s0 hs
  have hnew := stateOk_new csp hcs
  refine ⟨fun fuelc hf =>
      (construct_eq_new csp fuelc (fun i hi => ⟨(hint i hi).1, (hint i hi).2, hf i hi⟩)).1,
    fun i => ⟨rfl, fun hi => initialDomains_getD csp i hi,
    (stateOk_strict csp _ _ _ hnew i).2⟩, fun i => stateOk_strict csp _ _ _ hok i, ?_, ?_,
    fun s fuel1 b s1 h => (applyAC3_shrinks csp fuel1 s b s1 h).2.2, ?_⟩
  · intro p hp
    obtain ⟨h1, _, _⟩ := solveCalls_inv csp w args hwf fuel0 fuel s0 hs p hp
    refine ⟨fun i => stateOk_strict csp _ _ _ h1 i, fun fuel2 depth q hq i => ?_⟩
    exact (backtrackCalls_inv csp w args (fun c h => (hc c h).1) fuel2 depth p.2 h1 q hq).2.2 i
  · intro b s2 h i
    unfold CSPSolver.solve at h
    cases hbt : CSPSolver.backtrack csp w args fuel
        { s0 with solutions := [], nodes_explored := 0, backtracks := 0,
                  timeout_occurred := false, clock_reads := 0, rng_calls := 0 } with
    | none => rw [hbt] at h; cases h
    | some r =>
      obtain ⟨b3, s3⟩ := r
      rw [hbt] at h
      simp only [Option.some.injEq, Prod.mk.injEq] at h
      rw [← h.2]
      have hsub : (s3.domains.getD i []).Sublist (s0.domains.getD i []) :=
        backtrack_shrinks csp w args fuel _
          (by
            show AsgOk csp s0.assignment
            rw [hA]
            exact ⟨List.Pairwise.nil, fun kv hkv => by cases hkv⟩) b3 s3 hbt i
      have hinit := stateOk_strict csp _ _ _ hok i
      exact ⟨hsub, hsub.trans hinit.1, List.Pairwise.sublist hsub hinit.2⟩
  · intro s var value i
    unfold CSPSolver.forwardCheckWithDomainReduction
    exact (forwardCheckLoop_spec csp var value (s.var_interaction_graph.getD var []) s).2.2.1 i

/-- Witness of the current-domain invariant on `differInstance` under the default configuration, with
the domains at the entries of the five calls of `backtrack`. -/
theorem current_domain_invariant_witness :
    differInstance.WellFormed ∧
    (∀ i, i < differInstance.num_variables →
      -2147483648 ≤ (differInstance.domains.getD i (0, 0)).1 ∧
      (differInstance.domains.getD i (0, 0)).2 < 2147483647) ∧
    CSPSolver.construct differInstance 3 = some (CSPSolver.new differInstance) ∧
    (solveCalls differInstance exampleWorld defaultArgs 20 (CSPSolver.new differInstance)).map
        (fun p => (p.1, p.2.domains))
      = [(0, [[0, 1], [0, 1]]), (1, [[0, 1], [1]]), (2, [[0], [1]]), (1, [[0, 1], [0]]),
          (2, [[1], [0]])] ∧
    ((∀ fuelc, (∀ i, i < differInstance.num_variables →
        ((differInstance.domains.getD i (0, 0)).2 + 1
          - (differInstance.domains.getD i (0, 0)).1).toNat < fuelc) →
      CSPSolver.construct differInstance fuelc = some (CSPSolver.new differInstance)) ∧
    (∀ i, (CSPSolver.new differInstance).domains.getD i []
        = differInstance.initialDomains.getD i [] ∧
      (i < differInstance.num_variables → differInstance.initialDomains.getD i [] =
        intervalValues (differInstance.domains.getD i (0, 0)).1
          (differInstance.domains.getD i (0, 0)).2) ∧
      List.Pairwise (fun a b => a < b) (differInstance.initialDomains.getD i [])) ∧
    (∀ i, ((CSPSolver.new differInstance).domains.getD i []).Sublist
        (differInstance.initialDomains.getD i []) ∧
      List.Pairwise (fun a b => a < b) ((CSPSolver.new differInstance).domains.getD i [])) ∧
    (∀ p ∈ solveCalls differInstance exampleWorld defaultArgs 20 (CSPSolver.new differInstance),
      (∀ i, (p.2.domains.getD i []).Sublist (differInstance.initialDomains.getD i []) ∧
        List.Pairwise (fun a b => a < b) (p.2.domains.getD i [])) ∧
      ∀ fuel2 depth, ∀ q ∈ backtrackCalls differInstance exampleWorld defaultArgs fuel2 depth p.2,
        ∀ i, (q.2.domains.getD i []).Sublist (p.2.domains.getD i [])) ∧
    (∀ b s2, CSPSolver.solve differInstance exampleWorld defaultArgs 20
        (CSPSolver.new differInstance) = some (b, s2) →
      ∀ i, (s2.domains.getD i []).Sublist ((CSPSolver.new differInstance).domains.getD i []) ∧
        (s2.domains.getD i []).Sublist (differInstance.initialDomains.getD i []) ∧
        List.Pairwise (fun a b => a < b) (s2.domains.getD i [])) ∧
    (∀ (s : CSPSolver) (fuel1 : Nat) (b : Bool) (s1 : CSPSolver),
      CSPSolver.applyAC3 differInstance fuel1 s = some (b, s1) →
      ∀ i, (s1.domains.getD i []).Sublist (s.domains.getD i [])) ∧
    (∀ (s : CSPSolver) (var : Nat) (value : Int) (i : Nat),
      ((CSPSolver.forwardCheckWithDomainReduction differInstance s var value).2.domains.getD
        i []).Sublist (s.domains.getD i []))) :=
  ⟨by decide, by decide, by decide, by decide,
    current_domain_invariant differInstance (by decide) (by decide) exampleWorld defaultArgs 0 20
      (CSPSolver.new differInstance) (Or.inl rfl)⟩

/-- C32. The domain initialisation at the largest `int`. The file with the one
variable `0 2147483646 2147483647` is accepted by the parser and its instance
is well-formed, but the loop `for (int val = min_val; val <= max_val; val++)`
of the constructor of `CSPSolver` does not exit on it: after the values
2147483646 and 2147483647 the increment of `val` overflows, and `val <=
2147483647` holds of every `int`, so the vector grows without end and no solver
is constructed, for any fuel. The constructor of `AC3Algorithm` has the same
loop. One value lower, on `2147483645..2147483646`, the constructor returns. -/
theorem constructor_loop_never_exits :
    parseCSPFile 0 "1\n0 2147483646 2147483647\n# constraints\n0\n".toList
      = some maxIntInstance ∧
    maxIntInstance.WellFormed ∧
    int32 (2147483647 + 1) = -2147483648 ∧
    (∀ fuel values, domainLoop 2147483647 fuel 2147483646 values = none) ∧
    (∀ fuel, CSPSolver.construct maxIntInstance fuel = none) ∧
    (∀ fuel, AC3Algorithm.construct maxIntInstance fuel = none) ∧
    (CSPSolver.construct { maxIntInstance with domains := [(2147483645, 2147483646)] } 3).map
        (fun s => s.domains) = some [[2147483645, 2147483646]] :=
  ⟨rfl, by decide, by decide,
    fun fuel values => domainLoop_never_exits 2147483647 (le_refl _) fuel 2147483646 values
      (by decide),
    fun fuel => (construct_never_returns maxIntInstance fuel ⟨0, by decide, by decide, by decide⟩).1,
    fun fuel => (construct_never_returns maxIntInstance fuel ⟨0, by decide, by decide, by decide⟩).2,
    by decide⟩

/-- C34. Search terminates with bounded depth: on a well-formed instance, for
every configuration and world, `solve` on a new solver (or on a new solver
after the AC-3 preprocessing) returns with fuel `solveFuel`, and in every call
of `backtrack` made during `solve` the argument `depth` equals the size of the
assignment, which is at most `N`. -/
theorem search_depth_bounded (csp : CSPInstance) (hwf : csp.WellFormed) (w : World)
    (args : SolveArgs) (fuel : Nat) (s0 : CSPSolver)
    (hs : s0 = CSPSolver.new csp ∨
      ∃ b, CSPSolver.applyAC3 csp fuel (CSPSolver.new csp) = some (b, s0)) :
    (solveFuel csp ≤ fuel → ∃ b s2, CSPSolver.solve csp w args fuel s0 = some (b, s2)) ∧
    ∀ p ∈ solveCalls csp w args fuel s0,
      p.1 = p.2.assignment.length ∧ p.2.assignment.length ≤ csp.num_variables := by
  refine ⟨fun hfuel => ?_, fun p hp => ?_⟩
  · obtain ⟨b, s2, h, _⟩ := solve_on_start_state csp w args hwf fuel hfuel s0 hs
    exact ⟨b, s2, h⟩
  · obtain ⟨h1, h2, _⟩ := solveCalls_inv csp w args hwf fuel fuel s0 hs p hp
    refine ⟨h2, ?_⟩
    exact (mapOrdered_exists_unassigned p.2.assignment h1.asg_ord csp.num_variables (by
      intro k hk
      obtain ⟨kv, hkv, rfl⟩ := List.mem_map.1 hk
      exact (h1.asg_in kv hkv).1)).1

/-- Witness of C34 on the forced chain without propagation, with the depth and
the assignment at the entry of each call. -/
theorem search_depth_bounded_witness :
    chainInstance.WellFormed ∧ solveFuel chainInstance ≤ 36 ∧
    (solveCalls chainInstance exampleWorld plainParams.toSolveArgs 36
        (CSPSolver.new chainInstance)).map (fun p => (p.1, p.2.assignment))
      = [(0, []), (1, [(0, 0)]), (2, [(0, 0), (1, 1)]), (3, [(0, 0), (1, 1), (2, 2)]),
          (1, [(0, 1)]), (2, [(0, 1), (1, 2)]), (1, [(0, 2)])] ∧
    ((solveFuel chainInstance ≤ 36 →
      ∃ b s2, CSPSolver.solve chainInstance exampleWorld plainParams.toSolveArgs 36
        (CSPSolver.new chainInstance) = some (b, s2)) ∧
    ∀ p ∈ solveCalls chainInstance exampleWorld plainParams.toSolveArgs 36
        (CSPSolver.new chainInstance),
      p.1 = p.2.assignment.length ∧ p.2.assignment.length ≤ chainInstance.num_variables) :=
  ⟨by decide, by decide, by decide,
    search_depth_bounded chainInstance (by decide) exampleWorld plainParams.toSolveArgs 36
      (CSPSolver.new chainInstance) (Or.inl rfl)⟩

/-- C37. Partial-assignment invariant: on a well-formed instance, for every
configuration and world, at the entry of every call of `backtrack` made during
`solve` on a new solver (or on a new solver after the AC-3 preprocessing),
every assigned variable is a variable of the instance whose value lies in its
initial interval, and `CSPInstance.isConsistent` holds between any two
assigned variables, in particular for every constraint whose two variables are
assigned. -/
theorem partial_assignment_invariant (csp : CSPInstance) (hwf : csp.WellFormed) (w : World)
    (args : SolveArgs) (fuel0 fuel : Nat) (s0 : CSPSolver)
    (hs : s0 = CSPSolver.new csp ∨
      ∃ b, CSPSolver.applyAC3 csp fuel0 (CSPSolver.new csp) = some (b, s0)) :
    ∀ p ∈ solveCalls csp w args fuel s0,
      (∀ kv ∈ p.2.assignment, kv.1 < csp.num_variables ∧
        (csp.domains.getD kv.1 (0, 0)).1 ≤ kv.2 ∧ kv.2 ≤ (csp.domains.getD kv.1 (0, 0)).2) ∧
      (∀ u x v y, mapFind p.2.assignment u = some x → mapFind p.2.assignment v = some y →
        csp.isConsistent u x v y = true) ∧
      (∀ c ∈ csp.constraints, ∀ x y, mapFind p.2.assignment c.var1 = some x →
        mapFind p.2.assignment c.var2 = some y → csp.isConsistent c.var1 x c.var2 y = true) := by
  intro p hp
  obtain ⟨h1, _, _⟩ := solveCalls_inv csp w args hwf fuel0 fuel s0 hs p hp
  have hpair : ∀ u x v y, mapFind p.2.assignment u = some x → mapFind p.2.assignment v = some y →
      csp.isConsistent u x v y = true := by
    intro u x v y hx hy
    rw [isConsistent_iff]
    intro c hc
    constructor
    · rintro ⟨e1, e2⟩
      exact h1.asg_cons c hc x y (by rw [e1]; exact hx) (by rw [e2]; exact hy)
    · rintro _ ⟨e1, e2⟩
      exact h1.asg_cons c hc y x (by rw [e1]; exact hy) (by rw [e2]; exact hx)
  exact ⟨h1.asg_in, hpair, fun c _ x y hx hy => hpair c.var1 x c.var2 y hx hy⟩

/-- Witness of C37 on the forced chain without propagation. -/
theorem partial_assignment_invariant_witness :
    chainInstance.WellFormed ∧
    (solveCalls chainInstance exampleWorld plainParams.toSolveArgs 20
        (CSPSolver.new chainInstance)).map (fun p => p.2.assignment)
      = [[], [(0, 0)], [(0, 0), (1, 1)], [(0, 0), (1, 1), (2, 2)], [(0, 1)], [(0, 1), (1, 2)],
          [(0, 2)]] ∧
    ∀ p ∈ solveCalls chainInstance exampleWorld plainParams.toSolveArgs 20
        (CSPSolver.new chainInstance),
      (∀ kv ∈ p.2.assignment, kv.1 < chainInstance.num_variables ∧
        (chainInstance.domains.getD kv.1 (0, 0)).1 ≤ kv.2 ∧
        kv.2 ≤ (chainInstance.domains.getD kv.1 (0, 0)).2) ∧
      (∀ u x v y, mapFind p.2.assignment u = some x → mapFind p.2.assignment v = some y →
        chainInstance.isConsistent u x v y = true) ∧
      (∀ c ∈ chainInstance.constraints, ∀ x y, mapFind p.2.assignment c.var1 = some x →
        mapFind p.2.assignment c.var2 = some y →
        chainInstance.isConsistent c.var1 x c.var2 y = true) :=
  ⟨by decide, by decide,
    partial_assignment_invariant chainInstance (by decide) exampleWorld
      plainParams.toSolveArgs 0 20 (CSPSolver.new chainInstance) (Or.inl rfl)⟩

/-! ## The counters on a long search -/

/-- A value loop whose values are all rejected by the consistency check counts
one node for each and changes nothing else. -/
theorem valueLoop_all_rejected (csp : CSPInstance) (args : SolveArgs)
    (recurse : CSPSolver → Option (Bool × CSPSolver)) (var : Nat) (vals : List Int)
    (s : CSPSolver) (h : ∀ v ∈ vals, CSPSolver.isConsistent csp s var v = false) :
    valueLoop csp args recurse var vals s
      = some (false, { s with nodes_explored := incTimes vals.length s.nodes_explored }) := by
  induction vals generalizing s with
  | nil => rfl
  | cons v rest ih =>
    rw [valueLoop_cons]
    have h1 : CSPSolver.isConsistent csp (bumpNodes s) var v = false :=
      h v (List.mem_cons_self _ _)
    rw [h1]
    simp only [Bool.not_false, if_true]
    rw [ih (bumpNodes s) (fun u hu => h u (List.mem_cons_of_mem _ hu))]
    rfl

theorem wide_select (t : CSPSolver) (x : Nat) (hfree : ∃ u, u < 2 ∧ mapFind t.assignment u = none)
    (hsel : ∀ v, v < 2 → mapFind t.assignment v = none →
      (∀ u, u < 2 → mapFind t.assignment u = none →
        (t.domains.getD u []).length = (t.domains.getD v []).length → v ≤ u) → v = x) :
    selectVariable wideInstance exampleWorld t wideParams.toSolveArgs.var_strategy
      = ((x : Int), t) := by
  show selectVariable wideInstance exampleWorld t "mrv" = ((x : Int), t)
  unfold selectVariable
  rw [if_pos rfl]
  congr 1
  unfold mrvHeuristic
  rcases mrv_range t.domains t.assignment 2 with ⟨_, h2⟩ | ⟨v, h1, h2, h3, _, h5⟩
  · obtain ⟨u, hu1, hu2⟩ := hfree
    exact absurd hu2 (h2 u hu1)
  · show ((List.range 2).foldl (mrvStep t.domains t.assignment) (-1, none)).1 = (x : Int)
    rw [h1, ← hsel v h2 h3 h5]

theorem wide_order (t : CSPSolver) (x : Nat) :
    orderValues wideInstance exampleWorld t x wideParams.toSolveArgs.val_strategy
      = (lexicographicValues t x, t) := by
  show orderValues wideInstance exampleWorld t x "lexicographic" = (lexicographicValues t x, t)
  unfold orderValues
  rw [if_neg (by decide), if_neg (by decide), if_pos rfl]

theorem wide_rejected (t : CSPSolver) (v : Int) (hA : t.assignment = [(0, v)]) (y : Int) :
    CSPSolver.isConsistent wideInstance t 1 y = false := by
  unfold CSPSolver.isConsistent
  rw [hA]
  rfl

/-- The call of `backtrack` below the root on `wideInstance`: variable 0 is
assigned, every value of variable 1 is counted and rejected. -/
theorem wide_inner_call (fuel : Nat) (t : CSPSolver) (v : Int) (d : Nat)
    (hA : t.assignment = [(0, v)]) (hd : (t.domains.getD 1 []).length = d) :
    ∃ t2, CSPSolver.backtrack wideInstance exampleWorld wideParams.toSolveArgs (fuel + 1) t
        = some (false, t2) ∧
      t2.assignment = t.assignment ∧ t2.domains = t.domains ∧ t2.solutions = t.solutions ∧
      t2.nodes_explored = incTimes d t.nodes_explored ∧ t2.backtracks = t.backtracks ∧
      t2.timeout_occurred = t.timeout_occurred := by
  rw [backtrack_succ]
  have hclock : ¬ (exampleWorld.elapsed t.clock_reads ≥ wideParams.toSolveArgs.max_time) := by
    show ¬ ((0 : Int) ≥ 300)
    decide
  rw [if_neg hclock]
  have hcomp : CSPSolver.isComplete wideInstance (tick t) = false := by
    show decide (t.assignment.length = 2) = false
    rw [hA]
    rfl
  rw [hcomp]
  simp only [Bool.false_eq_true, if_false]
  have hac : nodeAC3 wideInstance wideParams.toSolveArgs fuel (tick t) = some (true, tick t) := rfl
  rw [hac]
  simp only
  have hfind0 : mapFind (tick t).assignment 0 = some v := by
    show mapFind t.assignment 0 = some v
    rw [hA]
    rfl
  have hfind1 : mapFind (tick t).assignment 1 = none := by
    show mapFind t.assignment 1 = none
    rw [hA]
    rfl
  have hsel := wide_select (tick t) 1 ⟨1, by decide, hfind1⟩ (by
    intro u hu hfree _
    have : u ≠ 0 := by
      rintro rfl
      rw [hfind0] at hfree
      cases hfree
    omega)
  rw [hsel]
  simp only
  rw [if_neg (by decide)]
  rw [wide_order, show (((1 : Nat) : Int)).toNat = 1 from rfl]
  simp only
  rw [valueLoop_all_rejected _ _ _ _ _ _ (fun y _ => wide_rejected (tick t) v hA y)]
  simp only
  refine ⟨_, rfl, rfl, rfl, rfl, ?_, rfl, rfl⟩
  show incTimes (lexicographicValues (tick t) 1).length t.nodes_explored
    = incTimes d t.nodes_explored
  unfold lexicographicValues
  rw [List.length_insertionSort]
  show incTimes (t.domains.getD 1 []).length _ = _
  rw [hd]

/-- The value loop of the root on `wideInstance`: every value of variable 0 is
counted, passes the consistency check, and its call below counts and rejects
the `d` values of variable 1 before the value is undone. -/
theorem wide_root_loop (fuel : Nat) (d : Nat) (vals : List Int) (s : CSPSolver)
    (hA : s.assignment = []) (hd : (s.domains.getD 1 []).length = d) :
    ∃ s2, valueLoop wideInstance wideParams.toSolveArgs
          (CSPSolver.backtrack wideInstance exampleWorld wideParams.toSolveArgs (fuel + 1))
          0 vals s = some (false, s2) ∧
      s2.assignment = [] ∧ s2.domains = s.domains ∧ s2.solutions = s.solutions ∧
      s2.nodes_explored = incTimes (vals.length * (d + 1)) s.nodes_explored ∧
      s2.backtracks = incTimes vals.length s.backtracks ∧
      s2.timeout_occurred = s.timeout_occurred := by
  induction vals generalizing s with
  | nil =>
    refine ⟨s, rfl, hA, rfl, rfl, ?_, rfl, rfl⟩
    show s.nodes_explored = incTimes (0 * (d + 1)) s.nodes_explored
    rw [Nat.zero_mul]
    rfl
  | cons v rest ih =>
    rw [valueLoop_cons]
    have hcons : CSPSolver.isConsistent wideInstance (bumpNodes s) 0 v = true := by
      unfold CSPSolver.isConsistent
      show wideInstance.constraints.all (fun c =>
        if c.var1 = 0 then
          match mapFind s.assignment c.var2 with
          | some val2 => wideInstance.isConsistent 0 v c.var2 val2
          | none => true
        else if c.var2 = 0 then
          match mapFind s.assignment c.var1 with
          | some val1 => wideInstance.isConsistent c.var1 val1 0 v
          | none => true
        else true) = true
      rw [hA]
      rfl
    rw [hcons]
    simp only [Bool.not_true, Bool.false_eq_true, if_false]
    have hfc : fcResult wideInstance wideParams.toSolveArgs (bumpNodes s) 0 v
        = (true, bumpNodes s) := rfl
    rw [hfc]
    simp only [Bool.not_true, Bool.false_eq_true, if_false]
    obtain ⟨t2, ht, h1, h2, h3, h4, h5, h6⟩ := wide_inner_call fuel (assignVar (bumpNodes s) 0 v) v d
      (by
        show mapInsert s.assignment 0 v = [(0, v)]
        rw [hA]
        rfl)
      hd
    rw [ht]
    simp only [Bool.false_and, Bool.false_eq_true, if_false]
    have hu : undoValue wideParams.toSolveArgs t2
        (if wideParams.toSolveArgs.use_forward_checking then (bumpNodes s).backupDomains else [])
        0 = { t2 with assignment := mapErase t2.assignment 0
                      backtracks := int32 (t2.backtracks + 1) } := rfl
    rw [hu]
    have hAu : mapErase t2.assignment 0 = [] := by
      rw [h1]
      show mapErase (mapInsert s.assignment 0 v) 0 = []
      rw [hA]
      rfl
    obtain ⟨s2, k1, k2, k3, k4, k5, k6, k7⟩ := ih
      { t2 with assignment := mapErase t2.assignment 0
                backtracks := int32 (t2.backtracks + 1) }
      hAu (by
        show (t2.domains.getD 1 []).length = d
        rw [h2]
        exact hd)
    refine ⟨s2, k1, k2, ?_, ?_, ?_, ?_, ?_⟩
    · rw [k3]
      exact h2
    · rw [k4]
      exact h3
    · rw [k5]
      show incTimes (rest.length * (d + 1)) t2.nodes_explored = _
      rw [h4]
      show incTimes (rest.length * (d + 1)) (incTimes (d + 1) s.nodes_explored) = _
      rw [← incTimes_add, List.length_cons, Nat.succ_mul, Nat.add_comm]
    · rw [k6]
      show incTimes rest.length (int32 (t2.backtracks + 1)) = _
      rw [h5]
      rfl
    · rw [k7]
      exact h6

theorem wide_domain_length (i : Nat) (hi : i < 2) :
    (wideInstance.initialDomains.getD i []).length = 46341 := by
  rw [initialDomains_getD wideInstance i hi]
  unfold intervalValues
  rw [List.length_map, List.length_range]
  interval_cases i <;> rfl

/-- The root call of `backtrack` on `wideInstance` without propagation, for any
fuel from 2 on: no solution is added, and `nodes_explored++` is done
46341 * 46342 times. -/
theorem wide_root_call (fuel : Nat) (s : CSPSolver) (hA : s.assignment = [])
    (hD : s.domains = wideInstance.initialDomains) :
    ∃ s2, CSPSolver.backtrack wideInstance exampleWorld wideParams.toSolveArgs (fuel + 2) s
        = some (false, s2) ∧
      s2.solutions = s.solutions ∧
      s2.nodes_explored = incTimes (46341 * 46342) s.nodes_explored ∧
      s2.backtracks = incTimes 46341 s.backtracks ∧
      s2.timeout_occurred = s.timeout_occurred := by
  rw [backtrack_succ]
  have hclock : ¬ (exampleWorld.elapsed s.clock_reads ≥ wideParams.toSolveArgs.max_time) := by
    show ¬ ((0 : Int) ≥ 300)
    decide
  rw [if_neg hclock]
  have hcomp : CSPSolver.isComplete wideInstance (tick s) = false := by
    show decide (s.assignment.length = 2) = false
    rw [hA]
    rfl
  rw [hcomp]
  simp only [Bool.false_eq_true, if_false]
  have hac : nodeAC3 wideInstance wideParams.toSolveArgs (fuel + 1) (tick s)
      = some (true, tick s) := rfl
  rw [hac]
  simp only
  have hfree : ∀ u, mapFind (tick s).assignment u = none := by
    intro u
    show mapFind s.assignment u = none
    rw [hA]
    rfl
  have hlen : ∀ u, u < 2 → ((tick s).domains.getD u []).length = 46341 := by
    intro u hu
    show (s.domains.getD u []).length = 46341
    rw [hD]
    exact wide_domain_length u hu
  have hsel := wide_select (tick s) 0 ⟨0, by decide, hfree 0⟩ (by
    intro v hv _ h5
    have := h5 0 (by decide) (hfree 0) (by rw [hlen 0 (by decide), hlen v hv])
    omega)
  rw [hsel]
  simp only
  rw [if_neg (by decide), wide_order, show (((0 : Nat) : Int)).toNat = 0 from rfl]
  obtain ⟨s2, h1, _, _, h4, h5, h6, h7⟩ := wide_root_loop fuel 46341
    (lexicographicValues (tick s) 0) (tick s) hA (hlen 1 (by decide))
  simp only
  rw [h1]
  simp only
  have hl : (lexicographicValues (tick s) 0).length = 46341 := by
    unfold lexicographicValues
    rw [List.length_insertionSort]
    exact hlen 0 (by decide)
  rw [hl] at h5 h6
  exact ⟨_, rfl, h4, h5, h6, h7⟩

theorem runSolver_without_ac3 (csp : CSPInstance) (w : World) (params : SolverParams)
    (fuel : Nat) (h : params.use_ac3 = false) (success : Bool) (solver2 : CSPSolver)
    (hs : CSPSolver.solve csp w params.toSolveArgs fuel (CSPSolver.new csp)
      = some (success, solver2)) :
    runSolver csp w params fuel
      = some { solutions := solver2.solutions
               resolution_status :=
                 if success then
                   if solver2.solutions.isEmpty then "No solution found"
                   else if params.first_solution_only then "First solution found"
                   else "All solutions found"
                 else if solver2.timeout_occurred then "Timeout"
                 else "No solution (full exploration)"
               nodes_explored := solver2.nodes_explored
               backtracks := solver2.backtracks } := by
  unfold runSolver
  simp only [h, Bool.false_eq_true, if_false]
  rw [hs]

theorem solve_of_backtrack (csp : CSPInstance) (w : World) (args : SolveArgs) (fuel : Nat)
    (s : CSPSolver) (b : Bool) (s2 : CSPSolver)
    (h : CSPSolver.backtrack csp w args fuel
      { s with solutions := [], nodes_explored := 0, backtracks := 0,
               timeout_occurred := false, clock_reads := 0, rng_calls := 0 } = some (b, s2)) :
    CSPSolver.solve csp w args fuel s = some (!s2.solutions.isEmpty, s2) := by
  unfold CSPSolver.solve
  rw [h]

/-- C15. The counters on a long search. The file with two variables over
`0..46340` and one constraint without allowed pair is accepted by the parser
and its instance is well-formed. With the options `-a -c -w lexicographic` and
a clock that stays below the deadline, the search tries the 46341 values of
variable 0 and below each of them the 46341 values of variable 1, that is
2147534622 values, more than the largest `int`, 2147483647: the `int` counter
`nodes_explored` overflows, and `solve` returns with no solution,
`getNodesExplored() = -2147432674` and `getBacktracks() = 46341`, so that
neither `getNodesExplored() >= |solutions|` nor `getBacktracks() <=
getNodesExplored()` holds. -/
theorem counters_overflow_on_long_search :
    parseCSPFile 0 "2\n0 0 46340\n1 0 46340\n# constraints\n1\n0 1\n".toList
      = some wideInstance ∧
    wideInstance.WellFormed ∧
    NoTimeout exampleWorld wideParams.toSolveArgs.max_time ∧
    (46341 + 46341 * 46341 : Int) = 2147534622 ∧
    int32 2147534622 = -2147432674 ∧
    ∀ fuel, ∃ s2,
      CSPSolver.solve wideInstance exampleWorld wideParams.toSolveArgs (fuel + 2)
          (CSPSolver.new wideInstance) = some (false, s2) ∧
      s2.solutions = [] ∧ s2.wasTimeout = false ∧
      s2.getNodesExplored = -2147432674 ∧ s2.getBacktracks = 46341 ∧
      ¬ ((s2.solutions.length : Int) ≤ s2.getNodesExplored) ∧
      ¬ (s2.getBacktracks ≤ s2.getNodesExplored) ∧
      runSolver wideInstance exampleWorld wideParams (fuel + 2)
        = some { solutions := [], resolution_status := "No solution (full exploration)",
                 nodes_explored := -2147432674, backtracks := 46341 } := by
  refine ⟨rfl, by decide, fun k => ?_, by decide, by decide, fun fuel => ?_⟩
  · show (0 : Int) < 300
    decide
  obtain ⟨s2, h1, h2, h3, h4, h5⟩ := wide_root_call fuel
    { CSPSolver.new wideInstance with
      solutions := [], nodes_explored := 0, backtracks := 0, timeout_occurred := false,
      clock_reads := 0, rng_calls := 0 } rfl rfl
  have hsol : s2.solutions = [] := h2
  have htime : s2.timeout_occurred = false := h5
  have hnodes : s2.nodes_explored = -2147432674 := by
    rw [h3]
    show incTimes (46341 * 46342) 0 = -2147432674
    rw [incTimes_wrap _ 0 (by decide) (by decide)]
    decide
  have hback : s2.backtracks = 46341 := by
    rw [h4]
    show incTimes 46341 0 = 46341
    rw [incTimes_eq 46341 0 (by decide) (by decide)]
    rfl
  have hsolve : CSPSolver.solve wideInstance exampleWorld wideParams.toSolveArgs (fuel + 2)
      (CSPSolver.new wideInstance) = some (false, s2) := by
    rw [solve_of_backtrack _ _ _ _ _ _ _ h1, hsol]
    rfl
  refine ⟨s2, hsolve, hsol, htime, hnodes, hback, ?_, ?_, ?_⟩
  · show ¬ ((s2.solutions.length : Int) ≤ s2.nodes_explored)
    rw [hsol, hnodes]
    decide
  · show ¬ (s2.backtracks ≤ s2.nodes_explored)
    rw [hback, hnodes]
    decide
  · rw [runSolver_without_ac3 wideInstance exampleWorld wideParams (fuel + 2) rfl false s2 hsolve,
      hsol, htime, hnodes, hback]
    rfl

end CPSolver
